import Mathlib

/-!
# PICO geometry (`PicoGeometry_new.cc`): a shallow embedding

The mask builder, the wavefront distance solver and the box partitioner of
`pism::ocean::PicoGeometry`, for a run on one process (the collective
reductions `GlobalSum` and `GlobalMax` are then the identity).  The per-shelf
statistics of the box partitioner are also given for a grid divided among
several processes, and `update` also with its stages acting in place on the
scratch buffer.

A two-dimensional integer field (`IceModelVec2Int`) is a list of rows, row `j`
holding the values at `(0, j) … (Mx-1, j)`.  Values that the C++ code stores as
`double` but that are always integers (labels, distances, counts) are `Int`.

The arithmetic of the box partitioner is given twice: read exactly
(`compute_box_mask`: rational band tests, exactly rounded box counts, unbounded
integer sum), and as the machine runs it (`compute_box_mask_fp`: the `int` sum
in 32-bit two's complement and the `double` operations as a parameter, with
round-to-nearest arithmetic as the instance `ieee`).  The two readings agree
wherever rounding changes no band test and no rounded product.
-/

set_option autoImplicit false

namespace pism
namespace ocean

deriving instance DecidableEq for Except

/-! ## Grid and fields -/

/-- The computational grid: `Mx` by `My` cells, addressed by `(i, j)`. -/
structure IceGrid where
  Mx : Nat
  My : Nat
deriving DecidableEq, Repr

/-- A two-dimensional integer field, stored row by row. -/
abbrev IceModelVec2Int := List (List Int)

/-- Point access `mask(i, j)`. -/
def IceModelVec2Int.get (m : IceModelVec2Int) (i j : Nat) : Int :=
  (m.getD j []).getD i 0

/-- Point update `mask(i, j) = v`. -/
def IceModelVec2Int.put (m : IceModelVec2Int) (i j : Nat) (v : Int) : IceModelVec2Int :=
  m.set j ((m.getD j []).set i v)

/-- A loop `for (Points p(grid); p; p.next())` whose body writes, at every
point, a value `f i j` computed from read-only data. -/
def IceGrid.tabulate (g : IceGrid) (f : Nat → Nat → Int) : IceModelVec2Int :=
  (List.range g.My).map fun j => (List.range g.Mx).map fun i => f i j

/-- The points of the grid in the order `Points` visits them. -/
def IceGrid.points (g : IceGrid) : List (Nat × Nat) :=
  (List.range g.My).flatMap fun j => (List.range g.Mx).map fun i => (i, j)

/-- A field has the shape of the grid. -/
def IceModelVec2Int.WF (g : IceGrid) (m : IceModelVec2Int) : Prop :=
  m.length = g.My ∧ ∀ row ∈ m, row.length = g.Mx

instance (g : IceGrid) (m : IceModelVec2Int) : Decidable (m.WF g) := by
  unfold IceModelVec2Int.WF; infer_instance

/-- The values of a field at the points of the grid, in visiting order. -/
def IceGrid.values (g : IceGrid) (m : IceModelVec2Int) : List Int :=
  g.points.map fun p => m.get p.1 p.2

/-- The upper end of `mask.range()`: the largest value over the grid. -/
def IceModelVec2Int.range_max (g : IceGrid) (m : IceModelVec2Int) : Int :=
  match g.values m with
  | [] => 0
  | v :: vs => vs.foldl max v

/-! ## `relabel_by_size` -/

/-- The first loop of `relabel_by_size`: count the cells of every positive
component index, failing on an index outside `[0, max_index]`. -/
def accumulate_areas (max_index : Int) : List Int → List Nat → Except String (List Nat)
  | [], area => .ok area
  | index :: rest, area =>
    if index > max_index ∨ index < 0 then
      .error "invalid component index"
    else if index > 0 then
      accumulate_areas max_index rest (area.set index.toNat (area.getD index.toNat 0 + 1))
    else
      accumulate_areas max_index rest area

/-- The second loop of `relabel_by_size`: the index of the biggest component,
scanning `k = 0, 1, …` and moving only on a strictly larger area. -/
def find_biggest (area : List Nat) : Nat :=
  (List.range area.length).foldl
    (fun biggest_component k =>
      if area.getD k 0 > area.getD biggest_component 0 then k else biggest_component) 0

/-- `PicoGeometry::relabel_by_size`: the biggest component gets 2, all other
components 1, the background 0. -/
def relabel_by_size (g : IceGrid) (mask : IceModelVec2Int) : Except String IceModelVec2Int :=
  let max_index := mask.range_max g
  if max_index < 1 then
    .ok (g.tabulate fun _ _ => 0)
  else
    match accumulate_areas max_index (g.values mask) (List.replicate (max_index.toNat + 1) 0) with
    | .error e => .error e
    | .ok area =>
      let biggest_component : Int := find_biggest area
      .ok (g.tabulate fun i j =>
        let component_index := mask.get i j
        if component_index = biggest_component then 2
        else if component_index > 0 then 1
        else 0)

/-- Number of cells of the grid that hold the value `k`. -/
def IceGrid.count (g : IceGrid) (m : IceModelVec2Int) (k : Int) : Nat :=
  (g.values m).count k

/-! ## Cell classification and the serial labeler -/

/-- The cell classification `IceModelVec2CellType`, through the per-cell
predicates that the mask builder queries. -/
structure IceModelVec2CellType where
  grounded : Nat → Nat → Bool
  icy : Nat → Nat → Bool
  ocean : Nat → Nat → Bool
  ice_free_ocean : Nat → Nat → Bool

/-- Values of the ice-rises mask. -/
def OCEAN : Int := 0
/-- Grounded ice not connected to the continental ice sheet. -/
def RISE : Int := 1
/-- The continental ice sheet. -/
def CONTINENTAL : Int := 2
/-- Floating ice. -/
def FLOATING : Int := 3

/-- The external serial labeler
`label_connected_components(mask, nrows, ncols, identify_icebergs, mask_grounded)`,
as a function of the gathered buffer. -/
abbrev Labeler := IceGrid → IceModelVec2Int → Bool → Int → IceModelVec2Int

/-- `PicoGeometry::label_tmp`: gather `m_tmp` on one process, run the serial
labeler there in its plain mode, and scatter the result back. -/
def label_tmp (lcc : Labeler) (g : IceGrid) (m_tmp : IceModelVec2Int) : IceModelVec2Int :=
  lcc g m_tmp false 0

/-! ## `compute_ice_rises` -/

/-- The first loop of `compute_ice_rises`: one if grounded, zero otherwise. -/
def ice_rises_seed (g : IceGrid) (cell_type : IceModelVec2CellType) : IceModelVec2Int :=
  g.tabulate fun i j => if cell_type.grounded i j then 1 else 0

/-- The scratch buffer `m_tmp` of `compute_ice_rises` right after its call of
`relabel_by_size`. -/
def ice_rises_relabeled (lcc : Labeler) (g : IceGrid) (cell_type : IceModelVec2CellType)
    (exclude_ice_rises : Bool) : Except String IceModelVec2Int :=
  let m_tmp := ice_rises_seed g cell_type
  let m_tmp := if exclude_ice_rises then label_tmp lcc g m_tmp else m_tmp
  relabel_by_size g m_tmp

/-- `PicoGeometry::compute_ice_rises`: 0 ocean, 1 ice rises, 2 continental ice
sheet, 3 floating ice. -/
def compute_ice_rises (lcc : Labeler) (g : IceGrid) (cell_type : IceModelVec2CellType)
    (exclude_ice_rises : Bool) : Except String IceModelVec2Int :=
  match ice_rises_relabeled lcc g cell_type exclude_ice_rises with
  | .error e => .error e
  | .ok m_tmp =>
    .ok (g.tabulate fun i j =>
      if m_tmp.get i j = 0 ∧ cell_type.icy i j = true then FLOATING else m_tmp.get i j)

/-! ## Contract of the serial labeler and 4-connectivity -/

/-- Plain labeling keeps the background and gives positive ids elsewhere
("background = 0, returns per-cell positive ids"). -/
def LabelsSupport (g : IceGrid) (m lab : IceModelVec2Int) : Prop :=
  ∀ i j, i < g.Mx → j < g.My →
    (m.get i j = 0 → lab.get i j = 0) ∧ (m.get i j ≠ 0 → 0 < lab.get i j)

/-- Two cells share an edge. -/
def Adj4 (p q : Nat × Nat) : Prop :=
  (p.1 = q.1 ∧ (p.2 + 1 = q.2 ∨ q.2 + 1 = p.2)) ∨
  (p.2 = q.2 ∧ (p.1 + 1 = q.1 ∨ q.1 + 1 = p.1))

/-- One 4-neighbour step from `p` to a cell `q` of the grid that lies in `S`. -/
def Step4 (g : IceGrid) (S : Nat → Nat → Prop) (p q : Nat × Nat) : Prop :=
  Adj4 p q ∧ q.1 < g.Mx ∧ q.2 < g.My ∧ S q.1 q.2

/-- The cell `q` is reached from `p` by a 4-connected path whose cells after
`p` all lie in `S`. -/
def Connected4 (g : IceGrid) (S : Nat → Nat → Prop) (p q : Nat × Nat) : Prop :=
  Relation.ReflTransGen (Step4 g S) p q

/-- The labeled buffer gives each 4-connected component of non-zero cells its
own positive id. -/
def IsComponentLabeling (g : IceGrid) (m lab : IceModelVec2Int) : Prop :=
  LabelsSupport g m lab ∧
  ∀ p q : Nat × Nat, p.1 < g.Mx → p.2 < g.My → q.1 < g.Mx → q.2 < g.My →
    m.get p.1 p.2 ≠ 0 → m.get q.1 q.2 ≠ 0 →
    (lab.get p.1 p.2 = lab.get q.1 q.2 ↔ Connected4 g (fun i j => m.get i j ≠ 0) p q)


instance (p q : Nat × Nat) : Decidable (Adj4 p q) := by
  unfold Adj4; infer_instance

/-! ## Sample inputs -/

/-- A strip of four cells: grounded ice, grounded ice, floating ice, grounded
ice (an ice rise behind a one-cell shelf). -/
def strip_cell_type : IceModelVec2CellType where
  grounded := fun i _ => decide (i ≠ 2)
  icy := fun _ _ => true
  ocean := fun i _ => decide (i = 2)
  ice_free_ocean := fun _ _ => false

/-- A labeler result for the strip: the two grounded components get the ids
1 and 2. -/
def strip_labeler : Labeler := fun _ _ _ _ => [[1, 1, 0, 2]]


/-! ## `compute_box_mask`

In this section the arithmetic of the box partitioner is read exactly: the
relative position `r` and the band bounds are rationals, the sum
`d_gl + d_cf` is an unbounded integer, and `round(pow(a / R, 0.5) * m)` is
evaluated exactly through the integer square root.  The `double` and `int`
arithmetic of the machine is in the section on `compute_box_mask` in machine
arithmetic below; it differs from the exact reading where a value falls on a
band boundary or on a rounding tie, and where the `int` sum overflows. -/

/-- One update `if (D(i, j) > max[shelf_id]) max[shelf_id] = D(i, j)`. -/
def update_max (distance_max : List Int) (shelf_id : Int) (d : Int) : List Int :=
  if d > distance_max.getD shelf_id.toNat 0 then distance_max.set shelf_id.toNat d
  else distance_max

/-- The first loop of `compute_box_mask`: per-shelf maxima of `D_gl` and
`D_cf`, over the given points; the two assertions on `shelf_id` are checked. -/
def shelf_distance_max (n_shelves : Int) (D_gl D_cf shelf_mask : IceModelVec2Int) :
    List (Nat × Nat) → List Int × List Int → Except String (List Int × List Int)
  | [], acc => .ok acc
  | p :: ps, (GL_distance_max, CF_distance_max) =>
    let shelf_id := shelf_mask.get p.1 p.2
    if ¬ (shelf_id ≥ 0 ∧ shelf_id < n_shelves + 1) then
      .error "assertion failed"
    else if shelf_id = 0 then
      shelf_distance_max n_shelves D_gl D_cf shelf_mask ps (GL_distance_max, CF_distance_max)
    else
      shelf_distance_max n_shelves D_gl D_cf shelf_mask ps
        (update_max GL_distance_max shelf_id (D_gl.get p.1 p.2),
         update_max CF_distance_max shelf_id (D_cf.get p.1 p.2))

/-- The value `*std::max_element(begin, end)`; undefined on an empty range. -/
def max_element : List Int → Option Int
  | [] => none
  | v :: vs => some (vs.foldl max v)

/-- The value `round(pow(a / R, 0.5) * m)` for `0 ≤ a` and `0 < R`, in exact
arithmetic: `round` is to the nearest integer, halves away from zero, and the
nearest integer to `sqrt(a / R) * |m|` is `(isqrt(4 a m² / R) + 1) / 2`. -/
def round_pow_half_mul (a R m : Int) : Int :=
  m.sign * (((Nat.sqrt (4 * a.toNat * (m.natAbs * m.natAbs) / R.toNat) + 1) / 2 : Nat) : Int)

/-- The box count of one shelf,
`min(n_min + round(pow(GL_distance_max[k] / GL_distance_ref, zeta) * (max_number_of_boxes - n_min)), max_number_of_boxes)`
with `n_min = 1` and `zeta = 0.5`.  With `GL_distance_ref = 0` the quotient is
`0 / 0` and the count is undefined. -/
def n_boxes_of (max_number_of_boxes GL_distance_ref GL_distance_max_k : Int) : Option Int :=
  let n_min : Int := 1
  if GL_distance_ref = 0 then none
  else
    some (min (n_min + round_pow_half_mul GL_distance_max_k GL_distance_ref
                (max_number_of_boxes - n_min)) max_number_of_boxes)

/-- Per-shelf statistics and box counts: `GL_distance_max`, `GL_distance_ref`
and `n_boxes` as they are when the per-cell loops start. -/
def box_counts (g : IceGrid) (max_number_of_boxes : Int)
    (D_gl D_cf shelf_mask : IceModelVec2Int) :
    Except String (List Int × Int × List (Option Int)) :=
  let n_shelves := shelf_mask.range_max g + 1
  match shelf_distance_max n_shelves D_gl D_cf shelf_mask g.points
      (List.replicate n_shelves.toNat 0, List.replicate n_shelves.toNat 0) with
  | .error e => .error e
  | .ok (GL_distance_max, _) =>
    match max_element GL_distance_max with
    | none => .error "max_element of an empty range"
    | some GL_distance_ref =>
      .ok (GL_distance_max, GL_distance_ref,
           GL_distance_max.map (n_boxes_of max_number_of_boxes GL_distance_ref))

/-- The loop over the bands `k = 0 … n-1` for one cell, starting from the
value 0 that `result.set(0.0)` left there. -/
def box_of_cell (n d_gl d_cf : Int) : Int :=
  let r : ℚ := (d_gl : ℚ) / ((d_gl + d_cf : Int) : ℚ)
  let C : ℚ := (1 - r) ^ 2
  (List.range n.toNat).foldl
    (fun (result : Int) (k : Nat) =>
      if ((n - k - 1 : Int) : ℚ) / (n : ℚ) ≤ C ∧ C ≤ ((n - k : Int) : ℚ) / (n : ℚ) then
        min d_gl ((k : Int) + 1)
      else result) 0

/-- The body of the second per-cell loop; reading an undefined box count is
an error (`none`). -/
def assign_box (n_boxes : List (Option Int)) (d_gl d_cf shelf_id : Int) : Option Int :=
  if shelf_id > 0 ∧ d_gl > 0 ∧ d_cf > 0 then
    match n_boxes.getD shelf_id.toNat none with
    | none => none
    | some n => some (box_of_cell n d_gl d_cf)
  else some 0

/-- The body of the third per-cell loop: a floating cell with no box number
that is not a sub-glacial lake gets -1. -/
def mark_unassigned (shelf_id lake result : Int) : Int :=
  if shelf_id > 0 ∧ result = 0 ∧ lake ≠ 1 then -1 else result

/-- `PicoGeometry::compute_box_mask`, with the configured
`ocean.pico.number_of_boxes` as `max_number_of_boxes`. -/
def compute_box_mask (g : IceGrid) (max_number_of_boxes : Int)
    (D_gl D_cf shelf_mask lake_mask : IceModelVec2Int) : Except String IceModelVec2Int :=
  match box_counts g max_number_of_boxes D_gl D_cf shelf_mask with
  | .error e => .error e
  | .ok (_, _, n_boxes) =>
    let cell := fun (i j : Nat) =>
      assign_box n_boxes (D_gl.get i j) (D_cf.get i j) (shelf_mask.get i j)
    if g.points.all (fun p => (cell p.1 p.2).isSome) then
      .ok (g.tabulate fun i j =>
        mark_unassigned (shelf_mask.get i j) (lake_mask.get i j) ((cell i j).getD 0))
    else
      .error "undefined box count"


/-! ## `eikonal_equation`

The field has a one-cell ghost halo that `update_ghosts()` fills from owned
cells.  Which owned cell a ghost coordinate mirrors is decided by the external
distributed-field layer, so it is a parameter (`GhostMap`); `periodic` is the
wrap-around instance. -/

/-- For every coordinate outside the owned range, the owned cell whose value
`update_ghosts()` copies there. -/
abbrev GhostMap := Int → Int → Nat × Nat

/-- Ghosts of a grid that is periodic in both directions. -/
def periodic (g : IceGrid) : GhostMap :=
  fun i j => ((i % (g.Mx : Int)).toNat, (j % (g.My : Int)).toNat)

/-- The owned cell behind the coordinate `(i, j)` of the local array. -/
def resolve (g : IceGrid) (gm : GhostMap) (i j : Int) : Nat × Nat :=
  if 0 ≤ i ∧ i < g.Mx ∧ 0 ≤ j ∧ j < g.My then (i.toNat, j.toNat) else gm i j

/-- Read the local array at `(i, j)`: an owned cell holds its current value,
a ghost cell the value it got at the last `update_ghosts()`, when the field
was `ghosts`. -/
def read (g : IceGrid) (gm : GhostMap) (ghosts mask : IceModelVec2Int) (i j : Int) : Int :=
  if 0 ≤ i ∧ i < g.Mx ∧ 0 ≤ j ∧ j < g.My then mask.get i.toNat j.toNat
  else ghosts.get (gm i j).1 (gm i j).2

/-- The body of the loop over grid points in `eikonal_equation`, at the point
`p`; the state is the mask and the flag `continue_loop`. -/
def eikonal_visit (g : IceGrid) (gm : GhostMap) (current_label : Int)
    (ghosts : IceModelVec2Int) (st : IceModelVec2Int × Bool) (p : Nat × Nat) :
    IceModelVec2Int × Bool :=
  let mask := st.1
  let i : Int := p.1
  let j : Int := p.2
  if mask.get p.1 p.2 = 0 then
    let R_ij := read g gm ghosts mask i j
    let R_n := read g gm ghosts mask i (j + 1)
    let R_s := read g gm ghosts mask i (j - 1)
    let R_e := read g gm ghosts mask (i + 1) j
    let R_w := read g gm ghosts mask (i - 1) j
    if R_ij = 0 ∧ (R_n = current_label ∨ R_s = current_label ∨
        R_e = current_label ∨ R_w = current_label) then
      (mask.put p.1 p.2 (current_label + 1), true)
    else st
  else st

/-- One pass of the loop over grid points, starting with `continue_loop = 0`
and with the ghosts as the last `update_ghosts()` left them. -/
def eikonal_sweep (g : IceGrid) (gm : GhostMap) (current_label : Int)
    (mask : IceModelVec2Int) : IceModelVec2Int × Bool :=
  g.points.foldl (eikonal_visit g gm current_label mask) (mask, false)

/-- The `while (continue_loop != 0)` loop, run for at most `fuel` rounds;
returns the mask and the value of `current_label` at exit. -/
def eikonal_loop (g : IceGrid) (gm : GhostMap) :
    Nat → Int → IceModelVec2Int → Option (IceModelVec2Int × Int)
  | 0, _, _ => none
  | fuel + 1, current_label, mask =>
    let st := eikonal_sweep g gm current_label mask
    if st.2 then eikonal_loop g gm fuel (current_label + 1) st.1
    else some (st.1, current_label + 1)

/-- `eikonal_equation(mask)`, run for at most `fuel` rounds. -/
def eikonal_equation (g : IceGrid) (gm : GhostMap) (fuel : Nat) (mask : IceModelVec2Int) :
    Option IceModelVec2Int :=
  (eikonal_loop g gm fuel 1 mask).map Prod.fst

/-- The four edge neighbours of a cell, as `int_star` reads them: north,
south, east, west. -/
def neighbours (g : IceGrid) (gm : GhostMap) (p : Nat × Nat) : List (Nat × Nat) :=
  [resolve g gm p.1 ((p.2 : Int) + 1), resolve g gm p.1 ((p.2 : Int) - 1),
   resolve g gm ((p.1 : Int) + 1) p.2, resolve g gm ((p.1 : Int) - 1) p.2]

/-- The cell `p` is initially 0 and has a path of `k` 4-neighbour steps to a
seed (a cell equal to 1) whose cells before the seed are all initially 0. -/
inductive SeedPath (g : IceGrid) (gm : GhostMap) (m : IceModelVec2Int) :
    Nat → Nat × Nat → Prop
  | last {p q : Nat × Nat} : p.1 < g.Mx → p.2 < g.My → m.get p.1 p.2 = 0 →
      q ∈ neighbours g gm p → m.get q.1 q.2 = 1 → SeedPath g gm m 1 p
  | step {k : Nat} {p q : Nat × Nat} : p.1 < g.Mx → p.2 < g.My → m.get p.1 p.2 = 0 →
      q ∈ neighbours g gm p → SeedPath g gm m k q → SeedPath g gm m (k + 1) p


/-- The test of the solver on the mask `m`: some edge neighbour holds `L`. -/
def has_neighbour (g : IceGrid) (gm : GhostMap) (m : IceModelVec2Int) (L : Int)
    (p : Nat × Nat) : Prop :=
  ∃ q ∈ neighbours g gm p, m.get q.1 q.2 = L

/-- State of a sweep after the points in `done` have been visited: the cells
of `done` that were 0 with a neighbour at `L` hold `L + 1`, all other cells
are as before, and the flag tells whether there was such a cell. -/
def SweepInv (g : IceGrid) (gm : GhostMap) (L : Int) (m : IceModelVec2Int)
    (done : List (Nat × Nat)) (st : IceModelVec2Int × Bool) : Prop :=
  st.1.WF g ∧
  (∀ p : Nat × Nat, p.1 < g.Mx → p.2 < g.My →
    ((p ∈ done ∧ m.get p.1 p.2 = 0 ∧ has_neighbour g gm m L p) → st.1.get p.1 p.2 = L + 1) ∧
    (¬ (p ∈ done ∧ m.get p.1 p.2 = 0 ∧ has_neighbour g gm m L p) →
      st.1.get p.1 p.2 = m.get p.1 p.2)) ∧
  (st.2 = true ↔ ∃ p ∈ done, m.get p.1 p.2 = 0 ∧ has_neighbour g gm m L p)


/-- The shortest seed path from `p` has `k` steps. -/
def MinPath (g : IceGrid) (gm : GhostMap) (m : IceModelVec2Int) (k : Nat) (p : Nat × Nat) : Prop :=
  SeedPath g gm m k p ∧ ∀ k', k' < k → ¬ SeedPath g gm m k' p

/-- State of the solver when the round with `current_label = L` starts, for
the input `m0`: cells that were not 0 are untouched, and a cell that was 0
holds `k + 1` iff its shortest seed path has `k < L` steps, and 0 iff it has
no seed path of fewer than `L` steps. -/
def WaveInv (g : IceGrid) (gm : GhostMap) (m0 : IceModelVec2Int) (L : Nat)
    (m : IceModelVec2Int) : Prop :=
  m.WF g ∧
  ∀ p : Nat × Nat, p.1 < g.Mx → p.2 < g.My →
    (m0.get p.1 p.2 ≠ 0 → m.get p.1 p.2 = m0.get p.1 p.2) ∧
    (m0.get p.1 p.2 = 0 →
      (∀ k : Nat, 1 ≤ k → k < L → (m.get p.1 p.2 = (k : Int) + 1 ↔ MinPath g gm m0 k p)) ∧
      (m.get p.1 p.2 = 0 ↔ ∀ k : Nat, k < L → ¬ SeedPath g gm m0 k p) ∧
      (m.get p.1 p.2 = 0 ∨ ∃ k : Nat, 1 ≤ k ∧ k < L ∧ m.get p.1 p.2 = (k : Int) + 1))


/-! ## `compute_lakes`, `compute_ocean_mask`, `compute_ice_shelf_mask` -/

/-- The first loop of `compute_lakes`: one where `cell_type.ocean`, zero
otherwise. -/
def lakes_seed (g : IceGrid) (cell_type : IceModelVec2CellType) : IceModelVec2Int :=
  g.tabulate fun i j => if cell_type.ocean i j then 1 else 0

/-- `PicoGeometry::compute_lakes`: seed, label, re-label by size. -/
def compute_lakes (lcc : Labeler) (g : IceGrid) (cell_type : IceModelVec2CellType) :
    Except String IceModelVec2Int :=
  let m_tmp := lakes_seed g cell_type
  let m_tmp := label_tmp lcc g m_tmp
  relabel_by_size g m_tmp

/-- The first loop of `compute_ocean_mask`: one if ice-free ocean, zero
otherwise. -/
def ocean_mask_seed (g : IceGrid) (cell_type : IceModelVec2CellType) : IceModelVec2Int :=
  g.tabulate fun i j => if cell_type.ice_free_ocean i j then 1 else 0

/-- `PicoGeometry::compute_ocean_mask`: 0 icy cells, 1 ice-free ocean not
connected to the open ocean, 2 open ocean. -/
def compute_ocean_mask (lcc : Labeler) (g : IceGrid) (cell_type : IceModelVec2CellType) :
    Except String IceModelVec2Int :=
  let m_tmp := ocean_mask_seed g cell_type
  let m_tmp := label_tmp lcc g m_tmp
  relabel_by_size g m_tmp

/-- The first loop of `compute_ice_shelf_mask`: one at ice rises and floating
ice, zero otherwise. -/
def ice_shelf_seed (g : IceGrid) (ice_rises_mask : IceModelVec2Int) : IceModelVec2Int :=
  g.tabulate fun i j =>
    let M := ice_rises_mask.get i j
    if M = RISE ∨ M = FLOATING then 1 else 0

/-- `PicoGeometry::compute_ice_shelf_mask`: label the union of ice rises and
floating ice, then remove the ice rises. -/
def compute_ice_shelf_mask (lcc : Labeler) (g : IceGrid) (ice_rises_mask : IceModelVec2Int) :
    IceModelVec2Int :=
  let m_tmp := label_tmp lcc g (ice_shelf_seed g ice_rises_mask)
  g.tabulate fun i j => if ice_rises_mask.get i j = RISE then 0 else m_tmp.get i j

/-! ## `compute_continental_shelf_mask` -/

/-- A real-valued field (`IceModelVec2S`), here the bed elevation. -/
abbrev IceModelVec2S := Nat → Nat → ℚ

/-- The first loop of `compute_continental_shelf_mask`: 0, then 1 where the
bed is above the threshold, then 2 where the ice-rises mask is CONTINENTAL. -/
def continental_shelf_seed (g : IceGrid) (bed_elevation : IceModelVec2S)
    (ice_rises_mask : IceModelVec2Int) (bed_elevation_threshold : ℚ) : IceModelVec2Int :=
  g.tabulate fun i j =>
    let v : Int := 0
    let v := if bed_elevation i j > bed_elevation_threshold then 1 else v
    if ice_rises_mask.get i j = CONTINENTAL then 2 else v

/-- The scratch buffer of `compute_continental_shelf_mask` after the labeler
ran in its iceberg mode with the grounded value 2. -/
def continental_shelf_labeled (lcc : Labeler) (g : IceGrid) (bed_elevation : IceModelVec2S)
    (ice_rises_mask : IceModelVec2Int) (bed_elevation_threshold : ℚ) : IceModelVec2Int :=
  lcc g (continental_shelf_seed g bed_elevation ice_rises_mask bed_elevation_threshold) true 2

/-- `PicoGeometry::compute_continental_shelf_mask`. -/
def compute_continental_shelf_mask (lcc : Labeler) (g : IceGrid) (bed_elevation : IceModelVec2S)
    (ice_rises_mask : IceModelVec2Int) (bed_elevation_threshold : ℚ) : IceModelVec2Int :=
  let m_tmp := continental_shelf_labeled lcc g bed_elevation ice_rises_mask
    bed_elevation_threshold
  g.tabulate fun i j =>
    if m_tmp.get i j > 0 then m_tmp.get i j
    else if bed_elevation i j > bed_elevation_threshold ∧ ice_rises_mask.get i j = OCEAN then 2
    else m_tmp.get i j

/-- The labeler in its iceberg mode: a non-zero cell that no cell holding
the grounded value reaches through non-zero cells becomes 1, every other cell
becomes 0. -/
def IsIcebergLabeling (g : IceGrid) (m : IceModelVec2Int) (mask_grounded : Int)
    (lab : IceModelVec2Int) : Prop :=
  ∀ p : Nat × Nat, p.1 < g.Mx → p.2 < g.My →
    (lab.get p.1 p.2 = 0 ∨ lab.get p.1 p.2 = 1) ∧
    (lab.get p.1 p.2 = 1 ↔
      m.get p.1 p.2 ≠ 0 ∧
      ¬ ∃ a : Nat × Nat, a.1 < g.Mx ∧ a.2 < g.My ∧ m.get a.1 a.2 = mask_grounded ∧
        Connected4 g (fun i j => m.get i j ≠ 0) a p)

/-- The cells holding 2 form one 4-connected component: any two of them are
joined by a path of cells holding 2. -/
def PrincipalConnected (g : IceGrid) (r : IceModelVec2Int) : Prop :=
  ∀ p q : Nat × Nat, p.1 < g.Mx → p.2 < g.My → q.1 < g.Mx → q.2 < g.My →
    r.get p.1 p.2 = 2 → r.get q.1 q.2 = 2 →
    Connected4 g (fun i j => r.get i j = 2) p q

/-- A labeler for the sample strips: it knows the three sample buffers it is
given and leaves any other buffer as it is. -/
def sample_labeler : Labeler := fun _ m identify_icebergs _ =>
  if identify_icebergs then
    if m = [[2, 1, 0, 1, 1]] then [[0, 0, 0, 1, 1]] else m
  else if m = [[1, 1, 0, 1]] then [[1, 1, 0, 2]]
  else if m = [[1, 1, 1, 0, 1]] then [[1, 1, 1, 0, 2]]
  else m

/-- A strip of four cells: ice-free ocean, ice-free ocean, grounded ice,
ice-free ocean (a pool behind a grounded barrier). -/
def pool_cell_type : IceModelVec2CellType where
  grounded := fun i _ => decide (i = 2)
  icy := fun i _ => decide (i = 2)
  ocean := fun i _ => decide (i ≠ 2)
  ice_free_ocean := fun i _ => decide (i ≠ 2)

/-- Bed elevation of the sample strip of five cells: shallow everywhere but
deep under the middle cell. -/
def sample_bed : IceModelVec2S := fun i _ => if i = 2 then -1000 else -100


/-- A cell is joined to the continental ice sheet: some CONTINENTAL cell
reaches it through cells that are above the threshold or CONTINENTAL. -/
def JoinedToContinent (g : IceGrid) (bed : IceModelVec2S) (M : IceModelVec2Int) (thr : ℚ)
    (p : Nat × Nat) : Prop :=
  ∃ a : Nat × Nat, a.1 < g.Mx ∧ a.2 < g.My ∧ M.get a.1 a.2 = CONTINENTAL ∧
    Connected4 g (fun i j => bed i j > thr ∨ M.get i j = CONTINENTAL) a p


/-! ## The rounds of the wavefront solver, and the two distance fields -/

/-- The masks at the start of every round of the `while` loop, followed by
the mask at exit. -/
def eikonal_trace (g : IceGrid) (gm : GhostMap) :
    Nat → Int → IceModelVec2Int → Option (List IceModelVec2Int)
  | 0, _, _ => none
  | fuel + 1, current_label, mask =>
    let st := eikonal_sweep g gm current_label mask
    if st.2 then (eikonal_trace g gm fuel (current_label + 1) st.1).map (fun tr => mask :: tr)
    else some [mask, st.1]

/-- From the mask `a` to a later mask `b` no cell that is not 0 changes, and
a cell that is 0 stays 0 or gets a value of at least 2. -/
def Frozen (g : IceGrid) (a b : IceModelVec2Int) : Prop :=
  ∀ p : Nat × Nat, p.1 < g.Mx → p.2 < g.My →
    (a.get p.1 p.2 ≠ 0 → b.get p.1 p.2 = a.get p.1 p.2) ∧
    (a.get p.1 p.2 = 0 → b.get p.1 p.2 = 0 ∨ 2 ≤ b.get p.1 p.2)

/-- The number of rounds of a trace in which the cell `p` changes. -/
def changes (tr : List IceModelVec2Int) (p : Nat × Nat) : Nat :=
  ((tr.zip tr.tail).filter fun ab => decide (ab.1.get p.1 p.2 ≠ ab.2.get p.1 p.2)).length

/-- The domain of interest of the two distance computations: ice shelf
cells, holes in ice shelves and, if `exclude_ice_rises` is set, ice rises. -/
def distances_domain (ocean_mask ice_rises : IceModelVec2Int) (exclude_ice_rises : Bool)
    (i j : Nat) : Prop :=
  ice_rises.get i j = FLOATING ∨ ocean_mask.get i j = 1 ∨
    (exclude_ice_rises = true ∧ ice_rises.get i j = RISE)

instance (ocean_mask ice_rises : IceModelVec2Int) (exclude_ice_rises : Bool) (i j : Nat) :
    Decidable (distances_domain ocean_mask ice_rises exclude_ice_rises i j) := by
  unfold distances_domain; infer_instance

/-- The field handed to `eikonal_equation` by `compute_distances_gl`: -1
outside the domain, 1 at domain cells with a CONTINENTAL cell among the eight
surrounding cells, 0 at the other domain cells. -/
def distances_gl_seed (g : IceGrid) (gm : GhostMap) (ocean_mask ice_rises : IceModelVec2Int)
    (exclude_ice_rises : Bool) : IceModelVec2Int :=
  g.tabulate fun i j =>
    if distances_domain ocean_mask ice_rises exclude_ice_rises i j then
      let neighbor_to_land :=
        read g gm ice_rises ice_rises i ((j : Int) + 1) = CONTINENTAL ∨
        read g gm ice_rises ice_rises i ((j : Int) - 1) = CONTINENTAL ∨
        read g gm ice_rises ice_rises ((i : Int) + 1) j = CONTINENTAL ∨
        read g gm ice_rises ice_rises ((i : Int) - 1) j = CONTINENTAL ∨
        read g gm ice_rises ice_rises ((i : Int) + 1) ((j : Int) + 1) = CONTINENTAL ∨
        read g gm ice_rises ice_rises ((i : Int) + 1) ((j : Int) - 1) = CONTINENTAL ∨
        read g gm ice_rises ice_rises ((i : Int) - 1) ((j : Int) + 1) = CONTINENTAL ∨
        read g gm ice_rises ice_rises ((i : Int) - 1) ((j : Int) - 1) = CONTINENTAL
      if neighbor_to_land then 1 else 0
    else -1

/-- `PicoGeometry::compute_distances_gl`, the solver run for at most `fuel`
rounds. -/
def compute_distances_gl (g : IceGrid) (gm : GhostMap) (fuel : Nat)
    (ocean_mask ice_rises : IceModelVec2Int) (exclude_ice_rises : Bool) :
    Option IceModelVec2Int :=
  eikonal_equation g gm fuel (distances_gl_seed g gm ocean_mask ice_rises exclude_ice_rises)

/-- The field handed to `eikonal_equation` by `compute_distances_if`: -1
outside the domain, 1 at domain cells with an open-ocean cell (2) among the
four edge neighbours, 0 at the other domain cells. -/
def distances_if_seed (g : IceGrid) (gm : GhostMap) (ocean_mask ice_rises : IceModelVec2Int)
    (exclude_ice_rises : Bool) : IceModelVec2Int :=
  g.tabulate fun i j =>
    if distances_domain ocean_mask ice_rises exclude_ice_rises i j then
      let M_n := read g gm ocean_mask ocean_mask i ((j : Int) + 1)
      let M_e := read g gm ocean_mask ocean_mask ((i : Int) + 1) j
      let M_s := read g gm ocean_mask ocean_mask i ((j : Int) - 1)
      let M_w := read g gm ocean_mask ocean_mask ((i : Int) - 1) j
      if M_n = 2 ∨ M_e = 2 ∨ M_s = 2 ∨ M_w = 2 then 1 else 0
    else -1

/-- `PicoGeometry::compute_distances_if`, the solver run for at most `fuel`
rounds. -/
def compute_distances_if (g : IceGrid) (gm : GhostMap) (fuel : Nat)
    (ocean_mask ice_rises : IceModelVec2Int) (exclude_ice_rises : Bool) :
    Option IceModelVec2Int :=
  eikonal_equation g gm fuel (distances_if_seed g gm ocean_mask ice_rises exclude_ice_rises)


/-! ## Rounds of the wavefront solver and the diameter of its region -/

/-- The number of rounds the `while` loop executes from the round with the
given `current_label` on, run for at most `fuel` rounds. -/
def eikonal_rounds_from (g : IceGrid) (gm : GhostMap) :
    Nat → Int → IceModelVec2Int → Option Nat
  | 0, _, _ => none
  | fuel + 1, current_label, mask =>
    let st := eikonal_sweep g gm current_label mask
    if st.2 then (eikonal_rounds_from g gm fuel (current_label + 1) st.1).map (fun n => n + 1)
    else some 1

/-- The number of rounds of the `while` loop of `eikonal_equation(mask)`. -/
def eikonal_rounds (g : IceGrid) (gm : GhostMap) (fuel : Nat) (mask : IceModelVec2Int) :
    Option Nat :=
  eikonal_rounds_from g gm fuel 1 mask

/-- A walk of `k` 4-neighbour steps from `p` to `r` all of whose cells hold a
value `≥ 0` (cells of the region the solver works in). -/
inductive RegionPath (g : IceGrid) (gm : GhostMap) (m : IceModelVec2Int) :
    Nat → Nat × Nat → Nat × Nat → Prop
  | here {p : Nat × Nat} : p.1 < g.Mx → p.2 < g.My → 0 ≤ m.get p.1 p.2 →
      RegionPath g gm m 0 p p
  | step {k : Nat} {p q r : Nat × Nat} : p.1 < g.Mx → p.2 < g.My → 0 ≤ m.get p.1 p.2 →
      q ∈ neighbours g gm p → RegionPath g gm m k q r → RegionPath g gm m (k + 1) p r

/-- The graph distance from `p` to `q` within the region is `d`. -/
def RegionDist (g : IceGrid) (gm : GhostMap) (m : IceModelVec2Int) (d : Nat)
    (p q : Nat × Nat) : Prop :=
  RegionPath g gm m d p q ∧ ∀ k, k < d → ¬ RegionPath g gm m k p q

/-- The graph-distance diameter of the region is `D`: no two cells joined
within the region are further apart, and some two are that far apart (an
empty region has diameter 0). -/
def IsDiameter (g : IceGrid) (gm : GhostMap) (m : IceModelVec2Int) (D : Nat) : Prop :=
  (∀ (p q : Nat × Nat) (d : Nat), RegionDist g gm m d p q → d ≤ D) ∧
  ((∃ p q : Nat × Nat, RegionDist g gm m D p q) ∨ D = 0)


/-! ## `PicoGeometry::update` -/

/-- The fields of a `PicoGeometry` object. -/
structure PicoGeometry where
  m_continental_shelf : IceModelVec2Int
  m_boxes : IceModelVec2Int
  m_ice_shelves : IceModelVec2Int
  m_ice_rises : IceModelVec2Int
  m_tmp : IceModelVec2Int
deriving DecidableEq

/-- The configuration parameters that `update` reads:
`ocean.pico.exclude_icerises` and `ocean.pico.continental_shelf_depth`. -/
structure Config where
  exclude_icerises : Bool
  continental_shelf_depth : ℚ

/-- `PicoGeometry::continental_shelf_mask()`. -/
def PicoGeometry.continental_shelf_mask (self : PicoGeometry) : IceModelVec2Int :=
  self.m_continental_shelf

/-- `PicoGeometry::box_mask()`. -/
def PicoGeometry.box_mask (self : PicoGeometry) : IceModelVec2Int :=
  self.m_boxes

/-- `PicoGeometry::ice_shelf_mask()`. -/
def PicoGeometry.ice_shelf_mask (self : PicoGeometry) : IceModelVec2Int :=
  self.m_ice_shelves

/-- `PicoGeometry::update(bed_elevation, cell_type)`: every stage fills the
scratch buffer `m_tmp` and copies it to the field it is given as `result`. -/
def PicoGeometry.update (lcc : Labeler) (g : IceGrid) (m_config : Config) (self : PicoGeometry)
    (bed_elevation : IceModelVec2S) (cell_type : IceModelVec2CellType) :
    Except String PicoGeometry :=
  match compute_ice_rises lcc g cell_type m_config.exclude_icerises with
  | .error e => .error e
  | .ok result =>
    let self := { self with m_tmp := result, m_ice_rises := result }
    let result := compute_continental_shelf_mask lcc g bed_elevation self.m_ice_rises
      m_config.continental_shelf_depth
    let self := { self with m_tmp := result, m_continental_shelf := result }
    let result := compute_ice_shelf_mask lcc g self.m_ice_rises
    .ok { self with m_tmp := result, m_ice_shelves := result }

/-- A strip of five cells: grounded ice, floating ice, floating ice, ice-free
ocean, ice-free ocean. -/
def shelf_cell_type : IceModelVec2CellType where
  grounded := fun i _ => decide (i = 0)
  icy := fun i _ => decide (i ≤ 2)
  ocean := fun i _ => decide (i ≠ 0)
  ice_free_ocean := fun i _ => decide (3 ≤ i)

/-- Bed elevation of the shelf strip: shallow, but deep under the last
cell. -/
def shelf_bed : IceModelVec2S := fun i _ => if i = 4 then -1000 else -100

/-- A labeler for the shelf strip: every buffer it is given in plain mode has
one component, which keeps the id 1; in iceberg mode all of the shallow bed
hangs on the continental ice, so nothing is left marked. -/
def shelf_labeler : Labeler := fun _ m identify_icebergs _ =>
  if identify_icebergs = true ∧ m = [[2, 1, 1, 1, 0]] then [[0, 0, 0, 0, 0]] else m


/-! ## `compute_box_mask` on several processes

Every process owns a sub-domain of the grid and runs the loops over its own
points; `shelf_mask.range()` and `GlobalMax` are collective. -/

/-- Modelled from the spec: `GlobalMax(com, x)` of `pism_utilities`, which is
not part of the source tree, is the "global-max reduction": the largest of
the values `x` that the processes of the communicator hold (one entry per
process; a communicator is never empty). -/
def GlobalMax (local_values : List Int) : Int :=
  match local_values with
  | [] => 0
  | v :: vs => vs.foldl max v

/-- The first loop of `compute_box_mask` on every process: each one starts
from zeros and visits the points of its own sub-domain. -/
def local_distance_max (n_shelves : Int) (D_gl D_cf shelf_mask : IceModelVec2Int) :
    List (List (Nat × Nat)) → Except String (List (List Int × List Int))
  | [] => .ok []
  | sub_domain :: rest =>
    match shelf_distance_max n_shelves D_gl D_cf shelf_mask sub_domain
        (List.replicate n_shelves.toNat 0, List.replicate n_shelves.toNat 0) with
    | .error e => .error e
    | .ok maxima =>
      match local_distance_max n_shelves D_gl D_cf shelf_mask rest with
      | .error e => .error e
      | .ok others => .ok (maxima :: others)

/-- The loop "compute global maximums": entry `k` of both vectors becomes the
`GlobalMax` of the entries `k` of all processes. -/
def global_distance_max (n_shelves : Int) (maxima : List (List Int × List Int)) :
    List Int × List Int :=
  ((List.range n_shelves.toNat).map fun (k : Nat) =>
      GlobalMax (maxima.map fun l => l.1.getD k 0),
   (List.range n_shelves.toNat).map fun (k : Nat) =>
      GlobalMax (maxima.map fun l => l.2.getD k 0))

/-- The per-shelf statistics `GL_distance_max` and `CF_distance_max` after
the reduction, for the given sub-domains. -/
def shelf_distance_max_on (g : IceGrid) (D_gl D_cf shelf_mask : IceModelVec2Int)
    (sub_domains : List (List (Nat × Nat))) : Except String (List Int × List Int) :=
  let n_shelves := shelf_mask.range_max g + 1
  match local_distance_max n_shelves D_gl D_cf shelf_mask sub_domains with
  | .error e => .error e
  | .ok maxima => .ok (global_distance_max n_shelves maxima)

/-- Per-shelf statistics and box counts for the given sub-domains. -/
def box_counts_on (g : IceGrid) (max_number_of_boxes : Int)
    (D_gl D_cf shelf_mask : IceModelVec2Int) (sub_domains : List (List (Nat × Nat))) :
    Except String (List Int × Int × List (Option Int)) :=
  match shelf_distance_max_on g D_gl D_cf shelf_mask sub_domains with
  | .error e => .error e
  | .ok (GL_distance_max, _) =>
    match max_element GL_distance_max with
    | none => .error "max_element of an empty range"
    | some GL_distance_ref =>
      .ok (GL_distance_max, GL_distance_ref,
           GL_distance_max.map (n_boxes_of max_number_of_boxes GL_distance_ref))

/-- `PicoGeometry::compute_box_mask` for the given sub-domains: the two
per-cell loops run on the owner of each cell, with the box counts that all
processes share. -/
def compute_box_mask_on (g : IceGrid) (max_number_of_boxes : Int)
    (D_gl D_cf shelf_mask lake_mask : IceModelVec2Int)
    (sub_domains : List (List (Nat × Nat))) : Except String IceModelVec2Int :=
  match box_counts_on g max_number_of_boxes D_gl D_cf shelf_mask sub_domains with
  | .error e => .error e
  | .ok (_, _, n_boxes) =>
    let cell := fun (i j : Nat) =>
      assign_box n_boxes (D_gl.get i j) (D_cf.get i j) (shelf_mask.get i j)
    if g.points.all (fun p => (cell p.1 p.2).isSome) then
      .ok (g.tabulate fun i j =>
        mark_unassigned (shelf_mask.get i j) (lake_mask.get i j) ((cell i j).getD 0))
    else
      .error "undefined box count"

/-- The value `x` is the largest `D` over the cells of shelf `k` among the
cells in `S`, counted from 0. -/
def IsShelfMax (D shelf_mask : IceModelVec2Int) (S : Nat × Nat → Prop) (k : Nat) (x : Int) :
    Prop :=
  0 ≤ x ∧
  (∀ p : Nat × Nat, S p → 0 < shelf_mask.get p.1 p.2 → (shelf_mask.get p.1 p.2).toNat = k →
    D.get p.1 p.2 ≤ x) ∧
  (x = 0 ∨ ∃ p : Nat × Nat, S p ∧ 0 < shelf_mask.get p.1 p.2 ∧
    (shelf_mask.get p.1 p.2).toNat = k ∧ D.get p.1 p.2 = x)


/-! ## `relabel_by_size` as an update of the mask it is given -/

/-- `PicoGeometry::relabel_by_size(mask)` acting in place: the contents of
`mask` when the call ends, and whether it returned or threw.  The first loop
only reads the mask, so a throw there leaves it as it was. -/
def relabel_by_size_inplace (g : IceGrid) (mask : IceModelVec2Int) :
    IceModelVec2Int × Except String Unit :=
  let max_index := mask.range_max g
  if max_index < 1 then
    (g.tabulate fun _ _ => 0, .ok ())
  else
    match accumulate_areas max_index (g.values mask) (List.replicate (max_index.toNat + 1) 0) with
    | .error e => (mask, .error e)
    | .ok area =>
      let biggest_component : Int := find_biggest area
      (g.tabulate fun i j =>
        let component_index := mask.get i j
        if component_index = biggest_component then 2
        else if component_index > 0 then 1
        else 0, .ok ())


/-! ## The cells around a cell -/

/-- The eight cells surrounding a cell, as `compute_distances_gl` reads them:
the four edge neighbours and the four diagonal neighbours. -/
def surrounding (g : IceGrid) (gm : GhostMap) (p : Nat × Nat) : List (Nat × Nat) :=
  [resolve g gm p.1 ((p.2 : Int) + 1), resolve g gm p.1 ((p.2 : Int) - 1),
   resolve g gm ((p.1 : Int) + 1) p.2, resolve g gm ((p.1 : Int) - 1) p.2,
   resolve g gm ((p.1 : Int) + 1) ((p.2 : Int) + 1),
   resolve g gm ((p.1 : Int) + 1) ((p.2 : Int) - 1),
   resolve g gm ((p.1 : Int) - 1) ((p.2 : Int) + 1),
   resolve g gm ((p.1 : Int) - 1) ((p.2 : Int) - 1)]


/-! ## The first loop of `compute_box_mask` with checked indexing -/

/-- The first loop of `compute_box_mask` in which every access
`GL_distance_max[shelf_id]` and `CF_distance_max[shelf_id]` is checked: an
index outside the vector is an error. -/
def shelf_distance_max_checked (n_shelves : Int) (D_gl D_cf shelf_mask : IceModelVec2Int) :
    List (Nat × Nat) → List Int × List Int → Except String (List Int × List Int)
  | [], acc => .ok acc
  | p :: ps, (GL_distance_max, CF_distance_max) =>
    let shelf_id := shelf_mask.get p.1 p.2
    if ¬ (shelf_id ≥ 0 ∧ shelf_id < n_shelves + 1) then
      .error "assertion failed"
    else if shelf_id = 0 then
      shelf_distance_max_checked n_shelves D_gl D_cf shelf_mask ps
        (GL_distance_max, CF_distance_max)
    else if ¬ (shelf_id.toNat < GL_distance_max.length ∧
        shelf_id.toNat < CF_distance_max.length) then
      .error "index out of range"
    else
      shelf_distance_max_checked n_shelves D_gl D_cf shelf_mask ps
        (update_max GL_distance_max shelf_id (D_gl.get p.1 p.2),
         update_max CF_distance_max shelf_id (D_cf.get p.1 p.2))


/-! ## `update` acting in place on the scratch buffer

Every stage of `update` works on the scratch buffer `m_tmp`, which holds
whatever the previous use left there, and copies it to its `result` at the
end. -/

/-- A loop `for (Points p(grid); p; p.next())` whose body assigns, to the
point it visits, a value computed from the value found there and from
read-only data. -/
def IceGrid.update_each (g : IceGrid) (f : Nat → Nat → Int → Int) (m : IceModelVec2Int) :
    IceModelVec2Int :=
  g.points.foldl (fun m p => m.put p.1 p.2 (f p.1 p.2 (m.get p.1 p.2))) m

/-- `compute_ice_rises` acting on the scratch buffer: the contents of `m_tmp`
when the function ends, which `result.copy_from(m_tmp)` copies to `result`. -/
def compute_ice_rises_inplace (lcc : Labeler) (g : IceGrid) (cell_type : IceModelVec2CellType)
    (exclude_ice_rises : Bool) (m_tmp : IceModelVec2Int) : Except String IceModelVec2Int :=
  let m_tmp := g.update_each (fun i j _ => if cell_type.grounded i j then 1 else 0) m_tmp
  let m_tmp := if exclude_ice_rises then label_tmp lcc g m_tmp else m_tmp
  match relabel_by_size_inplace g m_tmp with
  | (_, .error e) => .error e
  | (m_tmp, .ok _) =>
    .ok (g.update_each
      (fun i j v => if v = 0 ∧ cell_type.icy i j = true then FLOATING else v) m_tmp)

/-- `compute_continental_shelf_mask` acting on the scratch buffer. -/
def compute_continental_shelf_mask_inplace (lcc : Labeler) (g : IceGrid)
    (bed_elevation : IceModelVec2S) (ice_rises_mask : IceModelVec2Int)
    (bed_elevation_threshold : ℚ) (m_tmp : IceModelVec2Int) : IceModelVec2Int :=
  let m_tmp := g.update_each
    (fun i j _ =>
      let v : Int := 0
      let v := if bed_elevation i j > bed_elevation_threshold then 1 else v
      if ice_rises_mask.get i j = CONTINENTAL then 2 else v) m_tmp
  let m_tmp := lcc g m_tmp true 2
  g.update_each
    (fun i j v =>
      if v > 0 then v
      else if bed_elevation i j > bed_elevation_threshold ∧ ice_rises_mask.get i j = OCEAN then 2
      else v) m_tmp

/-- `compute_ice_shelf_mask` acting on the scratch buffer. -/
def compute_ice_shelf_mask_inplace (lcc : Labeler) (g : IceGrid)
    (ice_rises_mask : IceModelVec2Int) (m_tmp : IceModelVec2Int) : IceModelVec2Int :=
  let m_tmp := g.update_each
    (fun i j _ =>
      let M := ice_rises_mask.get i j
      if M = RISE ∨ M = FLOATING then 1 else 0) m_tmp
  let m_tmp := label_tmp lcc g m_tmp
  g.update_each (fun i j v => if ice_rises_mask.get i j = RISE then 0 else v) m_tmp

/-- `PicoGeometry::update` with the three stages acting in place: each one
starts from the scratch buffer as it is and ends with `result.copy_from(m_tmp)`,
where `result` is the field that `update` passes to it. -/
def PicoGeometry.update_inplace (lcc : Labeler) (g : IceGrid) (m_config : Config)
    (self : PicoGeometry) (bed_elevation : IceModelVec2S)
    (cell_type : IceModelVec2CellType) : Except String PicoGeometry :=
  match compute_ice_rises_inplace lcc g cell_type m_config.exclude_icerises self.m_tmp with
  | .error e => .error e
  | .ok m_tmp =>
    let self := { self with m_tmp := m_tmp, m_ice_rises := m_tmp }
    let m_tmp := compute_continental_shelf_mask_inplace lcc g bed_elevation self.m_ice_rises
      m_config.continental_shelf_depth self.m_tmp
    let self := { self with m_tmp := m_tmp, m_continental_shelf := m_tmp }
    let m_tmp := compute_ice_shelf_mask_inplace lcc g self.m_ice_rises self.m_tmp
    .ok { self with m_tmp := m_tmp, m_ice_shelves := m_tmp }

/-- The labeler works on the buffer it is given and leaves a buffer of the
shape of the grid. -/
def LabelerKeepsShape (lcc : Labeler) (g : IceGrid) : Prop :=
  ∀ (m : IceModelVec2Int) (identify_icebergs : Bool) (mask_grounded : Int),
    m.WF g → (lcc g m identify_icebergs mask_grounded).WF g


/-! ## `compute_box_mask` in machine arithmetic

The section on `compute_box_mask` above reads the arithmetic of the box
partitioner exactly.  Here the same loops are taken as the machine runs them:
the `int` sum `d_gl + d_cf` in 32-bit two's complement, and the `double`
operations as a parameter (`DoubleArith`).  Every finite `double` is a
rational number, so an operation on doubles is a function on `ℚ`.  `ieee` is
the arithmetic that rounds every result to the nearest number with a 53-bit
significand, ties to even (exponent range not limited; the values of the box
partitioner stay far inside the range of a `double`). -/

/-- The value of a C++ `int` expression whose exact value is `x`: `x` reduced
to the range `[-2^31, 2^31)` of 32-bit two's complement. -/
def wrap32 (x : Int) : Int := (x + 2 ^ 31) % 2 ^ 32 - 2 ^ 31

/-- The power `2^e` for an integer `e`. -/
def pow2 (e : Int) : ℚ :=
  if 0 ≤ e then ((2 ^ e.toNat : Nat) : ℚ) else 1 / ((2 ^ (-e).toNat : Nat) : ℚ)

/-- The position of the leading binary digit of `n` by repeated halving; the
first argument bounds the number of halvings. -/
def nat_log2_steps : Nat → Nat → Nat
  | 0, _ => 0
  | steps + 1, n => if 2 ≤ n then nat_log2_steps steps (n / 2) + 1 else 0

/-- The position of the leading binary digit of `n`: `2^k ≤ n < 2^(k+1)`. -/
def nat_log2 (n : Nat) : Nat := nat_log2_steps n n

/-- The binary exponent of a positive rational `x`: `2^e ≤ x < 2^(e+1)`. -/
def ilog2 (x : ℚ) : Int :=
  let e0 : Int := (nat_log2 x.num.natAbs : Int) - (nat_log2 x.den : Int)
  if pow2 e0 ≤ x then e0 else e0 - 1

/-- The integer nearest to `t ≥ 0`, the even one of the two at a tie. -/
def round_even (t : ℚ) : Int :=
  let f := ⌊t⌋
  let d := t - f
  if d < 1 / 2 then f else if 1 / 2 < d then f + 1 else if f % 2 = 0 then f else f + 1

/-- The `double` nearest to the rational `x`, ties to even: with
`2^e ≤ |x| < 2^(e+1)` the doubles near `x` are the multiples of `2^(e-52)`. -/
def round_to_double (x : ℚ) : ℚ :=
  if x = 0 then 0
  else
    let u := pow2 (ilog2 |x| - 52)
    (if x < 0 then -1 else 1) * (round_even (|x| / u) : ℚ) * u

/-- The integer square root `⌊√n⌋`, found bit by bit from the bit `b - 1`
down; `r` is the part found so far. -/
def isqrt_bits (n : Nat) : Nat → Nat → Nat
  | 0, r => r
  | b + 1, r => if (r + 2 ^ b) * (r + 2 ^ b) ≤ n then isqrt_bits n b (r + 2 ^ b) else isqrt_bits n b r

/-- The integer square root `⌊√n⌋`. -/
def isqrt (n : Nat) : Nat := isqrt_bits n (nat_log2 n / 2 + 1) 0

/-- The `double` nearest to `√x` for a rational `x`: with `4^e ≤ x < 4^(e+1)`
the root lies in `[2^e, 2^(e+1))`, where the doubles are the multiples of
`u = 2^(e-52)`; `m = ⌊√x / u⌋`, and the root is at least `(m + 1/2) u` iff
`(2m + 1)² ≤ 4x / u²`. -/
def sqrt_to_double (x : ℚ) : ℚ :=
  if x ≤ 0 then 0
  else
    let u := pow2 (ilog2 x / 2 - 52)
    let m := isqrt ⌊x / (u * u)⌋.toNat
    if ((2 * m + 1 : Nat) : ℚ) ^ 2 ≤ 4 * x / (u * u) then ((m + 1 : Nat) : ℚ) * u
    else (m : ℚ) * u

/-- The C function `round` on a `double`: the nearest integer, halves away
from zero. -/
def c_round (t : ℚ) : Int := if 0 ≤ t then ⌊t + 1 / 2⌋ else -⌊-t + 1 / 2⌋

/-- The `double` operations that `compute_box_mask` uses: `x / y`, `x - y`,
`x * y`, `pow(x, 2.0)` and `pow(x, 0.5)`. -/
structure DoubleArith where
  div : ℚ → ℚ → ℚ
  sub : ℚ → ℚ → ℚ
  mul : ℚ → ℚ → ℚ
  pow_two : ℚ → ℚ
  pow_half : ℚ → ℚ

/-- Round-to-nearest `double` arithmetic (IEEE 754 binary64, ties to even):
every operation returns the double nearest to the exact result.  The C library
function `pow` is taken as correctly rounded for the exponents `2.0` and
`0.5`. -/
def ieee : DoubleArith where
  div := fun x y => round_to_double (x / y)
  sub := fun x y => round_to_double (x - y)
  mul := fun x y => round_to_double (x * y)
  pow_two := fun x => round_to_double (x * x)
  pow_half := sqrt_to_double

/-- What the box partitioner needs of the `double` operations: a quotient of
`0 ≤ a ≤ b` lies in `[0, 1]` and is exact for `0 / b` and `b / b`; `1.0 - r`
and `pow(x, 2.0)` keep `[0, 1]`; `pow(x, 0.5)` and products of non-negative
numbers are non-negative; `pow(1.0, 0.5)` is 1 and `1.0 * m` is `m` for an
`int` `m ≥ 0`. -/
structure DoubleArith.Sane (fp : DoubleArith) : Prop where
  div_range : ∀ a b : ℚ, 0 ≤ a → a ≤ b → 0 < b → 0 ≤ fp.div a b ∧ fp.div a b ≤ 1
  div_zero_left : ∀ b : ℚ, 0 < b → fp.div 0 b = 0
  div_self : ∀ b : ℚ, 0 < b → fp.div b b = 1
  sub_range : ∀ r : ℚ, 0 ≤ r → r ≤ 1 → 0 ≤ fp.sub 1 r ∧ fp.sub 1 r ≤ 1
  pow_two_range : ∀ x : ℚ, 0 ≤ x → x ≤ 1 → 0 ≤ fp.pow_two x ∧ fp.pow_two x ≤ 1
  pow_half_nonneg : ∀ x : ℚ, 0 ≤ x → 0 ≤ fp.pow_half x
  pow_half_one : fp.pow_half 1 = 1
  mul_nonneg : ∀ x y : ℚ, 0 ≤ x → 0 ≤ y → 0 ≤ fp.mul x y
  mul_one_int : ∀ m : Int, 0 ≤ m → m < 2 ^ 31 → fp.mul 1 (m : ℚ) = (m : ℚ)

/-- The box count of one shelf as the code computes it,
`min(n_min + round(pow(GL_distance_max[k] / GL_distance_ref, zeta) * (max_number_of_boxes - n_min)), max_number_of_boxes)`
with `n_min = 1` and `zeta = 0.5`: the quotient, the power and the product are
`double` operations, and `max_number_of_boxes - n_min` is converted to
`double` exactly.  With `GL_distance_ref = 0` the quotient is `0 / 0` and the
count is undefined. -/
def n_boxes_fp (fp : DoubleArith) (max_number_of_boxes GL_distance_ref GL_distance_max_k : Int) :
    Option Int :=
  let n_min : Int := 1
  if GL_distance_ref = 0 then none
  else
    some (min (n_min + c_round (fp.mul
                (fp.pow_half (fp.div (GL_distance_max_k : ℚ) (GL_distance_ref : ℚ)))
                ((max_number_of_boxes - n_min : Int) : ℚ))) max_number_of_boxes)

/-- Per-shelf statistics and box counts in machine arithmetic. -/
def box_counts_fp (fp : DoubleArith) (g : IceGrid) (max_number_of_boxes : Int)
    (D_gl D_cf shelf_mask : IceModelVec2Int) :
    Except String (List Int × Int × List (Option Int)) :=
  let n_shelves := shelf_mask.range_max g + 1
  match shelf_distance_max n_shelves D_gl D_cf shelf_mask g.points
      (List.replicate n_shelves.toNat 0, List.replicate n_shelves.toNat 0) with
  | .error e => .error e
  | .ok (GL_distance_max, _) =>
    match max_element GL_distance_max with
    | none => .error "max_element of an empty range"
    | some GL_distance_ref =>
      .ok (GL_distance_max, GL_distance_ref,
           GL_distance_max.map (n_boxes_fp fp max_number_of_boxes GL_distance_ref))

/-- The value `C = pow(1.0 - r, 2.0)` with `r = d_gl / (double)(d_gl + d_cf)`
as the code computes it: the sum is an `int` sum. -/
def box_C_fp (fp : DoubleArith) (d_gl d_cf : Int) : ℚ :=
  let r : ℚ := fp.div (d_gl : ℚ) ((wrap32 (d_gl + d_cf) : Int) : ℚ)
  fp.pow_two (fp.sub 1 r)

/-- The test `(n - k - 1) / (double)n <= C and C <= (n - k) / (double)n` of
band `k`, with the quotients computed in `double`. -/
def band_test_fp (fp : DoubleArith) (n : Int) (C : ℚ) (k : Nat) : Bool :=
  decide (fp.div ((n - k - 1 : Int) : ℚ) (n : ℚ) ≤ C ∧ C ≤ fp.div ((n - k : Int) : ℚ) (n : ℚ))

/-- The loop over the bands `k = 0 … n-1` for one cell in machine arithmetic,
starting from the value 0 that `result.set(0.0)` left there. -/
def box_of_cell_fp (fp : DoubleArith) (n d_gl d_cf : Int) : Int :=
  let C : ℚ := box_C_fp fp d_gl d_cf
  (List.range n.toNat).foldl
    (fun (result : Int) (k : Nat) =>
      if band_test_fp fp n C k then min d_gl ((k : Int) + 1) else result) 0

/-- The body of the second per-cell loop in machine arithmetic; reading an
undefined box count is an error (`none`). -/
def assign_box_fp (fp : DoubleArith) (n_boxes : List (Option Int)) (d_gl d_cf shelf_id : Int) :
    Option Int :=
  if shelf_id > 0 ∧ d_gl > 0 ∧ d_cf > 0 then
    match n_boxes.getD shelf_id.toNat none with
    | none => none
    | some n => some (box_of_cell_fp fp n d_gl d_cf)
  else some 0

/-- The function `PicoGeometry::compute_box_mask` in machine arithmetic, with
the configured `ocean.pico.number_of_boxes` as `max_number_of_boxes`. -/
def compute_box_mask_fp (fp : DoubleArith) (g : IceGrid) (max_number_of_boxes : Int)
    (D_gl D_cf shelf_mask lake_mask : IceModelVec2Int) : Except String IceModelVec2Int :=
  match box_counts_fp fp g max_number_of_boxes D_gl D_cf shelf_mask with
  | .error e => .error e
  | .ok (_, _, n_boxes) =>
    let cell := fun (i j : Nat) =>
      assign_box_fp fp n_boxes (D_gl.get i j) (D_cf.get i j) (shelf_mask.get i j)
    if g.points.all (fun p => (cell p.1 p.2).isSome) then
      .ok (g.tabulate fun i j =>
        mark_unassigned (shelf_mask.get i j) (lake_mask.get i j) ((cell i j).getD 0))
    else
      .error "undefined box count"

/-- The test of band `k` in exact rational arithmetic, for the exact value
`C = (1 - d_gl / (d_gl + d_cf))²`. -/
def band_test_exact (n d_gl d_cf : Int) (k : Nat) : Bool :=
  decide (((n - k - 1 : Int) : ℚ) / (n : ℚ) ≤ (1 - (d_gl : ℚ) / ((d_gl + d_cf : Int) : ℚ)) ^ 2 ∧
    (1 - (d_gl : ℚ) / ((d_gl + d_cf : Int) : ℚ)) ^ 2 ≤ ((n - k : Int) : ℚ) / (n : ℚ))


/-! ## Basic facts about grids and fields -/

theorem getD_set_eq {α : Type} (l : List α) (i j : Nat) (a d : α) :
    (l.set i a).getD j d = if i = j ∧ i < l.length then a else l.getD j d := by
  simp only [List.getD_eq_getElem?_getD, List.getElem?_set]
  by_cases hij : i = j
  · subst hij
    by_cases hi : i < l.length
    · simp [hi]
    · have : l[i]? = none := by simp; omega
      simp [hi, this]
  · simp [hij]

theorem mem_points {g : IceGrid} {p : Nat × Nat} :
    p ∈ g.points ↔ p.1 < g.Mx ∧ p.2 < g.My := by
  obtain ⟨i, j⟩ := p
  simp only [IceGrid.points, List.mem_flatMap, List.mem_range, List.mem_map, Prod.mk.injEq]
  constructor
  · rintro ⟨j', hj', i', hi', rfl, rfl⟩
    exact ⟨hi', hj'⟩
  · rintro ⟨hi, hj⟩
    exact ⟨j, hj, i, hi, rfl, rfl⟩

/-- A property of all cells can be checked along the list of points. -/
theorem forall_cells (g : IceGrid) (P : Nat → Nat → Prop) :
    (∀ i j, i < g.Mx → j < g.My → P i j) ↔ ∀ p ∈ g.points, P p.1 p.2 := by
  constructor
  · intro h p hp
    exact h p.1 p.2 (mem_points.1 hp).1 (mem_points.1 hp).2
  · intro h i j hi hj
    exact h (i, j) (mem_points.2 ⟨hi, hj⟩)

theorem get_tabulate {g : IceGrid} (f : Nat → Nat → Int) {i j : Nat}
    (hi : i < g.Mx) (hj : j < g.My) : (g.tabulate f).get i j = f i j := by
  simp [IceModelVec2Int.get, IceGrid.tabulate, List.getD_eq_getElem?_getD,
    List.getElem?_map, List.getElem?_range, hi, hj]

theorem WF_tabulate (g : IceGrid) (f : Nat → Nat → Int) : (g.tabulate f).WF g := by
  constructor
  · simp [IceGrid.tabulate]
  · intro row hrow
    simp only [IceGrid.tabulate, List.mem_map] at hrow
    obtain ⟨j, _, rfl⟩ := hrow
    simp

theorem mem_values {g : IceGrid} {m : IceModelVec2Int} {v : Int} :
    v ∈ g.values m ↔ ∃ i j, i < g.Mx ∧ j < g.My ∧ m.get i j = v := by
  simp only [IceGrid.values, List.mem_map]
  constructor
  · rintro ⟨p, hp, rfl⟩
    exact ⟨p.1, p.2, (mem_points.1 hp).1, (mem_points.1 hp).2, rfl⟩
  · rintro ⟨i, j, hi, hj, rfl⟩
    exact ⟨(i, j), mem_points.2 ⟨hi, hj⟩, rfl⟩

theorem foldl_max_ge (vs : List Int) (v : Int) :
    v ≤ vs.foldl max v ∧ ∀ x ∈ vs, x ≤ vs.foldl max v := by
  induction vs generalizing v with
  | nil => simp
  | cons a vs ih =>
    simp only [List.foldl_cons, List.mem_cons, forall_eq_or_imp]
    have h := ih (max v a)
    refine ⟨le_trans (le_max_left v a) h.1, le_trans (le_max_right v a) h.1, h.2⟩

theorem foldl_max_mem (vs : List Int) (v : Int) :
    vs.foldl max v = v ∨ vs.foldl max v ∈ vs := by
  induction vs generalizing v with
  | nil => simp
  | cons a vs ih =>
    simp only [List.foldl_cons, List.mem_cons]
    rcases ih (max v a) with h | h
    · rcases max_choice v a with h' | h'
      · left; rw [h, h']
      · right; left; rw [h, h']
    · right; right; exact h

theorem le_range_max {g : IceGrid} {m : IceModelVec2Int} {i j : Nat}
    (hi : i < g.Mx) (hj : j < g.My) : m.get i j ≤ m.range_max g := by
  have hmem : m.get i j ∈ g.values m := mem_values.2 ⟨i, j, hi, hj, rfl⟩
  unfold IceModelVec2Int.range_max
  cases hv : g.values m with
  | nil => rw [hv] at hmem; simp at hmem
  | cons v vs =>
    rw [hv] at hmem
    rcases List.mem_cons.1 hmem with h | h
    · rw [h]; exact (foldl_max_ge vs v).1
    · exact (foldl_max_ge vs v).2 _ h

theorem range_max_attained {g : IceGrid} {m : IceModelVec2Int}
    (h : m.range_max g ≠ 0) : ∃ i j, i < g.Mx ∧ j < g.My ∧ m.get i j = m.range_max g := by
  unfold IceModelVec2Int.range_max at h ⊢
  cases hv : g.values m with
  | nil => rw [hv] at h; simp at h
  | cons v vs =>
    have hmem : vs.foldl max v ∈ g.values m := by
      rw [hv]
      rcases foldl_max_mem vs v with h' | h'
      · rw [h']; exact List.mem_cons_self _ _
      · exact List.mem_cons_of_mem _ h'
    exact mem_values.1 hmem

/-! ## Facts about `relabel_by_size` -/

theorem accumulate_areas_ok (M : Int) (l : List Int) (area : List Nat)
    (hl : ∀ v ∈ l, 0 ≤ v ∧ v ≤ M) (hlen : M.toNat < area.length) :
    ∃ area', accumulate_areas M l area = .ok area' ∧ area'.length = area.length ∧
      area'.getD 0 0 = area.getD 0 0 ∧
      ∀ k : Nat, 0 < k → area'.getD k 0 = area.getD k 0 + l.count (k : Int) := by
  induction l generalizing area with
  | nil => exact ⟨area, rfl, rfl, rfl, by simp⟩
  | cons index rest ih =>
    have hidx := hl index (List.mem_cons_self _ _)
    have hrest : ∀ v ∈ rest, 0 ≤ v ∧ v ≤ M := fun v hv => hl v (List.mem_cons_of_mem _ hv)
    have hcond : ¬ (index > M ∨ index < 0) := by omega
    by_cases hpos : index > 0
    · obtain ⟨area', h1, h2, h0, h3⟩ :=
        ih (area.set index.toNat (area.getD index.toNat 0 + 1)) hrest (by simpa using hlen)
      refine ⟨area', ?_, by simpa using h2, ?_, ?_⟩
      · simp only [accumulate_areas, hcond, hpos, if_true, if_false]; exact h1
      · rw [h0, getD_set_eq]
        have : ¬ index.toNat = 0 := by omega
        simp [this]
      · intro k hk
        rw [h3 k hk, getD_set_eq, List.count_cons]
        have hlt : index.toNat < area.length := by omega
        by_cases hik : index.toNat = k
        · subst hik
          have hcast : ((index.toNat : Nat) : Int) = index := Int.toNat_of_nonneg hidx.1
          rw [hcast]
          simp [hlt]
          omega
        · have : ¬ index = (k : Int) := by omega
          simp [hik, this]
    · obtain ⟨area', h1, h2, h0, h3⟩ := ih area hrest hlen
      refine ⟨area', ?_, h2, h0, ?_⟩
      · simp only [accumulate_areas, hcond, hpos, if_false]; exact h1
      · intro k hk
        rw [h3 k hk, List.count_cons]
        have : ¬ index = (k : Int) := by omega
        simp [this]

theorem find_biggest_spec (area : List Nat) (hpos : 0 < area.length) :
    find_biggest area < area.length ∧
    (∀ k, k < area.length → area.getD k 0 ≤ area.getD (find_biggest area) 0) ∧
    (∀ k, k < find_biggest area → area.getD k 0 < area.getD (find_biggest area) 0) := by
  unfold find_biggest
  generalize area.length = n at hpos
  induction n with
  | zero => omega
  | succ n ih =>
    rw [List.range_succ, List.foldl_append]
    simp only [List.foldl_cons, List.foldl_nil]
    by_cases hn : n = 0
    · subst hn
      simp
    · obtain ⟨h1, h2, h3⟩ := ih (by omega)
      split
      · rename_i hgt
        refine ⟨by omega, ?_, ?_⟩
        · intro k hk
          by_cases hkn : k = n
          · subst hkn; exact le_refl _
          · exact le_trans (h2 k (by omega)) (le_of_lt hgt)
        · intro k hk
          exact lt_of_le_of_lt (h2 k hk) hgt
      · rename_i hgt
        refine ⟨by omega, ?_, h3⟩
        intro k hk
        by_cases hkn : k = n
        · subst hkn; omega
        · exact h2 k (by omega)

/-- What `relabel_by_size` computes when some component is present: the areas
are the cell counts, and the result is the re-labeling by `find_biggest`. -/
theorem relabel_by_size_unfold (g : IceGrid) (m : IceModelVec2Int)
    (hnn : ∀ i j, i < g.Mx → j < g.My → 0 ≤ m.get i j) (hmax : 1 ≤ m.range_max g) :
    ∃ area : List Nat,
      area.length = (m.range_max g).toNat + 1 ∧
      area.getD 0 0 = 0 ∧
      (∀ k : Nat, 0 < k → area.getD k 0 = g.count m k) ∧
      relabel_by_size g m = .ok (g.tabulate fun i j =>
        if m.get i j = (find_biggest area : Int) then 2
        else if m.get i j > 0 then 1 else 0) := by
  have hl : ∀ v ∈ g.values m, 0 ≤ v ∧ v ≤ m.range_max g := by
    intro v hv
    obtain ⟨i, j, hi, hj, rfl⟩ := mem_values.1 hv
    exact ⟨hnn i j hi hj, le_range_max hi hj⟩
  obtain ⟨area, h1, h2, h0, h3⟩ := accumulate_areas_ok (m.range_max g) (g.values m)
    (List.replicate ((m.range_max g).toNat + 1) 0) hl (by simp)
  refine ⟨area, by simpa using h2, ?_, ?_, ?_⟩
  · rw [h0]; simp [List.getD_eq_getElem?_getD, List.getElem?_replicate]
  · intro k hk
    rw [h3 k hk]
    simp [IceGrid.count, List.getD_eq_getElem?_getD, List.getElem?_replicate]
    split <;> rfl
  · have hnot : ¬ m.range_max g < 1 := by omega
    simp only [relabel_by_size, hnot, if_false, h1]

/-- The biggest component found by `relabel_by_size` is a positive label with
the largest cell count, and the lowest such label. -/
theorem find_biggest_principal (g : IceGrid) (m : IceModelVec2Int) (area : List Nat)
    (hmax : 1 ≤ m.range_max g)
    (hlen : area.length = (m.range_max g).toNat + 1)
    (h0 : area.getD 0 0 = 0)
    (hcount : ∀ k : Nat, 0 < k → area.getD k 0 = g.count m k) :
    1 ≤ find_biggest area ∧
    0 < g.count m (find_biggest area : Int) ∧
    (∀ k : Int, 1 ≤ k → g.count m k ≤ g.count m (find_biggest area : Int)) ∧
    (∀ k : Int, 1 ≤ k → k < (find_biggest area : Int) →
      g.count m k < g.count m (find_biggest area : Int)) := by
  obtain ⟨hb1, hb2, hb3⟩ := find_biggest_spec area (by omega)
  obtain ⟨i, j, hi, hj, hij⟩ := range_max_attained (g := g) (m := m) (by omega)
  have hMpos : 0 < g.count m (m.range_max g) := by
    unfold IceGrid.count
    rw [List.count_pos_iff]
    exact mem_values.2 ⟨i, j, hi, hj, hij⟩
  have hM : 0 < area.getD (m.range_max g).toNat 0 := by
    rw [hcount _ (by omega), Int.toNat_of_nonneg (by omega)]
    exact hMpos
  have hbpos : 1 ≤ find_biggest area := by
    by_contra hcon
    have hz : find_biggest area = 0 := by omega
    have := hb2 (m.range_max g).toNat (by omega)
    rw [hz, h0] at this
    omega
  have hbc : area.getD (find_biggest area) 0 = g.count m (find_biggest area : Int) :=
    hcount _ (by omega)
  have hge : ∀ k : Int, 1 ≤ k → g.count m k ≤ g.count m (find_biggest area : Int) := by
    intro k hk
    by_cases hkM : k ≤ m.range_max g
    · have := hb2 k.toNat (by omega)
      rw [hcount _ (by omega), Int.toNat_of_nonneg (by omega), hbc] at this
      exact this
    · have hk0 : g.count m k = 0 := by
        unfold IceGrid.count
        rw [List.count_eq_zero]
        intro hmem
        obtain ⟨i', j', hi', hj', h'⟩ := mem_values.1 hmem
        have := le_range_max (g := g) (m := m) hi' hj'
        omega
      omega
  refine ⟨hbpos, ?_, hge, ?_⟩
  · exact lt_of_lt_of_le hMpos (hge _ hmax)
  · intro k hk hkb
    have := hb3 k.toNat (by omega)
    rw [hcount _ (by omega), Int.toNat_of_nonneg (by omega), hbc] at this
    exact this

/-- C1. For a mask with non-negative values and maximum at least 1,
`relabel_by_size` succeeds, and there is a positive label `b`, the one with the
largest cell count (the lowest such label when several share that count), such
that a cell of the result holds 2 iff its original label is `b`, holds 1 iff its
original label is another positive label, and holds 0 iff it was 0 before. -/
theorem relabel_by_size_principal (g : IceGrid) (m : IceModelVec2Int)
    (hnn : ∀ i j, i < g.Mx → j < g.My → 0 ≤ m.get i j) (hmax : 1 ≤ m.range_max g) :
    ∃ (r : IceModelVec2Int) (b : Int),
      relabel_by_size g m = .ok r ∧ r.WF g ∧ 1 ≤ b ∧
      (∀ k : Int, 1 ≤ k → g.count m k ≤ g.count m b) ∧
      (∀ k : Int, 1 ≤ k → k < b → g.count m k < g.count m b) ∧
      ∀ i j, i < g.Mx → j < g.My →
        (r.get i j = 2 ↔ m.get i j = b) ∧
        (r.get i j = 1 ↔ 0 < m.get i j ∧ m.get i j ≠ b) ∧
        (r.get i j = 0 ↔ m.get i j = 0) := by
  obtain ⟨area, hlen, h0, hcount, hr⟩ := relabel_by_size_unfold g m hnn hmax
  obtain ⟨hb1, _, hb2, hb3⟩ := find_biggest_principal g m area hmax hlen h0 hcount
  refine ⟨_, (find_biggest area : Int), hr, WF_tabulate _ _, by omega, hb2, hb3, ?_⟩
  intro i j hi hj
  rw [get_tabulate _ hi hj]
  have hge := hnn i j hi hj
  split_ifs with hb hp <;> refine ⟨?_, ?_, ?_⟩ <;> constructor <;> intro h <;> omega

/-- Witness for C1: a 3 by 2 mask with labels 1, 2, 3 where 3 is the biggest. -/
theorem relabel_by_size_principal_witness :
    ∃ (r : IceModelVec2Int) (b : Int),
      relabel_by_size ⟨3, 2⟩ [[0, 2, 3], [3, 1, 0]] = .ok r ∧ r.WF ⟨3, 2⟩ ∧ 1 ≤ b ∧
      (∀ k : Int, 1 ≤ k → IceGrid.count ⟨3, 2⟩ [[0, 2, 3], [3, 1, 0]] k
        ≤ IceGrid.count ⟨3, 2⟩ [[0, 2, 3], [3, 1, 0]] b) ∧
      (∀ k : Int, 1 ≤ k → k < b → IceGrid.count ⟨3, 2⟩ [[0, 2, 3], [3, 1, 0]] k
        < IceGrid.count ⟨3, 2⟩ [[0, 2, 3], [3, 1, 0]] b) ∧
      ∀ i j, i < 3 → j < 2 →
        (r.get i j = 2 ↔ IceModelVec2Int.get [[0, 2, 3], [3, 1, 0]] i j = b) ∧
        (r.get i j = 1 ↔ 0 < IceModelVec2Int.get [[0, 2, 3], [3, 1, 0]] i j ∧
          IceModelVec2Int.get [[0, 2, 3], [3, 1, 0]] i j ≠ b) ∧
        (r.get i j = 0 ↔ IceModelVec2Int.get [[0, 2, 3], [3, 1, 0]] i j = 0) :=
  relabel_by_size_principal ⟨3, 2⟩ [[0, 2, 3], [3, 1, 0]]
    ((forall_cells ⟨3, 2⟩ _).2 (by decide)) (by decide)

theorem tabulate_congr (g : IceGrid) (f f' : Nat → Nat → Int)
    (h : ∀ i j, i < g.Mx → j < g.My → f i j = f' i j) : g.tabulate f = g.tabulate f' := by
  unfold IceGrid.tabulate
  apply List.map_congr_left
  intro j hj
  apply List.map_congr_left
  intro i hi
  exact h i j (List.mem_range.1 hi) (List.mem_range.1 hj)

theorem count_pos_iff_cell {g : IceGrid} {m : IceModelVec2Int} {k : Int} :
    0 < g.count m k ↔ ∃ i j, i < g.Mx ∧ j < g.My ∧ m.get i j = k := by
  unfold IceGrid.count
  rw [List.count_pos_iff]
  exact mem_values

theorem range_max_zero_of_all_zero (g : IceGrid) (m : IceModelVec2Int)
    (h : ∀ i j, i < g.Mx → j < g.My → m.get i j = 0) : m.range_max g = 0 := by
  by_contra hne
  obtain ⟨i, j, hi, hj, hij⟩ := range_max_attained hne
  rw [h i j hi hj] at hij
  exact hne hij.symm

/-- The second application of `relabel_by_size`: on a field with values in
`{0, 1, 2}` that holds a 2 somewhere, the label 2 is kept iff the cells
holding 1 are fewer than the cells holding 2; otherwise 1 and 2 are swapped. -/
theorem relabel_by_size_again (g : IceGrid) (r : IceModelVec2Int)
    (hvals : ∀ i j, i < g.Mx → j < g.My → r.get i j = 0 ∨ r.get i j = 1 ∨ r.get i j = 2)
    (h2 : ∃ i j, i < g.Mx ∧ j < g.My ∧ r.get i j = 2) :
    ∃ b : Int, (b = 2 ↔ g.count r 1 < g.count r 2) ∧ (b = 1 ∨ b = 2) ∧
      relabel_by_size g r = .ok (g.tabulate fun i j =>
        if r.get i j = b then 2 else if r.get i j > 0 then 1 else 0) := by
  obtain ⟨i0, j0, hi0, hj0, h20⟩ := h2
  have hnn : ∀ i j, i < g.Mx → j < g.My → 0 ≤ r.get i j := by
    intro i j hi hj
    rcases hvals i j hi hj with h | h | h <;> omega
  have hge : 2 ≤ r.range_max g := by
    have := le_range_max (g := g) (m := r) hi0 hj0
    omega
  have hle : r.range_max g ≤ 2 := by
    obtain ⟨i, j, hi, hj, hij⟩ := range_max_attained (g := g) (m := r) (by omega)
    rcases hvals i j hi hj with h | h | h <;> omega
  obtain ⟨area, hlen, h0, hcount, hr⟩ := relabel_by_size_unfold g r hnn (by omega)
  obtain ⟨hb1, hbpos, hb2, hb3⟩ := find_biggest_principal g r area (by omega) hlen h0 hcount
  obtain ⟨hlt, -, -⟩ := find_biggest_spec area (by omega)
  have hb12 : find_biggest area = 1 ∨ find_biggest area = 2 := by omega
  refine ⟨(find_biggest area : Int), ?_, by omega, hr⟩
  constructor
  · intro hb
    have := hb3 1 (by omega) (by omega)
    rw [hb] at this
    exact this
  · intro hc
    rcases hb12 with h | h
    · have := hb2 2 (by omega)
      rw [h] at this
      simp only [Nat.cast_one] at this
      omega
    · rw [h]; rfl

/-- A field of the shape of the grid is determined by its values at the cells. -/
theorem tabulate_get (g : IceGrid) (m : IceModelVec2Int) (hwf : m.WF g) :
    g.tabulate (fun i j => m.get i j) = m := by
  obtain ⟨h1, h2⟩ := hwf
  unfold IceGrid.tabulate
  apply List.ext_getElem
  · simp [h1]
  · intro j hj1 hj2
    have hjl : j < m.length := hj2
    have hrow : (m[j]).length = g.Mx := h2 _ (List.getElem_mem _)
    simp only [List.getElem_map, List.getElem_range]
    apply List.ext_getElem
    · simp [hrow]
    · intro i hi1 hi2
      simp only [List.getElem_map, List.getElem_range, IceModelVec2Int.get]
      rw [List.getD_eq_getElem _ _ hjl, List.getD_eq_getElem _ _ hi2]

theorem field_ext (g : IceGrid) (m m' : IceModelVec2Int) (hwf : m.WF g) (hwf' : m'.WF g)
    (h : ∀ i j, i < g.Mx → j < g.My → m.get i j = m'.get i j) : m = m' := by
  rw [← tabulate_get g m hwf, ← tabulate_get g m' hwf']
  exact tabulate_congr g _ _ h

/-- C2 (counterexample). Three one-cell components: the first call gives
`2, 1, 1`, and the second call, on that output, gives `1, 2, 2`. -/
theorem relabel_by_size_not_idempotent :
    relabel_by_size ⟨3, 1⟩ [[1, 2, 3]] = .ok [[2, 1, 1]] ∧
    (relabel_by_size ⟨3, 1⟩ [[1, 2, 3]] >>= relabel_by_size ⟨3, 1⟩) = .ok [[1, 2, 2]] ∧
    (relabel_by_size ⟨3, 1⟩ [[1, 2, 3]] >>= relabel_by_size ⟨3, 1⟩)
      ≠ relabel_by_size ⟨3, 1⟩ [[1, 2, 3]] := by
  decide

/-- C2 (amended). For a mask with non-negative values `relabel_by_size`
succeeds, and applying it to its own output `r` returns `r` again exactly when
the cells of `r` holding 1 are fewer than the cells holding 2, or `r` holds no
2 at all (no component was present); otherwise the second call exchanges the
values 1 and 2 (and keeps 0). -/
theorem relabel_by_size_idempotent_iff (g : IceGrid) (m : IceModelVec2Int)
    (hnn : ∀ i j, i < g.Mx → j < g.My → 0 ≤ m.get i j) :
    ∃ r : IceModelVec2Int, relabel_by_size g m = .ok r ∧
      (relabel_by_size g r = .ok r ↔ g.count r 1 < g.count r 2 ∨ g.count r 2 = 0) ∧
      (¬ (g.count r 1 < g.count r 2 ∨ g.count r 2 = 0) →
        relabel_by_size g r = .ok (g.tabulate fun i j =>
          if r.get i j = 1 then 2 else if r.get i j = 2 then 1 else 0)) := by
  by_cases hmax : 1 ≤ m.range_max g
  · obtain ⟨area, hlen, h0, hcount, hr⟩ := relabel_by_size_unfold g m hnn hmax
    obtain ⟨hb1, hbpos, -, -⟩ := find_biggest_principal g m area hmax hlen h0 hcount
    refine ⟨_, hr, ?_⟩
    set r := g.tabulate fun i j =>
      if m.get i j = (find_biggest area : Int) then 2 else if m.get i j > 0 then 1 else 0
      with hrdef
    have hvals : ∀ i j, i < g.Mx → j < g.My → r.get i j = 0 ∨ r.get i j = 1 ∨ r.get i j = 2 := by
      intro i j hi hj
      rw [hrdef, get_tabulate _ hi hj]
      split_ifs <;> simp
    obtain ⟨i0, j0, hi0, hj0, hb0⟩ := count_pos_iff_cell.1 hbpos
    have h20 : r.get i0 j0 = 2 := by
      rw [hrdef, get_tabulate _ hi0 hj0]
      simp [hb0]
    have hc2 : 0 < g.count r 2 := count_pos_iff_cell.2 ⟨i0, j0, hi0, hj0, h20⟩
    obtain ⟨b, hb, hb12, hrr⟩ := relabel_by_size_again g r hvals ⟨i0, j0, hi0, hj0, h20⟩
    rw [hrr]
    refine ⟨⟨?_, ?_⟩, ?_⟩
    · intro heq
      left
      rw [← hb]
      rcases hb12 with h | h
      · exfalso
        have hget := congrArg (fun x : IceModelVec2Int => x.get i0 j0) (Except.ok.inj heq)
        simp only [] at hget
        rw [get_tabulate _ hi0 hj0, h20, h] at hget
        simp at hget
      · exact h
    · intro hc
      have hb2 : b = 2 := hb.2 (by omega)
      congr 1
      apply field_ext g _ _ (WF_tabulate _ _) (by rw [hrdef]; exact WF_tabulate _ _)
      intro i j hi hj
      rw [get_tabulate _ hi hj, hb2]
      rcases hvals i j hi hj with h | h | h <;> simp [h]
    · intro hc
      have hbne : b ≠ 2 := fun h2 => hc (Or.inl (hb.1 h2))
      have hb1' : b = 1 := by
        rcases hb12 with h | h
        · exact h
        · exact absurd h hbne
      congr 1
      apply tabulate_congr
      intro i j hi hj
      rw [hb1']
      rcases hvals i j hi hj with h | h | h <;> simp [h]
  · have hlt : m.range_max g < 1 := by omega
    refine ⟨g.tabulate fun _ _ => 0, by simp [relabel_by_size, hlt], ?_⟩
    have hz : ∀ i j, i < g.Mx → j < g.My → (g.tabulate fun _ _ => 0).get i j = 0 :=
      fun i j hi hj => get_tabulate _ hi hj
    have hmax0 := range_max_zero_of_all_zero g _ hz
    have hc2 : g.count (g.tabulate fun _ _ => 0) 2 = 0 := by
      by_contra hne
      obtain ⟨i, j, hi, hj, hij⟩ := count_pos_iff_cell.1 (Nat.pos_of_ne_zero hne)
      rw [hz i j hi hj] at hij
      omega
    refine ⟨⟨?_, ?_⟩, ?_⟩
    · intro _; right; exact hc2
    · intro _
      simp [relabel_by_size, hmax0]
    · intro hc
      exact absurd (Or.inr hc2) hc

/-- Witness for the amended C2: three one-cell components; the first call
gives `2, 1, 1`, where the cells holding 1 are not fewer than those holding
2, and the second call exchanges 1 and 2. -/
theorem relabel_by_size_idempotent_iff_witness :
    ∃ r : IceModelVec2Int, relabel_by_size ⟨3, 1⟩ [[1, 2, 3]] = .ok r ∧
      (relabel_by_size ⟨3, 1⟩ r = .ok r ↔
        IceGrid.count ⟨3, 1⟩ r 1 < IceGrid.count ⟨3, 1⟩ r 2 ∨ IceGrid.count ⟨3, 1⟩ r 2 = 0) ∧
      (¬ (IceGrid.count ⟨3, 1⟩ r 1 < IceGrid.count ⟨3, 1⟩ r 2 ∨ IceGrid.count ⟨3, 1⟩ r 2 = 0) →
        relabel_by_size ⟨3, 1⟩ r = .ok (IceGrid.tabulate ⟨3, 1⟩ fun i j =>
          if r.get i j = 1 then 2 else if r.get i j = 2 then 1 else 0)) :=
  relabel_by_size_idempotent_iff ⟨3, 1⟩ [[1, 2, 3]] ((forall_cells ⟨3, 1⟩ _).2 (by decide))


/-! ## Facts about `compute_ice_rises` -/

theorem length_points (g : IceGrid) : g.points.length = g.Mx * g.My := by
  unfold IceGrid.points
  rw [List.length_flatMap]
  have : (List.length ∘ fun j => List.map (fun i => (i, j)) (List.range g.Mx))
      = Function.const Nat g.Mx := by
    funext j; simp
  rw [this, List.map_const, List.sum_const_nat, List.length_range, Nat.mul_comm]

theorem count_four (l : List Int) (h : ∀ v ∈ l, v = 0 ∨ v = 1 ∨ v = 2 ∨ v = 3) :
    l.count 0 + l.count 1 + l.count 2 + l.count 3 = l.length := by
  induction l with
  | nil => rfl
  | cons a l ih =>
    have ih' := ih (fun v hv => h v (List.mem_cons_of_mem _ hv))
    simp only [List.count_cons, List.length_cons]
    rcases h a (List.mem_cons_self _ _) with ha | ha | ha | ha <;> subst ha <;> simp <;> omega

/-- For a mask with non-negative values `relabel_by_size` succeeds; its result
holds 0 exactly where the mask does, and 1 or 2 elsewhere. -/
theorem relabel_by_size_support (g : IceGrid) (m : IceModelVec2Int)
    (hnn : ∀ i j, i < g.Mx → j < g.My → 0 ≤ m.get i j) :
    ∃ r : IceModelVec2Int, relabel_by_size g m = .ok r ∧ r.WF g ∧
      ∀ i j, i < g.Mx → j < g.My →
        (r.get i j = 0 ↔ m.get i j = 0) ∧ (r.get i j = 0 ∨ r.get i j = 1 ∨ r.get i j = 2) := by
  by_cases hmax : 1 ≤ m.range_max g
  · obtain ⟨area, hlen, h0, hcount, hr⟩ := relabel_by_size_unfold g m hnn hmax
    obtain ⟨hb1, -, -, -⟩ := find_biggest_principal g m area hmax hlen h0 hcount
    refine ⟨_, hr, WF_tabulate _ _, ?_⟩
    intro i j hi hj
    rw [get_tabulate _ hi hj]
    have hge := hnn i j hi hj
    split_ifs with hb hp
    · refine ⟨?_, by simp⟩
      constructor <;> intro h <;> omega
    · refine ⟨?_, by simp⟩
      constructor <;> intro h <;> omega
    · refine ⟨?_, by simp⟩
      constructor <;> intro h <;> omega
  · have hlt : m.range_max g < 1 := by omega
    refine ⟨g.tabulate fun _ _ => 0, by simp [relabel_by_size, hlt], WF_tabulate _ _, ?_⟩
    intro i j hi hj
    rw [get_tabulate _ hi hj]
    have h1 := hnn i j hi hj
    have h2 := le_range_max (g := g) (m := m) hi hj
    refine ⟨?_, by simp⟩
    constructor <;> intro h <;> omega

/-- The buffer handed to `relabel_by_size` by `compute_ice_rises` is
non-negative when the labels are. -/
theorem ice_rises_input_nonneg (lcc : Labeler) (g : IceGrid) (cell_type : IceModelVec2CellType)
    (exclude_ice_rises : Bool)
    (hlab : exclude_ice_rises = true → ∀ i j, i < g.Mx → j < g.My →
      0 ≤ (label_tmp lcc g (ice_rises_seed g cell_type)).get i j) :
    ∀ i j, i < g.Mx → j < g.My →
      0 ≤ (if exclude_ice_rises then label_tmp lcc g (ice_rises_seed g cell_type)
           else ice_rises_seed g cell_type).get i j := by
  intro i j hi hj
  cases exclude_ice_rises with
  | true => exact hlab rfl i j hi hj
  | false =>
    simp only [Bool.false_eq_true, if_false, ice_rises_seed, get_tabulate _ hi hj]
    split_ifs <;> simp

/-- C8. Whatever the classification and whatever `exclude_ice_rises` (the
labeler, when it is used, returning non-negative ids), `compute_ice_rises`
succeeds and every cell of its result holds one of OCEAN = 0, RISE = 1,
CONTINENTAL = 2, FLOATING = 3; the four cell counts sum to the number of grid
cells. -/
theorem compute_ice_rises_conservation (lcc : Labeler) (g : IceGrid)
    (cell_type : IceModelVec2CellType) (exclude_ice_rises : Bool)
    (hlab : exclude_ice_rises = true → ∀ i j, i < g.Mx → j < g.My →
      0 ≤ (label_tmp lcc g (ice_rises_seed g cell_type)).get i j) :
    ∃ r : IceModelVec2Int, compute_ice_rises lcc g cell_type exclude_ice_rises = .ok r ∧
      (∀ i j, i < g.Mx → j < g.My →
        r.get i j = OCEAN ∨ r.get i j = RISE ∨ r.get i j = CONTINENTAL ∨ r.get i j = FLOATING) ∧
      g.count r OCEAN + g.count r RISE + g.count r CONTINENTAL + g.count r FLOATING
        = g.Mx * g.My := by
  obtain ⟨t, ht, -, hsup⟩ := relabel_by_size_support g _
    (ice_rises_input_nonneg lcc g cell_type exclude_ice_rises hlab)
  obtain ⟨r, hr⟩ : ∃ r : IceModelVec2Int, r = g.tabulate fun i j =>
      if t.get i j = 0 ∧ cell_type.icy i j = true then FLOATING else t.get i j := ⟨_, rfl⟩
  have hcell : ∀ i j, i < g.Mx → j < g.My →
      r.get i j = 0 ∨ r.get i j = 1 ∨ r.get i j = 2 ∨ r.get i j = 3 := by
    intro i j hi hj
    rw [hr, get_tabulate _ hi hj]
    split_ifs
    · simp [FLOATING]
    · rcases (hsup i j hi hj).2 with h | h | h <;> simp [h]
  refine ⟨r, by simp only [compute_ice_rises, ice_rises_relabeled, ht, hr], hcell, ?_⟩
  have hsum := count_four (g.values r) (by
    intro v hv
    obtain ⟨i, j, hi, hj, rfl⟩ := mem_values.1 hv
    exact hcell i j hi hj)
  simp only [IceGrid.count, OCEAN, RISE, CONTINENTAL, FLOATING]
  rw [hsum, IceGrid.values, List.length_map, length_points]

/-- C9. `compute_ice_rises` succeeds (the labeler, when used, keeping the
background and giving positive ids elsewhere); relabeling leaves no grounded
cell at 0; and in the result a cell is FLOATING iff it is icy and not grounded,
RISE or CONTINENTAL iff it is grounded, OCEAN iff it is neither grounded nor
icy. -/
theorem compute_ice_rises_classification (lcc : Labeler) (g : IceGrid)
    (cell_type : IceModelVec2CellType) (exclude_ice_rises : Bool)
    (hlab : exclude_ice_rises = true →
      LabelsSupport g (ice_rises_seed g cell_type) (label_tmp lcc g (ice_rises_seed g cell_type))) :
    ∃ t r : IceModelVec2Int,
      ice_rises_relabeled lcc g cell_type exclude_ice_rises = .ok t ∧
      compute_ice_rises lcc g cell_type exclude_ice_rises = .ok r ∧
      ∀ i j, i < g.Mx → j < g.My →
        (cell_type.grounded i j = true → t.get i j ≠ 0) ∧
        (r.get i j = FLOATING ↔ cell_type.grounded i j = false ∧ cell_type.icy i j = true) ∧
        (r.get i j = RISE ∨ r.get i j = CONTINENTAL ↔ cell_type.grounded i j = true) ∧
        (r.get i j = OCEAN ↔ cell_type.grounded i j = false ∧ cell_type.icy i j = false) := by
  have hseed : ∀ i j, i < g.Mx → j < g.My →
      ((ice_rises_seed g cell_type).get i j = 0 ↔ cell_type.grounded i j = false) := by
    intro i j hi hj
    simp only [ice_rises_seed, get_tabulate _ hi hj]
    cases cell_type.grounded i j <;> simp
  have hin : ∀ i j, i < g.Mx → j < g.My →
      0 ≤ (if exclude_ice_rises then label_tmp lcc g (ice_rises_seed g cell_type)
           else ice_rises_seed g cell_type).get i j ∧
      ((if exclude_ice_rises then label_tmp lcc g (ice_rises_seed g cell_type)
           else ice_rises_seed g cell_type).get i j = 0 ↔ cell_type.grounded i j = false) := by
    intro i j hi hj
    cases hex : exclude_ice_rises with
    | true =>
      simp only [if_true]
      obtain ⟨h1, h2⟩ := hlab hex i j hi hj
      have hs := hseed i j hi hj
      by_cases hz : (ice_rises_seed g cell_type).get i j = 0
      · have := h1 hz
        exact ⟨by omega, ⟨fun _ => hs.1 hz, fun _ => this⟩⟩
      · have := h2 hz
        refine ⟨by omega, ⟨fun h => by omega, fun h => absurd (hs.2 h) hz⟩⟩
    | false =>
      simp only [Bool.false_eq_true, if_false]
      refine ⟨?_, hseed i j hi hj⟩
      simp only [ice_rises_seed, get_tabulate _ hi hj]
      split_ifs <;> simp
  obtain ⟨t, ht, -, hsup⟩ := relabel_by_size_support g _ (fun i j hi hj => (hin i j hi hj).1)
  obtain ⟨r, hr⟩ : ∃ r : IceModelVec2Int, r = g.tabulate fun i j =>
      if t.get i j = 0 ∧ cell_type.icy i j = true then FLOATING else t.get i j := ⟨_, rfl⟩
  refine ⟨t, r, by simp only [ice_rises_relabeled, ht],
    by simp only [compute_ice_rises, ice_rises_relabeled, ht, hr], ?_⟩
  intro i j hi hj
  rw [hr, get_tabulate _ hi hj]
  obtain ⟨hz, hv⟩ := hsup i j hi hj
  have hg := (hin i j hi hj).2
  simp only [FLOATING, RISE, CONTINENTAL, OCEAN]
  cases hgr : cell_type.grounded i j <;> cases hic : cell_type.icy i j <;>
    simp only [hgr, hic] at hg ⊢
  · have ht0 : t.get i j = 0 := hz.2 (hg.2 trivial)
    simp [ht0]
  · have ht0 : t.get i j = 0 := hz.2 (hg.2 trivial)
    simp [ht0]
  · have ht0 : t.get i j ≠ 0 := fun h => by simpa using hg.1 (hz.1 h)
    rcases hv with h | h | h
    · exact absurd h ht0
    · simp [h]
    · simp [h]
  · have ht0 : t.get i j ≠ 0 := fun h => by simpa using hg.1 (hz.1 h)
    rcases hv with h | h | h
    · exact absurd h ht0
    · simp [h]
    · simp [h]


/-! ## Components and cell counts -/

theorem nodup_points (g : IceGrid) : g.points.Nodup := by
  unfold IceGrid.points
  rw [List.nodup_flatMap]
  constructor
  · intro j _
    apply List.Nodup.map _ (List.nodup_range _)
    intro a b hab
    exact (Prod.mk.inj hab).1
  · apply List.Pairwise.imp _ (List.nodup_range g.My)
    intro a b hab
    simp only [Function.onFun, List.Disjoint, List.mem_map]
    rintro p ⟨i, _, rfl⟩ ⟨i', _, h⟩
    exact hab (Prod.mk.inj h).2.symm

/-- The count of a value is the size of the set of cells holding it. -/
theorem count_eq_ncard (g : IceGrid) (m : IceModelVec2Int) (k : Int) :
    g.count m k
      = Set.ncard {q : Nat × Nat | q.1 < g.Mx ∧ q.2 < g.My ∧ m.get q.1 q.2 = k} := by
  have hset : {q : Nat × Nat | q.1 < g.Mx ∧ q.2 < g.My ∧ m.get q.1 q.2 = k}
      = ↑(g.points.filter fun q => decide (m.get q.1 q.2 = k)).toFinset := by
    ext q
    simp only [Set.mem_setOf_eq, List.coe_toFinset, List.mem_filter, mem_points,
      decide_eq_true_eq]
    tauto
  rw [hset, Set.ncard_coe_Finset,
    List.toFinset_card_of_nodup ((nodup_points g).filter _)]
  unfold IceGrid.count IceGrid.values
  rw [List.count_eq_countP, List.countP_map, List.countP_eq_length_filter]
  congr 1

theorem Connected4_congr (g : IceGrid) (S S' : Nat → Nat → Prop)
    (h : ∀ i j, i < g.Mx → j < g.My → (S i j ↔ S' i j)) (p q : Nat × Nat) :
    Connected4 g S p q → Connected4 g S' p q := by
  intro hc
  refine Relation.ReflTransGen.mono ?_ hc
  rintro a b ⟨hadj, hb1, hb2, hS⟩
  exact ⟨hadj, hb1, hb2, (h _ _ hb1 hb2).1 hS⟩

theorem Connected4_end (g : IceGrid) (S : Nat → Nat → Prop) (p q : Nat × Nat)
    (h : Connected4 g S p q) : q = p ∨ (q.1 < g.Mx ∧ q.2 < g.My ∧ S q.1 q.2) := by
  rcases Relation.ReflTransGen.cases_tail h with h | ⟨c, _, hstep⟩
  · exact Or.inl h
  · exact Or.inr hstep.2

/-- Under the labeler's contract the cells carrying the label of a non-zero
cell `c` are the cells of the component of `c`. -/
theorem label_eq_iff_connected (g : IceGrid) (m lab : IceModelVec2Int)
    (hlab : IsComponentLabeling g m lab) (c x : Nat × Nat)
    (hc1 : c.1 < g.Mx) (hc2 : c.2 < g.My) (hc : m.get c.1 c.2 ≠ 0)
    (hx1 : x.1 < g.Mx) (hx2 : x.2 < g.My) :
    lab.get x.1 x.2 = lab.get c.1 c.2 ↔ Connected4 g (fun i j => m.get i j ≠ 0) c x := by
  obtain ⟨hsup, hcomp⟩ := hlab
  have hcpos := (hsup c.1 c.2 hc1 hc2).2 hc
  constructor
  · intro heq
    have hx : m.get x.1 x.2 ≠ 0 := by
      intro hz
      have := (hsup x.1 x.2 hx1 hx2).1 hz
      omega
    exact (hcomp c x hc1 hc2 hx1 hx2 hc hx).1 heq.symm
  · intro hconn
    have hx : m.get x.1 x.2 ≠ 0 := by
      rcases Connected4_end g _ c x hconn with h | h
      · rw [h]; exact hc
      · exact h.2.2
    exact ((hcomp c x hc1 hc2 hx1 hx2 hc hx).2 hconn).symm

theorem component_ncard (g : IceGrid) (m lab : IceModelVec2Int)
    (hlab : IsComponentLabeling g m lab) (c : Nat × Nat)
    (hc1 : c.1 < g.Mx) (hc2 : c.2 < g.My) (hc : m.get c.1 c.2 ≠ 0) :
    Set.ncard {x : Nat × Nat | x.1 < g.Mx ∧ x.2 < g.My ∧
        Connected4 g (fun i j => m.get i j ≠ 0) c x}
      = g.count lab (lab.get c.1 c.2) := by
  rw [count_eq_ncard]
  congr 1
  ext x
  simp only [Set.mem_setOf_eq]
  constructor
  · rintro ⟨h1, h2, h3⟩
    exact ⟨h1, h2, (label_eq_iff_connected g m lab hlab c x hc1 hc2 hc h1 h2).2 h3⟩
  · rintro ⟨h1, h2, h3⟩
    exact ⟨h1, h2, (label_eq_iff_connected g m lab hlab c x hc1 hc2 hc h1 h2).1 h3⟩


/-- C10. With `exclude_ice_rises = true` and a labeler that gives every
4-connected component of grounded cells its own positive id,
`compute_ice_rises` succeeds; if some cell is grounded, some cell is marked
CONTINENTAL; and for every cell `p` marked CONTINENTAL: `p` is grounded, the
cells marked CONTINENTAL are exactly the cells of the 4-connected grounded
component of `p`, the cells marked RISE are exactly the grounded cells outside
that component, and no grounded component has more cells than that of `p`. -/
theorem compute_ice_rises_exclude (lcc : Labeler) (g : IceGrid)
    (cell_type : IceModelVec2CellType)
    (hlab : IsComponentLabeling g (ice_rises_seed g cell_type)
      (label_tmp lcc g (ice_rises_seed g cell_type))) :
    ∃ r : IceModelVec2Int, compute_ice_rises lcc g cell_type true = .ok r ∧
      ((∃ i j, i < g.Mx ∧ j < g.My ∧ cell_type.grounded i j = true) →
        ∃ i j, i < g.Mx ∧ j < g.My ∧ r.get i j = CONTINENTAL) ∧
      ∀ p : Nat × Nat, p.1 < g.Mx → p.2 < g.My → r.get p.1 p.2 = CONTINENTAL →
        cell_type.grounded p.1 p.2 = true ∧
        (∀ q : Nat × Nat, q.1 < g.Mx → q.2 < g.My →
          (r.get q.1 q.2 = CONTINENTAL ↔
            Connected4 g (fun i j => cell_type.grounded i j = true) p q)) ∧
        (∀ q : Nat × Nat, q.1 < g.Mx → q.2 < g.My →
          (r.get q.1 q.2 = RISE ↔ cell_type.grounded q.1 q.2 = true ∧
            ¬ Connected4 g (fun i j => cell_type.grounded i j = true) p q)) ∧
        (∀ q : Nat × Nat, q.1 < g.Mx → q.2 < g.My → cell_type.grounded q.1 q.2 = true →
          Set.ncard {x : Nat × Nat | x.1 < g.Mx ∧ x.2 < g.My ∧
              Connected4 g (fun i j => cell_type.grounded i j = true) q x}
            ≤ Set.ncard {x : Nat × Nat | x.1 < g.Mx ∧ x.2 < g.My ∧
              Connected4 g (fun i j => cell_type.grounded i j = true) p x}) := by
  obtain ⟨seed, hseeddef⟩ : ∃ s, s = ice_rises_seed g cell_type := ⟨_, rfl⟩
  obtain ⟨lab, hlabdef⟩ : ∃ l, l = label_tmp lcc g seed := ⟨_, rfl⟩
  rw [← hseeddef, ← hlabdef] at hlab
  have hseed : ∀ i j, i < g.Mx → j < g.My →
      (seed.get i j ≠ 0 ↔ cell_type.grounded i j = true) := by
    intro i j hi hj
    simp only [hseeddef, ice_rises_seed, get_tabulate _ hi hj]
    cases cell_type.grounded i j <;> simp
  have hnn : ∀ i j, i < g.Mx → j < g.My → 0 ≤ lab.get i j := by
    intro i j hi hj
    obtain ⟨h1, h2⟩ := hlab.1 i j hi hj
    by_cases hz : seed.get i j = 0
    · rw [h1 hz]
    · exact le_of_lt (h2 hz)
  have hpos : ∀ i j, i < g.Mx → j < g.My →
      (0 < lab.get i j ↔ cell_type.grounded i j = true) := by
    intro i j hi hj
    obtain ⟨h1, h2⟩ := hlab.1 i j hi hj
    rw [← hseed i j hi hj]
    constructor
    · intro h hz
      rw [h1 hz] at h
      omega
    · exact h2
  -- the two connectivity relations agree
  have hconn : ∀ p q : Nat × Nat,
      (Connected4 g (fun i j => seed.get i j ≠ 0) p q ↔
        Connected4 g (fun i j => cell_type.grounded i j = true) p q) := by
    intro p q
    exact ⟨Connected4_congr g _ _ hseed p q,
      Connected4_congr g _ _ (fun i j hi hj => (hseed i j hi hj).symm) p q⟩
  have hcomp : ∀ c : Nat × Nat, c.1 < g.Mx → c.2 < g.My → cell_type.grounded c.1 c.2 = true →
      Set.ncard {x : Nat × Nat | x.1 < g.Mx ∧ x.2 < g.My ∧
          Connected4 g (fun i j => cell_type.grounded i j = true) c x}
        = g.count lab (lab.get c.1 c.2) := by
    intro c hc1 hc2 hc
    rw [← component_ncard g seed lab hlab c hc1 hc2 ((hseed _ _ hc1 hc2).2 hc)]
    congr 1
    ext x
    simp only [Set.mem_setOf_eq, hconn]
  by_cases hmax : 1 ≤ lab.range_max g
  · obtain ⟨area, hlen, h0, hcount, hr⟩ := relabel_by_size_unfold g lab hnn hmax
    obtain ⟨hb1, hbpos, hbge, -⟩ := find_biggest_principal g lab area hmax hlen h0 hcount
    obtain ⟨b, hb⟩ : ∃ b : Int, b = (find_biggest area : Int) := ⟨_, rfl⟩
    rw [← hb] at hr hbpos hbge
    have hb1' : 1 ≤ b := by omega
    obtain ⟨r, hrdef⟩ : ∃ r : IceModelVec2Int, r = g.tabulate fun i j =>
        if (g.tabulate fun i j =>
              if lab.get i j = b then 2 else if lab.get i j > 0 then 1 else 0).get i j = 0
            ∧ cell_type.icy i j = true then FLOATING
        else (g.tabulate fun i j =>
              if lab.get i j = b then 2 else if lab.get i j > 0 then 1 else 0).get i j := ⟨_, rfl⟩
    have hr2 : ∀ i j, i < g.Mx → j < g.My → (r.get i j = CONTINENTAL ↔ lab.get i j = b) := by
      intro i j hi hj
      have := hnn i j hi hj
      rw [hrdef, get_tabulate _ hi hj, get_tabulate _ hi hj]
      simp only [CONTINENTAL, FLOATING]
      split_ifs with h1 h2 h3 h4 h5 <;> constructor <;> intro h <;> omega
    have hr1 : ∀ i j, i < g.Mx → j < g.My →
        (r.get i j = RISE ↔ 0 < lab.get i j ∧ lab.get i j ≠ b) := by
      intro i j hi hj
      have := hnn i j hi hj
      rw [hrdef, get_tabulate _ hi hj, get_tabulate _ hi hj]
      simp only [RISE, FLOATING]
      split_ifs with h1 h2 h3 h4 h5 <;> constructor <;> intro h <;> omega
    refine ⟨r, ?_, ?_, ?_⟩
    · simp only [compute_ice_rises, ice_rises_relabeled, if_true, ← hseeddef, ← hlabdef, hr,
        hrdef]
    · intro _
      obtain ⟨i, j, hi, hj, hij⟩ := count_pos_iff_cell.1 hbpos
      exact ⟨i, j, hi, hj, (hr2 i j hi hj).2 hij⟩
    · intro p hp1 hp2 hp
      have hpb : lab.get p.1 p.2 = b := (hr2 _ _ hp1 hp2).1 hp
      have hpg : cell_type.grounded p.1 p.2 = true := (hpos _ _ hp1 hp2).1 (by omega)
      have hps : seed.get p.1 p.2 ≠ 0 := (hseed _ _ hp1 hp2).2 hpg
      have hiff : ∀ q : Nat × Nat, q.1 < g.Mx → q.2 < g.My →
          (lab.get q.1 q.2 = b ↔
            Connected4 g (fun i j => cell_type.grounded i j = true) p q) := by
        intro q hq1 hq2
        rw [← hconn, ← hpb]
        exact label_eq_iff_connected g seed lab hlab p q hp1 hp2 hps hq1 hq2
      refine ⟨hpg, ?_, ?_, ?_⟩
      · intro q hq1 hq2
        rw [hr2 _ _ hq1 hq2]
        exact hiff q hq1 hq2
      · intro q hq1 hq2
        rw [hr1 _ _ hq1 hq2, hpos _ _ hq1 hq2, ← hiff q hq1 hq2]
      · intro q hq1 hq2 hq
        rw [hcomp q hq1 hq2 hq, hcomp p hp1 hp2 hpg, hpb]
        exact hbge _ (by have := (hpos _ _ hq1 hq2).2 hq; omega)
  · have hlt : lab.range_max g < 1 := by omega
    have hzero : ∀ i j, i < g.Mx → j < g.My → lab.get i j = 0 := by
      intro i j hi hj
      have h1 := hnn i j hi hj
      have h2 := le_range_max (g := g) (m := lab) hi hj
      omega
    obtain ⟨r, hrdef⟩ : ∃ r : IceModelVec2Int, r = g.tabulate fun i j =>
        if (g.tabulate fun _ _ => 0).get i j = 0 ∧ cell_type.icy i j = true then FLOATING
        else (g.tabulate fun _ _ => 0).get i j := ⟨_, rfl⟩
    have hr03 : ∀ i j, i < g.Mx → j < g.My → r.get i j ≠ CONTINENTAL := by
      intro i j hi hj
      rw [hrdef, get_tabulate _ hi hj, get_tabulate _ hi hj]
      simp only [CONTINENTAL, FLOATING]
      split_ifs <;> omega
    refine ⟨r, ?_, ?_, ?_⟩
    · simp only [compute_ice_rises, ice_rises_relabeled, if_true, ← hseeddef, ← hlabdef,
        relabel_by_size, hlt, hrdef]
    · rintro ⟨i, j, hi, hj, hg⟩
      have := (hpos i j hi hj).2 hg
      rw [hzero i j hi hj] at this
      omega
    · intro p hp1 hp2 hp
      exact absurd hp (hr03 _ _ hp1 hp2)


/-! ## The sample strip -/

theorem strip_seed : ice_rises_seed ⟨4, 1⟩ strip_cell_type = [[1, 1, 0, 1]] := by decide

theorem strip_labels_support :
    LabelsSupport ⟨4, 1⟩ (ice_rises_seed ⟨4, 1⟩ strip_cell_type)
      (label_tmp strip_labeler ⟨4, 1⟩ (ice_rises_seed ⟨4, 1⟩ strip_cell_type)) :=
  (forall_cells ⟨4, 1⟩ _).2 (by decide)

/-- On the strip a path never crosses the floating cell at `i = 2`. -/
theorem strip_separated (p q : Nat × Nat)
    (h : Connected4 ⟨4, 1⟩ (fun i j => IceModelVec2Int.get [[1, 1, 0, 1]] i j ≠ 0) p q) :
    (p.1 ≤ 1 → q.1 ≤ 1) ∧ (3 ≤ p.1 → 3 ≤ q.1) := by
  induction h with
  | refl => exact ⟨id, id⟩
  | @tail b c _ hstep ih =>
    obtain ⟨hadj, hc1, hc2, hS⟩ := hstep
    have hcj : c.2 = 0 := by
      have : c.2 < 1 := hc2
      omega
    have hc1' : c.1 < 4 := hc1
    have hne : c.1 ≠ 2 := by
      intro h2
      rw [h2, hcj] at hS
      exact hS (by decide)
    unfold Adj4 at hadj
    constructor
    · intro hp
      have := ih.1 hp
      omega
    · intro hp
      have := ih.2 hp
      omega

theorem strip_component_labeling :
    IsComponentLabeling ⟨4, 1⟩ (ice_rises_seed ⟨4, 1⟩ strip_cell_type)
      (label_tmp strip_labeler ⟨4, 1⟩ (ice_rises_seed ⟨4, 1⟩ strip_cell_type)) := by
  refine ⟨strip_labels_support, ?_⟩
  rw [strip_seed]
  rintro ⟨pi, pj⟩ ⟨qi, qj⟩ hp1 hp2 hq1 hq2 hp hq
  simp only at hp1 hp2 hq1 hq2 hp hq
  have hpj : pj = 0 := by omega
  have hqj : qj = 0 := by omega
  subst hpj hqj
  have hsep := strip_separated (pi, 0) (qi, 0)
  have hstep01 : Step4 ⟨4, 1⟩ (fun i j => IceModelVec2Int.get [[1, 1, 0, 1]] i j ≠ 0)
      (0, 0) (1, 0) := by
    refine ⟨by decide, by decide, by decide, by decide⟩
  have hstep10 : Step4 ⟨4, 1⟩ (fun i j => IceModelVec2Int.get [[1, 1, 0, 1]] i j ≠ 0)
      (1, 0) (0, 0) := by
    refine ⟨by decide, by decide, by decide, by decide⟩
  interval_cases pi <;> interval_cases qi
  all_goals first
    | exact absurd (by decide) hp
    | exact absurd (by decide) hq
    | exact ⟨fun _ => Relation.ReflTransGen.refl, fun _ => rfl⟩
    | exact ⟨fun _ => Relation.ReflTransGen.single hstep01, fun _ => rfl⟩
    | exact ⟨fun _ => Relation.ReflTransGen.single hstep10, fun _ => rfl⟩
    | exact ⟨fun h => absurd h (by decide), fun h => by have := hsep h; simp at this⟩

/-- Witness for C8 on the sample strip, with labeling. -/
theorem compute_ice_rises_conservation_witness :
    ∃ r : IceModelVec2Int, compute_ice_rises strip_labeler ⟨4, 1⟩ strip_cell_type true = .ok r ∧
      (∀ i j, i < 4 → j < 1 →
        r.get i j = OCEAN ∨ r.get i j = RISE ∨ r.get i j = CONTINENTAL ∨ r.get i j = FLOATING) ∧
      IceGrid.count ⟨4, 1⟩ r OCEAN + IceGrid.count ⟨4, 1⟩ r RISE
        + IceGrid.count ⟨4, 1⟩ r CONTINENTAL + IceGrid.count ⟨4, 1⟩ r FLOATING = 4 * 1 :=
  compute_ice_rises_conservation strip_labeler ⟨4, 1⟩ strip_cell_type true
    (fun _ => (forall_cells ⟨4, 1⟩ _).2 (by decide))

/-- Witness for C9 on the sample strip, with labeling. -/
theorem compute_ice_rises_classification_witness :
    ∃ t r : IceModelVec2Int,
      ice_rises_relabeled strip_labeler ⟨4, 1⟩ strip_cell_type true = .ok t ∧
      compute_ice_rises strip_labeler ⟨4, 1⟩ strip_cell_type true = .ok r ∧
      ∀ i j, i < 4 → j < 1 →
        (strip_cell_type.grounded i j = true → t.get i j ≠ 0) ∧
        (r.get i j = FLOATING ↔
          strip_cell_type.grounded i j = false ∧ strip_cell_type.icy i j = true) ∧
        (r.get i j = RISE ∨ r.get i j = CONTINENTAL ↔ strip_cell_type.grounded i j = true) ∧
        (r.get i j = OCEAN ↔
          strip_cell_type.grounded i j = false ∧ strip_cell_type.icy i j = false) :=
  compute_ice_rises_classification strip_labeler ⟨4, 1⟩ strip_cell_type true
    (fun _ => strip_labels_support)

/-- Witness for C10 on the sample strip: the two-cell component is the
continental ice sheet, the single grounded cell behind the shelf is a rise. -/
theorem compute_ice_rises_exclude_witness :
    compute_ice_rises strip_labeler ⟨4, 1⟩ strip_cell_type true = .ok [[2, 2, 3, 1]] ∧
    ∃ r : IceModelVec2Int, compute_ice_rises strip_labeler ⟨4, 1⟩ strip_cell_type true = .ok r ∧
      ((∃ i j, i < 4 ∧ j < 1 ∧ strip_cell_type.grounded i j = true) →
        ∃ i j, i < 4 ∧ j < 1 ∧ r.get i j = CONTINENTAL) ∧
      ∀ p : Nat × Nat, p.1 < 4 → p.2 < 1 → r.get p.1 p.2 = CONTINENTAL →
        strip_cell_type.grounded p.1 p.2 = true ∧
        (∀ q : Nat × Nat, q.1 < 4 → q.2 < 1 →
          (r.get q.1 q.2 = CONTINENTAL ↔
            Connected4 ⟨4, 1⟩ (fun i j => strip_cell_type.grounded i j = true) p q)) ∧
        (∀ q : Nat × Nat, q.1 < 4 → q.2 < 1 →
          (r.get q.1 q.2 = RISE ↔ strip_cell_type.grounded q.1 q.2 = true ∧
            ¬ Connected4 ⟨4, 1⟩ (fun i j => strip_cell_type.grounded i j = true) p q)) ∧
        (∀ q : Nat × Nat, q.1 < 4 → q.2 < 1 → strip_cell_type.grounded q.1 q.2 = true →
          Set.ncard {x : Nat × Nat | x.1 < 4 ∧ x.2 < 1 ∧
              Connected4 ⟨4, 1⟩ (fun i j => strip_cell_type.grounded i j = true) q x}
            ≤ Set.ncard {x : Nat × Nat | x.1 < 4 ∧ x.2 < 1 ∧
              Connected4 ⟨4, 1⟩ (fun i j => strip_cell_type.grounded i j = true) p x}) :=
  ⟨by decide, compute_ice_rises_exclude strip_labeler ⟨4, 1⟩ strip_cell_type
    strip_component_labeling⟩


/-! ## Facts about the per-shelf statistics -/

theorem length_update_max (l : List Int) (s d : Int) : (update_max l s d).length = l.length := by
  unfold update_max
  split_ifs <;> simp

theorem getD_update_max (l : List Int) (s d : Int) (k : Nat) :
    (update_max l s d).getD k 0
      = if s.toNat = k ∧ s.toNat < l.length ∧ d > l.getD k 0 then d else l.getD k 0 := by
  unfold update_max
  by_cases hd : d > l.getD s.toNat 0
  · rw [if_pos hd, getD_set_eq]
    by_cases hk : s.toNat = k
    · subst hk
      by_cases hlt : s.toNat < l.length
      · rw [if_pos ⟨rfl, hlt⟩, if_pos ⟨rfl, hlt, hd⟩]
      · rw [if_neg (fun h => hlt h.2), if_neg (fun h => hlt h.2.1)]
    · rw [if_neg (fun h => hk h.1), if_neg (fun h => hk h.1)]
  · rw [if_neg hd]
    by_cases hk : s.toNat = k
    · subst hk
      rw [if_neg (fun h => hd h.2.2)]
    · rw [if_neg (fun h => hk h.1)]

theorem getD_update_max_ge (l : List Int) (s d : Int) (k : Nat) :
    l.getD k 0 ≤ (update_max l s d).getD k 0 := by
  rw [getD_update_max]
  split_ifs with h
  · exact le_of_lt h.2.2
  · exact le_refl _

theorem getD_update_max_self (l : List Int) (s d : Int) (hs : s.toNat < l.length) :
    d ≤ (update_max l s d).getD s.toNat 0 := by
  rw [getD_update_max]
  by_cases hd : d > l.getD s.toNat 0
  · rw [if_pos ⟨rfl, hs, hd⟩]
  · rw [if_neg (fun h => hd h.2.2)]
    omega

/-- The first loop of `compute_box_mask` succeeds when every shelf id is in
`[0, M]`; each entry of `GL_distance_max` only grows, bounds `D_gl` on the
cells of its shelf, and is either the initial entry or attained at a cell of
its shelf. -/
theorem shelf_distance_max_ok (M : Int) (D_gl D_cf shelf_mask : IceModelVec2Int)
    (ps : List (Nat × Nat)) (gl0 cf0 : List Int)
    (hps : ∀ p ∈ ps, 0 ≤ shelf_mask.get p.1 p.2 ∧ shelf_mask.get p.1 p.2 ≤ M)
    (hgl : gl0.length = (M + 1).toNat) :
    ∃ gl1 cf1, shelf_distance_max (M + 1) D_gl D_cf shelf_mask ps (gl0, cf0) = .ok (gl1, cf1) ∧
      gl1.length = gl0.length ∧
      (∀ k, gl0.getD k 0 ≤ gl1.getD k 0) ∧
      (∀ p ∈ ps, 0 < shelf_mask.get p.1 p.2 →
        D_gl.get p.1 p.2 ≤ gl1.getD (shelf_mask.get p.1 p.2).toNat 0) ∧
      (∀ k, gl1.getD k 0 = gl0.getD k 0 ∨
        ∃ p ∈ ps, (shelf_mask.get p.1 p.2).toNat = k ∧ 0 < shelf_mask.get p.1 p.2 ∧
          D_gl.get p.1 p.2 = gl1.getD k 0) := by
  induction ps generalizing gl0 cf0 with
  | nil =>
    exact ⟨gl0, cf0, rfl, rfl, fun _ => le_refl _, by simp, fun _ => Or.inl rfl⟩
  | cons p ps ih =>
    have hp := hps p (List.mem_cons_self _ _)
    have hrest : ∀ q ∈ ps, 0 ≤ shelf_mask.get q.1 q.2 ∧ shelf_mask.get q.1 q.2 ≤ M :=
      fun q hq => hps q (List.mem_cons_of_mem _ hq)
    have hassert : ¬ ¬ (shelf_mask.get p.1 p.2 ≥ 0 ∧ shelf_mask.get p.1 p.2 < M + 1 + 1) := by
      intro h; apply h; constructor <;> omega
    by_cases hz : shelf_mask.get p.1 p.2 = 0
    · obtain ⟨gl1, cf1, h1, h2, h3, h4, h5⟩ := ih gl0 cf0 hrest hgl
      refine ⟨gl1, cf1, ?_, h2, h3, ?_, ?_⟩
      · simp only [shelf_distance_max]
        rw [if_neg hassert, if_pos hz]
        exact h1
      · intro q hq hpos
        rcases List.mem_cons.1 hq with rfl | hq'
        · omega
        · exact h4 q hq' hpos
      · intro k
        rcases h5 k with h | ⟨q, hq, hqk⟩
        · exact Or.inl h
        · exact Or.inr ⟨q, List.mem_cons_of_mem _ hq, hqk⟩
    · have hidx : (shelf_mask.get p.1 p.2).toNat < gl0.length := by omega
      obtain ⟨gl1, cf1, h1, h2, h3, h4, h5⟩ :=
        ih (update_max gl0 (shelf_mask.get p.1 p.2) (D_gl.get p.1 p.2))
          (update_max cf0 (shelf_mask.get p.1 p.2) (D_cf.get p.1 p.2)) hrest
          (by rw [length_update_max]; exact hgl)
      refine ⟨gl1, cf1, ?_, by rw [h2, length_update_max], ?_, ?_, ?_⟩
      · simp only [shelf_distance_max]
        rw [if_neg hassert, if_neg hz]
        exact h1
      · intro k
        exact le_trans (getD_update_max_ge _ _ _ _) (h3 k)
      · intro q hq hpos
        rcases List.mem_cons.1 hq with rfl | hq'
        · exact le_trans (getD_update_max_self _ _ _ hidx) (h3 _)
        · exact h4 q hq' hpos
      · intro k
        rcases h5 k with h | ⟨q, hq, hqk⟩
        · rw [getD_update_max] at h
          split_ifs at h with hc
          · exact Or.inr ⟨p, List.mem_cons_self _ _, hc.1, by omega, h.symm⟩
          · exact Or.inl h
        · exact Or.inr ⟨q, List.mem_cons_of_mem _ hq, hqk⟩

theorem max_element_spec (l : List Int) (hl : l ≠ []) :
    ∃ R, max_element l = some R ∧ R ∈ l ∧ ∀ x ∈ l, x ≤ R := by
  cases l with
  | nil => exact absurd rfl hl
  | cons v vs =>
    refine ⟨vs.foldl max v, rfl, ?_, ?_⟩
    · rcases foldl_max_mem vs v with h | h
      · rw [h]; exact List.mem_cons_self _ _
      · exact List.mem_cons_of_mem _ h
    · intro x hx
      rcases List.mem_cons.1 hx with rfl | hx'
      · exact (foldl_max_ge vs x).1
      · exact (foldl_max_ge vs v).2 x hx'


theorem range_max_nonneg (g : IceGrid) (m : IceModelVec2Int)
    (h : ∀ i j, i < g.Mx → j < g.My → 0 ≤ m.get i j) : 0 ≤ m.range_max g := by
  by_cases h0 : m.range_max g = 0
  · omega
  · obtain ⟨i, j, hi, hj, hij⟩ := range_max_attained h0
    rw [← hij]
    exact h i j hi hj

theorem getD_replicate_zero (n k : Nat) : (List.replicate n (0 : Int)).getD k 0 = 0 := by
  rw [List.getD_eq_getElem?_getD, List.getElem?_replicate]
  split_ifs <;> rfl

theorem getD_mem_or_default (l : List Int) (k : Nat) : l.getD k 0 ∈ l ∨ l.getD k 0 = 0 := by
  by_cases hk : k < l.length
  · left
    rw [List.getD_eq_getElem _ _ hk]
    exact List.getElem_mem _
  · right
    rw [List.getD_eq_getElem?_getD, List.getElem?_eq_none (by omega)]
    rfl

/-- The statistics part of `compute_box_mask` succeeds when no shelf id is
negative, and `GL_distance_max[k]` is the largest `D_gl` over the cells of
shelf `k` (or 0), `GL_distance_ref` the largest entry. -/
theorem box_counts_ok (g : IceGrid) (nmax : Int) (D_gl D_cf shelf_mask : IceModelVec2Int)
    (hshelf : ∀ i j, i < g.Mx → j < g.My → 0 ≤ shelf_mask.get i j) :
    ∃ (glmax : List Int) (R : Int),
      box_counts g nmax D_gl D_cf shelf_mask = .ok (glmax, R, glmax.map (n_boxes_of nmax R)) ∧
      glmax.length = (shelf_mask.range_max g + 1).toNat ∧
      R ∈ glmax ∧ (∀ k, glmax.getD k 0 ≤ R) ∧ (∀ k, 0 ≤ glmax.getD k 0) ∧
      (∀ i j, i < g.Mx → j < g.My → 0 < shelf_mask.get i j →
        D_gl.get i j ≤ glmax.getD (shelf_mask.get i j).toNat 0) ∧
      (∀ k, glmax.getD k 0 = 0 ∨
        ∃ i j, i < g.Mx ∧ j < g.My ∧ (shelf_mask.get i j).toNat = k ∧ 0 < shelf_mask.get i j ∧
          D_gl.get i j = glmax.getD k 0) := by
  have hM := range_max_nonneg g shelf_mask hshelf
  have hps : ∀ p ∈ g.points, 0 ≤ shelf_mask.get p.1 p.2 ∧
      shelf_mask.get p.1 p.2 ≤ shelf_mask.range_max g := by
    intro p hp
    obtain ⟨h1, h2⟩ := mem_points.1 hp
    exact ⟨hshelf _ _ h1 h2, le_range_max h1 h2⟩
  obtain ⟨gl1, cf1, h1, h2, h3, h4, h5⟩ := shelf_distance_max_ok (shelf_mask.range_max g)
    D_gl D_cf shelf_mask g.points
    (List.replicate (shelf_mask.range_max g + 1).toNat 0)
    (List.replicate (shelf_mask.range_max g + 1).toNat 0) hps (by simp)
  have hlen : gl1.length = (shelf_mask.range_max g + 1).toNat := by simpa using h2
  have hne : gl1 ≠ [] := by
    intro h
    rw [h] at hlen
    simp at hlen
    omega
  obtain ⟨R, hR1, hR2, hR3⟩ := max_element_spec gl1 hne
  have hnn : ∀ k, 0 ≤ gl1.getD k 0 := by
    intro k
    have := h3 k
    rw [getD_replicate_zero] at this
    exact this
  have hR0 : 0 ≤ R := by
    have h0 : (0 : Nat) < gl1.length := by omega
    have hmem : gl1.getD 0 0 ∈ gl1 := by
      rw [List.getD_eq_getElem _ _ h0]
      exact List.getElem_mem _
    exact le_trans (hnn 0) (hR3 _ hmem)
  refine ⟨gl1, R, ?_, hlen, hR2, ?_, hnn, ?_, ?_⟩
  · simp only [box_counts, h1, hR1]
  · intro k
    rcases getD_mem_or_default gl1 k with h | h
    · exact hR3 _ h
    · rw [h]; exact hR0
  · intro i j hi hj hpos
    exact h4 (i, j) (mem_points.2 ⟨hi, hj⟩) hpos
  · intro k
    rcases h5 k with h | ⟨p, hp, hk, hpos, hd⟩
    · left
      rw [h, getD_replicate_zero]
    · right
      exact ⟨p.1, p.2, (mem_points.1 hp).1, (mem_points.1 hp).2, hk, hpos, hd⟩

/-- With a positive reference distance and at least one box allowed, the box
count of a shelf is defined, lies in `[1, nmax]`, and is `nmax` for a shelf
that attains the reference distance. -/
theorem n_boxes_of_bounds (nmax R a : Int) (hR : 0 < R) (hn : 1 ≤ nmax)
    (ha0 : 0 ≤ a) (haR : a ≤ R) :
    ∃ n, n_boxes_of nmax R a = some n ∧ 1 ≤ n ∧ n ≤ nmax ∧ (a = R → n = nmax) := by
  have hR0 : R ≠ 0 := by omega
  obtain ⟨m, hm⟩ : ∃ m : Nat, nmax - 1 = (m : Int) := ⟨(nmax - 1).toNat, by omega⟩
  obtain ⟨a', ha'⟩ : ∃ a' : Nat, a = (a' : Int) := ⟨a.toNat, by omega⟩
  obtain ⟨R', hR'⟩ : ∃ R' : Nat, R = (R' : Int) := ⟨R.toNat, by omega⟩
  have hR'pos : 0 < R' := by omega
  have ha'R' : a' ≤ R' := by omega
  have hX : Nat.sqrt (4 * a' * (m * m) / R') ≤ 2 * m := by
    have hle : 4 * a' * (m * m) / R' ≤ (2 * m) * (2 * m) := by
      apply Nat.div_le_of_le_mul
      calc 4 * a' * (m * m) ≤ 4 * R' * (m * m) := by
            apply Nat.mul_le_mul_right
            omega
        _ = R' * (2 * m * (2 * m)) := by ring
    calc Nat.sqrt (4 * a' * (m * m) / R') ≤ Nat.sqrt ((2 * m) * (2 * m)) := Nat.sqrt_le_sqrt hle
      _ = 2 * m := Nat.sqrt_eq _
  have hXeq : a' = R' → Nat.sqrt (4 * a' * (m * m) / R') = 2 * m := by
    intro h
    subst h
    have : 4 * a' * (m * m) / a' = (2 * m) * (2 * m) := by
      rw [show 4 * a' * (m * m) = a' * (2 * m * (2 * m)) by ring]
      exact Nat.mul_div_cancel_left _ hR'pos
    rw [this, Nat.sqrt_eq]
  have hsign : (m : Int).sign * ((((Nat.sqrt (4 * a' * (m * m) / R') + 1) / 2 : Nat)) : Int)
      = (((Nat.sqrt (4 * a' * (m * m) / R') + 1) / 2 : Nat) : Int) := by
    rcases Nat.eq_zero_or_pos m with h0 | hpos
    · subst h0
      simp
    · rw [Int.sign_eq_one_of_pos (by omega), one_mul]
  refine ⟨min (1 + (((Nat.sqrt (4 * a' * (m * m) / R') + 1) / 2 : Nat) : Int)) nmax, ?_, ?_, ?_, ?_⟩
  · have hR0' : ¬ ((R' : Int) = 0) := by omega
    simp only [n_boxes_of, round_pow_half_mul, hm, ha', hR', Int.toNat_ofNat,
      Int.natAbs_ofNat, hsign]
    rw [if_neg hR0']
  · omega
  · omega
  · intro h
    have := hXeq (by omega)
    rw [this]
    omega


/-! ## Facts about the per-cell box assignment -/

/-- A loop that overwrites its result at every matching index ends with the
value of the last matching index. -/
theorem foldl_last_match (P : Nat → Prop) [DecidablePred P] (f : Nat → Int) (n k0 : Nat)
    (init : Int) (hk0 : k0 < n) (hP : P k0) (hlast : ∀ k, k0 < k → k < n → ¬ P k) :
    (List.range n).foldl (fun result k => if P k then f k else result) init = f k0 := by
  induction n with
  | zero => omega
  | succ n ih =>
    rw [List.range_succ, List.foldl_append]
    simp only [List.foldl_cons, List.foldl_nil]
    by_cases hn : k0 = n
    · subst hn
      rw [if_pos hP]
    · rw [if_neg (hlast n (by omega) (by omega))]
      exact ih (by omega) (fun k h1 h2 => hlast k h1 (by omega))

/-- The relative position `C = (1 - r)²` of a cell with positive distances
lies strictly between 0 and 1. -/
theorem box_C_range (d_gl d_cf : Int) (hgl : 0 < d_gl) (hcf : 0 < d_cf) :
    0 < (1 - (d_gl : ℚ) / ((d_gl + d_cf : Int) : ℚ)) ^ 2 ∧
    (1 - (d_gl : ℚ) / ((d_gl + d_cf : Int) : ℚ)) ^ 2 < 1 := by
  have h1 : (0 : ℚ) < d_gl := by exact_mod_cast hgl
  have h2 : (0 : ℚ) < d_cf := by exact_mod_cast hcf
  have hsum : (0 : ℚ) < ((d_gl + d_cf : Int) : ℚ) := by push_cast; linarith
  have hr0 : 0 < (d_gl : ℚ) / ((d_gl + d_cf : Int) : ℚ) := div_pos h1 hsum
  have hr1 : (d_gl : ℚ) / ((d_gl + d_cf : Int) : ℚ) < 1 := by
    rw [div_lt_one hsum]; push_cast; linarith
  constructor
  · apply pow_pos; linarith
  · nlinarith

/-- The band loop leaves a box index between 1 and `min(n, d_gl)`. -/
theorem box_of_cell_bounds (n d_gl d_cf : Int) (hn : 1 ≤ n) (hgl : 0 < d_gl) (hcf : 0 < d_cf) :
    1 ≤ box_of_cell n d_gl d_cf ∧ box_of_cell n d_gl d_cf ≤ min n d_gl := by
  obtain ⟨hC0, hC1⟩ := box_C_range d_gl d_cf hgl hcf
  unfold box_of_cell
  simp only []
  generalize (1 - (d_gl : ℚ) / ((d_gl + d_cf : Int) : ℚ)) ^ 2 = C at hC0 hC1
  have hnq : (0 : ℚ) < (n : ℚ) := by exact_mod_cast (by omega : 0 < n)
  have key : ∀ j : Nat, j ≤ n.toNat →
      let res := (List.range j).foldl
        (fun (result : Int) (k : Nat) =>
          if ((n - k - 1 : Int) : ℚ) / (n : ℚ) ≤ C ∧ C ≤ ((n - k : Int) : ℚ) / (n : ℚ) then
            min d_gl ((k : Int) + 1)
          else result) 0
      (res = 0 ∧ C < ((n - j : Int) : ℚ) / (n : ℚ)) ∨ (1 ≤ res ∧ res ≤ min (j : Int) d_gl) := by
    intro j
    induction j with
    | zero =>
      intro _
      left
      refine ⟨rfl, ?_⟩
      simp only [Nat.cast_zero, sub_zero]
      rw [div_self (ne_of_gt hnq)]
      exact hC1
    | succ j ih =>
      intro hj
      have ih' := ih (by omega)
      simp only [] at ih' ⊢
      rw [List.range_succ, List.foldl_append]
      simp only [List.foldl_cons, List.foldl_nil]
      split_ifs with htest
      · right
        constructor
        · omega
        · simp only [Nat.cast_add, Nat.cast_one]
          omega
      · rcases ih' with ⟨h0, hlt⟩ | ⟨h1, h2⟩
        · left
          refine ⟨h0, ?_⟩
          have hnot : ¬ (((n - j - 1 : Int) : ℚ) / (n : ℚ) ≤ C) := fun h => htest ⟨h, le_of_lt hlt⟩
          have := lt_of_not_le hnot
          have heq : ((n - (j + 1 : Nat) : Int) : ℚ) = ((n - j - 1 : Int) : ℚ) := by
            push_cast; ring
          rw [heq]
          exact this
        · right
          refine ⟨h1, ?_⟩
          simp only [Nat.cast_add, Nat.cast_one]
          omega
  have hfin := key n.toNat (le_refl _)
  simp only [] at hfin
  rcases hfin with ⟨_, hlt⟩ | ⟨h1, h2⟩
  · exfalso
    have : ((n - (n.toNat : Int) : Int) : ℚ) = 0 := by
      have : n - (n.toNat : Int) = 0 := by omega
      rw [this]; simp
    rw [this, zero_div] at hlt
    linarith
  · refine ⟨h1, ?_⟩
    have : ((n.toNat : Nat) : Int) = n := by omega
    rw [this] at h2
    exact h2

/-- On the boundary shared by the bands `j` and `j + 1` both bands match, and
the loop, which runs through all bands, ends with the value of band `j + 1`. -/
theorem box_of_cell_boundary (n d_gl d_cf j : Int) (hj0 : 0 ≤ j) (hjn : j + 1 < n)
    (hC : (1 - (d_gl : ℚ) / ((d_gl + d_cf : Int) : ℚ)) ^ 2 = ((n - j - 1 : Int) : ℚ) / (n : ℚ)) :
    box_of_cell n d_gl d_cf = min d_gl (j + 2) := by
  unfold box_of_cell
  simp only []
  rw [hC]
  have hnq : (0 : ℚ) < (n : ℚ) := by exact_mod_cast (by omega : 0 < n)
  have h := foldl_last_match
    (fun k : Nat => ((n - k - 1 : Int) : ℚ) / (n : ℚ) ≤ ((n - j - 1 : Int) : ℚ) / (n : ℚ) ∧
      ((n - j - 1 : Int) : ℚ) / (n : ℚ) ≤ ((n - k : Int) : ℚ) / (n : ℚ))
    (fun k : Nat => min d_gl ((k : Int) + 1)) n.toNat (j.toNat + 1) 0 (by omega)
    (by
      constructor
      · rw [div_le_div_iff_of_pos_right hnq]
        exact_mod_cast (by omega : n - ((j.toNat + 1 : Nat) : Int) - 1 ≤ n - j - 1)
      · rw [div_le_div_iff_of_pos_right hnq]
        exact_mod_cast (by omega : n - j - 1 ≤ n - ((j.toNat + 1 : Nat) : Int)))
    (by
      intro k hk1 _ hcon
      have := hcon.2
      rw [div_le_div_iff_of_pos_right hnq] at this
      have h' : n - j - 1 ≤ n - (k : Int) := by exact_mod_cast this
      omega)
  rw [h]
  have : ((j.toNat + 1 : Nat) : Int) + 1 = j + 2 := by omega
  simp only [this]


theorem getD_map_n_boxes (glmax : List Int) (f : Int → Option Int) (k : Nat)
    (hk : k < glmax.length) : (glmax.map f).getD k none = f (glmax.getD k 0) := by
  rw [List.getD_eq_getElem?_getD, List.getElem?_map, List.getElem?_eq_getElem hk,
    List.getD_eq_getElem _ _ hk]
  rfl

/-- What the second per-cell loop does at one cell, once the box count of its
shelf is known to be defined. -/
theorem assign_box_cases (glmax : List Int) (nmax R d_gl d_cf shelf_id : Int)
    (hk : shelf_id.toNat < glmax.length) (hR : 0 < d_gl → 0 < shelf_id → R ≠ 0) :
    (¬ (shelf_id > 0 ∧ d_gl > 0 ∧ d_cf > 0) ∧
      assign_box (glmax.map (n_boxes_of nmax R)) d_gl d_cf shelf_id = some 0) ∨
    ((shelf_id > 0 ∧ d_gl > 0 ∧ d_cf > 0) ∧
      ∃ n, (glmax.map (n_boxes_of nmax R)).getD shelf_id.toNat none = some n ∧
        n_boxes_of nmax R (glmax.getD shelf_id.toNat 0) = some n ∧
        assign_box (glmax.map (n_boxes_of nmax R)) d_gl d_cf shelf_id
          = some (box_of_cell n d_gl d_cf)) := by
  by_cases hc : shelf_id > 0 ∧ d_gl > 0 ∧ d_cf > 0
  · right
    refine ⟨hc, ?_⟩
    have hR0 : R ≠ 0 := hR hc.2.1 hc.1
    have hget := getD_map_n_boxes glmax (n_boxes_of nmax R) _ hk
    have hsome : ∃ n, n_boxes_of nmax R (glmax.getD shelf_id.toNat 0) = some n := by
      simp only [n_boxes_of, hR0, if_false]
      exact ⟨_, rfl⟩
    obtain ⟨n, hn⟩ := hsome
    refine ⟨n, by rw [hget, hn], hn, ?_⟩
    unfold assign_box
    rw [if_pos hc, hget, hn]
  · left
    refine ⟨hc, ?_⟩
    unfold assign_box
    rw [if_neg hc]

/-- `compute_box_mask` succeeds when no shelf id is negative; its result at a
cell is the third loop applied to what the second loop assigned there. -/
theorem compute_box_mask_ok (g : IceGrid) (nmax : Int)
    (D_gl D_cf shelf_mask lake_mask : IceModelVec2Int)
    (hshelf : ∀ i j, i < g.Mx → j < g.My → 0 ≤ shelf_mask.get i j) :
    ∃ (glmax : List Int) (R : Int) (r : IceModelVec2Int),
      box_counts g nmax D_gl D_cf shelf_mask = .ok (glmax, R, glmax.map (n_boxes_of nmax R)) ∧
      compute_box_mask g nmax D_gl D_cf shelf_mask lake_mask = .ok r ∧
      r.WF g ∧ (∀ k, glmax.getD k 0 ≤ R) ∧ (∀ k, 0 ≤ glmax.getD k 0) ∧
      (∀ i j, i < g.Mx → j < g.My →
        shelf_mask.get i j > 0 → D_gl.get i j > 0 → 0 < R) ∧
      (∀ i j, i < g.Mx → j < g.My → (shelf_mask.get i j).toNat < glmax.length) ∧
      ∀ i j, i < g.Mx → j < g.My →
        ∃ b, assign_box (glmax.map (n_boxes_of nmax R)) (D_gl.get i j) (D_cf.get i j)
              (shelf_mask.get i j) = some b ∧
          r.get i j = mark_unassigned (shelf_mask.get i j) (lake_mask.get i j) b := by
  obtain ⟨glmax, R, h1, hlen, -, hle, hnn, hcell, -⟩ :=
    box_counts_ok g nmax D_gl D_cf shelf_mask hshelf
  have hRpos : ∀ i j, i < g.Mx → j < g.My →
      shelf_mask.get i j > 0 → D_gl.get i j > 0 → 0 < R := by
    intro i j hi hj hs hd
    have h2 := hcell i j hi hj hs
    have h3 := hle (shelf_mask.get i j).toNat
    omega
  have hidx : ∀ i j, i < g.Mx → j < g.My → (shelf_mask.get i j).toNat < glmax.length := by
    intro i j hi hj
    have h2 := le_range_max (g := g) (m := shelf_mask) hi hj
    have h3 := hshelf i j hi hj
    omega
  have hsome : ∀ i j, i < g.Mx → j < g.My →
      ∃ b, assign_box (glmax.map (n_boxes_of nmax R)) (D_gl.get i j) (D_cf.get i j)
            (shelf_mask.get i j) = some b := by
    intro i j hi hj
    rcases assign_box_cases glmax nmax R (D_gl.get i j) (D_cf.get i j) (shelf_mask.get i j)
      (hidx i j hi hj) (fun hd hs => ne_of_gt (hRpos i j hi hj hs hd)) with ⟨_, h⟩ | ⟨_, n, _, _, h⟩
    · exact ⟨_, h⟩
    · exact ⟨_, h⟩
  have hall : (g.points.all fun p =>
      (assign_box (glmax.map (n_boxes_of nmax R)) (D_gl.get p.1 p.2) (D_cf.get p.1 p.2)
        (shelf_mask.get p.1 p.2)).isSome) = true := by
    rw [List.all_eq_true]
    intro p hp
    obtain ⟨b, hb⟩ := hsome p.1 p.2 (mem_points.1 hp).1 (mem_points.1 hp).2
    rw [hb]
    rfl
  obtain ⟨r, hr⟩ : ∃ r : IceModelVec2Int, r = g.tabulate fun i j =>
      mark_unassigned (shelf_mask.get i j) (lake_mask.get i j)
        ((assign_box (glmax.map (n_boxes_of nmax R)) (D_gl.get i j) (D_cf.get i j)
          (shelf_mask.get i j)).getD 0) := ⟨_, rfl⟩
  refine ⟨glmax, R, r, h1, ?_, by rw [hr]; exact WF_tabulate g _, hle, hnn, hRpos, hidx, ?_⟩
  · simp only [compute_box_mask, h1]
    rw [if_pos hall, hr]
  · intro i j hi hj
    obtain ⟨b, hb⟩ := hsome i j hi hj
    refine ⟨b, hb, ?_⟩
    rw [hr, get_tabulate _ hi hj, hb]
    rfl

theorem mark_unassigned_pos (shelf_id lake b : Int) (hb : 1 ≤ b) :
    mark_unassigned shelf_id lake b = b := by
  unfold mark_unassigned
  rw [if_neg]
  intro h
  omega


/-! ## The box count against the formula over the reals -/

/-- The integer evaluation through `Nat.sqrt` is the rounding of
`sqrt(a / R) * m` to the nearest integer. -/
theorem round_sqrt_nat (a R m : Nat) (hR : 0 < R) :
    round (Real.sqrt ((a : ℝ) / (R : ℝ)) * (m : ℝ))
      = (((Nat.sqrt (4 * a * (m * m) / R) + 1) / 2 : Nat) : Int) := by
  have hRr : (0 : ℝ) < (R : ℝ) := by exact_mod_cast hR
  have hq0 : (0 : ℝ) ≤ (a : ℝ) / (R : ℝ) := div_nonneg (Nat.cast_nonneg _) (le_of_lt hRr)
  have hy0 : 0 ≤ Real.sqrt ((a : ℝ) / (R : ℝ)) * (m : ℝ) :=
    mul_nonneg (Real.sqrt_nonneg _) (Nat.cast_nonneg _)
  have hysq : (2 * (Real.sqrt ((a : ℝ) / (R : ℝ)) * (m : ℝ))) ^ 2
      = 4 * (a : ℝ) * ((m : ℝ) * (m : ℝ)) / (R : ℝ) := by
    rw [mul_pow, mul_pow, Real.sq_sqrt hq0]
    field_simp
    ring
  have hN1 : ((4 * a * (m * m) / R : Nat) : ℝ) ≤ 4 * (a : ℝ) * ((m : ℝ) * (m : ℝ)) / (R : ℝ) := by
    rw [le_div_iff₀ hRr]
    exact_mod_cast Nat.div_mul_le_self (4 * a * (m * m)) R
  have hN2 : 4 * (a : ℝ) * ((m : ℝ) * (m : ℝ)) / (R : ℝ) < ((4 * a * (m * m) / R : Nat) : ℝ) + 1 := by
    rw [div_lt_iff₀ hRr]
    have := Nat.lt_mul_div_succ (4 * a * (m * m)) hR
    have h' : ((4 * a * (m * m) : Nat) : ℝ) < ((R * (4 * a * (m * m) / R + 1) : Nat) : ℝ) := by
      exact_mod_cast this
    push_cast at h' ⊢
    linarith
  have hs1 : ((Nat.sqrt (4 * a * (m * m) / R) : Nat) : ℝ) ^ 2 ≤ ((4 * a * (m * m) / R : Nat) : ℝ) := by
    exact_mod_cast Nat.sqrt_le' (4 * a * (m * m) / R)
  have hs2 : ((4 * a * (m * m) / R : Nat) : ℝ) + 1
      ≤ (((Nat.sqrt (4 * a * (m * m) / R) : Nat) : ℝ) + 1) ^ 2 := by
    have := Nat.lt_succ_sqrt' (4 * a * (m * m) / R)
    have h' : (4 * a * (m * m) / R) + 1 ≤ (Nat.sqrt (4 * a * (m * m) / R) + 1) ^ 2 := this
    exact_mod_cast h'
  generalize Nat.sqrt (4 * a * (m * m) / R) = s at hs1 hs2 ⊢
  generalize Real.sqrt ((a : ℝ) / (R : ℝ)) * (m : ℝ) = y at hy0 hysq ⊢
  have hsy : (s : ℝ) ≤ 2 * y := by
    have h1 : (s : ℝ) ^ 2 ≤ (2 * y) ^ 2 := by rw [hysq]; linarith
    exact (abs_le_of_sq_le_sq' h1 (by linarith)).2
  have hys : 2 * y < (s : ℝ) + 1 := by
    have h1 : (2 * y) ^ 2 < ((s : ℝ) + 1) ^ 2 := by rw [hysq]; linarith
    exact lt_of_pow_lt_pow_left₀ 2 (by positivity) h1
  rw [round_eq, Int.floor_eq_iff]
  have hX1 : 2 * ((s + 1) / 2) ≤ s + 1 := by omega
  have hX2 : s + 1 ≤ 2 * ((s + 1) / 2) + 1 := by omega
  have hX1r : 2 * (((s + 1) / 2 : Nat) : ℝ) ≤ (s : ℝ) + 1 := by exact_mod_cast hX1
  have hX2r : (s : ℝ) + 1 ≤ 2 * (((s + 1) / 2 : Nat) : ℝ) + 1 := by exact_mod_cast hX2
  constructor
  · simp only [Int.cast_natCast]
    linarith
  · simp only [Int.cast_natCast]
    linarith

theorem round_pow_half_mul_eq (a R m : Int) (ha : 0 ≤ a) (hR : 0 < R) (hm : 0 ≤ m) :
    round_pow_half_mul a R m = round (((a : ℝ) / (R : ℝ)) ^ ((1 : ℝ) / 2) * (m : ℝ)) := by
  obtain ⟨a', rfl⟩ : ∃ a' : Nat, a = (a' : Int) := ⟨a.toNat, by omega⟩
  obtain ⟨R', rfl⟩ : ∃ R' : Nat, R = (R' : Int) := ⟨R.toNat, by omega⟩
  obtain ⟨m', rfl⟩ : ∃ m' : Nat, m = (m' : Int) := ⟨m.toNat, by omega⟩
  have hR' : 0 < R' := by omega
  rw [← Real.sqrt_eq_rpow]
  have h := round_sqrt_nat a' R' m' hR'
  simp only [Int.cast_natCast]
  rw [h]
  unfold round_pow_half_mul
  simp only [Int.toNat_ofNat, Int.natAbs_ofNat]
  rcases Nat.eq_zero_or_pos m' with h0 | hpos
  · subst h0
    simp
  · rw [Int.sign_eq_one_of_pos (by omega), one_mul]


/-! ## Point updates -/

theorem WF_put (g : IceGrid) (m : IceModelVec2Int) (hwf : m.WF g) (i j : Nat) (v : Int)
    (hj : j < g.My) : (m.put i j v).WF g := by
  obtain ⟨h1, h2⟩ := hwf
  constructor
  · simp [IceModelVec2Int.put, h1]
  · intro row hrow
    rcases List.mem_or_eq_of_mem_set hrow with h | h
    · exact h2 row h
    · rw [h, List.length_set]
      have hjl : j < m.length := by omega
      rw [List.getD_eq_getElem _ _ hjl]
      exact h2 _ (List.getElem_mem _)

theorem get_put (g : IceGrid) (m : IceModelVec2Int) (hwf : m.WF g) (i j : Nat) (v : Int)
    (hi : i < g.Mx) (hj : j < g.My) (i' j' : Nat) :
    (m.put i j v).get i' j' = if i' = i ∧ j' = j then v else m.get i' j' := by
  obtain ⟨h1, h2⟩ := hwf
  have hjl : j < m.length := by omega
  have hrow : (m.getD j []).length = g.Mx := by
    rw [List.getD_eq_getElem _ _ hjl]
    exact h2 _ (List.getElem_mem _)
  unfold IceModelVec2Int.get IceModelVec2Int.put
  rw [getD_set_eq]
  by_cases hjj : j = j'
  · subst hjj
    rw [if_pos ⟨rfl, hjl⟩, getD_set_eq]
    by_cases hii : i = i'
    · subst hii
      rw [if_pos ⟨rfl, by omega⟩, if_pos ⟨rfl, rfl⟩]
    · rw [if_neg (fun h => hii h.1), if_neg (fun h => hii h.1.symm)]
  · rw [if_neg (fun h => hjj h.1), if_neg (fun h => hjj h.2.symm)]

/-! ## One sweep of the wavefront solver -/

theorem resolve_in_grid (g : IceGrid) (gm : GhostMap)
    (hgm : ∀ i j, (gm i j).1 < g.Mx ∧ (gm i j).2 < g.My) (i j : Int) :
    (resolve g gm i j).1 < g.Mx ∧ (resolve g gm i j).2 < g.My := by
  unfold resolve
  split_ifs with h
  · constructor
    · show i.toNat < g.Mx
      omega
    · show j.toNat < g.My
      omega
  · exact hgm i j

theorem neighbours_in_grid (g : IceGrid) (gm : GhostMap)
    (hgm : ∀ i j, (gm i j).1 < g.Mx ∧ (gm i j).2 < g.My) (p q : Nat × Nat)
    (hq : q ∈ neighbours g gm p) : q.1 < g.Mx ∧ q.2 < g.My := by
  simp only [neighbours, List.mem_cons, List.mem_singleton, List.not_mem_nil, or_false] at hq
  rcases hq with h | h | h | h <;> rw [h] <;> exact resolve_in_grid g gm hgm _ _

/-- Reading with up-to-date ghosts is reading the resolved owned cell. -/
theorem read_self (g : IceGrid) (gm : GhostMap) (m : IceModelVec2Int) (i j : Int) :
    read g gm m m i j = m.get (resolve g gm i j).1 (resolve g gm i j).2 := by
  unfold read resolve
  split_ifs <;> rfl

theorem has_neighbour_iff (g : IceGrid) (gm : GhostMap) (m : IceModelVec2Int) (L : Int)
    (p : Nat × Nat) :
    has_neighbour g gm m L p ↔
      (read g gm m m p.1 ((p.2 : Int) + 1) = L ∨ read g gm m m p.1 ((p.2 : Int) - 1) = L ∨
        read g gm m m ((p.1 : Int) + 1) p.2 = L ∨ read g gm m m ((p.1 : Int) - 1) p.2 = L) := by
  simp only [has_neighbour, neighbours, List.mem_cons, List.mem_singleton, List.not_mem_nil,
    or_false, read_self]
  constructor
  · rintro ⟨q, hq | hq | hq | hq, hL⟩ <;> subst hq
    · exact Or.inl hL
    · exact Or.inr (Or.inl hL)
    · exact Or.inr (Or.inr (Or.inl hL))
    · exact Or.inr (Or.inr (Or.inr hL))
  · rintro (h | h | h | h)
    · exact ⟨_, Or.inl rfl, h⟩
    · exact ⟨_, Or.inr (Or.inl rfl), h⟩
    · exact ⟨_, Or.inr (Or.inr (Or.inl rfl)), h⟩
    · exact ⟨_, Or.inr (Or.inr (Or.inr rfl)), h⟩


/-- During a sweep a cell holds `L` in the current state iff it did at the
start of the sweep. -/
theorem SweepInv_eq_label (g : IceGrid) (gm : GhostMap) (L : Int) (m : IceModelVec2Int)
    (done : List (Nat × Nat)) (st : IceModelVec2Int × Bool) (hL : 1 ≤ L)
    (hinv : SweepInv g gm L m done st) (i j : Int) :
    read g gm m st.1 i j = L ↔ read g gm m m i j = L := by
  unfold read
  split_ifs with h
  · have h1 : i.toNat < g.Mx := by omega
    have h2 : j.toNat < g.My := by omega
    obtain ⟨ha, hb⟩ := hinv.2.1 (i.toNat, j.toNat) h1 h2
    by_cases hc : (i.toNat, j.toNat) ∈ done ∧ m.get i.toNat j.toNat = 0 ∧
        has_neighbour g gm m L (i.toNat, j.toNat)
    · have h3 := ha hc
      have h4 := hc.2.1
      simp only at h3 h4
      constructor <;> intro h5 <;> omega
    · have h3 := hb hc
      simp only at h3
      rw [h3]
  · exact Iff.rfl

theorem SweepInv_visit (g : IceGrid) (gm : GhostMap) (L : Int) (m : IceModelVec2Int)
    (done : List (Nat × Nat)) (st : IceModelVec2Int × Bool) (p : Nat × Nat) (hL : 1 ≤ L)
    (hp1 : p.1 < g.Mx) (hp2 : p.2 < g.My) (hinv : SweepInv g gm L m done st) :
    SweepInv g gm L m (done ++ [p]) (eikonal_visit g gm L m st p) := by
  have hnb : (read g gm m st.1 p.1 ((p.2 : Int) + 1) = L ∨
      read g gm m st.1 p.1 ((p.2 : Int) - 1) = L ∨
      read g gm m st.1 ((p.1 : Int) + 1) p.2 = L ∨
      read g gm m st.1 ((p.1 : Int) - 1) p.2 = L) ↔ has_neighbour g gm m L p := by
    rw [has_neighbour_iff, SweepInv_eq_label g gm L m done st hL hinv,
      SweepInv_eq_label g gm L m done st hL hinv, SweepInv_eq_label g gm L m done st hL hinv,
      SweepInv_eq_label g gm L m done st hL hinv]
  have hself : read g gm m st.1 (p.1 : Int) (p.2 : Int) = st.1.get p.1 p.2 := by
    unfold read
    rw [if_pos ⟨by omega, by omega, by omega, by omega⟩]
    simp
  obtain ⟨hwf, hcells, hflag⟩ := hinv
  obtain ⟨hpa, hpb⟩ := hcells p hp1 hp2
  unfold eikonal_visit
  simp only [hself]
  by_cases h0 : st.1.get p.1 p.2 = 0
  · rw [if_pos h0]
    have hm0 : m.get p.1 p.2 = 0 ∧
        ¬ (p ∈ done ∧ m.get p.1 p.2 = 0 ∧ has_neighbour g gm m L p) := by
      by_cases hc : p ∈ done ∧ m.get p.1 p.2 = 0 ∧ has_neighbour g gm m L p
      · have := hpa hc
        omega
      · have := hpb hc
        exact ⟨by omega, hc⟩
    by_cases hn : has_neighbour g gm m L p
    · rw [if_pos ⟨h0, hnb.2 hn⟩]
      refine ⟨WF_put g _ hwf _ _ _ hp2, ?_, ?_⟩
      · intro q hq1 hq2
        simp only
        rw [get_put g _ hwf _ _ _ hp1 hp2]
        by_cases hqp : q.1 = p.1 ∧ q.2 = p.2
        · have hqp' : q = p := Prod.ext hqp.1 hqp.2
          subst hqp'
          rw [if_pos ⟨rfl, rfl⟩]
          exact ⟨fun _ => rfl, fun hc => absurd ⟨by simp, hm0.1, hn⟩ hc⟩
        · have hne : q ≠ p := fun h => hqp ⟨by rw [h], by rw [h]⟩
          rw [if_neg hqp]
          obtain ⟨hqa, hqb⟩ := hcells q hq1 hq2
          constructor
          · intro hc
            apply hqa
            refine ⟨?_, hc.2⟩
            rcases List.mem_append.1 hc.1 with h | h
            · exact h
            · exact absurd (List.mem_singleton.1 h) hne
          · intro hc
            apply hqb
            intro hc'
            exact hc ⟨List.mem_append_left _ hc'.1, hc'.2⟩
      · simp only [true_iff]
        exact ⟨p, by simp, hm0.1, hn⟩
    · rw [if_neg (fun h => hn (hnb.1 h.2))]
      refine ⟨hwf, ?_, ?_⟩
      · intro q hq1 hq2
        obtain ⟨hqa, hqb⟩ := hcells q hq1 hq2
        constructor
        · intro hc
          apply hqa
          refine ⟨?_, hc.2⟩
          rcases List.mem_append.1 hc.1 with h | h
          · exact h
          · rw [List.mem_singleton.1 h] at hc
            exact absurd hc.2.2 hn
        · intro hc
          apply hqb
          intro hc'
          exact hc ⟨List.mem_append_left _ hc'.1, hc'.2⟩
      · rw [hflag]
        constructor
        · rintro ⟨q, hq, hc⟩
          exact ⟨q, List.mem_append_left _ hq, hc⟩
        · rintro ⟨q, hq, hc⟩
          rcases List.mem_append.1 hq with h | h
          · exact ⟨q, h, hc⟩
          · rw [List.mem_singleton.1 h] at hc
            exact absurd hc.2 hn
  · rw [if_neg h0]
    have hcp : p ∈ done ∧ m.get p.1 p.2 = 0 ∧ has_neighbour g gm m L p ∨
        m.get p.1 p.2 ≠ 0 := by
      by_cases hc : p ∈ done ∧ m.get p.1 p.2 = 0 ∧ has_neighbour g gm m L p
      · exact Or.inl hc
      · right
        rw [← hpb hc]
        exact h0
    refine ⟨hwf, ?_, ?_⟩
    · intro q hq1 hq2
      obtain ⟨hqa, hqb⟩ := hcells q hq1 hq2
      constructor
      · intro hc
        apply hqa
        refine ⟨?_, hc.2⟩
        rcases List.mem_append.1 hc.1 with h | h
        · exact h
        · rw [List.mem_singleton.1 h] at hc ⊢
          rcases hcp with h' | h'
          · exact h'.1
          · exact absurd hc.2.1 h'
      · intro hc
        apply hqb
        intro hc'
        exact hc ⟨List.mem_append_left _ hc'.1, hc'.2⟩
    · rw [hflag]
      constructor
      · rintro ⟨q, hq, hc⟩
        exact ⟨q, List.mem_append_left _ hq, hc⟩
      · rintro ⟨q, hq, hc⟩
        rcases List.mem_append.1 hq with h | h
        · exact ⟨q, h, hc⟩
        · rw [List.mem_singleton.1 h] at hc
          rcases hcp with h' | h'
          · exact ⟨p, h'.1, hc⟩
          · exact absurd hc.1 h'

theorem SweepInv_foldl (g : IceGrid) (gm : GhostMap) (L : Int) (m : IceModelVec2Int)
    (hL : 1 ≤ L) (ps : List (Nat × Nat)) (hps : ∀ p ∈ ps, p.1 < g.Mx ∧ p.2 < g.My)
    (done : List (Nat × Nat)) (st : IceModelVec2Int × Bool)
    (hinv : SweepInv g gm L m done st) :
    SweepInv g gm L m (done ++ ps) (ps.foldl (eikonal_visit g gm L m) st) := by
  induction ps generalizing done st with
  | nil => simpa using hinv
  | cons p ps ih =>
    have hp := hps p (List.mem_cons_self _ _)
    have h := ih (fun q hq => hps q (List.mem_cons_of_mem _ hq)) (done ++ [p])
      (eikonal_visit g gm L m st p) (SweepInv_visit g gm L m done st p hL hp.1 hp.2 hinv)
    simpa using h

/-- One round of the solver is a synchronous update: every cell that is 0 and
has an edge neighbour at `L` gets `L + 1`, nothing else changes, and
`continue_loop` is set iff some cell was updated. -/
theorem eikonal_sweep_spec (g : IceGrid) (gm : GhostMap) (L : Int) (m : IceModelVec2Int)
    (hL : 1 ≤ L) (hwf : m.WF g) :
    (eikonal_sweep g gm L m).1.WF g ∧
    (∀ p : Nat × Nat, p.1 < g.Mx → p.2 < g.My →
      ((m.get p.1 p.2 = 0 ∧ has_neighbour g gm m L p) →
        (eikonal_sweep g gm L m).1.get p.1 p.2 = L + 1) ∧
      (¬ (m.get p.1 p.2 = 0 ∧ has_neighbour g gm m L p) →
        (eikonal_sweep g gm L m).1.get p.1 p.2 = m.get p.1 p.2)) ∧
    ((eikonal_sweep g gm L m).2 = true ↔
      ∃ p : Nat × Nat, p.1 < g.Mx ∧ p.2 < g.My ∧ m.get p.1 p.2 = 0 ∧
        has_neighbour g gm m L p) := by
  have h0 : SweepInv g gm L m [] (m, false) := by
    refine ⟨hwf, ?_, ?_⟩
    · intro p _ _
      exact ⟨fun hc => absurd hc.1 (List.not_mem_nil _), fun _ => rfl⟩
    · simp
  have h := SweepInv_foldl g gm L m hL g.points (fun p hp => mem_points.1 hp) [] (m, false) h0
  simp only [List.nil_append] at h
  obtain ⟨h1, h2, h3⟩ := h
  refine ⟨h1, ?_, ?_⟩
  · intro p hp1 hp2
    obtain ⟨ha, hb⟩ := h2 p hp1 hp2
    exact ⟨fun hc => ha ⟨mem_points.2 ⟨hp1, hp2⟩, hc⟩, fun hc => hb (fun hc' => hc hc'.2)⟩
  · unfold eikonal_sweep
    rw [h3]
    constructor
    · rintro ⟨p, hp, hc⟩
      exact ⟨p, (mem_points.1 hp).1, (mem_points.1 hp).2, hc⟩
    · rintro ⟨p, hp1, hp2, hc⟩
      exact ⟨p, mem_points.2 ⟨hp1, hp2⟩, hc⟩


/-! ## The wavefront computes the grid distance -/

theorem SeedPath_start (g : IceGrid) (gm : GhostMap) (m : IceModelVec2Int) (k : Nat)
    (p : Nat × Nat) (h : SeedPath g gm m k p) :
    1 ≤ k ∧ p.1 < g.Mx ∧ p.2 < g.My ∧ m.get p.1 p.2 = 0 := by
  cases h with
  | last h1 h2 h3 _ _ => exact ⟨le_refl _, h1, h2, h3⟩
  | step h1 h2 h3 _ _ => exact ⟨by omega, h1, h2, h3⟩

theorem SeedPath_inv (g : IceGrid) (gm : GhostMap) (m : IceModelVec2Int) (k : Nat)
    (p : Nat × Nat) (h : SeedPath g gm m k p) :
    (k = 1 ∧ ∃ q, q ∈ neighbours g gm p ∧ m.get q.1 q.2 = 1) ∨
    (∃ k' q, k = k' + 1 ∧ q ∈ neighbours g gm p ∧ SeedPath g gm m k' q) := by
  cases h with
  | last _ _ _ hq hq1 => exact Or.inl ⟨rfl, _, hq, hq1⟩
  | step _ _ _ hq hqpath => exact Or.inr ⟨_, _, rfl, hq, hqpath⟩

theorem MinPath_exists (g : IceGrid) (gm : GhostMap) (m : IceModelVec2Int) (k : Nat)
    (p : Nat × Nat) (h : SeedPath g gm m k p) : ∃ k', k' ≤ k ∧ MinPath g gm m k' p := by
  induction k using Nat.strong_induction_on with
  | _ k ih =>
    by_cases hmin : ∀ k', k' < k → ¬ SeedPath g gm m k' p
    · exact ⟨k, le_refl _, h, hmin⟩
    · push_neg at hmin
      obtain ⟨k', hk', hp⟩ := hmin
      obtain ⟨k'', hk'', hmp⟩ := ih k' hk' hp
      exact ⟨k'', by omega, hmp⟩

/-- For a cell that is still 0 at the start of round `L`, having a neighbour
at `L` is the same as having a seed path of exactly `L` steps. -/
theorem has_neighbour_iff_path (g : IceGrid) (gm : GhostMap) (m0 m : IceModelVec2Int) (L : Nat)
    (hgm : ∀ i j, (gm i j).1 < g.Mx ∧ (gm i j).2 < g.My)
    (hvals : ∀ i j, i < g.Mx → j < g.My → m0.get i j = -1 ∨ m0.get i j = 0 ∨ m0.get i j = 1)
    (hL : 1 ≤ L) (hinv : WaveInv g gm m0 L m) (p : Nat × Nat)
    (hp1 : p.1 < g.Mx) (hp2 : p.2 < g.My) (hp0 : m0.get p.1 p.2 = 0)
    (hmp : m.get p.1 p.2 = 0) :
    has_neighbour g gm m (L : Int) p ↔ SeedPath g gm m0 L p := by
  obtain ⟨-, hcells⟩ := hinv
  have hnone : ∀ k : Nat, k < L → ¬ SeedPath g gm m0 k p :=
    ((hcells p hp1 hp2).2 hp0).2.1.1 hmp
  constructor
  · rintro ⟨q, hq, hqL⟩
    obtain ⟨hq1, hq2⟩ := neighbours_in_grid g gm hgm p q hq
    obtain ⟨hqa, hqb⟩ := hcells q hq1 hq2
    by_cases hq0 : m0.get q.1 q.2 = 0
    · obtain ⟨hI1, -, hI3⟩ := hqb hq0
      have hL2 : 2 ≤ L := by
        rcases hI3 with h | ⟨k, hk1, hk2, hk⟩
        · omega
        · omega
      have hmin := (hI1 (L - 1) (by omega) (by omega)).1 (by rw [hqL]; omega)
      have := SeedPath.step hp1 hp2 hp0 hq hmin.1
      rwa [Nat.sub_add_cancel (by omega)] at this
    · have hqm := hqa hq0
      rcases hvals q.1 q.2 hq1 hq2 with h | h | h
      · omega
      · exact absurd h hq0
      · have hL1 : L = 1 := by omega
        rw [hL1]
        exact SeedPath.last hp1 hp2 hp0 hq h
  · intro hpath
    rcases SeedPath_inv g gm m0 L p hpath with ⟨hL1, q, hq, hq1⟩ | ⟨k, q, hk, hq, hqpath⟩
    · obtain ⟨hqg1, hqg2⟩ := neighbours_in_grid g gm hgm p q hq
      refine ⟨q, hq, ?_⟩
      rw [(hcells q hqg1 hqg2).1 (by omega), hq1, hL1]
      rfl
    · obtain ⟨hk1, hqg1, hqg2, hq0⟩ := SeedPath_start g gm m0 k q hqpath
      refine ⟨q, hq, ?_⟩
      have hmin : MinPath g gm m0 k q := by
        refine ⟨hqpath, ?_⟩
        intro k' hk' hc
        exact hnone (k' + 1) (by omega) (SeedPath.step hp1 hp2 hp0 hq hc)
      have := (((hcells q hqg1 hqg2).2 hq0).1 k hk1 (by omega)).2 hmin
      rw [this, hk]
      push_cast
      rfl

/-- One round takes the invariant for `L` to the invariant for `L + 1`. -/
theorem WaveInv_step (g : IceGrid) (gm : GhostMap) (m0 m : IceModelVec2Int) (L : Nat)
    (hgm : ∀ i j, (gm i j).1 < g.Mx ∧ (gm i j).2 < g.My)
    (hvals : ∀ i j, i < g.Mx → j < g.My → m0.get i j = -1 ∨ m0.get i j = 0 ∨ m0.get i j = 1)
    (hL : 1 ≤ L) (hinv : WaveInv g gm m0 L m) :
    WaveInv g gm m0 (L + 1) (eikonal_sweep g gm (L : Int) m).1 := by
  obtain ⟨hswf, hscells, -⟩ := eikonal_sweep_spec g gm (L : Int) m (by omega) hinv.1
  refine ⟨hswf, ?_⟩
  intro p hp1 hp2
  obtain ⟨hsa, hsb⟩ := hscells p hp1 hp2
  obtain ⟨hI0, hI⟩ := hinv.2 p hp1 hp2
  constructor
  · intro hne
    have hm := hI0 hne
    rw [hsb (fun hc => by omega), hm]
  · intro hp0
    obtain ⟨hI1, hI2, hI3⟩ := hI hp0
    by_cases hupd : m.get p.1 p.2 = 0 ∧ has_neighbour g gm m (L : Int) p
    · have hnew := hsa hupd
      have hpath : SeedPath g gm m0 L p :=
        (has_neighbour_iff_path g gm m0 m L hgm hvals hL hinv p hp1 hp2 hp0 hupd.1).1 hupd.2
      have hnone := hI2.1 hupd.1
      have hmin : MinPath g gm m0 L p := ⟨hpath, hnone⟩
      refine ⟨?_, ?_, ?_⟩
      · intro k hk1 hk2
        rw [hnew]
        constructor
        · intro hk
          have : k = L := by omega
          rw [this]
          exact hmin
        · intro hk
          by_cases hkL : k = L
          · rw [hkL]
          · exact absurd hk.1 (hnone k (by omega))
      · rw [hnew]
        constructor
        · intro h
          omega
        · intro h
          exact absurd hpath (h L (by omega))
      · right
        exact ⟨L, hL, by omega, hnew⟩
    · have hsame := hsb hupd
      refine ⟨?_, ?_, ?_⟩
      · intro k hk1 hk2
        rw [hsame]
        by_cases hkL : k = L
        · subst hkL
          constructor
          · intro hk
            rcases hI3 with h | ⟨k', _, hk'2, hk'⟩
            · omega
            · omega
          · intro hk
            exfalso
            have hm0 : m.get p.1 p.2 = 0 := hI2.2 hk.2
            exact hupd ⟨hm0,
              (has_neighbour_iff_path g gm m0 m k hgm hvals hL hinv p hp1 hp2 hp0 hm0).2 hk.1⟩
        · exact hI1 k hk1 (by omega)
      · rw [hsame]
        constructor
        · intro hm0 k hk
          by_cases hkL : k = L
          · subst hkL
            intro hc
            exact hupd ⟨hm0,
              (has_neighbour_iff_path g gm m0 m k hgm hvals hL hinv p hp1 hp2 hp0 hm0).2 hc⟩
          · exact hI2.1 hm0 k (by omega)
        · intro h
          exact hI2.2 (fun k hk => h k (by omega))
      · rw [hsame]
        rcases hI3 with h | ⟨k, hk1, hk2, hk⟩
        · exact Or.inl h
        · exact Or.inr ⟨k, hk1, by omega, hk⟩

theorem WaveInv_init (g : IceGrid) (gm : GhostMap) (m0 : IceModelVec2Int) (hwf : m0.WF g) :
    WaveInv g gm m0 1 m0 := by
  refine ⟨hwf, ?_⟩
  intro p _ _
  refine ⟨fun _ => rfl, fun hp0 => ⟨?_, ?_, Or.inl hp0⟩⟩
  · intro k hk1 hk2
    omega
  · constructor
    · intro _ k hk hc
      have := (SeedPath_start g gm m0 k p hc).1
      omega
    · intro _
      exact hp0


theorem countP_lt_of {α : Type} (l : List α) (P Q : α → Bool)
    (h : ∀ x ∈ l, P x = true → Q x = true)
    (hx : ∃ x ∈ l, Q x = true ∧ P x = false) : l.countP P < l.countP Q := by
  induction l with
  | nil =>
    obtain ⟨x, hx, _⟩ := hx
    exact absurd hx (List.not_mem_nil _)
  | cons a l ih =>
    have hle : l.countP P ≤ l.countP Q :=
      List.countP_mono_left (fun x hx hp => h x (List.mem_cons_of_mem _ hx) hp)
    have ha := h a (List.mem_cons_self _ _)
    rw [List.countP_cons, List.countP_cons]
    obtain ⟨x, hxm, hxq, hxp⟩ := hx
    rcases List.mem_cons.1 hxm with rfl | hxl
    · simp only [hxq, hxp, if_true]
      simp
      omega
    · have hlt := ih (fun y hy => h y (List.mem_cons_of_mem _ hy)) ⟨x, hxl, hxq, hxp⟩
      cases hpa : P a
      · simp
        split_ifs <;> omega
      · rw [ha hpa]
        simp
        omega

/-- A round that updates a cell leaves fewer cells at 0. -/
theorem count_zero_lt (g : IceGrid) (m m' : IceModelVec2Int)
    (hmono : ∀ p : Nat × Nat, p.1 < g.Mx → p.2 < g.My → m'.get p.1 p.2 = 0 → m.get p.1 p.2 = 0)
    (hex : ∃ p : Nat × Nat, p.1 < g.Mx ∧ p.2 < g.My ∧ m.get p.1 p.2 = 0 ∧ m'.get p.1 p.2 ≠ 0) :
    g.count m' 0 < g.count m 0 := by
  unfold IceGrid.count IceGrid.values
  rw [List.count_eq_countP, List.count_eq_countP, List.countP_map, List.countP_map]
  apply countP_lt_of
  · intro p hp h
    simp only [Function.comp, beq_iff_eq] at h ⊢
    exact hmono p (mem_points.1 hp).1 (mem_points.1 hp).2 h
  · obtain ⟨p, hp1, hp2, h1, h2⟩ := hex
    refine ⟨p, mem_points.2 ⟨hp1, hp2⟩, ?_, ?_⟩
    · simp only [Function.comp, beq_iff_eq]
      exact h1
    · simp only [Function.comp, beq_eq_false_iff_ne, ne_eq]
      exact h2

theorem count_le_cells (g : IceGrid) (m : IceModelVec2Int) (k : Int) :
    g.count m k ≤ g.Mx * g.My := by
  unfold IceGrid.count
  have := List.count_le_length k (g.values m)
  rw [IceGrid.values, List.length_map, length_points] at this
  exact this

/-- With more fuel than cells at 0 the loop returns; at exit the invariant
holds for the label `L'` of the last round, in which no cell was updated. -/
theorem eikonal_loop_spec (g : IceGrid) (gm : GhostMap) (m0 : IceModelVec2Int)
    (hgm : ∀ i j, (gm i j).1 < g.Mx ∧ (gm i j).2 < g.My)
    (hvals : ∀ i j, i < g.Mx → j < g.My → m0.get i j = -1 ∨ m0.get i j = 0 ∨ m0.get i j = 1)
    (fuel : Nat) :
    ∀ (L : Nat) (m : IceModelVec2Int), 1 ≤ L → WaveInv g gm m0 L m → g.count m 0 < fuel →
      ∃ (r : IceModelVec2Int) (L' : Nat),
        eikonal_loop g gm fuel (L : Int) m = some (r, (L' : Int) + 1) ∧ L ≤ L' ∧
        WaveInv g gm m0 L' r ∧
        ¬ ∃ p : Nat × Nat, p.1 < g.Mx ∧ p.2 < g.My ∧ r.get p.1 p.2 = 0 ∧
          has_neighbour g gm r (L' : Int) p := by
  induction fuel with
  | zero =>
    intro L m _ _ h
    omega
  | succ fuel ih =>
    intro L m hL hinv hfuel
    obtain ⟨hswf, hscells, hsflag⟩ := eikonal_sweep_spec g gm (L : Int) m (by omega) hinv.1
    by_cases hc : (eikonal_sweep g gm (L : Int) m).2 = true
    · have hnext := WaveInv_step g gm m0 m L hgm hvals hL hinv
      obtain ⟨p, hp1, hp2, hp0, hpn⟩ := hsflag.1 hc
      have hlt : g.count (eikonal_sweep g gm (L : Int) m).1 0 < g.count m 0 := by
        apply count_zero_lt
        · intro q hq1 hq2 hq0
          obtain ⟨ha, hb⟩ := hscells q hq1 hq2
          by_cases hu : m.get q.1 q.2 = 0 ∧ has_neighbour g gm m (L : Int) q
          · exact hu.1
          · rw [← hb hu]
            exact hq0
        · refine ⟨p, hp1, hp2, hp0, ?_⟩
          rw [(hscells p hp1 hp2).1 ⟨hp0, hpn⟩]
          omega
      obtain ⟨r, L', h1, h2, h3, h4⟩ := ih (L + 1) _ (by omega) hnext (by omega)
      refine ⟨r, L', ?_, by omega, h3, h4⟩
      simp only [eikonal_loop]
      rw [if_pos hc]
      have : ((L + 1 : Nat) : Int) = (L : Int) + 1 := by push_cast; rfl
      rw [← this]
      exact h1
    · have hsame : (eikonal_sweep g gm (L : Int) m).1 = m := by
        apply field_ext g _ _ hswf hinv.1
        intro i j hi hj
        apply (hscells (i, j) hi hj).2
        intro hu
        exact hc (hsflag.2 ⟨(i, j), hi, hj, hu⟩)
      refine ⟨m, L, ?_, le_refl _, hinv, ?_⟩
      · simp only [eikonal_loop]
        rw [if_neg hc, hsame]
      · intro hex
        exact hc (hsflag.2 hex)

/-- At exit every cell with a seed path holds one more than the length of
its shortest seed path. -/
theorem WaveInv_final (g : IceGrid) (gm : GhostMap) (m0 r : IceModelVec2Int) (L : Nat)
    (hgm : ∀ i j, (gm i j).1 < g.Mx ∧ (gm i j).2 < g.My)
    (hvals : ∀ i j, i < g.Mx → j < g.My → m0.get i j = -1 ∨ m0.get i j = 0 ∨ m0.get i j = 1)
    (hL : 1 ≤ L) (hinv : WaveInv g gm m0 L r)
    (hfin : ¬ ∃ p : Nat × Nat, p.1 < g.Mx ∧ p.2 < g.My ∧ r.get p.1 p.2 = 0 ∧
      has_neighbour g gm r (L : Int) p)
    (d : Nat) (p : Nat × Nat) (hmin : MinPath g gm m0 d p) :
    r.get p.1 p.2 = 1 + (d : Int) := by
  have hno : ∀ d : Nat, ∀ p : Nat × Nat, L ≤ d → MinPath g gm m0 d p → False := by
    intro d
    induction d using Nat.strong_induction_on with
    | _ d ih =>
      intro p hLd hmp
      obtain ⟨hd1, hp1, hp2, hp0⟩ := SeedPath_start g gm m0 d p hmp.1
      by_cases hdL : d = L
      · subst hdL
        have hr0 : r.get p.1 p.2 = 0 := ((hinv.2 p hp1 hp2).2 hp0).2.1.2 hmp.2
        exact hfin ⟨p, hp1, hp2, hr0,
          (has_neighbour_iff_path g gm m0 r d hgm hvals hL hinv p hp1 hp2 hp0 hr0).2 hmp.1⟩
      · rcases SeedPath_inv g gm m0 d p hmp.1 with ⟨h1, -⟩ | ⟨k, q, hk, hq, hqpath⟩
        · omega
        · obtain ⟨k', hk', hqmin⟩ := MinPath_exists g gm m0 k q hqpath
          by_cases hk'L : L ≤ k'
          · exact ih k' (by omega) q hk'L hqmin
          · exact hmp.2 (k' + 1) (by omega) (SeedPath.step hp1 hp2 hp0 hq hqmin.1)
  obtain ⟨hd1, hp1, hp2, hp0⟩ := SeedPath_start g gm m0 d p hmin.1
  have hdL : d < L := by
    by_contra hcon
    exact hno d p (by omega) hmin
  rw [(((hinv.2 p hp1 hp2).2 hp0).1 d hd1 hdL).2 hmin]
  omega

theorem periodic_in_grid (g : IceGrid) (hx : 0 < g.Mx) (hy : 0 < g.My) (i j : Int) :
    (periodic g i j).1 < g.Mx ∧ (periodic g i j).2 < g.My := by
  have hx' : (0 : Int) < (g.Mx : Int) := by omega
  have hy' : (0 : Int) < (g.My : Int) := by omega
  have h1 := Int.emod_nonneg i (ne_of_gt hx')
  have h2 := Int.emod_lt_of_pos i hx'
  have h3 := Int.emod_nonneg j (ne_of_gt hy')
  have h4 := Int.emod_lt_of_pos j hy'
  constructor
  · show (i % (g.Mx : Int)).toNat < g.Mx
    omega
  · show (j % (g.My : Int)).toNat < g.My
    omega

/-- C3. On every grid (whatever owned cells the ghosts mirror) and for every
input mask with values in `{-1, 0, 1}`, `eikonal_equation` returns as soon as
it is given more rounds than there are cells, and each cell that is initially
0 and has a path of initially-0 cells to a seed ends with `1 + d`, `d` the
least number of 4-neighbour steps of such a path. -/
theorem eikonal_equation_distance (g : IceGrid) (gm : GhostMap) (m0 : IceModelVec2Int)
    (hwf : m0.WF g) (hgm : ∀ i j, (gm i j).1 < g.Mx ∧ (gm i j).2 < g.My)
    (hvals : ∀ i j, i < g.Mx → j < g.My → m0.get i j = -1 ∨ m0.get i j = 0 ∨ m0.get i j = 1)
    (fuel : Nat) (hfuel : g.Mx * g.My < fuel) :
    ∃ r : IceModelVec2Int, eikonal_equation g gm fuel m0 = some r ∧
      ∀ (p : Nat × Nat) (d : Nat), SeedPath g gm m0 d p →
        (∀ k, k < d → ¬ SeedPath g gm m0 k p) → r.get p.1 p.2 = 1 + (d : Int) := by
  obtain ⟨r, L', h1, h2, h3, h4⟩ := eikonal_loop_spec g gm m0 hgm hvals fuel 1 m0 (le_refl _)
    (WaveInv_init g gm m0 hwf) (lt_of_le_of_lt (count_le_cells g m0 0) hfuel)
  refine ⟨r, ?_, ?_⟩
  · unfold eikonal_equation
    have : ((1 : Nat) : Int) = 1 := rfl
    rw [this] at h1
    rw [h1]
    rfl
  · intro p d hpath hmin
    exact WaveInv_final g gm m0 r L' hgm hvals h2 h3 h4 d p ⟨hpath, hmin⟩

/-- Witness for C3: a strip of ten interior cells with a seed next to one end
ends with 2, 3, …, 11 along the strip; the second interior cell, two steps
from the seed, holds 3. -/
theorem eikonal_equation_distance_witness :
    eikonal_equation ⟨12, 1⟩ (periodic ⟨12, 1⟩) 13 [[1, 0, 0, 0, 0, 0, 0, 0, 0, 0, 0, -1]]
      = some [[1, 2, 3, 4, 5, 6, 7, 8, 9, 10, 11, -1]] ∧
    ∃ r : IceModelVec2Int,
      eikonal_equation ⟨12, 1⟩ (periodic ⟨12, 1⟩) 13 [[1, 0, 0, 0, 0, 0, 0, 0, 0, 0, 0, -1]]
        = some r ∧ r.get 2 0 = 1 + ((2 : Nat) : Int) := by
  refine ⟨by decide, ?_⟩
  obtain ⟨r, hr, h⟩ := eikonal_equation_distance ⟨12, 1⟩ (periodic ⟨12, 1⟩)
    [[1, 0, 0, 0, 0, 0, 0, 0, 0, 0, 0, -1]] (by decide)
    (periodic_in_grid ⟨12, 1⟩ (by decide) (by decide))
    ((forall_cells ⟨12, 1⟩ _).2 (by decide)) 13 (by decide)
  refine ⟨r, hr, h (2, 0) 2 ?_ ?_⟩
  · exact SeedPath.step (q := (1, 0)) (by decide) (by decide) (by decide) (by decide)
      (SeedPath.last (q := (0, 0)) (by decide) (by decide) (by decide) (by decide) (by decide))
  · intro k hk hpath
    have hk1 := (SeedPath_start _ _ _ k (2, 0) hpath).1
    have hk' : k = 1 := by omega
    subst hk'
    rcases SeedPath_inv _ _ _ 1 (2, 0) hpath with ⟨-, q, hq, hq1⟩ | ⟨k', q, hk', -, hq⟩
    · have hall : ∀ q ∈ neighbours ⟨12, 1⟩ (periodic ⟨12, 1⟩) (2, 0),
          IceModelVec2Int.get [[1, 0, 0, 0, 0, 0, 0, 0, 0, 0, 0, -1]] q.1 q.2 ≠ 1 := by decide
      exact hall q hq hq1
    · have := (SeedPath_start _ _ _ k' q hq).1
      omega

/-! ## Labeling followed by `relabel_by_size` -/

theorem Connected4_mono (g : IceGrid) (S S' : Nat → Nat → Prop)
    (h : ∀ i j, i < g.Mx → j < g.My → S i j → S' i j) (p q : Nat × Nat) :
    Connected4 g S p q → Connected4 g S' p q := by
  intro hc
  refine Relation.ReflTransGen.mono ?_ hc
  rintro a b ⟨hadj, hb1, hb2, hS⟩
  exact ⟨hadj, hb1, hb2, h _ _ hb1 hb2 hS⟩

/-- A path from `p` never leaves the component of `p`. -/
theorem Connected4_within (g : IceGrid) (S : Nat → Nat → Prop) (p q : Nat × Nat)
    (h : Connected4 g S p q) :
    Connected4 g (fun i j => Connected4 g S p (i, j)) p q := by
  induction h with
  | refl => exact Relation.ReflTransGen.refl
  | @tail b c hpb hbc ih =>
    have hpc : Connected4 g S p c := Relation.ReflTransGen.tail hpb hbc
    exact Relation.ReflTransGen.tail ih ⟨hbc.1, hbc.2.1, hbc.2.2.1, hpc⟩

/-- No path crosses a column that lies outside `S`. -/
theorem Connected4_blocked_column (g : IceGrid) (S : Nat → Nat → Prop) (c : Nat)
    (hblock : ∀ j, j < g.My → ¬ S c j) (p q : Nat × Nat) (h : Connected4 g S p q) :
    (p.1 < c → q.1 < c) ∧ (c < p.1 → c < q.1) := by
  induction h with
  | refl => exact ⟨id, id⟩
  | @tail a b _ hstep ih =>
    obtain ⟨hadj, _, hb2, hS⟩ := hstep
    have hne : b.1 ≠ c := by
      intro hbc
      rw [hbc] at hS
      exact hblock b.2 hb2 hS
    unfold Adj4 at hadj
    constructor
    · intro hp
      have := ih.1 hp
      omega
    · intro hp
      have := ih.2 hp
      omega

/-- Labeling followed by `relabel_by_size`: the call succeeds, the result is
0 exactly on the background, and the cells holding 2 are one component of
non-zero cells, of largest size. -/
theorem relabel_labeled_spec (g : IceGrid) (seed lab : IceModelVec2Int)
    (hlab : IsComponentLabeling g seed lab) :
    ∃ t : IceModelVec2Int, relabel_by_size g lab = .ok t ∧ t.WF g ∧
      (∀ i j, i < g.Mx → j < g.My →
        (t.get i j = 0 ↔ seed.get i j = 0) ∧
        (t.get i j = 0 ∨ t.get i j = 1 ∨ t.get i j = 2)) ∧
      ((∃ i j, i < g.Mx ∧ j < g.My ∧ seed.get i j ≠ 0) →
        ∃ i j, i < g.Mx ∧ j < g.My ∧ t.get i j = 2) ∧
      ∀ p : Nat × Nat, p.1 < g.Mx → p.2 < g.My → t.get p.1 p.2 = 2 →
        seed.get p.1 p.2 ≠ 0 ∧
        (∀ q : Nat × Nat, q.1 < g.Mx → q.2 < g.My →
          (t.get q.1 q.2 = 2 ↔ Connected4 g (fun i j => seed.get i j ≠ 0) p q)) ∧
        (∀ q : Nat × Nat, q.1 < g.Mx → q.2 < g.My → seed.get q.1 q.2 ≠ 0 →
          Set.ncard {x : Nat × Nat | x.1 < g.Mx ∧ x.2 < g.My ∧
              Connected4 g (fun i j => seed.get i j ≠ 0) q x}
            ≤ Set.ncard {x : Nat × Nat | x.1 < g.Mx ∧ x.2 < g.My ∧
              Connected4 g (fun i j => seed.get i j ≠ 0) p x}) := by
  have hnn : ∀ i j, i < g.Mx → j < g.My → 0 ≤ lab.get i j := by
    intro i j hi hj
    obtain ⟨h1, h2⟩ := hlab.1 i j hi hj
    by_cases hz : seed.get i j = 0
    · rw [h1 hz]
    · exact le_of_lt (h2 hz)
  have hpos : ∀ i j, i < g.Mx → j < g.My → (0 < lab.get i j ↔ seed.get i j ≠ 0) := by
    intro i j hi hj
    obtain ⟨h1, h2⟩ := hlab.1 i j hi hj
    constructor
    · intro h hz
      rw [h1 hz] at h
      omega
    · exact h2
  obtain ⟨t, ht, hwf, hsup⟩ := relabel_by_size_support g lab hnn
  have hzero : ∀ i j, i < g.Mx → j < g.My → (t.get i j = 0 ↔ seed.get i j = 0) := by
    intro i j hi hj
    rw [(hsup i j hi hj).1]
    have := hpos i j hi hj
    have := hnn i j hi hj
    constructor
    · intro h
      by_contra hne
      have := (hpos i j hi hj).2 hne
      omega
    · intro h
      exact (hlab.1 i j hi hj).1 h
  refine ⟨t, ht, hwf, fun i j hi hj => ⟨hzero i j hi hj, (hsup i j hi hj).2⟩, ?_, ?_⟩
  · rintro ⟨i, j, hi, hj, hne⟩
    have hmax : 1 ≤ lab.range_max g := by
      have h1 := (hpos i j hi hj).2 hne
      have h2 := le_range_max (g := g) (m := lab) hi hj
      omega
    obtain ⟨area, hlen, h0, hcount, hr⟩ := relabel_by_size_unfold g lab hnn hmax
    obtain ⟨-, hbpos, -, -⟩ := find_biggest_principal g lab area hmax hlen h0 hcount
    rw [ht] at hr
    injection hr with hr
    obtain ⟨i', j', hi', hj', hb⟩ := count_pos_iff_cell.1 hbpos
    refine ⟨i', j', hi', hj', ?_⟩
    rw [hr, get_tabulate _ hi' hj', if_pos hb]
  · intro p hp1 hp2 hp
    have hps : seed.get p.1 p.2 ≠ 0 := by
      intro hz
      have := (hzero _ _ hp1 hp2).2 hz
      omega
    have hmax : 1 ≤ lab.range_max g := by
      have h1 := (hpos _ _ hp1 hp2).2 hps
      have h2 := le_range_max (g := g) (m := lab) hp1 hp2
      omega
    obtain ⟨area, hlen, h0, hcount, hr⟩ := relabel_by_size_unfold g lab hnn hmax
    obtain ⟨hb1, -, hbge, -⟩ := find_biggest_principal g lab area hmax hlen h0 hcount
    rw [ht] at hr
    injection hr with hr
    have ht2 : ∀ i j, i < g.Mx → j < g.My →
        (t.get i j = 2 ↔ lab.get i j = (find_biggest area : Int)) := by
      intro i j hi hj
      have := hnn i j hi hj
      rw [hr, get_tabulate _ hi hj]
      split_ifs with h1 h2 <;> constructor <;> intro h <;> omega
    have hpb : lab.get p.1 p.2 = (find_biggest area : Int) := (ht2 _ _ hp1 hp2).1 hp
    refine ⟨hps, ?_, ?_⟩
    · intro q hq1 hq2
      rw [ht2 _ _ hq1 hq2, ← hpb]
      exact label_eq_iff_connected g seed lab hlab p q hp1 hp2 hps hq1 hq2
    · intro q hq1 hq2 hq
      rw [component_ncard g seed lab hlab q hq1 hq2 hq,
        component_ncard g seed lab hlab p hp1 hp2 hps, hpb]
      exact hbge _ (by have := (hpos _ _ hq1 hq2).2 hq; omega)

/-- After labeling and `relabel_by_size` the cells holding 2 are joined to
each other by paths of cells holding 2. -/
theorem relabel_labeled_connected (g : IceGrid) (seed lab t : IceModelVec2Int)
    (hlab : IsComponentLabeling g seed lab) (ht : relabel_by_size g lab = .ok t) :
    PrincipalConnected g t := by
  obtain ⟨t', ht', -, -, -, hcomp⟩ := relabel_labeled_spec g seed lab hlab
  rw [ht] at ht'
  injection ht' with ht'
  subst ht'
  intro p q hp1 hp2 hq1 hq2 hp hq
  obtain ⟨-, hiff, -⟩ := hcomp p hp1 hp2 hp
  have hpath := (hiff q hq1 hq2).1 hq
  apply Connected4_mono g _ _ _ p q (Connected4_within g _ p q hpath)
  intro i j hi hj hc
  exact (hiff (i, j) hi hj).2 hc


/-- Without labeling every grounded cell is in the one component 1, so
`compute_ice_rises` marks exactly the grounded cells CONTINENTAL and no cell
RISE. -/
theorem ice_rises_no_labeling (lcc : Labeler) (g : IceGrid) (cell_type : IceModelVec2CellType) :
    ∃ r : IceModelVec2Int, compute_ice_rises lcc g cell_type false = .ok r ∧
      ∀ i j, i < g.Mx → j < g.My →
        (r.get i j = CONTINENTAL ↔ cell_type.grounded i j = true) ∧ r.get i j ≠ RISE := by
  have hseed : ∀ i j, i < g.Mx → j < g.My →
      (ice_rises_seed g cell_type).get i j = if cell_type.grounded i j = true then 1 else 0 := by
    intro i j hi hj
    simp only [ice_rises_seed, get_tabulate _ hi hj]
  have hnn : ∀ i j, i < g.Mx → j < g.My → 0 ≤ (ice_rises_seed g cell_type).get i j := by
    intro i j hi hj
    rw [hseed i j hi hj]
    split_ifs <;> simp
  by_cases hmax : 1 ≤ (ice_rises_seed g cell_type).range_max g
  · obtain ⟨area, hlen, h0, hcount, hr⟩ :=
      relabel_by_size_unfold g (ice_rises_seed g cell_type) hnn hmax
    obtain ⟨hb1, hbpos, -, -⟩ :=
      find_biggest_principal g (ice_rises_seed g cell_type) area hmax hlen h0 hcount
    have hb : (find_biggest area : Int) = 1 := by
      obtain ⟨i, j, hi, hj, hij⟩ := count_pos_iff_cell.1 hbpos
      rw [hseed i j hi hj] at hij
      split_ifs at hij
      · exact hij.symm
      · omega
    rw [hb] at hr
    obtain ⟨r, hrdef⟩ : ∃ r : IceModelVec2Int, r = g.tabulate fun i j =>
        if (g.tabulate fun i j =>
              if (ice_rises_seed g cell_type).get i j = 1 then 2
              else if (ice_rises_seed g cell_type).get i j > 0 then 1 else 0).get i j = 0
            ∧ cell_type.icy i j = true then FLOATING
        else (g.tabulate fun i j =>
              if (ice_rises_seed g cell_type).get i j = 1 then 2
              else if (ice_rises_seed g cell_type).get i j > 0 then 1 else 0).get i j := ⟨_, rfl⟩
    refine ⟨r, ?_, ?_⟩
    · simp only [compute_ice_rises, ice_rises_relabeled, Bool.false_eq_true, if_false, hr, hrdef]
    · intro i j hi hj
      rw [hrdef, get_tabulate _ hi hj, get_tabulate _ hi hj, hseed i j hi hj]
      simp only [CONTINENTAL, RISE, FLOATING]
      cases cell_type.grounded i j <;> cases cell_type.icy i j <;> simp
  · have hlt : (ice_rises_seed g cell_type).range_max g < 1 := by omega
    have hzero : ∀ i j, i < g.Mx → j < g.My → cell_type.grounded i j = false := by
      intro i j hi hj
      have h1 := le_range_max (g := g) (m := ice_rises_seed g cell_type) hi hj
      rw [hseed i j hi hj] at h1
      cases hg : cell_type.grounded i j
      · rfl
      · rw [hg] at h1
        simp at h1
        omega
    obtain ⟨r, hrdef⟩ : ∃ r : IceModelVec2Int, r = g.tabulate fun i j =>
        if (g.tabulate fun _ _ => 0).get i j = 0 ∧ cell_type.icy i j = true then FLOATING
        else (g.tabulate fun _ _ => 0).get i j := ⟨_, rfl⟩
    refine ⟨r, ?_, ?_⟩
    · simp only [compute_ice_rises, ice_rises_relabeled, Bool.false_eq_true, if_false,
        relabel_by_size, hlt, if_true, hrdef]
    · intro i j hi hj
      rw [hrdef, get_tabulate _ hi hj, get_tabulate _ hi hj, hzero i j hi hj]
      simp only [CONTINENTAL, RISE, FLOATING]
      cases cell_type.icy i j <;> simp

/-! ## Sample labelings -/

theorem labeling_1101 : IsComponentLabeling ⟨4, 1⟩ [[1, 1, 0, 1]] [[1, 1, 0, 2]] := by
  refine ⟨(forall_cells ⟨4, 1⟩ _).2 (by decide), ?_⟩
  rintro ⟨pi, pj⟩ ⟨qi, qj⟩ hp1 hp2 hq1 hq2 hp hq
  simp only at hp1 hp2 hq1 hq2 hp hq
  have hpj : pj = 0 := by omega
  have hqj : qj = 0 := by omega
  subst hpj hqj
  have hsep := Connected4_blocked_column ⟨4, 1⟩
    (fun i j => IceModelVec2Int.get [[1, 1, 0, 1]] i j ≠ 0) 2
    (fun j hj => by
      have hj' : j < 1 := hj
      have hj0 : j = 0 := by omega
      subst hj0
      decide) (pi, 0) (qi, 0)
  have hstep01 : Step4 ⟨4, 1⟩ (fun i j => IceModelVec2Int.get [[1, 1, 0, 1]] i j ≠ 0)
      (0, 0) (1, 0) := ⟨by decide, by decide, by decide, by decide⟩
  have hstep10 : Step4 ⟨4, 1⟩ (fun i j => IceModelVec2Int.get [[1, 1, 0, 1]] i j ≠ 0)
      (1, 0) (0, 0) := ⟨by decide, by decide, by decide, by decide⟩
  interval_cases pi <;> interval_cases qi
  all_goals first
    | exact absurd (by decide) hp
    | exact absurd (by decide) hq
    | exact ⟨fun _ => Relation.ReflTransGen.refl, fun _ => rfl⟩
    | exact ⟨fun _ => Relation.ReflTransGen.single hstep01, fun _ => rfl⟩
    | exact ⟨fun _ => Relation.ReflTransGen.single hstep10, fun _ => rfl⟩
    | exact ⟨fun h => absurd h (by decide), fun h => by have := hsep h; simp at this⟩

theorem labeling_0010 : IsComponentLabeling ⟨4, 1⟩ [[0, 0, 1, 0]] [[0, 0, 1, 0]] := by
  refine ⟨(forall_cells ⟨4, 1⟩ _).2 (by decide), ?_⟩
  rintro ⟨pi, pj⟩ ⟨qi, qj⟩ hp1 hp2 hq1 hq2 hp hq
  simp only at hp1 hp2 hq1 hq2 hp hq
  have hpj : pj = 0 := by omega
  have hqj : qj = 0 := by omega
  subst hpj hqj
  interval_cases pi <;> interval_cases qi
  all_goals first
    | exact absurd (by decide) hp
    | exact absurd (by decide) hq
    | exact ⟨fun _ => Relation.ReflTransGen.refl, fun _ => rfl⟩

/-- C11 (counterexample). With `exclude_ice_rises = false` the two grounded
regions of the sample strip both hold 2, although the floating cell between
them separates them. -/
theorem principal_not_connected :
    (∃ i j, i < 4 ∧ j < 1 ∧ strip_cell_type.grounded i j = true) ∧
    compute_ice_rises strip_labeler ⟨4, 1⟩ strip_cell_type false = .ok [[2, 2, 3, 2]] ∧
    ¬ PrincipalConnected ⟨4, 1⟩ [[2, 2, 3, 2]] := by
  refine ⟨⟨0, 0, by decide, by decide, by decide⟩, by decide, ?_⟩
  intro h
  have hc := h (0, 0) (3, 0) (by decide) (by decide) (by decide) (by decide) (by decide)
    (by decide)
  have hsep := Connected4_blocked_column ⟨4, 1⟩
    (fun i j => IceModelVec2Int.get [[2, 2, 3, 2]] i j = 2) 2
    (fun j hj => by
      have hj' : j < 1 := hj
      have hj0 : j = 0 := by omega
      subst hj0
      decide) (0, 0) (3, 0) hc
  simp at hsep

/-- C11 (amended). Where a labeling pass precedes the size-based relabeling
(`compute_ice_rises` with `exclude_ice_rises = true`, `compute_ocean_mask`,
`compute_lakes`), the call succeeds, some cell holds 2 whenever a seed cell
exists, and the cells holding 2 form one 4-connected component.  With
`exclude_ice_rises = false` labeling is skipped and the cells holding 2 are
exactly the grounded cells. -/
theorem principal_component_invariant (lcc : Labeler) (g : IceGrid)
    (cell_type : IceModelVec2CellType)
    (h1 : IsComponentLabeling g (ice_rises_seed g cell_type)
      (label_tmp lcc g (ice_rises_seed g cell_type)))
    (h2 : IsComponentLabeling g (ocean_mask_seed g cell_type)
      (label_tmp lcc g (ocean_mask_seed g cell_type)))
    (h3 : IsComponentLabeling g (lakes_seed g cell_type)
      (label_tmp lcc g (lakes_seed g cell_type))) :
    (∃ r : IceModelVec2Int, compute_ice_rises lcc g cell_type true = .ok r ∧
      ((∃ i j, i < g.Mx ∧ j < g.My ∧ cell_type.grounded i j = true) →
        ∃ i j, i < g.Mx ∧ j < g.My ∧ r.get i j = 2) ∧
      PrincipalConnected g r) ∧
    (∃ r : IceModelVec2Int, compute_ocean_mask lcc g cell_type = .ok r ∧
      ((∃ i j, i < g.Mx ∧ j < g.My ∧ cell_type.ice_free_ocean i j = true) →
        ∃ i j, i < g.Mx ∧ j < g.My ∧ r.get i j = 2) ∧
      PrincipalConnected g r) ∧
    (∃ r : IceModelVec2Int, compute_lakes lcc g cell_type = .ok r ∧
      ((∃ i j, i < g.Mx ∧ j < g.My ∧ cell_type.ocean i j = true) →
        ∃ i j, i < g.Mx ∧ j < g.My ∧ r.get i j = 2) ∧
      PrincipalConnected g r) ∧
    (∃ r : IceModelVec2Int, compute_ice_rises lcc g cell_type false = .ok r ∧
      ∀ i j, i < g.Mx → j < g.My → (r.get i j = 2 ↔ cell_type.grounded i j = true)) := by
  refine ⟨?_, ?_, ?_, ?_⟩
  · obtain ⟨t, ht, -, -, hex, -⟩ := relabel_labeled_spec g _ _ h1
    have hconn := relabel_labeled_connected g _ _ t h1 ht
    obtain ⟨r, hrdef⟩ : ∃ r : IceModelVec2Int, r = g.tabulate fun i j =>
        if t.get i j = 0 ∧ cell_type.icy i j = true then FLOATING else t.get i j := ⟨_, rfl⟩
    have hr2 : ∀ i j, i < g.Mx → j < g.My → (r.get i j = 2 ↔ t.get i j = 2) := by
      intro i j hi hj
      rw [hrdef, get_tabulate _ hi hj]
      simp only [FLOATING]
      split_ifs with h <;> constructor <;> intro h' <;> omega
    refine ⟨r, ?_, ?_, ?_⟩
    · simp only [compute_ice_rises, ice_rises_relabeled, if_true, ht, hrdef]
    · rintro ⟨i, j, hi, hj, hg⟩
      have hs : (ice_rises_seed g cell_type).get i j ≠ 0 := by
        simp only [ice_rises_seed, get_tabulate _ hi hj, hg, if_true]
        decide
      obtain ⟨i', j', hi', hj', h⟩ := hex ⟨i, j, hi, hj, hs⟩
      exact ⟨i', j', hi', hj', (hr2 i' j' hi' hj').2 h⟩
    · intro p q hp1 hp2 hq1 hq2 hp hq
      apply Connected4_mono g _ _ _ p q
        (hconn p q hp1 hp2 hq1 hq2 ((hr2 _ _ hp1 hp2).1 hp) ((hr2 _ _ hq1 hq2).1 hq))
      intro i j hi hj h
      exact (hr2 i j hi hj).2 h
  · obtain ⟨t, ht, -, -, hex, -⟩ := relabel_labeled_spec g _ _ h2
    refine ⟨t, ht, ?_, relabel_labeled_connected g _ _ t h2 ht⟩
    rintro ⟨i, j, hi, hj, hg⟩
    apply hex
    refine ⟨i, j, hi, hj, ?_⟩
    simp only [ocean_mask_seed, get_tabulate _ hi hj, hg, if_true]
    decide
  · obtain ⟨t, ht, -, -, hex, -⟩ := relabel_labeled_spec g _ _ h3
    refine ⟨t, ht, ?_, relabel_labeled_connected g _ _ t h3 ht⟩
    rintro ⟨i, j, hi, hj, hg⟩
    apply hex
    refine ⟨i, j, hi, hj, ?_⟩
    simp only [lakes_seed, get_tabulate _ hi hj, hg, if_true]
    decide
  · obtain ⟨r, hr, hcells⟩ := ice_rises_no_labeling lcc g cell_type
    exact ⟨r, hr, fun i j hi hj => (hcells i j hi hj).1⟩

theorem pool_labelings :
    IsComponentLabeling ⟨4, 1⟩ (ice_rises_seed ⟨4, 1⟩ pool_cell_type)
      (label_tmp sample_labeler ⟨4, 1⟩ (ice_rises_seed ⟨4, 1⟩ pool_cell_type)) ∧
    IsComponentLabeling ⟨4, 1⟩ (ocean_mask_seed ⟨4, 1⟩ pool_cell_type)
      (label_tmp sample_labeler ⟨4, 1⟩ (ocean_mask_seed ⟨4, 1⟩ pool_cell_type)) ∧
    IsComponentLabeling ⟨4, 1⟩ (lakes_seed ⟨4, 1⟩ pool_cell_type)
      (label_tmp sample_labeler ⟨4, 1⟩ (lakes_seed ⟨4, 1⟩ pool_cell_type)) := by
  have e1 : ice_rises_seed ⟨4, 1⟩ pool_cell_type = [[0, 0, 1, 0]] := by decide
  have e2 : ocean_mask_seed ⟨4, 1⟩ pool_cell_type = [[1, 1, 0, 1]] := by decide
  have e3 : lakes_seed ⟨4, 1⟩ pool_cell_type = [[1, 1, 0, 1]] := by decide
  have l1 : label_tmp sample_labeler ⟨4, 1⟩ [[0, 0, 1, 0]] = [[0, 0, 1, 0]] := by decide
  have l2 : label_tmp sample_labeler ⟨4, 1⟩ [[1, 1, 0, 1]] = [[1, 1, 0, 2]] := by decide
  rw [e1, e2, e3, l1, l2]
  exact ⟨labeling_0010, labeling_1101, labeling_1101⟩

/-- Witness for the amended C11: the strip with a pool behind a grounded
barrier. -/
theorem principal_component_invariant_witness :
    compute_ocean_mask sample_labeler ⟨4, 1⟩ pool_cell_type = .ok [[2, 2, 0, 1]] ∧
    ((∃ r : IceModelVec2Int, compute_ice_rises sample_labeler ⟨4, 1⟩ pool_cell_type true = .ok r ∧
      ((∃ i j, i < 4 ∧ j < 1 ∧ pool_cell_type.grounded i j = true) →
        ∃ i j, i < 4 ∧ j < 1 ∧ r.get i j = 2) ∧
      PrincipalConnected ⟨4, 1⟩ r) ∧
    (∃ r : IceModelVec2Int, compute_ocean_mask sample_labeler ⟨4, 1⟩ pool_cell_type = .ok r ∧
      ((∃ i j, i < 4 ∧ j < 1 ∧ pool_cell_type.ice_free_ocean i j = true) →
        ∃ i j, i < 4 ∧ j < 1 ∧ r.get i j = 2) ∧
      PrincipalConnected ⟨4, 1⟩ r) ∧
    (∃ r : IceModelVec2Int, compute_lakes sample_labeler ⟨4, 1⟩ pool_cell_type = .ok r ∧
      ((∃ i j, i < 4 ∧ j < 1 ∧ pool_cell_type.ocean i j = true) →
        ∃ i j, i < 4 ∧ j < 1 ∧ r.get i j = 2) ∧
      PrincipalConnected ⟨4, 1⟩ r) ∧
    (∃ r : IceModelVec2Int, compute_ice_rises sample_labeler ⟨4, 1⟩ pool_cell_type false = .ok r ∧
      ∀ i j, i < 4 → j < 1 → (r.get i j = 2 ↔ pool_cell_type.grounded i j = true))) :=
  ⟨by decide, principal_component_invariant sample_labeler ⟨4, 1⟩ pool_cell_type
    pool_labelings.1 pool_labelings.2.1 pool_labelings.2.2⟩


/-! ## Facts about `compute_ice_shelf_mask` -/

theorem ice_shelf_seed_ne_zero (g : IceGrid) (M : IceModelVec2Int) (i j : Nat)
    (hi : i < g.Mx) (hj : j < g.My) :
    (ice_shelf_seed g M).get i j ≠ 0 ↔ (M.get i j = FLOATING ∨ M.get i j = RISE) := by
  simp only [ice_shelf_seed, get_tabulate _ hi hj]
  split_ifs with h
  · simp only [ne_eq, one_ne_zero, not_false_eq_true, true_iff]
    tauto
  · simp only [ne_eq, not_true_eq_false, false_iff]
    tauto

/-- C12. With a labeler that keeps the background and gives positive ids
elsewhere, the result of `compute_ice_shelf_mask` is positive exactly at the
cells marked FLOATING and 0 at every other cell, in particular at every RISE
cell. -/
theorem compute_ice_shelf_mask_support (lcc : Labeler) (g : IceGrid)
    (ice_rises_mask : IceModelVec2Int)
    (hlab : LabelsSupport g (ice_shelf_seed g ice_rises_mask)
      (label_tmp lcc g (ice_shelf_seed g ice_rises_mask))) :
    ∀ i j, i < g.Mx → j < g.My →
      (0 < (compute_ice_shelf_mask lcc g ice_rises_mask).get i j ↔
        ice_rises_mask.get i j = FLOATING) ∧
      (ice_rises_mask.get i j ≠ FLOATING →
        (compute_ice_shelf_mask lcc g ice_rises_mask).get i j = 0) ∧
      (ice_rises_mask.get i j = RISE →
        (compute_ice_shelf_mask lcc g ice_rises_mask).get i j = 0) := by
  intro i j hi hj
  obtain ⟨h1, h2⟩ := hlab i j hi hj
  have hs := ice_shelf_seed_ne_zero g ice_rises_mask i j hi hj
  simp only [compute_ice_shelf_mask, get_tabulate _ hi hj]
  by_cases hr : ice_rises_mask.get i j = RISE
  · rw [if_pos hr]
    have hnf : ice_rises_mask.get i j ≠ FLOATING := by
      rw [hr]; decide
    exact ⟨⟨fun h => by omega, fun h => absurd h hnf⟩, fun _ => rfl, fun _ => rfl⟩
  · rw [if_neg hr]
    by_cases hf : ice_rises_mask.get i j = FLOATING
    · have := h2 (hs.2 (Or.inl hf))
      exact ⟨⟨fun _ => hf, fun _ => this⟩, fun h => absurd hf h, fun h => absurd h hr⟩
    · have hz : (ice_shelf_seed g ice_rises_mask).get i j = 0 := by
        by_contra hne
        rcases hs.1 hne with h | h
        · exact hf h
        · exact hr h
      have := h1 hz
      exact ⟨⟨fun h => by omega, fun h => absurd h hf⟩, fun _ => this, fun h => absurd h hr⟩

/-- C13. With a labeler that gives every 4-connected component of non-zero
cells its own id, two FLOATING cells get the same shelf id iff a 4-connected
path of FLOATING or RISE cells joins them. -/
theorem compute_ice_shelf_mask_identity (lcc : Labeler) (g : IceGrid)
    (ice_rises_mask : IceModelVec2Int)
    (hlab : IsComponentLabeling g (ice_shelf_seed g ice_rises_mask)
      (label_tmp lcc g (ice_shelf_seed g ice_rises_mask)))
    (p q : Nat × Nat) (hp1 : p.1 < g.Mx) (hp2 : p.2 < g.My) (hq1 : q.1 < g.Mx)
    (hq2 : q.2 < g.My) (hp : ice_rises_mask.get p.1 p.2 = FLOATING)
    (hq : ice_rises_mask.get q.1 q.2 = FLOATING) :
    (compute_ice_shelf_mask lcc g ice_rises_mask).get p.1 p.2
        = (compute_ice_shelf_mask lcc g ice_rises_mask).get q.1 q.2 ↔
      Connected4 g
        (fun i j => ice_rises_mask.get i j = FLOATING ∨ ice_rises_mask.get i j = RISE) p q := by
  have hpr : ¬ ice_rises_mask.get p.1 p.2 = RISE := by rw [hp]; decide
  have hqr : ¬ ice_rises_mask.get q.1 q.2 = RISE := by rw [hq]; decide
  have hps := (ice_shelf_seed_ne_zero g ice_rises_mask p.1 p.2 hp1 hp2).2 (Or.inl hp)
  have hqs := (ice_shelf_seed_ne_zero g ice_rises_mask q.1 q.2 hq1 hq2).2 (Or.inl hq)
  simp only [compute_ice_shelf_mask, get_tabulate _ hp1 hp2, get_tabulate _ hq1 hq2]
  rw [if_neg hpr, if_neg hqr, hlab.2 p q hp1 hp2 hq1 hq2 hps hqs]
  constructor
  · exact Connected4_mono g _ _
      (fun i j hi hj h => (ice_shelf_seed_ne_zero g ice_rises_mask i j hi hj).1 h) p q
  · exact Connected4_mono g _ _
      (fun i j hi hj h => (ice_shelf_seed_ne_zero g ice_rises_mask i j hi hj).2 h) p q

theorem labeling_11101 :
    IsComponentLabeling ⟨5, 1⟩ [[1, 1, 1, 0, 1]] [[1, 1, 1, 0, 2]] := by
  refine ⟨(forall_cells ⟨5, 1⟩ _).2 (by decide), ?_⟩
  rintro ⟨pi, pj⟩ ⟨qi, qj⟩ hp1 hp2 hq1 hq2 hp hq
  simp only at hp1 hp2 hq1 hq2 hp hq
  have hpj : pj = 0 := by omega
  have hqj : qj = 0 := by omega
  subst hpj hqj
  have hsep := Connected4_blocked_column ⟨5, 1⟩
    (fun i j => IceModelVec2Int.get [[1, 1, 1, 0, 1]] i j ≠ 0) 3
    (fun j hj => by
      have hj' : j < 1 := hj
      have hj0 : j = 0 := by omega
      subst hj0
      decide) (pi, 0) (qi, 0)
  have s01 : Step4 ⟨5, 1⟩ (fun i j => IceModelVec2Int.get [[1, 1, 1, 0, 1]] i j ≠ 0)
      (0, 0) (1, 0) := ⟨by decide, by decide, by decide, by decide⟩
  have s10 : Step4 ⟨5, 1⟩ (fun i j => IceModelVec2Int.get [[1, 1, 1, 0, 1]] i j ≠ 0)
      (1, 0) (0, 0) := ⟨by decide, by decide, by decide, by decide⟩
  have s12 : Step4 ⟨5, 1⟩ (fun i j => IceModelVec2Int.get [[1, 1, 1, 0, 1]] i j ≠ 0)
      (1, 0) (2, 0) := ⟨by decide, by decide, by decide, by decide⟩
  have s21 : Step4 ⟨5, 1⟩ (fun i j => IceModelVec2Int.get [[1, 1, 1, 0, 1]] i j ≠ 0)
      (2, 0) (1, 0) := ⟨by decide, by decide, by decide, by decide⟩
  interval_cases pi <;> interval_cases qi
  all_goals first
    | exact absurd (by decide) hp
    | exact absurd (by decide) hq
    | exact ⟨fun _ => Relation.ReflTransGen.refl, fun _ => rfl⟩
    | exact ⟨fun _ => Relation.ReflTransGen.single s01, fun _ => rfl⟩
    | exact ⟨fun _ => Relation.ReflTransGen.single s10, fun _ => rfl⟩
    | exact ⟨fun _ => Relation.ReflTransGen.single s12, fun _ => rfl⟩
    | exact ⟨fun _ => Relation.ReflTransGen.single s21, fun _ => rfl⟩
    | exact ⟨fun _ => (Relation.ReflTransGen.single s01).tail s12, fun _ => rfl⟩
    | exact ⟨fun _ => (Relation.ReflTransGen.single s21).tail s10, fun _ => rfl⟩
    | exact ⟨fun h => absurd h (by decide), fun h => by have := hsep h; simp at this⟩

theorem shelf_strip_labeling :
    IsComponentLabeling ⟨5, 1⟩ (ice_shelf_seed ⟨5, 1⟩ [[3, 1, 3, 0, 3]])
      (label_tmp sample_labeler ⟨5, 1⟩ (ice_shelf_seed ⟨5, 1⟩ [[3, 1, 3, 0, 3]])) := by
  have e1 : ice_shelf_seed ⟨5, 1⟩ [[3, 1, 3, 0, 3]] = [[1, 1, 1, 0, 1]] := by decide
  have l1 : label_tmp sample_labeler ⟨5, 1⟩ [[1, 1, 1, 0, 1]] = [[1, 1, 1, 0, 2]] := by decide
  rw [e1, l1]
  exact labeling_11101

/-- Witness for C12: floating, rise, floating, ocean, floating. -/
theorem compute_ice_shelf_mask_support_witness :
    compute_ice_shelf_mask sample_labeler ⟨5, 1⟩ [[3, 1, 3, 0, 3]] = [[1, 0, 1, 0, 2]] ∧
    ∀ i j, i < 5 → j < 1 →
      (0 < (compute_ice_shelf_mask sample_labeler ⟨5, 1⟩ [[3, 1, 3, 0, 3]]).get i j ↔
        IceModelVec2Int.get [[3, 1, 3, 0, 3]] i j = FLOATING) ∧
      (IceModelVec2Int.get [[3, 1, 3, 0, 3]] i j ≠ FLOATING →
        (compute_ice_shelf_mask sample_labeler ⟨5, 1⟩ [[3, 1, 3, 0, 3]]).get i j = 0) ∧
      (IceModelVec2Int.get [[3, 1, 3, 0, 3]] i j = RISE →
        (compute_ice_shelf_mask sample_labeler ⟨5, 1⟩ [[3, 1, 3, 0, 3]]).get i j = 0) :=
  ⟨by decide, compute_ice_shelf_mask_support sample_labeler ⟨5, 1⟩ [[3, 1, 3, 0, 3]]
    shelf_strip_labeling.1⟩

/-- Witness for C13: the two floating cells bridged by the rise share an id. -/
theorem compute_ice_shelf_mask_identity_witness :
    (compute_ice_shelf_mask sample_labeler ⟨5, 1⟩ [[3, 1, 3, 0, 3]]).get 0 0
        = (compute_ice_shelf_mask sample_labeler ⟨5, 1⟩ [[3, 1, 3, 0, 3]]).get 2 0 ↔
      Connected4 ⟨5, 1⟩
        (fun i j => IceModelVec2Int.get [[3, 1, 3, 0, 3]] i j = FLOATING ∨
          IceModelVec2Int.get [[3, 1, 3, 0, 3]] i j = RISE) (0, 0) (2, 0) :=
  compute_ice_shelf_mask_identity sample_labeler ⟨5, 1⟩ [[3, 1, 3, 0, 3]]
    shelf_strip_labeling (0, 0) (2, 0) (by decide) (by decide) (by decide) (by decide)
    (by decide) (by decide)


/-! ## Facts about `compute_ocean_mask` -/

/-- C14. With a labeler that gives every 4-connected component of ice-free
ocean its own id, `compute_ocean_mask` succeeds; its result is 0 exactly at
the cells that are not ice-free ocean (so it is all 0 when there is none);
some cell holds 2 when an ice-free-ocean cell exists; and for every cell `p`
holding 2 the cells holding 2 are exactly the ice-free-ocean component of `p`,
no component has more cells, and the cells holding 1 are the ice-free-ocean
cells outside it. -/
theorem compute_ocean_mask_spec (lcc : Labeler) (g : IceGrid)
    (cell_type : IceModelVec2CellType)
    (hlab : IsComponentLabeling g (ocean_mask_seed g cell_type)
      (label_tmp lcc g (ocean_mask_seed g cell_type))) :
    ∃ r : IceModelVec2Int, compute_ocean_mask lcc g cell_type = .ok r ∧
      (∀ i j, i < g.Mx → j < g.My →
        (r.get i j = 0 ↔ cell_type.ice_free_ocean i j = false)) ∧
      ((∀ i j, i < g.Mx → j < g.My → cell_type.ice_free_ocean i j = false) →
        ∀ i j, i < g.Mx → j < g.My → r.get i j = 0) ∧
      ((∃ i j, i < g.Mx ∧ j < g.My ∧ cell_type.ice_free_ocean i j = true) →
        ∃ i j, i < g.Mx ∧ j < g.My ∧ r.get i j = 2) ∧
      ∀ p : Nat × Nat, p.1 < g.Mx → p.2 < g.My → r.get p.1 p.2 = 2 →
        cell_type.ice_free_ocean p.1 p.2 = true ∧
        (∀ q : Nat × Nat, q.1 < g.Mx → q.2 < g.My →
          (r.get q.1 q.2 = 2 ↔
            Connected4 g (fun i j => cell_type.ice_free_ocean i j = true) p q)) ∧
        (∀ q : Nat × Nat, q.1 < g.Mx → q.2 < g.My →
          (r.get q.1 q.2 = 1 ↔ cell_type.ice_free_ocean q.1 q.2 = true ∧
            ¬ Connected4 g (fun i j => cell_type.ice_free_ocean i j = true) p q)) ∧
        (∀ q : Nat × Nat, q.1 < g.Mx → q.2 < g.My → cell_type.ice_free_ocean q.1 q.2 = true →
          Set.ncard {x : Nat × Nat | x.1 < g.Mx ∧ x.2 < g.My ∧
              Connected4 g (fun i j => cell_type.ice_free_ocean i j = true) q x}
            ≤ Set.ncard {x : Nat × Nat | x.1 < g.Mx ∧ x.2 < g.My ∧
              Connected4 g (fun i j => cell_type.ice_free_ocean i j = true) p x}) := by
  have hseed : ∀ i j, i < g.Mx → j < g.My →
      ((ocean_mask_seed g cell_type).get i j ≠ 0 ↔ cell_type.ice_free_ocean i j = true) := by
    intro i j hi hj
    simp only [ocean_mask_seed, get_tabulate _ hi hj]
    cases cell_type.ice_free_ocean i j <;> simp
  have hconn : ∀ p q : Nat × Nat,
      (Connected4 g (fun i j => (ocean_mask_seed g cell_type).get i j ≠ 0) p q ↔
        Connected4 g (fun i j => cell_type.ice_free_ocean i j = true) p q) := by
    intro p q
    exact ⟨Connected4_mono g _ _ (fun i j hi hj h => (hseed i j hi hj).1 h) p q,
      Connected4_mono g _ _ (fun i j hi hj h => (hseed i j hi hj).2 h) p q⟩
  obtain ⟨t, ht, -, hcells, hex, hcomp⟩ := relabel_labeled_spec g _ _ hlab
  have hzero : ∀ i j, i < g.Mx → j < g.My →
      (t.get i j = 0 ↔ cell_type.ice_free_ocean i j = false) := by
    intro i j hi hj
    rw [(hcells i j hi hj).1]
    have := hseed i j hi hj
    cases hc : cell_type.ice_free_ocean i j
    · rw [hc] at this
      simp only [Bool.false_eq_true, iff_false, not_not] at this
      simp [this]
    · rw [hc] at this
      simp only [iff_true] at this
      simp [this]
  refine ⟨t, ht, hzero, ?_, ?_, ?_⟩
  · intro hall i j hi hj
    exact (hzero i j hi hj).2 (hall i j hi hj)
  · rintro ⟨i, j, hi, hj, h⟩
    exact hex ⟨i, j, hi, hj, (hseed i j hi hj).2 h⟩
  · intro p hp1 hp2 hp
    obtain ⟨hps, hiff, hsize⟩ := hcomp p hp1 hp2 hp
    refine ⟨(hseed _ _ hp1 hp2).1 hps, ?_, ?_, ?_⟩
    · intro q hq1 hq2
      rw [hiff q hq1 hq2, hconn]
    · intro q hq1 hq2
      rw [← hconn, ← hiff q hq1 hq2]
      have h0 := hzero q.1 q.2 hq1 hq2
      rcases (hcells q.1 q.2 hq1 hq2).2 with h | h | h
      · rw [h]
        have := h0.1 h
        simp [this]
      · rw [h]
        have : cell_type.ice_free_ocean q.1 q.2 = true := by
          cases hc : cell_type.ice_free_ocean q.1 q.2
          · have := h0.2 hc
            omega
          · rfl
        simp [this]
      · rw [h]
        simp
    · intro q hq1 hq2 hq
      have := hsize q hq1 hq2 ((hseed _ _ hq1 hq2).2 hq)
      simp only [hconn] at this
      exact this

/-- Witness for C14: the strip with a pool behind a grounded barrier; the
two-cell open ocean gets 2, the pool 1. -/
theorem compute_ocean_mask_spec_witness :
    compute_ocean_mask sample_labeler ⟨4, 1⟩ pool_cell_type = .ok [[2, 2, 0, 1]] ∧
    ∃ r : IceModelVec2Int, compute_ocean_mask sample_labeler ⟨4, 1⟩ pool_cell_type = .ok r ∧
      (∀ i j, i < 4 → j < 1 →
        (r.get i j = 0 ↔ pool_cell_type.ice_free_ocean i j = false)) ∧
      ((∀ i j, i < 4 → j < 1 → pool_cell_type.ice_free_ocean i j = false) →
        ∀ i j, i < 4 → j < 1 → r.get i j = 0) ∧
      ((∃ i j, i < 4 ∧ j < 1 ∧ pool_cell_type.ice_free_ocean i j = true) →
        ∃ i j, i < 4 ∧ j < 1 ∧ r.get i j = 2) ∧
      ∀ p : Nat × Nat, p.1 < 4 → p.2 < 1 → r.get p.1 p.2 = 2 →
        pool_cell_type.ice_free_ocean p.1 p.2 = true ∧
        (∀ q : Nat × Nat, q.1 < 4 → q.2 < 1 →
          (r.get q.1 q.2 = 2 ↔
            Connected4 ⟨4, 1⟩ (fun i j => pool_cell_type.ice_free_ocean i j = true) p q)) ∧
        (∀ q : Nat × Nat, q.1 < 4 → q.2 < 1 →
          (r.get q.1 q.2 = 1 ↔ pool_cell_type.ice_free_ocean q.1 q.2 = true ∧
            ¬ Connected4 ⟨4, 1⟩ (fun i j => pool_cell_type.ice_free_ocean i j = true) p q)) ∧
        (∀ q : Nat × Nat, q.1 < 4 → q.2 < 1 → pool_cell_type.ice_free_ocean q.1 q.2 = true →
          Set.ncard {x : Nat × Nat | x.1 < 4 ∧ x.2 < 1 ∧
              Connected4 ⟨4, 1⟩ (fun i j => pool_cell_type.ice_free_ocean i j = true) q x}
            ≤ Set.ncard {x : Nat × Nat | x.1 < 4 ∧ x.2 < 1 ∧
              Connected4 ⟨4, 1⟩ (fun i j => pool_cell_type.ice_free_ocean i j = true) p x}) :=
  ⟨by decide, compute_ocean_mask_spec sample_labeler ⟨4, 1⟩ pool_cell_type pool_labelings.2.1⟩


/-! ## Facts about `compute_continental_shelf_mask` -/

theorem continental_shelf_seed_cases (g : IceGrid) (bed : IceModelVec2S) (M : IceModelVec2Int)
    (thr : ℚ) (i j : Nat) (hi : i < g.Mx) (hj : j < g.My) :
    ((continental_shelf_seed g bed M thr).get i j = 2 ↔ M.get i j = CONTINENTAL) ∧
    ((continental_shelf_seed g bed M thr).get i j ≠ 0 ↔
      (bed i j > thr ∨ M.get i j = CONTINENTAL)) := by
  simp only [continental_shelf_seed, get_tabulate _ hi hj]
  by_cases hc : M.get i j = CONTINENTAL
  · simp [hc]
  · by_cases hb : bed i j > thr
    · simp [hc, hb]
    · simp [hc, hb]

/-- The result of `compute_continental_shelf_mask` in terms of the labeled
buffer: 1 where the labeler left 1, 2 where it left 0 at an OCEAN cell above
the threshold, 0 elsewhere. -/
theorem continental_shelf_result (lcc : Labeler) (g : IceGrid) (bed : IceModelVec2S)
    (M : IceModelVec2Int) (thr : ℚ)
    (hlab : IsIcebergLabeling g (continental_shelf_seed g bed M thr) 2
      (continental_shelf_labeled lcc g bed M thr))
    (p : Nat × Nat) (hp1 : p.1 < g.Mx) (hp2 : p.2 < g.My) :
    ((compute_continental_shelf_mask lcc g bed M thr).get p.1 p.2 = 1 ↔
      (continental_shelf_labeled lcc g bed M thr).get p.1 p.2 = 1) ∧
    ((compute_continental_shelf_mask lcc g bed M thr).get p.1 p.2 = 2 ↔
      (continental_shelf_labeled lcc g bed M thr).get p.1 p.2 = 0 ∧ bed p.1 p.2 > thr ∧
        M.get p.1 p.2 = OCEAN) ∧
    ((compute_continental_shelf_mask lcc g bed M thr).get p.1 p.2 = 0 ∨
      (compute_continental_shelf_mask lcc g bed M thr).get p.1 p.2 = 1 ∨
      (compute_continental_shelf_mask lcc g bed M thr).get p.1 p.2 = 2) := by
  obtain ⟨hv, -⟩ := hlab p hp1 hp2
  simp only [compute_continental_shelf_mask, get_tabulate _ hp1 hp2]
  rcases hv with h | h
  · rw [h]
    simp only [gt_iff_lt, lt_self_iff_false, if_false]
    split_ifs with hc
    · simp [hc]
    · simp
      intro h1 h2
      exact hc ⟨h1, h2⟩
  · rw [h]
    simp

theorem joined_iff_anchor (g : IceGrid) (bed : IceModelVec2S) (M : IceModelVec2Int) (thr : ℚ)
    (p : Nat × Nat) :
    JoinedToContinent g bed M thr p ↔
      ∃ a : Nat × Nat, a.1 < g.Mx ∧ a.2 < g.My ∧
        (continental_shelf_seed g bed M thr).get a.1 a.2 = 2 ∧
        Connected4 g (fun i j => (continental_shelf_seed g bed M thr).get i j ≠ 0) a p := by
  constructor
  · rintro ⟨a, ha1, ha2, ha, hc⟩
    refine ⟨a, ha1, ha2, (continental_shelf_seed_cases g bed M thr _ _ ha1 ha2).1.2 ha, ?_⟩
    exact Connected4_mono g _ _
      (fun i j hi hj h => (continental_shelf_seed_cases g bed M thr i j hi hj).2.2 h) a p hc
  · rintro ⟨a, ha1, ha2, ha, hc⟩
    refine ⟨a, ha1, ha2, (continental_shelf_seed_cases g bed M thr _ _ ha1 ha2).1.1 ha, ?_⟩
    exact Connected4_mono g _ _
      (fun i j hi hj h => (continental_shelf_seed_cases g bed M thr i j hi hj).2.1 h) a p hc

/-- C15. With the labeler in its iceberg mode, a cell holds 2 in the result
of `compute_continental_shelf_mask` iff it is OCEAN in the ice-rises mask, its
bed is strictly above the threshold, and a CONTINENTAL cell reaches it
through cells that are above the threshold or CONTINENTAL. -/
theorem continental_shelf_mask_two (lcc : Labeler) (g : IceGrid) (bed : IceModelVec2S)
    (M : IceModelVec2Int) (thr : ℚ)
    (hlab : IsIcebergLabeling g (continental_shelf_seed g bed M thr) 2
      (continental_shelf_labeled lcc g bed M thr))
    (p : Nat × Nat) (hp1 : p.1 < g.Mx) (hp2 : p.2 < g.My) :
    ((compute_continental_shelf_mask lcc g bed M thr).get p.1 p.2 = 2 →
      M.get p.1 p.2 = OCEAN ∧ bed p.1 p.2 > thr ∧ JoinedToContinent g bed M thr p) ∧
    (M.get p.1 p.2 = OCEAN → bed p.1 p.2 > thr → JoinedToContinent g bed M thr p →
      (compute_continental_shelf_mask lcc g bed M thr).get p.1 p.2 = 2) := by
  obtain ⟨-, h2, -⟩ := continental_shelf_result lcc g bed M thr hlab p hp1 hp2
  obtain ⟨hv, hiff⟩ := hlab p hp1 hp2
  have hseed := (continental_shelf_seed_cases g bed M thr _ _ hp1 hp2).2
  constructor
  · intro hr
    obtain ⟨hl0, hb, ho⟩ := h2.1 hr
    refine ⟨ho, hb, ?_⟩
    rw [joined_iff_anchor]
    by_contra hno
    have := hiff.2 ⟨hseed.2 (Or.inl hb), hno⟩
    omega
  · intro ho hb hj
    apply h2.2
    refine ⟨?_, hb, ho⟩
    rcases hv with h | h
    · exact h
    · exact absurd ((joined_iff_anchor g bed M thr p).1 hj) (hiff.1 h).2

/-- C16. With the labeler in its iceberg mode, a cell holds 1 in the result
of `compute_continental_shelf_mask` iff its bed is strictly above the
threshold and no CONTINENTAL cell reaches it through cells that are above the
threshold or CONTINENTAL. -/
theorem continental_shelf_mask_one (lcc : Labeler) (g : IceGrid) (bed : IceModelVec2S)
    (M : IceModelVec2Int) (thr : ℚ)
    (hlab : IsIcebergLabeling g (continental_shelf_seed g bed M thr) 2
      (continental_shelf_labeled lcc g bed M thr))
    (p : Nat × Nat) (hp1 : p.1 < g.Mx) (hp2 : p.2 < g.My) :
    (compute_continental_shelf_mask lcc g bed M thr).get p.1 p.2 = 1 ↔
      bed p.1 p.2 > thr ∧ ¬ JoinedToContinent g bed M thr p := by
  obtain ⟨h1, -, -⟩ := continental_shelf_result lcc g bed M thr hlab p hp1 hp2
  obtain ⟨-, hiff⟩ := hlab p hp1 hp2
  have hseed := (continental_shelf_seed_cases g bed M thr _ _ hp1 hp2).2
  rw [h1, hiff, ← joined_iff_anchor]
  constructor
  · rintro ⟨hs, hno⟩
    refine ⟨?_, hno⟩
    rcases hseed.1 hs with h | h
    · exact h
    · exact absurd ⟨p, hp1, hp2, h, Relation.ReflTransGen.refl⟩ hno
  · rintro ⟨hb, hno⟩
    exact ⟨hseed.2 (Or.inl hb), hno⟩


theorem sample_shelf_seed :
    continental_shelf_seed ⟨5, 1⟩ sample_bed [[2, 0, 3, 1, 0]] (-800) = [[2, 1, 0, 1, 1]] := by
  decide!

theorem sample_shelf_labeled :
    continental_shelf_labeled sample_labeler ⟨5, 1⟩ sample_bed [[2, 0, 3, 1, 0]] (-800)
      = [[0, 0, 0, 1, 1]] := by
  decide!

/-- On the sample strip (continental ice, shallow ocean, floating ice over a
deep bed, an ice rise, shallow ocean) the sample labeler meets the contract
of the iceberg mode. -/
theorem sample_iceberg_labeling :
    IsIcebergLabeling ⟨5, 1⟩ (continental_shelf_seed ⟨5, 1⟩ sample_bed [[2, 0, 3, 1, 0]] (-800)) 2
      (continental_shelf_labeled sample_labeler ⟨5, 1⟩ sample_bed [[2, 0, 3, 1, 0]] (-800)) := by
  rw [sample_shelf_seed, sample_shelf_labeled]
  have hsep := Connected4_blocked_column ⟨5, 1⟩
    (fun i j => IceModelVec2Int.get [[2, 1, 0, 1, 1]] i j ≠ 0) 2
    (fun j hj => by
      have hj' : j < 1 := hj
      have hj0 : j = 0 := by omega
      subst hj0
      decide)
  have s01 : Step4 ⟨5, 1⟩ (fun i j => IceModelVec2Int.get [[2, 1, 0, 1, 1]] i j ≠ 0)
      (0, 0) (1, 0) := ⟨by decide, by decide, by decide, by decide⟩
  have hanchor : ∀ a : Nat × Nat, a.1 < 5 → a.2 < 1 →
      IceModelVec2Int.get [[2, 1, 0, 1, 1]] a.1 a.2 = 2 → a = (0, 0) := by
    rintro ⟨ai, aj⟩ ha1 ha2 ha
    simp only at ha1 ha2 ha
    have haj : aj = 0 := by omega
    subst haj
    interval_cases ai
    · rfl
    all_goals exact absurd ha (by decide)
  rintro ⟨pi, pj⟩ hp1 hp2
  have hp1' : pi < 5 := hp1
  have hp2' : pj < 1 := hp2
  have hpj : pj = 0 := by omega
  subst hpj
  have hfar : 3 ≤ pi → ¬ ∃ a : Nat × Nat, a.1 < 5 ∧ a.2 < 1 ∧
      IceModelVec2Int.get [[2, 1, 0, 1, 1]] a.1 a.2 = 2 ∧
      Connected4 ⟨5, 1⟩ (fun i j => IceModelVec2Int.get [[2, 1, 0, 1, 1]] i j ≠ 0) a (pi, 0) := by
    rintro h3 ⟨a, ha1, ha2, ha, hc⟩
    have := hanchor a ha1 ha2 ha
    subst this
    have := (hsep (0, 0) (pi, 0) hc).1 (by decide)
    simp only at this
    omega
  interval_cases pi
  · refine ⟨by decide, ⟨fun h => absurd h (by decide), fun h => ?_⟩⟩
    exact absurd ⟨(0, 0), by decide, by decide, by decide, Relation.ReflTransGen.refl⟩ h.2
  · refine ⟨by decide, ⟨fun h => absurd h (by decide), fun h => ?_⟩⟩
    exact absurd ⟨(0, 0), by decide, by decide, by decide, Relation.ReflTransGen.single s01⟩ h.2
  · refine ⟨by decide, ⟨fun h => absurd h (by decide), fun h => absurd ?_ h.1⟩⟩
    decide
  · exact ⟨by decide, ⟨fun _ => ⟨by decide, hfar (by decide)⟩, fun _ => by decide⟩⟩
  · exact ⟨by decide, ⟨fun _ => ⟨by decide, hfar (by decide)⟩, fun _ => by decide⟩⟩

/-- Witness for C15: the shallow ocean cell next to the continental ice
holds 2. -/
theorem continental_shelf_mask_two_witness :
    compute_continental_shelf_mask sample_labeler ⟨5, 1⟩ sample_bed [[2, 0, 3, 1, 0]] (-800)
      = [[0, 2, 0, 1, 1]] ∧
    (((compute_continental_shelf_mask sample_labeler ⟨5, 1⟩ sample_bed [[2, 0, 3, 1, 0]]
          (-800)).get 1 0 = 2 →
      IceModelVec2Int.get [[2, 0, 3, 1, 0]] 1 0 = OCEAN ∧ sample_bed 1 0 > -800 ∧
        JoinedToContinent ⟨5, 1⟩ sample_bed [[2, 0, 3, 1, 0]] (-800) (1, 0)) ∧
    (IceModelVec2Int.get [[2, 0, 3, 1, 0]] 1 0 = OCEAN → sample_bed 1 0 > -800 →
      JoinedToContinent ⟨5, 1⟩ sample_bed [[2, 0, 3, 1, 0]] (-800) (1, 0) →
      (compute_continental_shelf_mask sample_labeler ⟨5, 1⟩ sample_bed [[2, 0, 3, 1, 0]]
          (-800)).get 1 0 = 2)) :=
  ⟨by decide!, continental_shelf_mask_two sample_labeler ⟨5, 1⟩ sample_bed [[2, 0, 3, 1, 0]]
    (-800) sample_iceberg_labeling (1, 0) (by decide) (by decide)⟩

/-- Witness for C16: the shallow ocean cell beyond the deep bed holds 1. -/
theorem continental_shelf_mask_one_witness :
    (compute_continental_shelf_mask sample_labeler ⟨5, 1⟩ sample_bed [[2, 0, 3, 1, 0]]
        (-800)).get 4 0 = 1 ↔
      sample_bed 4 0 > -800 ∧
        ¬ JoinedToContinent ⟨5, 1⟩ sample_bed [[2, 0, 3, 1, 0]] (-800) (4, 0) :=
  continental_shelf_mask_one sample_labeler ⟨5, 1⟩ sample_bed [[2, 0, 3, 1, 0]] (-800)
    sample_iceberg_labeling (4, 0) (by decide) (by decide)

/-- C17 (the code at the failing input). On the sample strip the ice rise at
`i = 3`, whose bed is above the threshold and which the deep bed under the
floating ice cuts off from the continental ice, holds 1 in the result: an icy
cell that is not 0, and a cell holding 1 that is not ice-free. -/
theorem continental_shelf_mask_icy_cell :
    IsIcebergLabeling ⟨5, 1⟩ (continental_shelf_seed ⟨5, 1⟩ sample_bed [[2, 0, 3, 1, 0]] (-800)) 2
      (continental_shelf_labeled sample_labeler ⟨5, 1⟩ sample_bed [[2, 0, 3, 1, 0]] (-800)) ∧
    compute_continental_shelf_mask sample_labeler ⟨5, 1⟩ sample_bed [[2, 0, 3, 1, 0]] (-800)
      = [[0, 2, 0, 1, 1]] ∧
    IceModelVec2Int.get [[2, 0, 3, 1, 0]] 3 0 = RISE ∧
    (compute_continental_shelf_mask sample_labeler ⟨5, 1⟩ sample_bed [[2, 0, 3, 1, 0]]
      (-800)).get 3 0 = 1 :=
  ⟨sample_iceberg_labeling, by decide!, by decide, by decide!⟩


/-! ## The rounds of the wavefront solver -/

theorem Frozen_refl (g : IceGrid) (a : IceModelVec2Int) : Frozen g a a :=
  fun _ _ _ => ⟨fun _ => rfl, fun h => Or.inl h⟩

theorem Frozen_trans (g : IceGrid) (a b c : IceModelVec2Int) (hab : Frozen g a b)
    (hbc : Frozen g b c) : Frozen g a c := by
  intro p hp1 hp2
  obtain ⟨h1, h2⟩ := hab p hp1 hp2
  obtain ⟨h3, h4⟩ := hbc p hp1 hp2
  constructor
  · intro ha
    have hb := h1 ha
    rw [h3 (by rw [hb]; exact ha), hb]
  · intro ha
    rcases h2 ha with hb | hb
    · exact h4 hb
    · right
      rw [h3 (by omega)]
      exact hb

/-- One round freezes every cell that is not 0. -/
theorem eikonal_sweep_frozen (g : IceGrid) (gm : GhostMap) (L : Int) (m : IceModelVec2Int)
    (hL : 1 ≤ L) (hwf : m.WF g) : Frozen g m (eikonal_sweep g gm L m).1 := by
  obtain ⟨-, hcells, -⟩ := eikonal_sweep_spec g gm L m hL hwf
  intro p hp1 hp2
  obtain ⟨ha, hb⟩ := hcells p hp1 hp2
  constructor
  · intro hne
    exact hb (fun hc => hne hc.1)
  · intro h0
    by_cases hc : m.get p.1 p.2 = 0 ∧ has_neighbour g gm m L p
    · right
      rw [ha hc]
      omega
    · left
      rw [hb hc]
      exact h0

/-- With more fuel than cells at 0 the trace exists: it starts with the
input, consecutive masks are related by `Frozen`, and its last mask is the
one the loop returns. -/
theorem eikonal_trace_spec (g : IceGrid) (gm : GhostMap) (fuel : Nat) :
    ∀ (L : Int) (m : IceModelVec2Int), 1 ≤ L → m.WF g → g.count m 0 < fuel →
      ∃ (tr : List IceModelVec2Int) (r : IceModelVec2Int),
        eikonal_trace g gm fuel L m = some (m :: tr) ∧
        List.Chain (Frozen g) m tr ∧
        (m :: tr).getLast? = some r ∧ r.WF g ∧
        (eikonal_loop g gm fuel L m).map Prod.fst = some r := by
  induction fuel with
  | zero =>
    intro L m _ _ h
    omega
  | succ fuel ih =>
    intro L m hL hwf hfuel
    obtain ⟨hswf, hscells, hsflag⟩ := eikonal_sweep_spec g gm L m hL hwf
    have hfr := eikonal_sweep_frozen g gm L m hL hwf
    by_cases hc : (eikonal_sweep g gm L m).2 = true
    · obtain ⟨p, hp1, hp2, hp0, hpn⟩ := hsflag.1 hc
      have hlt : g.count (eikonal_sweep g gm L m).1 0 < g.count m 0 := by
        apply count_zero_lt
        · intro q hq1 hq2 hq0
          by_contra hne
          have := (hfr q hq1 hq2).1 hne
          rw [this] at hq0
          exact hne hq0
        · refine ⟨p, hp1, hp2, hp0, ?_⟩
          rw [(hscells p hp1 hp2).1 ⟨hp0, hpn⟩]
          omega
      obtain ⟨tr, r, h1, h2, h3, h4, h5⟩ :=
        ih (L + 1) (eikonal_sweep g gm L m).1 (by omega) hswf (by omega)
      refine ⟨(eikonal_sweep g gm L m).1 :: tr, r, ?_, ?_, ?_, h4, ?_⟩
      · simp only [eikonal_trace]
        rw [if_pos hc, h1]
        rfl
      · exact List.Chain.cons hfr h2
      · rw [List.getLast?_cons_cons]
        exact h3
      · simp only [eikonal_loop]
        rw [if_pos hc]
        exact h5
    · refine ⟨[(eikonal_sweep g gm L m).1], (eikonal_sweep g gm L m).1, ?_, ?_, ?_, hswf, ?_⟩
      · simp only [eikonal_trace]
        rw [if_neg hc]
      · exact List.Chain.cons hfr List.Chain.nil
      · rfl
      · simp only [eikonal_loop]
        rw [if_neg hc]
        rfl

/-- The solver returns for every input of the shape of the grid, given more
rounds than cells, and from the input to the result no cell that is not 0
changes, while a cell that is 0 stays 0 or gets a value of at least 2. -/
theorem eikonal_equation_frozen (g : IceGrid) (gm : GhostMap) (m0 : IceModelVec2Int)
    (hwf : m0.WF g) (fuel : Nat) (hfuel : g.Mx * g.My < fuel) :
    ∃ r : IceModelVec2Int, eikonal_equation g gm fuel m0 = some r ∧ r.WF g ∧ Frozen g m0 r := by
  obtain ⟨tr, r, -, h2, h3, h4, h5⟩ := eikonal_trace_spec g gm fuel 1 m0 (le_refl _) hwf
    (lt_of_le_of_lt (count_le_cells g m0 0) hfuel)
  refine ⟨r, h5, h4, ?_⟩
  haveI : IsTrans IceModelVec2Int (Frozen g) := ⟨Frozen_trans g⟩
  have hpw := List.Chain.pairwise h2
  cases tr with
  | nil =>
    simp only [List.getLast?_singleton, Option.some.injEq] at h3
    rw [← h3]
    exact Frozen_refl g m0
  | cons b tr =>
    have hmem : r ∈ b :: tr := by
      rw [List.getLast?_cons_cons] at h3
      exact List.mem_of_getLast?_eq_some h3
    exact List.rel_of_pairwise_cons hpw hmem

theorem changes_cons_cons (a b : IceModelVec2Int) (tr : List IceModelVec2Int) (p : Nat × Nat) :
    changes (a :: b :: tr) p
      = (if a.get p.1 p.2 = b.get p.1 p.2 then 0 else 1) + changes (b :: tr) p := by
  unfold changes
  simp only [List.tail_cons, List.zip_cons_cons]
  rw [List.filter_cons]
  by_cases hab : a.get p.1 p.2 = b.get p.1 p.2
  · simp [hab]
  · simp [hab]
    omega

theorem changes_const (tr : List IceModelVec2Int) (p : Nat × Nat) (v : Int)
    (h : ∀ a ∈ tr, a.get p.1 p.2 = v) : changes tr p = 0 := by
  induction tr with
  | nil => rfl
  | cons a tr ih =>
    cases tr with
    | nil => rfl
    | cons b tr =>
      have ha := h a (List.mem_cons_self _ _)
      have hb := h b (List.mem_cons_of_mem _ (List.mem_cons_self _ _))
      have ih' := ih (fun x hx => h x (List.mem_cons_of_mem _ hx))
      rw [changes_cons_cons, ih', ha, hb]
      simp

/-- In a trace whose masks are pairwise related by `Frozen`, a cell changes
in at most one round. -/
theorem changes_le_one (g : IceGrid) (tr : List IceModelVec2Int) (p : Nat × Nat)
    (hp1 : p.1 < g.Mx) (hp2 : p.2 < g.My) (hpw : tr.Pairwise (Frozen g)) :
    changes tr p ≤ 1 := by
  induction tr with
  | nil => exact Nat.zero_le _
  | cons a tr ih =>
    cases tr with
    | nil => exact Nat.zero_le _
    | cons b tr =>
      rw [List.pairwise_cons] at hpw
      obtain ⟨ha, hrest⟩ := hpw
      have ih' := ih hrest
      rw [changes_cons_cons]
      by_cases hab : a.get p.1 p.2 = b.get p.1 p.2
      · rw [if_pos hab]
        omega
      · have hfab := ha b (List.mem_cons_self _ _) p hp1 hp2
        have hb0 : b.get p.1 p.2 ≠ 0 := by
          intro hb
          by_cases ha0 : a.get p.1 p.2 = 0
          · exact hab (by rw [ha0, hb])
          · exact hab (hfab.1 ha0).symm
        have hconst : changes (b :: tr) p = 0 := by
          apply changes_const (b :: tr) p (b.get p.1 p.2)
          intro x hx
          rcases List.mem_cons.1 hx with rfl | hx'
          · rfl
          · exact ((List.rel_of_pairwise_cons hrest hx') p hp1 hp2).1 hb0
        rw [if_neg hab, hconst]

/-! ## Facts about the two distance fields and the solver's rounds -/

/-- What the solver leaves of a field that is -1 outside a domain and 0 or 1
inside it. -/
theorem distances_result (g : IceGrid) (s r : IceModelVec2Int) (dom : Nat → Nat → Prop)
    (hs : ∀ i j, i < g.Mx → j < g.My →
      (dom i j → s.get i j = 0 ∨ s.get i j = 1) ∧ (¬ dom i j → s.get i j = -1))
    (hfr : Frozen g s r) :
    ∀ i j, i < g.Mx → j < g.My →
      (r.get i j = -1 ↔ ¬ dom i j) ∧ (dom i j → 0 ≤ r.get i j) := by
  intro i j hi hj
  obtain ⟨h1, h2⟩ := hs i j hi hj
  obtain ⟨h3, h4⟩ := hfr (i, j) hi hj
  simp only at h3 h4
  by_cases hd : dom i j
  · have hge : 0 ≤ r.get i j := by
      rcases h1 hd with h | h
      · rcases h4 h with h' | h' <;> omega
      · rw [h3 (by omega), h]
        decide
    exact ⟨⟨fun h => by omega, fun h => absurd hd h⟩, fun _ => hge⟩
  · have hm := h2 hd
    have hr : r.get i j = -1 := by rw [h3 (by omega), hm]
    exact ⟨⟨fun _ => hd, fun _ => hr⟩, fun h => absurd h hd⟩

/-- C18. Given more rounds than cells, `compute_distances_gl` and
`compute_distances_if` both return; a cell holds -1 in one result iff it holds
-1 in the other, which is the case iff the cell is neither FLOATING, nor a
lake hole (`ocean_mask = 1`), nor (with `exclude_ice_rises`) a RISE; every
cell of that domain ends with a value `≥ 0` in both. -/
theorem compute_distances_same_domain (g : IceGrid) (gm : GhostMap) (fuel : Nat)
    (ocean_mask ice_rises : IceModelVec2Int) (exclude_ice_rises : Bool)
    (hfuel : g.Mx * g.My < fuel) :
    ∃ r_gl r_if : IceModelVec2Int,
      compute_distances_gl g gm fuel ocean_mask ice_rises exclude_ice_rises = some r_gl ∧
      compute_distances_if g gm fuel ocean_mask ice_rises exclude_ice_rises = some r_if ∧
      ∀ i j, i < g.Mx → j < g.My →
        (r_gl.get i j = -1 ↔ r_if.get i j = -1) ∧
        (r_gl.get i j = -1 ↔
          ¬ (ice_rises.get i j = FLOATING ∨ ocean_mask.get i j = 1 ∨
            (exclude_ice_rises = true ∧ ice_rises.get i j = RISE))) ∧
        ((ice_rises.get i j = FLOATING ∨ ocean_mask.get i j = 1 ∨
            (exclude_ice_rises = true ∧ ice_rises.get i j = RISE)) →
          0 ≤ r_gl.get i j ∧ 0 ≤ r_if.get i j) := by
  obtain ⟨r_gl, h1, -, hf1⟩ := eikonal_equation_frozen g gm
    (distances_gl_seed g gm ocean_mask ice_rises exclude_ice_rises) (WF_tabulate g _) fuel hfuel
  obtain ⟨r_if, h2, -, hf2⟩ := eikonal_equation_frozen g gm
    (distances_if_seed g gm ocean_mask ice_rises exclude_ice_rises) (WF_tabulate g _) fuel hfuel
  have hgl := distances_result g _ r_gl
    (distances_domain ocean_mask ice_rises exclude_ice_rises) (by
      intro i j hi hj
      simp only [distances_gl_seed, get_tabulate _ hi hj]
      constructor
      · intro hd
        rw [if_pos hd]
        split_ifs
        · exact Or.inr rfl
        · exact Or.inl rfl
      · intro hd
        rw [if_neg hd]) hf1
  have hif := distances_result g _ r_if
    (distances_domain ocean_mask ice_rises exclude_ice_rises) (by
      intro i j hi hj
      simp only [distances_if_seed, get_tabulate _ hi hj]
      constructor
      · intro hd
        rw [if_pos hd]
        split_ifs
        · exact Or.inr rfl
        · exact Or.inl rfl
      · intro hd
        rw [if_neg hd]) hf2
  refine ⟨r_gl, r_if, h1, h2, ?_⟩
  intro i j hi hj
  obtain ⟨ha, hb⟩ := hgl i j hi hj
  obtain ⟨hc, hd⟩ := hif i j hi hj
  exact ⟨by rw [ha, hc], ha, fun h => ⟨hb h, hd h⟩⟩

/-- Witness for C18: continental ice, three shelf cells, open ocean. -/
theorem compute_distances_same_domain_witness :
    compute_distances_gl ⟨6, 1⟩ (periodic ⟨6, 1⟩) 7 [[0, 0, 0, 0, 2, 2]] [[2, 3, 3, 3, 0, 0]] true
      = some [[-1, 1, 2, 3, -1, -1]] ∧
    compute_distances_if ⟨6, 1⟩ (periodic ⟨6, 1⟩) 7 [[0, 0, 0, 0, 2, 2]] [[2, 3, 3, 3, 0, 0]] true
      = some [[-1, 3, 2, 1, -1, -1]] ∧
    ∃ r_gl r_if : IceModelVec2Int,
      compute_distances_gl ⟨6, 1⟩ (periodic ⟨6, 1⟩) 7 [[0, 0, 0, 0, 2, 2]] [[2, 3, 3, 3, 0, 0]]
        true = some r_gl ∧
      compute_distances_if ⟨6, 1⟩ (periodic ⟨6, 1⟩) 7 [[0, 0, 0, 0, 2, 2]] [[2, 3, 3, 3, 0, 0]]
        true = some r_if ∧
      ∀ i j, i < 6 → j < 1 →
        (r_gl.get i j = -1 ↔ r_if.get i j = -1) ∧
        (r_gl.get i j = -1 ↔
          ¬ (IceModelVec2Int.get [[2, 3, 3, 3, 0, 0]] i j = FLOATING ∨
            IceModelVec2Int.get [[0, 0, 0, 0, 2, 2]] i j = 1 ∨
            (true = true ∧ IceModelVec2Int.get [[2, 3, 3, 3, 0, 0]] i j = RISE))) ∧
        ((IceModelVec2Int.get [[2, 3, 3, 3, 0, 0]] i j = FLOATING ∨
            IceModelVec2Int.get [[0, 0, 0, 0, 2, 2]] i j = 1 ∨
            (true = true ∧ IceModelVec2Int.get [[2, 3, 3, 3, 0, 0]] i j = RISE)) →
          0 ≤ r_gl.get i j ∧ 0 ≤ r_if.get i j) :=
  ⟨by decide, by decide, compute_distances_same_domain ⟨6, 1⟩ (periodic ⟨6, 1⟩) 7
    [[0, 0, 0, 0, 2, 2]] [[2, 3, 3, 3, 0, 0]] true (by decide)⟩

/-- C19. A visit writes at most the visited cell, only when that cell holds
0, and then a value that is not 0; every sweep visits each cell once.  Over
the whole run (the trace of masks at the start of each round and at exit,
which exists given more rounds than cells and ends with the returned mask) a
cell that is not 0 in some mask has the same value in every later mask, and
every cell changes in at most one round. -/
theorem eikonal_write_once (g : IceGrid) (gm : GhostMap) (m0 : IceModelVec2Int)
    (hwf : m0.WF g) (fuel : Nat) (hfuel : g.Mx * g.My < fuel) :
    (∀ (L : Int) (ghosts : IceModelVec2Int) (st : IceModelVec2Int × Bool) (p : Nat × Nat),
      (eikonal_visit g gm L ghosts st p).1 = st.1 ∨
      (st.1.get p.1 p.2 = 0 ∧ (eikonal_visit g gm L ghosts st p).1 = st.1.put p.1 p.2 (L + 1))) ∧
    g.points.Nodup ∧
    ∃ tr : List IceModelVec2Int,
      eikonal_trace g gm fuel 1 m0 = some tr ∧ tr.head? = some m0 ∧
      tr.getLast? = eikonal_equation g gm fuel m0 ∧
      tr.Pairwise (Frozen g) ∧
      ∀ p : Nat × Nat, p.1 < g.Mx → p.2 < g.My → changes tr p ≤ 1 := by
  refine ⟨?_, nodup_points g, ?_⟩
  · intro L ghosts st p
    unfold eikonal_visit
    simp only
    split_ifs with h1 h2
    · exact Or.inr ⟨h1, rfl⟩
    · exact Or.inl rfl
    · exact Or.inl rfl
  · obtain ⟨tr, r, h1, h2, h3, -, h5⟩ := eikonal_trace_spec g gm fuel 1 m0 (le_refl _) hwf
      (lt_of_le_of_lt (count_le_cells g m0 0) hfuel)
    haveI : IsTrans IceModelVec2Int (Frozen g) := ⟨Frozen_trans g⟩
    have hpw := List.Chain.pairwise h2
    refine ⟨m0 :: tr, h1, rfl, ?_, hpw, ?_⟩
    · rw [h3]
      exact h5.symm
    · intro p hp1 hp2
      exact changes_le_one g _ p hp1 hp2 hpw

/-- Witness for C19: a strip on which the wavefront advances for two rounds. -/
theorem eikonal_write_once_witness :
    eikonal_trace ⟨6, 1⟩ (periodic ⟨6, 1⟩) 7 1 [[-1, 1, 0, 0, -1, 0]]
      = some [[[-1, 1, 0, 0, -1, 0]], [[-1, 1, 2, 0, -1, 0]], [[-1, 1, 2, 3, -1, 0]],
          [[-1, 1, 2, 3, -1, 0]]] ∧
    ((∀ (L : Int) (ghosts : IceModelVec2Int) (st : IceModelVec2Int × Bool) (p : Nat × Nat),
      (eikonal_visit ⟨6, 1⟩ (periodic ⟨6, 1⟩) L ghosts st p).1 = st.1 ∨
      (st.1.get p.1 p.2 = 0 ∧
        (eikonal_visit ⟨6, 1⟩ (periodic ⟨6, 1⟩) L ghosts st p).1 = st.1.put p.1 p.2 (L + 1))) ∧
    (IceGrid.points ⟨6, 1⟩).Nodup ∧
    ∃ tr : List IceModelVec2Int,
      eikonal_trace ⟨6, 1⟩ (periodic ⟨6, 1⟩) 7 1 [[-1, 1, 0, 0, -1, 0]] = some tr ∧
      tr.head? = some [[-1, 1, 0, 0, -1, 0]] ∧
      tr.getLast? = eikonal_equation ⟨6, 1⟩ (periodic ⟨6, 1⟩) 7 [[-1, 1, 0, 0, -1, 0]] ∧
      tr.Pairwise (Frozen ⟨6, 1⟩) ∧
      ∀ p : Nat × Nat, p.1 < 6 → p.2 < 1 → changes tr p ≤ 1) :=
  ⟨by decide, eikonal_write_once ⟨6, 1⟩ (periodic ⟨6, 1⟩) [[-1, 1, 0, 0, -1, 0]] (by decide) 7
    (by decide)⟩

/-- C20. For an input mask with values in `{-1, 0, 1}` the solver returns
(given more rounds than cells), and a cell that is initially 0 and has no
path of initially-0 cells to a seed still holds 0 in the result. -/
theorem eikonal_equation_unreachable (g : IceGrid) (gm : GhostMap) (m0 : IceModelVec2Int)
    (hwf : m0.WF g) (hgm : ∀ i j, (gm i j).1 < g.Mx ∧ (gm i j).2 < g.My)
    (hvals : ∀ i j, i < g.Mx → j < g.My → m0.get i j = -1 ∨ m0.get i j = 0 ∨ m0.get i j = 1)
    (fuel : Nat) (hfuel : g.Mx * g.My < fuel)
    (p : Nat × Nat) (hp1 : p.1 < g.Mx) (hp2 : p.2 < g.My) (hp0 : m0.get p.1 p.2 = 0)
    (hno : ∀ k, ¬ SeedPath g gm m0 k p) :
    ∃ r : IceModelVec2Int, eikonal_equation g gm fuel m0 = some r ∧ r.get p.1 p.2 = 0 := by
  obtain ⟨r, L', h1, -, h3, -⟩ := eikonal_loop_spec g gm m0 hgm hvals fuel 1 m0 (le_refl _)
    (WaveInv_init g gm m0 hwf) (lt_of_le_of_lt (count_le_cells g m0 0) hfuel)
  refine ⟨r, ?_, ?_⟩
  · unfold eikonal_equation
    have : ((1 : Nat) : Int) = 1 := rfl
    rw [this] at h1
    rw [h1]
    rfl
  · exact ((h3.2 p hp1 hp2).2 hp0).2.1.2 (fun k _ => hno k)

/-- Witness for C20: the last cell of the strip lies between two cells
outside the domain and keeps its 0. -/
theorem eikonal_equation_unreachable_witness :
    eikonal_equation ⟨6, 1⟩ (periodic ⟨6, 1⟩) 7 [[-1, 1, 0, 0, -1, 0]]
      = some [[-1, 1, 2, 3, -1, 0]] ∧
    ∃ r : IceModelVec2Int,
      eikonal_equation ⟨6, 1⟩ (periodic ⟨6, 1⟩) 7 [[-1, 1, 0, 0, -1, 0]] = some r ∧
      r.get 5 0 = 0 := by
  refine ⟨by decide, ?_⟩
  apply eikonal_equation_unreachable ⟨6, 1⟩ (periodic ⟨6, 1⟩) [[-1, 1, 0, 0, -1, 0]] (by decide)
    (periodic_in_grid ⟨6, 1⟩ (by decide) (by decide))
    ((forall_cells ⟨6, 1⟩ _).2 (by decide)) 7 (by decide) (5, 0) (by decide) (by decide)
    (by decide)
  intro k
  induction k using Nat.strong_induction_on with
  | _ k ih =>
    intro hpath
    have hnb : ∀ q ∈ neighbours ⟨6, 1⟩ (periodic ⟨6, 1⟩) (5, 0),
        IceModelVec2Int.get [[-1, 1, 0, 0, -1, 0]] q.1 q.2 ≠ 1 ∧
        (IceModelVec2Int.get [[-1, 1, 0, 0, -1, 0]] q.1 q.2 = 0 → q = (5, 0)) := by decide
    rcases SeedPath_inv _ _ _ k (5, 0) hpath with ⟨-, q, hq, hq1⟩ | ⟨k', q, hk, hq, hqpath⟩
    · exact (hnb q hq).1 hq1
    · have hq0 := (SeedPath_start _ _ _ k' q hqpath).2.2.2
      have hqe := (hnb q hq).2 hq0
      rw [hqe] at hqpath
      exact ih k' (by omega) hqpath


/-! ## Termination of the wavefront solver -/

/-- With more fuel than cells at 0 the loop returns: the number of rounds is
at least one and at most the number of cells at 0 plus one, and
`current_label` at exit is its initial value plus the number of rounds. -/
theorem eikonal_rounds_spec (g : IceGrid) (gm : GhostMap) (fuel : Nat) :
    ∀ (L : Int) (m : IceModelVec2Int), 1 ≤ L → m.WF g → g.count m 0 < fuel →
      ∃ (n : Nat) (r : IceModelVec2Int),
        eikonal_rounds_from g gm fuel L m = some n ∧
        eikonal_loop g gm fuel L m = some (r, L + (n : Int)) ∧
        1 ≤ n ∧ n ≤ g.count m 0 + 1 := by
  induction fuel with
  | zero =>
    intro L m _ _ h
    omega
  | succ fuel ih =>
    intro L m hL hwf hfuel
    obtain ⟨hswf, hscells, hsflag⟩ := eikonal_sweep_spec g gm L m hL hwf
    have hfr := eikonal_sweep_frozen g gm L m hL hwf
    by_cases hc : (eikonal_sweep g gm L m).2 = true
    · obtain ⟨p, hp1, hp2, hp0, hpn⟩ := hsflag.1 hc
      have hlt : g.count (eikonal_sweep g gm L m).1 0 < g.count m 0 := by
        apply count_zero_lt
        · intro q hq1 hq2 hq0
          by_contra hne
          have := (hfr q hq1 hq2).1 hne
          rw [this] at hq0
          exact hne hq0
        · refine ⟨p, hp1, hp2, hp0, ?_⟩
          rw [(hscells p hp1 hp2).1 ⟨hp0, hpn⟩]
          omega
      obtain ⟨n, r, h1, h2, h3, h4⟩ :=
        ih (L + 1) (eikonal_sweep g gm L m).1 (by omega) hswf (by omega)
      refine ⟨n + 1, r, ?_, ?_, by omega, by omega⟩
      · simp only [eikonal_rounds_from]
        rw [if_pos hc, h1]
        rfl
      · simp only [eikonal_loop]
        rw [if_pos hc, h2]
        congr 2
        push_cast
        ring
    · refine ⟨1, (eikonal_sweep g gm L m).1, ?_, ?_, le_refl _, by omega⟩
      · simp only [eikonal_rounds_from]
        rw [if_neg hc]
      · simp only [eikonal_loop]
        rw [if_neg hc]
        rfl

/-- C21. `eikonal_equation` terminates on every grid and every input mask of
the shape of the grid.  A round that requests continuation (`continue_loop`
set) turns at least one cell holding 0 into a positive value, and no round
turns a cell into 0; so, allowed one round more than there are cells at 0 in
the input, the loop returns, and it executes at most (number of initially-0
cells) + 1 rounds (`current_label` at exit is 1 plus the number of rounds). -/
theorem eikonal_equation_terminates (g : IceGrid) (gm : GhostMap) (m0 : IceModelVec2Int)
    (hwf : m0.WF g) (fuel : Nat) (hfuel : g.count m0 0 < fuel) :
    (∀ (L : Int) (m : IceModelVec2Int), 1 ≤ L → m.WF g →
      (eikonal_sweep g gm L m).2 = true →
      (∃ p : Nat × Nat, p.1 < g.Mx ∧ p.2 < g.My ∧ m.get p.1 p.2 = 0 ∧
        0 < (eikonal_sweep g gm L m).1.get p.1 p.2) ∧
      (∀ q : Nat × Nat, q.1 < g.Mx → q.2 < g.My →
        (eikonal_sweep g gm L m).1.get q.1 q.2 = 0 → m.get q.1 q.2 = 0)) ∧
    ∃ (n : Nat) (r : IceModelVec2Int),
      eikonal_rounds g gm fuel m0 = some n ∧
      eikonal_loop g gm fuel 1 m0 = some (r, 1 + (n : Int)) ∧
      eikonal_equation g gm fuel m0 = some r ∧
      n ≤ g.count m0 0 + 1 := by
  constructor
  · intro L m hL hmwf hc
    obtain ⟨-, hscells, hsflag⟩ := eikonal_sweep_spec g gm L m hL hmwf
    have hfr := eikonal_sweep_frozen g gm L m hL hmwf
    constructor
    · obtain ⟨p, hp1, hp2, hp0, hpn⟩ := hsflag.1 hc
      refine ⟨p, hp1, hp2, hp0, ?_⟩
      rw [(hscells p hp1 hp2).1 ⟨hp0, hpn⟩]
      omega
    · intro q hq1 hq2 hq0
      by_contra hne
      have := (hfr q hq1 hq2).1 hne
      rw [this] at hq0
      exact hne hq0
  · obtain ⟨n, r, h1, h2, -, h4⟩ := eikonal_rounds_spec g gm fuel 1 m0 (le_refl _) hwf hfuel
    refine ⟨n, r, h1, h2, ?_, h4⟩
    unfold eikonal_equation
    rw [h2]
    rfl

/-- Witness for C21: a strip with three cells at 0, one of them cut off; the
loop runs three rounds. -/
theorem eikonal_equation_terminates_witness :
    eikonal_rounds ⟨6, 1⟩ (periodic ⟨6, 1⟩) 4 [[-1, 1, 0, 0, -1, 0]] = some 3 ∧
    IceGrid.count ⟨6, 1⟩ [[-1, 1, 0, 0, -1, 0]] 0 = 3 ∧
    ((∀ (L : Int) (m : IceModelVec2Int), 1 ≤ L → m.WF ⟨6, 1⟩ →
      (eikonal_sweep ⟨6, 1⟩ (periodic ⟨6, 1⟩) L m).2 = true →
      (∃ p : Nat × Nat, p.1 < 6 ∧ p.2 < 1 ∧ m.get p.1 p.2 = 0 ∧
        0 < (eikonal_sweep ⟨6, 1⟩ (periodic ⟨6, 1⟩) L m).1.get p.1 p.2) ∧
      (∀ q : Nat × Nat, q.1 < 6 → q.2 < 1 →
        (eikonal_sweep ⟨6, 1⟩ (periodic ⟨6, 1⟩) L m).1.get q.1 q.2 = 0 → m.get q.1 q.2 = 0)) ∧
    ∃ (n : Nat) (r : IceModelVec2Int),
      eikonal_rounds ⟨6, 1⟩ (periodic ⟨6, 1⟩) 4 [[-1, 1, 0, 0, -1, 0]] = some n ∧
      eikonal_loop ⟨6, 1⟩ (periodic ⟨6, 1⟩) 4 1 [[-1, 1, 0, 0, -1, 0]]
        = some (r, 1 + (n : Int)) ∧
      eikonal_equation ⟨6, 1⟩ (periodic ⟨6, 1⟩) 4 [[-1, 1, 0, 0, -1, 0]] = some r ∧
      n ≤ IceGrid.count ⟨6, 1⟩ [[-1, 1, 0, 0, -1, 0]] 0 + 1) :=
  ⟨by decide, by decide,
    eikonal_equation_terminates ⟨6, 1⟩ (periodic ⟨6, 1⟩) [[-1, 1, 0, 0, -1, 0]] (by decide) 4
      (by decide)⟩

/-! ## The round bound through the diameter of the region -/

theorem RegionPath_inv (g : IceGrid) (gm : GhostMap) (m : IceModelVec2Int) (k : Nat)
    (p r : Nat × Nat) (h : RegionPath g gm m k p r) :
    p.1 < g.Mx ∧ p.2 < g.My ∧ 0 ≤ m.get p.1 p.2 ∧
    ((k = 0 ∧ p = r) ∨
     (∃ k' q, k = k' + 1 ∧ q ∈ neighbours g gm p ∧ RegionPath g gm m k' q r)) := by
  cases h with
  | here h1 h2 h3 => exact ⟨h1, h2, h3, Or.inl ⟨rfl, rfl⟩⟩
  | step h1 h2 h3 h4 h5 => exact ⟨h1, h2, h3, Or.inr ⟨_, _, rfl, h4, h5⟩⟩

/-- A seed path is a walk within the region that ends at a seed. -/
theorem SeedPath_region (g : IceGrid) (gm : GhostMap) (m : IceModelVec2Int)
    (hgm : ∀ i j, (gm i j).1 < g.Mx ∧ (gm i j).2 < g.My)
    (k : Nat) (p : Nat × Nat) (h : SeedPath g gm m k p) :
    ∃ s : Nat × Nat, m.get s.1 s.2 = 1 ∧ RegionPath g gm m k p s := by
  induction h with
  | last h1 h2 h3 h4 h5 =>
    rename_i p q
    have hq := neighbours_in_grid g gm hgm p q h4
    refine ⟨q, h5, RegionPath.step h1 h2 (by omega) h4 (RegionPath.here hq.1 hq.2 (by omega))⟩
  | step h1 h2 h3 h4 _ ih =>
    obtain ⟨s, hs, hpath⟩ := ih
    exact ⟨s, hs, RegionPath.step h1 h2 (by omega) h4 hpath⟩

/-- A walk within the region from a cell at 0 to a seed has a seed path as an
initial piece. -/
theorem RegionPath_seed (g : IceGrid) (gm : GhostMap) (m : IceModelVec2Int)
    (hvals : ∀ i j, i < g.Mx → j < g.My → m.get i j = -1 ∨ m.get i j = 0 ∨ m.get i j = 1)
    (k : Nat) (p s : Nat × Nat) (h : RegionPath g gm m k p s)
    (hp : m.get p.1 p.2 = 0) (hs : m.get s.1 s.2 = 1) :
    ∃ k', k' ≤ k ∧ SeedPath g gm m k' p := by
  induction h with
  | here h1 h2 h3 => omega
  | step h1 h2 h3 h4 h5 ih =>
    rename_i k p q r
    obtain ⟨hq1, hq2, hq0, -⟩ := RegionPath_inv g gm m k q r h5
    rcases hvals q.1 q.2 hq1 hq2 with hv | hv | hv
    · omega
    · obtain ⟨k', hk', hpath⟩ := ih hv hs
      exact ⟨k' + 1, by omega, SeedPath.step h1 h2 hp h4 hpath⟩
    · exact ⟨1, by omega, SeedPath.last h1 h2 hp h4 hv⟩

theorem RegionDist_exists (g : IceGrid) (gm : GhostMap) (m : IceModelVec2Int) (k : Nat)
    (p q : Nat × Nat) (h : RegionPath g gm m k p q) :
    ∃ d, d ≤ k ∧ RegionDist g gm m d p q := by
  induction k using Nat.strong_induction_on with
  | _ k ih =>
    by_cases hmin : ∀ k', k' < k → ¬ RegionPath g gm m k' p q
    · exact ⟨k, le_refl _, h, hmin⟩
    · push_neg at hmin
      obtain ⟨k', hk', hpath⟩ := hmin
      obtain ⟨d, hd, hdist⟩ := ih k' hk' hpath
      exact ⟨d, by omega, hdist⟩

/-- The shortest seed path of a cell is no longer than the diameter of the
region. -/
theorem MinPath_le_diameter (g : IceGrid) (gm : GhostMap) (m : IceModelVec2Int)
    (hgm : ∀ i j, (gm i j).1 < g.Mx ∧ (gm i j).2 < g.My)
    (hvals : ∀ i j, i < g.Mx → j < g.My → m.get i j = -1 ∨ m.get i j = 0 ∨ m.get i j = 1)
    (D : Nat) (hD : ∀ (p q : Nat × Nat) (d : Nat), RegionDist g gm m d p q → d ≤ D)
    (d : Nat) (p : Nat × Nat) (h : MinPath g gm m d p) : d ≤ D := by
  obtain ⟨s, hs, hpath⟩ := SeedPath_region g gm m hgm d p h.1
  obtain ⟨d', hd', hdist⟩ := RegionDist_exists g gm m d p s hpath
  have hp0 := (SeedPath_start g gm m d p h.1).2.2.2
  obtain ⟨k', hk', hseed⟩ := RegionPath_seed g gm m hvals d' p s hdist.1 hp0 hs
  have h1 := hD p s d' hdist
  by_contra hlt
  exact h.2 k' (by omega) hseed

/-- The rounds of the loop under the wavefront invariant: the loop returns,
and its last round is the first one, or the round before it gave some cell
its distance, which is the label of that round. -/
theorem eikonal_rounds_wave (g : IceGrid) (gm : GhostMap) (m0 : IceModelVec2Int)
    (hgm : ∀ i j, (gm i j).1 < g.Mx ∧ (gm i j).2 < g.My)
    (hvals : ∀ i j, i < g.Mx → j < g.My → m0.get i j = -1 ∨ m0.get i j = 0 ∨ m0.get i j = 1)
    (fuel : Nat) :
    ∀ (L : Nat) (m : IceModelVec2Int), 1 ≤ L → WaveInv g gm m0 L m →
      (L = 1 ∨ ∃ p, MinPath g gm m0 (L - 1) p) → g.count m 0 < fuel →
      ∃ n : Nat, eikonal_rounds_from g gm fuel (L : Int) m = some n ∧ 1 ≤ n ∧
        (L + n = 2 ∨ ∃ p, MinPath g gm m0 (L + n - 2) p) := by
  induction fuel with
  | zero =>
    intro L m _ _ _ h
    omega
  | succ fuel ih =>
    intro L m hL hinv hprev hfuel
    obtain ⟨hswf, hscells, hsflag⟩ := eikonal_sweep_spec g gm (L : Int) m (by omega) hinv.1
    by_cases hc : (eikonal_sweep g gm (L : Int) m).2 = true
    · have hnext := WaveInv_step g gm m0 m L hgm hvals hL hinv
      obtain ⟨p, hp1, hp2, hp0, hpn⟩ := hsflag.1 hc
      have hlt : g.count (eikonal_sweep g gm (L : Int) m).1 0 < g.count m 0 := by
        apply count_zero_lt
        · intro q hq1 hq2 hq0
          obtain ⟨ha, hb⟩ := hscells q hq1 hq2
          by_cases hu : m.get q.1 q.2 = 0 ∧ has_neighbour g gm m (L : Int) q
          · exact hu.1
          · rw [← hb hu]
            exact hq0
        · refine ⟨p, hp1, hp2, hp0, ?_⟩
          rw [(hscells p hp1 hp2).1 ⟨hp0, hpn⟩]
          omega
      have hm0 : m0.get p.1 p.2 = 0 := by
        by_contra hne
        have := (hinv.2 p hp1 hp2).1 hne
        omega
      have hmin : MinPath g gm m0 L p :=
        ⟨(has_neighbour_iff_path g gm m0 m L hgm hvals hL hinv p hp1 hp2 hm0 hp0).1 hpn,
          ((hinv.2 p hp1 hp2).2 hm0).2.1.1 hp0⟩
      obtain ⟨n, h1, h2, h3⟩ := ih (L + 1) _ (by omega) hnext (Or.inr ⟨p, hmin⟩) (by omega)
      refine ⟨n + 1, ?_, by omega, ?_⟩
      · simp only [eikonal_rounds_from]
        rw [if_pos hc]
        have : ((L + 1 : Nat) : Int) = (L : Int) + 1 := by push_cast; rfl
        rw [← this, h1]
        rfl
      · rcases h3 with h3 | ⟨q, hq⟩
        · omega
        · right
          refine ⟨q, ?_⟩
          have : L + (n + 1) - 2 = L + 1 + n - 2 := by omega
          rw [this]
          exact hq
    · refine ⟨1, ?_, le_refl _, ?_⟩
      · simp only [eikonal_rounds_from]
        rw [if_neg hc]
      · rcases hprev with h | ⟨q, hq⟩
        · left
          omega
        · right
          refine ⟨q, ?_⟩
          have : L + 1 - 2 = L - 1 := by omega
          rw [this]
          exact hq

/-- On the strip `-1, 1, 0, 0` the region consists of the cells 1, 2 and 3,
and its diameter is 2. -/
theorem sample_diameter : IsDiameter ⟨4, 1⟩ (periodic ⟨4, 1⟩) [[-1, 1, 0, 0]] 2 := by
  have hstep : ∀ p ∈ IceGrid.points ⟨4, 1⟩, ∀ q ∈ IceGrid.points ⟨4, 1⟩,
      0 ≤ IceModelVec2Int.get [[-1, 1, 0, 0]] p.1 p.2 →
      0 ≤ IceModelVec2Int.get [[-1, 1, 0, 0]] q.1 q.2 →
      p = q ∨ q ∈ neighbours ⟨4, 1⟩ (periodic ⟨4, 1⟩) p ∨
      ∃ c ∈ IceGrid.points ⟨4, 1⟩, 0 ≤ IceModelVec2Int.get [[-1, 1, 0, 0]] c.1 c.2 ∧
        c ∈ neighbours ⟨4, 1⟩ (periodic ⟨4, 1⟩) p ∧
        q ∈ neighbours ⟨4, 1⟩ (periodic ⟨4, 1⟩) c := by decide
  constructor
  · intro p q d hdist
    obtain ⟨hp1, hp2, hp0, -⟩ := RegionPath_inv _ _ _ d p q hdist.1
    have hq : q.1 < 4 ∧ q.2 < 1 ∧ 0 ≤ IceModelVec2Int.get [[-1, 1, 0, 0]] q.1 q.2 := by
      have hgen : ∀ (k : Nat) (a b : Nat × Nat),
          RegionPath ⟨4, 1⟩ (periodic ⟨4, 1⟩) [[-1, 1, 0, 0]] k a b →
          b.1 < 4 ∧ b.2 < 1 ∧ 0 ≤ IceModelVec2Int.get [[-1, 1, 0, 0]] b.1 b.2 := by
        intro k a b hab
        induction hab with
        | here h1 h2 h3 => exact ⟨h1, h2, h3⟩
        | step _ _ _ _ _ ih => exact ih
      exact hgen d p q hdist.1
    have hpm : p ∈ IceGrid.points ⟨4, 1⟩ := mem_points.2 ⟨hp1, hp2⟩
    have hqm : q ∈ IceGrid.points ⟨4, 1⟩ := mem_points.2 ⟨hq.1, hq.2.1⟩
    by_contra hlt
    rcases hstep p hpm q hqm hp0 hq.2.2 with h | h | ⟨c, hc, hc0, hpc, hcq⟩
    · subst h
      exact hdist.2 0 (by omega) (RegionPath.here hp1 hp2 hp0)
    · exact hdist.2 1 (by omega)
        (RegionPath.step hp1 hp2 hp0 h (RegionPath.here hq.1 hq.2.1 hq.2.2))
    · have hcm := mem_points.1 hc
      exact hdist.2 2 (by omega)
        (RegionPath.step hp1 hp2 hp0 hpc
          (RegionPath.step hcm.1 hcm.2 hc0 hcq (RegionPath.here hq.1 hq.2.1 hq.2.2)))
  · left
    refine ⟨(1, 0), (3, 0), ?_, ?_⟩
    · exact RegionPath.step (by decide) (by decide) (by decide) (q := (2, 0)) (by decide)
        (RegionPath.step (by decide) (by decide) (by decide) (q := (3, 0)) (by decide)
          (RegionPath.here (by decide) (by decide) (by decide)))
    · intro k hk hpath
      obtain ⟨-, -, -, h⟩ := RegionPath_inv _ _ _ k (1, 0) (3, 0) hpath
      rcases h with ⟨-, h⟩ | ⟨k', q, hk', hq, hrest⟩
      · exact absurd h (by decide)
      · have hk0 : k' = 0 := by omega
        subst hk0
        obtain ⟨-, -, -, h⟩ := RegionPath_inv _ _ _ 0 q (3, 0) hrest
        rcases h with ⟨-, h⟩ | ⟨k'', q', hk'', -, -⟩
        · subst h
          exact absurd hq (by decide)
        · omega

/-- A mask without any cell of value `≥ 0` has an empty region, of
diameter 0. -/
theorem empty_region_diameter : IsDiameter ⟨1, 1⟩ (periodic ⟨1, 1⟩) [[-1]] 0 := by
  refine ⟨?_, Or.inr rfl⟩
  intro p q d hdist
  obtain ⟨hp1, hp2, hp0, -⟩ := RegionPath_inv _ _ _ d p q hdist.1
  have hcell : ∀ c ∈ IceGrid.points ⟨1, 1⟩, ¬ 0 ≤ IceModelVec2Int.get [[-1]] c.1 c.2 := by
    decide
  exact absurd hp0 (hcell p (mem_points.2 ⟨hp1, hp2⟩))

/-- C22 as stated fails: on the strip `-1, 1, 0, 0` (values in `{-1, 0, 1}`)
the region of cells with value `≥ 0` has diameter 2, but the `while` loop
executes 3 rounds: two that extend the wavefront and one that finds nothing
left to do.  Likewise the loop executes one round on the mask `-1`, whose
region is empty and has diameter 0. -/
theorem eikonal_rounds_exceed_diameter :
    (∀ i j, i < 4 → j < 1 → IceModelVec2Int.get [[-1, 1, 0, 0]] i j = -1 ∨
      IceModelVec2Int.get [[-1, 1, 0, 0]] i j = 0 ∨ IceModelVec2Int.get [[-1, 1, 0, 0]] i j = 1) ∧
    IsDiameter ⟨4, 1⟩ (periodic ⟨4, 1⟩) [[-1, 1, 0, 0]] 2 ∧
    eikonal_equation ⟨4, 1⟩ (periodic ⟨4, 1⟩) 5 [[-1, 1, 0, 0]] = some [[-1, 1, 2, 3]] ∧
    eikonal_rounds ⟨4, 1⟩ (periodic ⟨4, 1⟩) 5 [[-1, 1, 0, 0]] = some 3 ∧ ¬ 3 ≤ 2 ∧
    IsDiameter ⟨1, 1⟩ (periodic ⟨1, 1⟩) [[-1]] 0 ∧
    eikonal_rounds ⟨1, 1⟩ (periodic ⟨1, 1⟩) 5 [[-1]] = some 1 ∧ ¬ 1 ≤ 0 :=
  ⟨(forall_cells ⟨4, 1⟩ _).2 (by decide), sample_diameter, by decide, by decide, by decide,
    empty_region_diameter, by decide, by decide⟩

/-- C22, amended. For every input mask of the shape of the grid with values
in `{-1, 0, 1}` the `while` loop returns and executes at least one and at most
`D + 1` rounds, where `D` is the graph-distance diameter of the region of
cells with value `≥ 0`: at most `D` rounds extend the wavefront, and one more
round finds no cell to change. -/
theorem eikonal_rounds_le_diameter (g : IceGrid) (gm : GhostMap) (m0 : IceModelVec2Int)
    (hwf : m0.WF g) (hgm : ∀ i j, (gm i j).1 < g.Mx ∧ (gm i j).2 < g.My)
    (hvals : ∀ i j, i < g.Mx → j < g.My → m0.get i j = -1 ∨ m0.get i j = 0 ∨ m0.get i j = 1)
    (D : Nat) (hD : IsDiameter g gm m0 D) (fuel : Nat) (hfuel : g.count m0 0 < fuel) :
    ∃ n : Nat, eikonal_rounds g gm fuel m0 = some n ∧ 1 ≤ n ∧ n ≤ D + 1 := by
  obtain ⟨n, h1, h2, h3⟩ := eikonal_rounds_wave g gm m0 hgm hvals fuel 1 m0 (le_refl _)
    (WaveInv_init g gm m0 hwf) (Or.inl rfl) hfuel
  refine ⟨n, h1, h2, ?_⟩
  rcases h3 with h3 | ⟨p, hp⟩
  · omega
  · have := MinPath_le_diameter g gm m0 hgm hvals D hD.1 _ p hp
    omega

/-- Witness for C22: the strip `-1, 1, 0, 0` attains the bound `D + 1 = 3`. -/
theorem eikonal_rounds_le_diameter_witness :
    eikonal_rounds ⟨4, 1⟩ (periodic ⟨4, 1⟩) 3 [[-1, 1, 0, 0]] = some (2 + 1) ∧
    ∃ n : Nat, eikonal_rounds ⟨4, 1⟩ (periodic ⟨4, 1⟩) 3 [[-1, 1, 0, 0]] = some n ∧
      1 ≤ n ∧ n ≤ 2 + 1 :=
  ⟨by decide,
    eikonal_rounds_le_diameter ⟨4, 1⟩ (periodic ⟨4, 1⟩) [[-1, 1, 0, 0]] (by decide)
      (periodic_in_grid ⟨4, 1⟩ (by decide) (by decide))
      ((forall_cells ⟨4, 1⟩ _).2 (by decide)) 2 sample_diameter 3 (by decide)⟩


/-! ## The stages of `update` -/

/-- `compute_ice_rises` returns when the labeler (if it runs) leaves no
negative value. -/
theorem compute_ice_rises_ok (lcc : Labeler) (g : IceGrid) (cell_type : IceModelVec2CellType)
    (exclude_ice_rises : Bool)
    (hlab : exclude_ice_rises = true → ∀ i j, i < g.Mx → j < g.My →
      0 ≤ (label_tmp lcc g (ice_rises_seed g cell_type)).get i j) :
    ∃ r : IceModelVec2Int, compute_ice_rises lcc g cell_type exclude_ice_rises = .ok r := by
  obtain ⟨r, hr, -, -⟩ := relabel_by_size_support g _
    (ice_rises_input_nonneg lcc g cell_type exclude_ice_rises hlab)
  simp only [compute_ice_rises, ice_rises_relabeled]
  rw [hr]
  exact ⟨_, rfl⟩

/-- What `update` leaves in the object when the ice-rises stage returns. -/
theorem update_result (lcc : Labeler) (g : IceGrid) (m_config : Config) (self : PicoGeometry)
    (bed_elevation : IceModelVec2S) (cell_type : IceModelVec2CellType)
    (ice_rises : IceModelVec2Int)
    (h : compute_ice_rises lcc g cell_type m_config.exclude_icerises = .ok ice_rises) :
    self.update lcc g m_config bed_elevation cell_type = .ok
      { m_continental_shelf := compute_continental_shelf_mask lcc g bed_elevation ice_rises
          m_config.continental_shelf_depth,
        m_boxes := self.m_boxes,
        m_ice_shelves := compute_ice_shelf_mask lcc g ice_rises,
        m_ice_rises := ice_rises,
        m_tmp := compute_ice_shelf_mask lcc g ice_rises } := by
  simp only [PicoGeometry.update]
  rw [h]

/-- C23 as stated fails: `update` runs three stages, not six, and never
writes the box mask.  On the shelf strip two objects that differ only in the
box mask they held before the call hold different box masks after `update` on
the same classification and bed elevation; and the box mask `3, 3, 3, 3, 3`
that the first one exposes is not a box mask of the ice shelf mask that the
same call computed, whatever the distance fields, lake mask and number of
boxes. -/
theorem update_box_mask_not_recomputed :
    PicoGeometry.update shelf_labeler ⟨5, 1⟩ ⟨true, -800⟩
        ⟨[[0, 0, 0, 0, 0]], [[3, 3, 3, 3, 3]], [[0, 0, 0, 0, 0]], [[0, 0, 0, 0, 0]],
          [[0, 0, 0, 0, 0]]⟩ shelf_bed shelf_cell_type
      = .ok ⟨[[0, 0, 0, 2, 0]], [[3, 3, 3, 3, 3]], [[0, 1, 1, 0, 0]], [[2, 3, 3, 0, 0]],
          [[0, 1, 1, 0, 0]]⟩ ∧
    PicoGeometry.update shelf_labeler ⟨5, 1⟩ ⟨true, -800⟩
        ⟨[[0, 0, 0, 0, 0]], [[0, 0, 0, 0, 0]], [[0, 0, 0, 0, 0]], [[0, 0, 0, 0, 0]],
          [[0, 0, 0, 0, 0]]⟩ shelf_bed shelf_cell_type
      = .ok ⟨[[0, 0, 0, 2, 0]], [[0, 0, 0, 0, 0]], [[0, 1, 1, 0, 0]], [[2, 3, 3, 0, 0]],
          [[0, 1, 1, 0, 0]]⟩ ∧
    ∀ (max_number_of_boxes : Int) (D_gl D_cf lake_mask : IceModelVec2Int),
      compute_box_mask ⟨5, 1⟩ max_number_of_boxes D_gl D_cf [[0, 1, 1, 0, 0]] lake_mask
        ≠ .ok [[3, 3, 3, 3, 3]] := by
  refine ⟨by decide!, by decide!, ?_⟩
  intro nmax D_gl D_cf lake_mask heq
  obtain ⟨glmax, R, r, -, hr, -, -, -, -, -, hcell⟩ :=
    compute_box_mask_ok ⟨5, 1⟩ nmax D_gl D_cf [[0, 1, 1, 0, 0]] lake_mask
      ((forall_cells ⟨5, 1⟩ _).2 (by decide))
  rw [hr] at heq
  have hr3 : r = [[3, 3, 3, 3, 3]] := by
    injection heq
  obtain ⟨b, hb, hrb⟩ := hcell 0 0 (by decide) (by decide)
  have hs : IceModelVec2Int.get [[0, 1, 1, 0, 0]] 0 0 = 0 := by decide
  rw [hs] at hb hrb
  simp only [assign_box, gt_iff_lt, lt_self_iff_false, false_and, if_false,
    Option.some.injEq] at hb
  rw [hr3, ← hb] at hrb
  simp [mark_unassigned, IceModelVec2Int.get] at hrb

/-- C23, amended. `PicoGeometry::update` runs three stages in the fixed order
ice rises, continental shelf, ice-shelf ids; the second and the third stage
consume the ice-rises mask that the first one produced in the same call.  When
the labeler keeps to its contract in the ice-rises stage, `update` returns,
and afterwards the continental shelf mask and the ice shelf mask are the
stage results for the current classification and bed elevation, while the box
mask is the one the object held before the call. -/
theorem update_three_stages (lcc : Labeler) (g : IceGrid) (m_config : Config)
    (self : PicoGeometry) (bed_elevation : IceModelVec2S) (cell_type : IceModelVec2CellType)
    (hlab : m_config.exclude_icerises = true →
      LabelsSupport g (ice_rises_seed g cell_type)
        (label_tmp lcc g (ice_rises_seed g cell_type))) :
    ∃ (ice_rises : IceModelVec2Int) (s : PicoGeometry),
      compute_ice_rises lcc g cell_type m_config.exclude_icerises = .ok ice_rises ∧
      self.update lcc g m_config bed_elevation cell_type = .ok s ∧
      s.m_ice_rises = ice_rises ∧
      s.continental_shelf_mask = compute_continental_shelf_mask lcc g bed_elevation
        s.m_ice_rises m_config.continental_shelf_depth ∧
      s.ice_shelf_mask = compute_ice_shelf_mask lcc g s.m_ice_rises ∧
      s.box_mask = self.box_mask := by
  have hnn : m_config.exclude_icerises = true → ∀ i j, i < g.Mx → j < g.My →
      0 ≤ (label_tmp lcc g (ice_rises_seed g cell_type)).get i j := by
    intro hex i j hi hj
    obtain ⟨h0, h1⟩ := hlab hex i j hi hj
    by_cases hz : (ice_rises_seed g cell_type).get i j = 0
    · rw [h0 hz]
    · exact le_of_lt (h1 hz)
  obtain ⟨ice_rises, hr⟩ := compute_ice_rises_ok lcc g cell_type m_config.exclude_icerises hnn
  exact ⟨ice_rises, _, hr, update_result lcc g m_config self bed_elevation cell_type ice_rises hr,
    rfl, rfl, rfl, rfl⟩

/-- Witness for C23: `update` on the shelf strip, from an object whose box
mask holds 3 everywhere. -/
theorem update_three_stages_witness :
    PicoGeometry.update shelf_labeler ⟨5, 1⟩ ⟨true, -800⟩
        ⟨[[0, 0, 0, 0, 0]], [[3, 3, 3, 3, 3]], [[0, 0, 0, 0, 0]], [[0, 0, 0, 0, 0]],
          [[0, 0, 0, 0, 0]]⟩ shelf_bed shelf_cell_type
      = .ok ⟨[[0, 0, 0, 2, 0]], [[3, 3, 3, 3, 3]], [[0, 1, 1, 0, 0]], [[2, 3, 3, 0, 0]],
          [[0, 1, 1, 0, 0]]⟩ ∧
    ∃ (ice_rises : IceModelVec2Int) (s : PicoGeometry),
      compute_ice_rises shelf_labeler ⟨5, 1⟩ shelf_cell_type true = .ok ice_rises ∧
      PicoGeometry.update shelf_labeler ⟨5, 1⟩ ⟨true, -800⟩
        ⟨[[0, 0, 0, 0, 0]], [[3, 3, 3, 3, 3]], [[0, 0, 0, 0, 0]], [[0, 0, 0, 0, 0]],
          [[0, 0, 0, 0, 0]]⟩ shelf_bed shelf_cell_type = .ok s ∧
      s.m_ice_rises = ice_rises ∧
      s.continental_shelf_mask = compute_continental_shelf_mask shelf_labeler ⟨5, 1⟩ shelf_bed
        s.m_ice_rises (-800) ∧
      s.ice_shelf_mask = compute_ice_shelf_mask shelf_labeler ⟨5, 1⟩ s.m_ice_rises ∧
      s.box_mask = [[3, 3, 3, 3, 3]] :=
  ⟨by decide!,
    update_three_stages shelf_labeler ⟨5, 1⟩ ⟨true, -800⟩
      ⟨[[0, 0, 0, 0, 0]], [[3, 3, 3, 3, 3]], [[0, 0, 0, 0, 0]], [[0, 0, 0, 0, 0]],
        [[0, 0, 0, 0, 0]]⟩ shelf_bed shelf_cell_type
      (fun _ => by
        intro i j hi hj
        have h : ∀ p ∈ IceGrid.points ⟨5, 1⟩,
            ((ice_rises_seed ⟨5, 1⟩ shelf_cell_type).get p.1 p.2 = 0 →
              (label_tmp shelf_labeler ⟨5, 1⟩ (ice_rises_seed ⟨5, 1⟩ shelf_cell_type)).get
                p.1 p.2 = 0) ∧
            ((ice_rises_seed ⟨5, 1⟩ shelf_cell_type).get p.1 p.2 ≠ 0 →
              0 < (label_tmp shelf_labeler ⟨5, 1⟩ (ice_rises_seed ⟨5, 1⟩ shelf_cell_type)).get
                p.1 p.2) := by decide
        exact h (i, j) (mem_points.2 ⟨hi, hj⟩))⟩


/-! ## Independence of the grid partition -/

/-- Exchanging the two distance fields exchanges the two vectors of maxima. -/
theorem shelf_distance_max_swap (n : Int) (D_gl D_cf shelf_mask : IceModelVec2Int)
    (ps : List (Nat × Nat)) (gl0 cf0 : List Int) :
    shelf_distance_max n D_cf D_gl shelf_mask ps (cf0, gl0)
      = match shelf_distance_max n D_gl D_cf shelf_mask ps (gl0, cf0) with
        | .error e => .error e
        | .ok r => .ok (r.2, r.1) := by
  induction ps generalizing gl0 cf0 with
  | nil => rfl
  | cons p ps ih =>
    simp only [shelf_distance_max]
    split_ifs with h1 h2
    · exact ih gl0 cf0
    · exact ih _ _
    · rfl

/-- A point that fails one of the two assertions stops the loop. -/
theorem shelf_distance_max_error (n : Int) (D_gl D_cf shelf_mask : IceModelVec2Int)
    (ps : List (Nat × Nat)) (acc : List Int × List Int)
    (h : ∃ p ∈ ps, ¬ (shelf_mask.get p.1 p.2 ≥ 0 ∧ shelf_mask.get p.1 p.2 < n + 1)) :
    shelf_distance_max n D_gl D_cf shelf_mask ps acc = .error "assertion failed" := by
  induction ps generalizing acc with
  | nil =>
    obtain ⟨p, hp, -⟩ := h
    simp at hp
  | cons q ps ih =>
    obtain ⟨gl0, cf0⟩ := acc
    simp only [shelf_distance_max]
    by_cases hq : ¬ (shelf_mask.get q.1 q.2 ≥ 0 ∧ shelf_mask.get q.1 q.2 < n + 1)
    · rw [if_pos hq]
    · rw [if_neg hq]
      have hrest : ∃ p ∈ ps, ¬ (shelf_mask.get p.1 p.2 ≥ 0 ∧ shelf_mask.get p.1 p.2 < n + 1) := by
        obtain ⟨p, hp, hbad⟩ := h
        rcases List.mem_cons.1 hp with rfl | hp'
        · exact absurd hbad hq
        · exact ⟨p, hp', hbad⟩
      split_ifs
      · exact ih _ hrest
      · exact ih _ hrest

/-- The first loop over points whose shelf ids are in range returns, for
every shelf id, the largest `D_gl` and the largest `D_cf` over the cells of
that shelf, counted from 0. -/
theorem shelf_distance_max_char (M : Int) (D_gl D_cf shelf_mask : IceModelVec2Int)
    (ps : List (Nat × Nat))
    (hps : ∀ p ∈ ps, 0 ≤ shelf_mask.get p.1 p.2 ∧ shelf_mask.get p.1 p.2 ≤ M) :
    ∃ gl cf, shelf_distance_max (M + 1) D_gl D_cf shelf_mask ps
        (List.replicate (M + 1).toNat 0, List.replicate (M + 1).toNat 0) = .ok (gl, cf) ∧
      gl.length = (M + 1).toNat ∧ cf.length = (M + 1).toNat ∧
      ∀ k, IsShelfMax D_gl shelf_mask (fun p => p ∈ ps) k (gl.getD k 0) ∧
        IsShelfMax D_cf shelf_mask (fun p => p ∈ ps) k (cf.getD k 0) := by
  obtain ⟨gl, cf, h1, h2, h3, h4, h5⟩ := shelf_distance_max_ok M D_gl D_cf shelf_mask ps
    (List.replicate (M + 1).toNat 0) (List.replicate (M + 1).toNat 0) hps (by simp)
  obtain ⟨cf', gl', g1, g2, g3, g4, g5⟩ := shelf_distance_max_ok M D_cf D_gl shelf_mask ps
    (List.replicate (M + 1).toNat 0) (List.replicate (M + 1).toNat 0) hps (by simp)
  rw [shelf_distance_max_swap, h1] at g1
  simp only [Except.ok.injEq, Prod.mk.injEq] at g1
  obtain ⟨hcf, -⟩ := g1
  subst hcf
  refine ⟨gl, cf, h1, by simpa using h2, by simpa using g2, ?_⟩
  intro k
  constructor
  · refine ⟨?_, ?_, ?_⟩
    · have := h3 k
      rwa [getD_replicate_zero] at this
    · intro p hp hpos hk
      rw [← hk]
      exact h4 p hp hpos
    · rcases h5 k with h | ⟨p, hp, hk, hpos, hD⟩
      · left
        rw [h, getD_replicate_zero]
      · exact Or.inr ⟨p, hp, hpos, hk, hD⟩
  · refine ⟨?_, ?_, ?_⟩
    · have := g3 k
      rwa [getD_replicate_zero] at this
    · intro p hp hpos hk
      rw [← hk]
      exact g4 p hp hpos
    · rcases g5 k with h | ⟨p, hp, hk, hpos, hD⟩
      · left
        rw [h, getD_replicate_zero]
      · exact Or.inr ⟨p, hp, hpos, hk, hD⟩

/-- The maximum of a shelf over a set of cells is determined by the set. -/
theorem IsShelfMax_unique (D shelf_mask : IceModelVec2Int) (S T : Nat × Nat → Prop)
    (hST : ∀ p, S p ↔ T p) (k : Nat) (x y : Int)
    (hx : IsShelfMax D shelf_mask S k x) (hy : IsShelfMax D shelf_mask T k y) : x = y := by
  obtain ⟨hx0, hxub, hxat⟩ := hx
  obtain ⟨hy0, hyub, hyat⟩ := hy
  have hxy : x ≤ y := by
    rcases hxat with h | ⟨p, hp, hpos, hk, hD⟩
    · omega
    · rw [← hD]
      exact hyub p ((hST p).1 hp) hpos hk
  have hyx : y ≤ x := by
    rcases hyat with h | ⟨p, hp, hpos, hk, hD⟩
    · omega
    · rw [← hD]
      exact hxub p ((hST p).2 hp) hpos hk
  omega

theorem GlobalMax_spec (l : List Int) (hl : l ≠ []) :
    GlobalMax l ∈ l ∧ ∀ x ∈ l, x ≤ GlobalMax l := by
  cases l with
  | nil => exact absurd rfl hl
  | cons v vs =>
    simp only [GlobalMax, List.mem_cons, forall_eq_or_imp]
    refine ⟨?_, (foldl_max_ge vs v).1, (foldl_max_ge vs v).2⟩
    rcases foldl_max_mem vs v with h | h
    · exact Or.inl h
    · exact Or.inr h

theorem list_ext_getD (l1 l2 : List Int) (hlen : l1.length = l2.length)
    (h : ∀ k, k < l1.length → l1.getD k 0 = l2.getD k 0) : l1 = l2 := by
  apply List.ext_getElem hlen
  intro k h1 h2
  have := h k h1
  rwa [List.getD_eq_getElem _ _ h1, List.getD_eq_getElem _ _ h2] at this

theorem shelf_distance_max_error_msg (n : Int) (D_gl D_cf shelf_mask : IceModelVec2Int)
    (ps : List (Nat × Nat)) (acc : List Int × List Int) (e : String)
    (h : shelf_distance_max n D_gl D_cf shelf_mask ps acc = .error e) :
    e = "assertion failed" := by
  induction ps generalizing acc with
  | nil =>
    simp [shelf_distance_max] at h
  | cons q ps ih =>
    obtain ⟨gl0, cf0⟩ := acc
    simp only [shelf_distance_max] at h
    split_ifs at h with h1 h2
    · exact ih _ h
    · exact ih _ h
    · simp only [Except.error.injEq] at h
      exact h.symm

/-- When the shelf ids of all sub-domains are in range every process finishes
its first loop, and holds the maxima over its own sub-domain. -/
theorem local_distance_max_ok (M : Int) (D_gl D_cf shelf_mask : IceModelVec2Int)
    (sub_domains : List (List (Nat × Nat)))
    (hsubs : ∀ s ∈ sub_domains, ∀ p ∈ s,
      0 ≤ shelf_mask.get p.1 p.2 ∧ shelf_mask.get p.1 p.2 ≤ M) :
    ∃ maxima, local_distance_max (M + 1) D_gl D_cf shelf_mask sub_domains = .ok maxima ∧
      (sub_domains ≠ [] → maxima ≠ []) ∧
      (∀ l ∈ maxima, ∃ s ∈ sub_domains, ∀ k,
        IsShelfMax D_gl shelf_mask (fun p => p ∈ s) k (l.1.getD k 0) ∧
        IsShelfMax D_cf shelf_mask (fun p => p ∈ s) k (l.2.getD k 0)) ∧
      (∀ s ∈ sub_domains, ∃ l ∈ maxima, ∀ k,
        IsShelfMax D_gl shelf_mask (fun p => p ∈ s) k (l.1.getD k 0) ∧
        IsShelfMax D_cf shelf_mask (fun p => p ∈ s) k (l.2.getD k 0)) := by
  induction sub_domains with
  | nil => exact ⟨[], rfl, fun h => absurd rfl h, by simp, by simp⟩
  | cons s rest ih =>
    obtain ⟨gl, cf, h1, -, -, h4⟩ := shelf_distance_max_char M D_gl D_cf shelf_mask s
      (hsubs s (List.mem_cons_self _ _))
    obtain ⟨others, g1, -, g3, g4⟩ := ih (fun t ht => hsubs t (List.mem_cons_of_mem _ ht))
    refine ⟨(gl, cf) :: others, ?_, fun _ => List.cons_ne_nil _ _, ?_, ?_⟩
    · simp only [local_distance_max]
      rw [h1, g1]
    · intro l hl
      rcases List.mem_cons.1 hl with rfl | hl'
      · exact ⟨s, List.mem_cons_self _ _, h4⟩
      · obtain ⟨t, ht, hk⟩ := g3 l hl'
        exact ⟨t, List.mem_cons_of_mem _ ht, hk⟩
    · intro t ht
      rcases List.mem_cons.1 ht with rfl | ht'
      · exact ⟨(gl, cf), List.mem_cons_self _ _, h4⟩
      · obtain ⟨l, hl, hk⟩ := g4 t ht'
        exact ⟨l, List.mem_cons_of_mem _ hl, hk⟩

/-- A point that fails an assertion on its process fails the whole call. -/
theorem local_distance_max_error (n : Int) (D_gl D_cf shelf_mask : IceModelVec2Int)
    (sub_domains : List (List (Nat × Nat)))
    (h : ∃ s ∈ sub_domains, ∃ p ∈ s,
      ¬ (shelf_mask.get p.1 p.2 ≥ 0 ∧ shelf_mask.get p.1 p.2 < n + 1)) :
    local_distance_max n D_gl D_cf shelf_mask sub_domains = .error "assertion failed" := by
  induction sub_domains with
  | nil =>
    obtain ⟨s, hs, -⟩ := h
    simp at hs
  | cons t rest ih =>
    simp only [local_distance_max]
    cases hhead : shelf_distance_max n D_gl D_cf shelf_mask t
        (List.replicate n.toNat 0, List.replicate n.toNat 0) with
    | error e =>
      rw [shelf_distance_max_error_msg n D_gl D_cf shelf_mask t _ e hhead]
    | ok r =>
      have hrest : ∃ s ∈ rest, ∃ p ∈ s,
          ¬ (shelf_mask.get p.1 p.2 ≥ 0 ∧ shelf_mask.get p.1 p.2 < n + 1) := by
        obtain ⟨s, hs, p, hp, hbad⟩ := h
        rcases List.mem_cons.1 hs with rfl | hs'
        · have := shelf_distance_max_error n D_gl D_cf shelf_mask s
            (List.replicate n.toNat 0, List.replicate n.toNat 0) ⟨p, hp, hbad⟩
          rw [this] at hhead
          exact absurd hhead (by simp)
        · exact ⟨s, hs', p, hp, hbad⟩
      rw [ih hrest]

/-- The `GlobalMax` of the maxima over the sub-domains is the maximum over
their union. -/
theorem GlobalMax_IsShelfMax (D shelf_mask : IceModelVec2Int)
    (sub_domains : List (List (Nat × Nat))) (vals : List Int) (k : Nat) (hne : vals ≠ [])
    (h1 : ∀ v ∈ vals, ∃ s ∈ sub_domains, IsShelfMax D shelf_mask (fun p => p ∈ s) k v)
    (h2 : ∀ s ∈ sub_domains, ∃ v ∈ vals, IsShelfMax D shelf_mask (fun p => p ∈ s) k v) :
    IsShelfMax D shelf_mask (fun p => ∃ s ∈ sub_domains, p ∈ s) k (GlobalMax vals) := by
  obtain ⟨hmem, hub⟩ := GlobalMax_spec vals hne
  obtain ⟨s, hs, hx0, -, hxat⟩ := h1 _ hmem
  refine ⟨hx0, ?_, ?_⟩
  · intro p hp hpos hk
    obtain ⟨t, ht, hpt⟩ := hp
    obtain ⟨v, hv, -, hvub, -⟩ := h2 t ht
    exact le_trans (hvub p hpt hpos hk) (hub v hv)
  · rcases hxat with h | ⟨p, hp, hrest⟩
    · exact Or.inl h
    · exact Or.inr ⟨p, ⟨s, hs, hp⟩, hrest⟩

/-- The per-shelf statistics after the reduction do not depend on how the
grid is divided into sub-domains. -/
theorem shelf_distance_max_on_eq (g : IceGrid) (D_gl D_cf shelf_mask : IceModelVec2Int)
    (sub_domains : List (List (Nat × Nat))) (hne : sub_domains ≠ [])
    (hsplit : ∀ p, p ∈ g.points ↔ ∃ s ∈ sub_domains, p ∈ s) :
    shelf_distance_max_on g D_gl D_cf shelf_mask sub_domains
      = shelf_distance_max (shelf_mask.range_max g + 1) D_gl D_cf shelf_mask g.points
          (List.replicate (shelf_mask.range_max g + 1).toNat 0,
           List.replicate (shelf_mask.range_max g + 1).toNat 0) := by
  by_cases hall : ∀ p ∈ g.points, 0 ≤ shelf_mask.get p.1 p.2
  · have hps : ∀ p ∈ g.points, 0 ≤ shelf_mask.get p.1 p.2 ∧
        shelf_mask.get p.1 p.2 ≤ shelf_mask.range_max g := by
      intro p hp
      have hp' := mem_points.1 hp
      exact ⟨hall p hp, le_range_max hp'.1 hp'.2⟩
    obtain ⟨gl, cf, h1, h2, h3, h4⟩ :=
      shelf_distance_max_char (shelf_mask.range_max g) D_gl D_cf shelf_mask g.points hps
    obtain ⟨maxima, g1, g2, g3, g4⟩ :=
      local_distance_max_ok (shelf_mask.range_max g) D_gl D_cf shelf_mask sub_domains
        (fun s hs p hp => hps p ((hsplit p).2 ⟨s, hs, hp⟩))
    have hmax := g2 hne
    rw [h1]
    simp only [shelf_distance_max_on]
    rw [g1]
    simp only [global_distance_max, Except.ok.injEq, Prod.mk.injEq]
    constructor
    · apply list_ext_getD
      · simp [h2]
      · intro k hk
        simp only [List.length_map, List.length_range] at hk
        rw [List.getD_eq_getElem _ _ (by simpa using hk)]
        simp only [List.getElem_map, List.getElem_range]
        apply IsShelfMax_unique D_gl shelf_mask _ _ (fun p => (hsplit p).symm) k _ _ _ (h4 k).1
        apply GlobalMax_IsShelfMax
        · simpa using hmax
        · intro v hv
          obtain ⟨l, hl, rfl⟩ := List.mem_map.1 hv
          obtain ⟨s, hs, hk'⟩ := g3 l hl
          exact ⟨s, hs, (hk' k).1⟩
        · intro s hs
          obtain ⟨l, hl, hk'⟩ := g4 s hs
          exact ⟨_, List.mem_map.2 ⟨l, hl, rfl⟩, (hk' k).1⟩
    · apply list_ext_getD
      · simp [h3]
      · intro k hk
        simp only [List.length_map, List.length_range] at hk
        rw [List.getD_eq_getElem _ _ (by simpa using hk)]
        simp only [List.getElem_map, List.getElem_range]
        apply IsShelfMax_unique D_cf shelf_mask _ _ (fun p => (hsplit p).symm) k _ _ _ (h4 k).2
        apply GlobalMax_IsShelfMax
        · simpa using hmax
        · intro v hv
          obtain ⟨l, hl, rfl⟩ := List.mem_map.1 hv
          obtain ⟨s, hs, hk'⟩ := g3 l hl
          exact ⟨s, hs, (hk' k).2⟩
        · intro s hs
          obtain ⟨l, hl, hk'⟩ := g4 s hs
          exact ⟨_, List.mem_map.2 ⟨l, hl, rfl⟩, (hk' k).2⟩
  · push_neg at hall
    obtain ⟨p, hp, hneg⟩ := hall
    have hbad : ¬ (shelf_mask.get p.1 p.2 ≥ 0 ∧
        shelf_mask.get p.1 p.2 < shelf_mask.range_max g + 1 + 1) := by
      intro h
      omega
    rw [shelf_distance_max_error _ D_gl D_cf shelf_mask g.points _ ⟨p, hp, hbad⟩]
    obtain ⟨s, hs, hps⟩ := (hsplit p).1 hp
    simp only [shelf_distance_max_on]
    rw [local_distance_max_error _ D_gl D_cf shelf_mask sub_domains ⟨s, hs, p, hps, hbad⟩]

/-- C24. `compute_box_mask` does not depend on the grid partition.  For every
non-empty list of sub-domains that together hold exactly the cells of the
grid, computing per sub-domain the maxima of `D_gl` and `D_cf` per shelf id,
starting from 0, and then taking `GlobalMax` across the sub-domains gives the
same per-shelf statistics, the same box counts and the same per-cell result
(or the same failed assertion) as one pass over the whole grid. -/
theorem compute_box_mask_partition (g : IceGrid) (max_number_of_boxes : Int)
    (D_gl D_cf shelf_mask lake_mask : IceModelVec2Int)
    (sub_domains : List (List (Nat × Nat))) (hne : sub_domains ≠ [])
    (hsplit : ∀ p, p ∈ g.points ↔ ∃ s ∈ sub_domains, p ∈ s) :
    shelf_distance_max_on g D_gl D_cf shelf_mask sub_domains
      = shelf_distance_max (shelf_mask.range_max g + 1) D_gl D_cf shelf_mask g.points
          (List.replicate (shelf_mask.range_max g + 1).toNat 0,
           List.replicate (shelf_mask.range_max g + 1).toNat 0) ∧
    box_counts_on g max_number_of_boxes D_gl D_cf shelf_mask sub_domains
      = box_counts g max_number_of_boxes D_gl D_cf shelf_mask ∧
    compute_box_mask_on g max_number_of_boxes D_gl D_cf shelf_mask lake_mask sub_domains
      = compute_box_mask g max_number_of_boxes D_gl D_cf shelf_mask lake_mask := by
  have hstats := shelf_distance_max_on_eq g D_gl D_cf shelf_mask sub_domains hne hsplit
  have hcounts : box_counts_on g max_number_of_boxes D_gl D_cf shelf_mask sub_domains
      = box_counts g max_number_of_boxes D_gl D_cf shelf_mask := by
    simp only [box_counts_on, box_counts]
    rw [hstats]
  refine ⟨hstats, hcounts, ?_⟩
  simp only [compute_box_mask_on, compute_box_mask]
  rw [hcounts]

/-- Witness for C24: two shelves on a strip of six cells, divided among
three processes. -/
theorem compute_box_mask_partition_witness :
    compute_box_mask_on ⟨6, 1⟩ 3 [[1, 2, 3, 1, 2, 0]] [[3, 2, 1, 2, 1, 0]] [[1, 1, 1, 2, 2, 0]]
        [[0, 0, 0, 0, 0, 0]] [[(0, 0), (1, 0)], [(2, 0), (3, 0), (4, 0)], [(5, 0)]]
      = .ok [[1, 2, 3, 1, 2, 0]] ∧
    (shelf_distance_max_on ⟨6, 1⟩ [[1, 2, 3, 1, 2, 0]] [[3, 2, 1, 2, 1, 0]] [[1, 1, 1, 2, 2, 0]]
        [[(0, 0), (1, 0)], [(2, 0), (3, 0), (4, 0)], [(5, 0)]]
      = shelf_distance_max (IceModelVec2Int.range_max ⟨6, 1⟩ [[1, 1, 1, 2, 2, 0]] + 1)
          [[1, 2, 3, 1, 2, 0]] [[3, 2, 1, 2, 1, 0]] [[1, 1, 1, 2, 2, 0]] (IceGrid.points ⟨6, 1⟩)
          (List.replicate (IceModelVec2Int.range_max ⟨6, 1⟩ [[1, 1, 1, 2, 2, 0]] + 1).toNat 0,
           List.replicate (IceModelVec2Int.range_max ⟨6, 1⟩ [[1, 1, 1, 2, 2, 0]] + 1).toNat 0) ∧
    box_counts_on ⟨6, 1⟩ 3 [[1, 2, 3, 1, 2, 0]] [[3, 2, 1, 2, 1, 0]] [[1, 1, 1, 2, 2, 0]]
        [[(0, 0), (1, 0)], [(2, 0), (3, 0), (4, 0)], [(5, 0)]]
      = box_counts ⟨6, 1⟩ 3 [[1, 2, 3, 1, 2, 0]] [[3, 2, 1, 2, 1, 0]] [[1, 1, 1, 2, 2, 0]] ∧
    compute_box_mask_on ⟨6, 1⟩ 3 [[1, 2, 3, 1, 2, 0]] [[3, 2, 1, 2, 1, 0]] [[1, 1, 1, 2, 2, 0]]
        [[0, 0, 0, 0, 0, 0]] [[(0, 0), (1, 0)], [(2, 0), (3, 0), (4, 0)], [(5, 0)]]
      = compute_box_mask ⟨6, 1⟩ 3 [[1, 2, 3, 1, 2, 0]] [[3, 2, 1, 2, 1, 0]] [[1, 1, 1, 2, 2, 0]]
          [[0, 0, 0, 0, 0, 0]]) :=
  ⟨by decide!,
    compute_box_mask_partition ⟨6, 1⟩ 3 [[1, 2, 3, 1, 2, 0]] [[3, 2, 1, 2, 1, 0]]
      [[1, 1, 1, 2, 2, 0]] [[0, 0, 0, 0, 0, 0]]
      [[(0, 0), (1, 0)], [(2, 0), (3, 0), (4, 0)], [(5, 0)]] (by decide)
      (by
        intro p
        constructor
        · intro hp
          have h : ∀ q ∈ IceGrid.points ⟨6, 1⟩,
              ∃ s ∈ [[(0, 0), (1, 0)], [(2, 0), (3, 0), (4, 0)], [((5 : Nat), (0 : Nat))]],
                q ∈ s := by decide
          exact h p hp
        · rintro ⟨s, hs, hps⟩
          have h : ∀ s ∈ [[(0, 0), (1, 0)], [(2, 0), (3, 0), (4, 0)], [((5 : Nat), (0 : Nat))]],
              ∀ q ∈ s, q ∈ IceGrid.points ⟨6, 1⟩ := by decide
          exact h s hs p hps)⟩


/-! ## The band loop in closed form, and boxes along a strip -/

/-- The band loop, which runs through all bands, leaves the value of the
last band that matches: `min(d_gl, ⌊n (1 - C)⌋ + 1)`. -/
theorem box_of_cell_closed (n d_gl d_cf : Int) (hn : 1 ≤ n) (hgl : 0 < d_gl) (hcf : 0 < d_cf) :
    box_of_cell n d_gl d_cf
      = min d_gl (⌊(n : ℚ) * (1 - (1 - (d_gl : ℚ) / ((d_gl + d_cf : Int) : ℚ)) ^ 2)⌋ + 1) := by
  obtain ⟨hC0, hC1⟩ := box_C_range d_gl d_cf hgl hcf
  unfold box_of_cell
  simp only []
  generalize (1 - (d_gl : ℚ) / ((d_gl + d_cf : Int) : ℚ)) ^ 2 = C at hC0 hC1
  have hnq : (0 : ℚ) < (n : ℚ) := by exact_mod_cast (by omega : 0 < n)
  obtain ⟨x, hx⟩ : ∃ x : ℚ, x = (n : ℚ) * (1 - C) := ⟨_, rfl⟩
  rw [← hx]
  have hx0 : 0 ≤ x := by
    rw [hx]
    exact le_of_lt (mul_pos hnq (by linarith))
  have hxn : x < (n : ℚ) := by
    rw [hx]
    nlinarith
  have hfl0 : 0 ≤ ⌊x⌋ := Int.floor_nonneg.2 hx0
  have hfln : ⌊x⌋ < n := Int.floor_lt.2 hxn
  have hfle : ((⌊x⌋ : Int) : ℚ) ≤ x := Int.floor_le x
  have hflt : x < ((⌊x⌋ : Int) : ℚ) + 1 := Int.lt_floor_add_one x
  have hcast : ((⌊x⌋.toNat : Nat) : Int) = ⌊x⌋ := Int.toNat_of_nonneg hfl0
  have hband : ∀ k : Nat,
      (((n - k - 1 : Int) : ℚ) / (n : ℚ) ≤ C ∧ C ≤ ((n - k : Int) : ℚ) / (n : ℚ)) ↔
      ((k : ℚ) ≤ x ∧ x ≤ (k : ℚ) + 1) := by
    intro k
    rw [div_le_iff₀ hnq, le_div_iff₀ hnq, hx]
    push_cast
    constructor
    · rintro ⟨h1, h2⟩
      constructor <;> nlinarith
    · rintro ⟨h1, h2⟩
      constructor <;> nlinarith
  have h := foldl_last_match
    (fun k : Nat => ((n - k - 1 : Int) : ℚ) / (n : ℚ) ≤ C ∧ C ≤ ((n - k : Int) : ℚ) / (n : ℚ))
    (fun k : Nat => min d_gl ((k : Int) + 1)) n.toNat ⌊x⌋.toNat 0 (by omega)
    (by
      show _ ∧ _
      rw [hband]
      have : ((⌊x⌋.toNat : Nat) : ℚ) = ((⌊x⌋ : Int) : ℚ) := by exact_mod_cast hcast
      rw [this]
      constructor <;> linarith)
    (by
      intro k hk1 _ hcon
      have hcon := (hband k).1 hcon
      have hk : ⌊x⌋ + 1 ≤ (k : Int) := by omega
      have hkq : ((⌊x⌋ : Int) : ℚ) + 1 ≤ (k : ℚ) := by exact_mod_cast hk
      linarith [hcon.1])
  rw [h]
  simp only [hcast]

/-- The statistics and the result of `compute_box_mask` on a strip that is
one shelf with `D_gl = 1, …, L` and `D_cf = L, …, 1`. -/
theorem box_mask_strip (L : Nat) (n : Int) (lake_mask : IceModelVec2Int) (hn : 1 ≤ n) :
    ∃ (glmax : List Int) (R : Int) (nb : List (Option Int)) (r : IceModelVec2Int),
      box_counts ⟨L, 1⟩ n (IceGrid.tabulate ⟨L, 1⟩ fun i _ => (i : Int) + 1)
        (IceGrid.tabulate ⟨L, 1⟩ fun i _ => (L : Int) - i)
        (IceGrid.tabulate ⟨L, 1⟩ fun _ _ => 1) = .ok (glmax, R, nb) ∧
      compute_box_mask ⟨L, 1⟩ n (IceGrid.tabulate ⟨L, 1⟩ fun i _ => (i : Int) + 1)
        (IceGrid.tabulate ⟨L, 1⟩ fun i _ => (L : Int) - i)
        (IceGrid.tabulate ⟨L, 1⟩ fun _ _ => 1) lake_mask = .ok r ∧
      (0 < L → nb.getD 1 none = some n) ∧
      ∀ i, i < L → r.get i 0 = box_of_cell n ((i : Int) + 1) ((L : Int) - i) := by
  obtain ⟨D_gl, hDgl⟩ : ∃ D : IceModelVec2Int,
      D = IceGrid.tabulate ⟨L, 1⟩ fun i _ => (i : Int) + 1 := ⟨_, rfl⟩
  obtain ⟨D_cf, hDcf⟩ : ∃ D : IceModelVec2Int,
      D = IceGrid.tabulate ⟨L, 1⟩ fun i _ => (L : Int) - i := ⟨_, rfl⟩
  obtain ⟨shelf, hshelfdef⟩ : ∃ D : IceModelVec2Int,
      D = IceGrid.tabulate ⟨L, 1⟩ fun _ _ => 1 := ⟨_, rfl⟩
  rw [← hDgl, ← hDcf, ← hshelfdef]
  have hgl : ∀ i, i < L → D_gl.get i 0 = (i : Int) + 1 := by
    intro i hi
    rw [hDgl, get_tabulate (g := ⟨L, 1⟩) _ hi Nat.zero_lt_one]
  have hcf : ∀ i, i < L → D_cf.get i 0 = (L : Int) - i := by
    intro i hi
    rw [hDcf, get_tabulate (g := ⟨L, 1⟩) _ hi Nat.zero_lt_one]
  have hsh : ∀ i, i < L → shelf.get i 0 = 1 := by
    intro i hi
    rw [hshelfdef, get_tabulate (g := ⟨L, 1⟩) _ hi Nat.zero_lt_one]
  have hj0 : ∀ j, j < 1 → j = 0 := by
    intro j hj
    omega
  have hshelf : ∀ i j, i < (⟨L, 1⟩ : IceGrid).Mx → j < (⟨L, 1⟩ : IceGrid).My →
      0 ≤ shelf.get i j := by
    intro i j hi hj
    rw [hj0 j hj, hsh i hi]
    decide
  obtain ⟨glmax, R, hbc, hlen, hRmem, hle, h0, hub, hat⟩ :=
    box_counts_ok ⟨L, 1⟩ n D_gl D_cf shelf hshelf
  obtain ⟨glmax', R', r, h1, h2, -, -, -, -, hidx, hcell⟩ :=
    compute_box_mask_ok ⟨L, 1⟩ n D_gl D_cf shelf lake_mask hshelf
  rw [hbc] at h1
  simp only [Except.ok.injEq, Prod.mk.injEq] at h1
  obtain ⟨hg, hR, -⟩ := h1
  subst hg hR
  have hfacts : 0 < L → 1 ≤ R ∧ glmax.getD 1 0 = R ∧ Int.toNat 1 < glmax.length := by
    intro hL
    have hR1 : 1 ≤ R := by
      have := hub 0 0 hL Nat.zero_lt_one (by rw [hsh 0 hL]; decide)
      rw [hgl 0 hL] at this
      have h3 := hle (shelf.get 0 0).toNat
      simp only [Nat.cast_zero, zero_add] at this
      omega
    refine ⟨hR1, ?_, ?_⟩
    · obtain ⟨k, hk, hkR⟩ := List.mem_iff_getElem.1 hRmem
      rcases hat k with hz | ⟨i, j, hi, hj, hk1, -, -⟩
      · rw [List.getD_eq_getElem _ _ hk, hkR] at hz
        omega
      · rw [hj0 j hj, hsh i hi] at hk1
        have hk' : k = 1 := by
          rw [← hk1]
          rfl
        subst hk'
        rw [List.getD_eq_getElem _ _ hk, hkR]
    · have hidx0 := hidx 0 0 hL Nat.zero_lt_one
      rw [hsh 0 hL] at hidx0
      exact hidx0
  refine ⟨glmax, R, _, r, hbc, h2, ?_, ?_⟩
  · intro hL
    obtain ⟨hR1, hone, hidx0⟩ := hfacts hL
    rw [getD_map_n_boxes glmax _ 1 hidx0, hone]
    obtain ⟨m, hm, -, -, hmax⟩ := n_boxes_of_bounds n R R (by omega) hn (by omega) (le_refl _)
    rw [hm, hmax rfl]
  · intro i hi
    obtain ⟨hR1, hone, hidx0⟩ := hfacts (by omega)
    obtain ⟨b, hb, hrb⟩ := hcell i 0 hi Nat.zero_lt_one
    rw [hgl i hi, hcf i hi, hsh i hi] at hb
    rw [hsh i hi] at hrb
    unfold assign_box at hb
    rw [if_pos ⟨by decide, by omega, by omega⟩, getD_map_n_boxes glmax _ _ hidx0] at hb
    have h1n : (1 : Int).toNat = 1 := rfl
    rw [h1n, hone] at hb
    obtain ⟨m, hm, -, -, hmax⟩ := n_boxes_of_bounds n R R (by omega) hn (by omega) (le_refl _)
    rw [hm, hmax rfl] at hb
    simp only [Option.some.injEq] at hb
    rw [← hb, mark_unassigned_pos _ _ _
      (box_of_cell_bounds n _ _ hn (by omega) (by omega)).1] at hrb
    exact hrb

/-- An index outside `[0, max_index]` stops the first loop. -/
theorem accumulate_areas_error (M : Int) (l : List Int) (area : List Nat)
    (h : ∃ v ∈ l, v > M ∨ v < 0) :
    accumulate_areas M l area = .error "invalid component index" := by
  induction l generalizing area with
  | nil =>
    obtain ⟨v, hv, -⟩ := h
    simp at hv
  | cons index rest ih =>
    simp only [accumulate_areas]
    by_cases hbad : index > M ∨ index < 0
    · rw [if_pos hbad]
    · rw [if_neg hbad]
      have hrest : ∃ v ∈ rest, v > M ∨ v < 0 := by
        obtain ⟨v, hv, hvbad⟩ := h
        rcases List.mem_cons.1 hv with rfl | hv'
        · exact absurd hvbad hbad
        · exact ⟨v, hv', hvbad⟩
      split_ifs
      · exact ih _ hrest
      · exact ih _ hrest

/-- The functional and the in-place form of `relabel_by_size` agree. -/
theorem relabel_by_size_inplace_eq (g : IceGrid) (mask : IceModelVec2Int) :
    relabel_by_size g mask
      = match (relabel_by_size_inplace g mask).2 with
        | .error e => .error e
        | .ok _ => .ok (relabel_by_size_inplace g mask).1 := by
  unfold relabel_by_size relabel_by_size_inplace
  simp only []
  split_ifs with h
  · rfl
  · cases accumulate_areas (mask.range_max g) (g.values mask)
        (List.replicate ((mask.range_max g).toNat + 1) 0) with
    | error e => rfl
    | ok area => rfl

/-- When and how `relabel_by_size` fails. -/
theorem relabel_by_size_error_iff (g : IceGrid) (mask : IceModelVec2Int) :
    ((∃ e, relabel_by_size g mask = .error e) ↔
      1 ≤ mask.range_max g ∧ ∃ i j, i < g.Mx ∧ j < g.My ∧ mask.get i j < 0) ∧
    (∀ e, relabel_by_size g mask = .error e → e = "invalid component index") := by
  by_cases hmax : mask.range_max g < 1
  · have hok : relabel_by_size g mask = .ok (g.tabulate fun _ _ => 0) := by
      simp only [relabel_by_size, hmax, if_true]
    rw [hok]
    refine ⟨⟨?_, ?_⟩, ?_⟩
    · rintro ⟨e, he⟩
      exact absurd he (by simp)
    · rintro ⟨h1, -⟩
      omega
    · intro e he
      exact absurd he (by simp)
  · by_cases hneg : ∃ i j, i < g.Mx ∧ j < g.My ∧ mask.get i j < 0
    · obtain ⟨i, j, hi, hj, hij⟩ := hneg
      have herr := accumulate_areas_error (mask.range_max g) (g.values mask)
        (List.replicate ((mask.range_max g).toNat + 1) 0)
        ⟨mask.get i j, mem_values.2 ⟨i, j, hi, hj, rfl⟩, Or.inr hij⟩
      have hfail : relabel_by_size g mask = .error "invalid component index" := by
        simp only [relabel_by_size, hmax, if_false, herr]
      rw [hfail]
      refine ⟨⟨fun _ => ⟨by omega, i, j, hi, hj, hij⟩, fun _ => ⟨_, rfl⟩⟩, ?_⟩
      intro e he
      simp only [Except.error.injEq] at he
      exact he.symm
    · have hnn : ∀ i j, i < g.Mx → j < g.My → 0 ≤ mask.get i j := by
        intro i j hi hj
        by_contra hlt
        exact hneg ⟨i, j, hi, hj, by omega⟩
      obtain ⟨r, hr, -, -⟩ := relabel_by_size_support g mask hnn
      rw [hr]
      refine ⟨⟨?_, ?_⟩, ?_⟩
      · rintro ⟨e, he⟩
        exact absurd he (by simp)
      · rintro ⟨-, h⟩
        exact absurd h hneg
      · intro e he
        exact absurd he (by simp)

/-- C26. `relabel_by_size` fails, and then with "invalid component index",
iff the mask maximum is `≥ 1` and some cell holds a value outside
`[0, max_index]`; such a value is negative, since no cell is above the
maximum.  When the call fails the mask is as it was before the call. -/
theorem relabel_by_size_failure (g : IceGrid) (mask : IceModelVec2Int) :
    (relabel_by_size g mask = .error "invalid component index" ↔
      1 ≤ mask.range_max g ∧
      ∃ i j, i < g.Mx ∧ j < g.My ∧ (mask.get i j < 0 ∨ mask.range_max g < mask.get i j)) ∧
    (∀ e, relabel_by_size g mask = .error e → e = "invalid component index") ∧
    (∀ i j, i < g.Mx → j < g.My → ¬ mask.range_max g < mask.get i j) ∧
    ((relabel_by_size_inplace g mask).2 = .error "invalid component index" ↔
      relabel_by_size g mask = .error "invalid component index") ∧
    (∀ e, (relabel_by_size_inplace g mask).2 = .error e →
      (relabel_by_size_inplace g mask).1 = mask) := by
  obtain ⟨hiff, hmsg⟩ := relabel_by_size_error_iff g mask
  have hmaxle : ∀ i j, i < g.Mx → j < g.My → ¬ mask.range_max g < mask.get i j := by
    intro i j hi hj
    have := le_range_max (g := g) (m := mask) hi hj
    omega
  refine ⟨⟨?_, ?_⟩, hmsg, hmaxle, ⟨?_, ?_⟩, ?_⟩
  · intro h
    obtain ⟨h1, i, j, hi, hj, hij⟩ := hiff.1 ⟨_, h⟩
    exact ⟨h1, i, j, hi, hj, Or.inl hij⟩
  · rintro ⟨h1, i, j, hi, hj, hij | hij⟩
    · obtain ⟨e, he⟩ := hiff.2 ⟨h1, i, j, hi, hj, hij⟩
      rw [he, hmsg e he]
    · exact absurd hij (hmaxle i j hi hj)
  · intro h
    rw [relabel_by_size_inplace_eq, h]
  · intro h
    rw [relabel_by_size_inplace_eq] at h
    cases h2 : (relabel_by_size_inplace g mask).2 with
    | error e =>
      rw [h2] at h
      simpa using h
    | ok u =>
      rw [h2] at h
      simp at h
  · intro e he
    by_cases hlt : mask.range_max g < 1
    · simp only [relabel_by_size_inplace, hlt, if_true] at he
      exact absurd he (by simp)
    · simp only [relabel_by_size_inplace, hlt, if_false] at he ⊢
      cases hacc : accumulate_areas (mask.range_max g) (g.values mask)
          (List.replicate ((mask.range_max g).toNat + 1) 0) with
      | error e' => rfl
      | ok area =>
        rw [hacc] at he
        exact absurd he (by simp)

/-- Witness for C26: a mask with a negative cell next to two components
fails and is left untouched. -/
theorem relabel_by_size_failure_witness :
    relabel_by_size_inplace ⟨3, 1⟩ [[-3, 2, 1]]
      = ([[-3, 2, 1]], .error "invalid component index") ∧
    IceModelVec2Int.range_max ⟨3, 1⟩ [[-3, 2, 1]] = 2 ∧
    (relabel_by_size ⟨3, 1⟩ [[-3, 2, 1]] = .error "invalid component index" ↔
      1 ≤ IceModelVec2Int.range_max ⟨3, 1⟩ [[-3, 2, 1]] ∧
      ∃ i j, i < 3 ∧ j < 1 ∧ (IceModelVec2Int.get [[-3, 2, 1]] i j < 0 ∨
        IceModelVec2Int.range_max ⟨3, 1⟩ [[-3, 2, 1]] < IceModelVec2Int.get [[-3, 2, 1]] i j)) :=
  ⟨by decide, by decide, (relabel_by_size_failure ⟨3, 1⟩ [[-3, 2, 1]]).1⟩

/-- C27. If the maximum value of the mask is `< 1`, `relabel_by_size` returns
without error and leaves 0 in every cell, also in cells that held a negative
value. -/
theorem relabel_by_size_no_components (g : IceGrid) (mask : IceModelVec2Int)
    (h : mask.range_max g < 1) :
    ∃ r : IceModelVec2Int, relabel_by_size g mask = .ok r ∧
      relabel_by_size_inplace g mask = (r, .ok ()) ∧ r.WF g ∧
      ∀ i j, i < g.Mx → j < g.My → r.get i j = 0 := by
  refine ⟨g.tabulate fun _ _ => 0, ?_, ?_, WF_tabulate g _, ?_⟩
  · simp only [relabel_by_size, h, if_true]
  · simp only [relabel_by_size_inplace, h, if_true]
  · intro i j hi hj
    rw [get_tabulate _ hi hj]

/-- Witness for C27: a mask without components that holds negative values. -/
theorem relabel_by_size_no_components_witness :
    IceModelVec2Int.range_max ⟨3, 1⟩ [[-3, 0, -1]] = 0 ∧
    relabel_by_size ⟨3, 1⟩ [[-3, 0, -1]] = .ok [[0, 0, 0]] ∧
    ∃ r : IceModelVec2Int, relabel_by_size ⟨3, 1⟩ [[-3, 0, -1]] = .ok r ∧
      relabel_by_size_inplace ⟨3, 1⟩ [[-3, 0, -1]] = (r, .ok ()) ∧ r.WF ⟨3, 1⟩ ∧
      ∀ i j, i < 3 → j < 1 → r.get i j = 0 :=
  ⟨by decide, by decide, relabel_by_size_no_components ⟨3, 1⟩ [[-3, 0, -1]] (by decide)⟩


/-! ## Box counts and shelf extent -/

/-- C29. With `exclude_ice_rises = false` the labeler is not called (the
result is the same for every labeler), `compute_ice_rises` returns, every
grounded cell, and no other cell, is marked CONTINENTAL (2), and no cell of
the result is RISE (1), whatever the classification, so however many
disconnected grounded regions exist. -/
theorem compute_ice_rises_no_exclude (lcc lcc' : Labeler) (g : IceGrid)
    (cell_type : IceModelVec2CellType) :
    ice_rises_relabeled lcc g cell_type false = relabel_by_size g (ice_rises_seed g cell_type) ∧
    compute_ice_rises lcc g cell_type false = compute_ice_rises lcc' g cell_type false ∧
    ∃ r : IceModelVec2Int, compute_ice_rises lcc g cell_type false = .ok r ∧
      ∀ i j, i < g.Mx → j < g.My →
        (cell_type.grounded i j = true → r.get i j = CONTINENTAL) ∧
        (r.get i j = CONTINENTAL → cell_type.grounded i j = true) ∧
        r.get i j ≠ RISE := by
  refine ⟨?_, ?_, ?_⟩
  · simp only [ice_rises_relabeled, Bool.false_eq_true, if_false]
  · simp only [compute_ice_rises, ice_rises_relabeled, Bool.false_eq_true, if_false]
  · obtain ⟨r, hr, hcells⟩ := ice_rises_no_labeling lcc g cell_type
    refine ⟨r, hr, ?_⟩
    intro i j hi hj
    obtain ⟨h1, h2⟩ := hcells i j hi hj
    exact ⟨h1.2, h1.1, h2⟩

/-- Witness for C29: on the strip grounded, grounded, floating, grounded the
isolated grounded cell is CONTINENTAL as well. -/
theorem compute_ice_rises_no_exclude_witness :
    compute_ice_rises strip_labeler ⟨4, 1⟩ strip_cell_type false = .ok [[2, 2, 3, 2]] ∧
    compute_ice_rises strip_labeler ⟨4, 1⟩ strip_cell_type true = .ok [[2, 2, 3, 1]] ∧
    compute_ice_rises strip_labeler ⟨4, 1⟩ strip_cell_type false
      = compute_ice_rises sample_labeler ⟨4, 1⟩ strip_cell_type false :=
  ⟨by decide, by decide,
    (compute_ice_rises_no_exclude strip_labeler sample_labeler ⟨4, 1⟩ strip_cell_type).2.1⟩

/-- C30. The seed of `compute_continental_shelf_mask`: the buffer handed to
the labeling pass holds 2 at every cell that is CONTINENTAL in the ice-rises
mask, whether or not its bed is above the threshold, 1 at every
non-CONTINENTAL cell whose bed elevation is strictly above the threshold, and
0 at every other cell. -/
theorem continental_shelf_seed_values (lcc : Labeler) (g : IceGrid)
    (bed_elevation : IceModelVec2S) (ice_rises_mask : IceModelVec2Int)
    (bed_elevation_threshold : ℚ) :
    continental_shelf_labeled lcc g bed_elevation ice_rises_mask bed_elevation_threshold
      = lcc g (continental_shelf_seed g bed_elevation ice_rises_mask bed_elevation_threshold)
          true 2 ∧
    (continental_shelf_seed g bed_elevation ice_rises_mask bed_elevation_threshold).WF g ∧
    ∀ i j, i < g.Mx → j < g.My →
      (ice_rises_mask.get i j = CONTINENTAL →
        (continental_shelf_seed g bed_elevation ice_rises_mask
          bed_elevation_threshold).get i j = 2) ∧
      (ice_rises_mask.get i j ≠ CONTINENTAL → bed_elevation i j > bed_elevation_threshold →
        (continental_shelf_seed g bed_elevation ice_rises_mask
          bed_elevation_threshold).get i j = 1) ∧
      (ice_rises_mask.get i j ≠ CONTINENTAL → ¬ bed_elevation i j > bed_elevation_threshold →
        (continental_shelf_seed g bed_elevation ice_rises_mask
          bed_elevation_threshold).get i j = 0) := by
  refine ⟨rfl, WF_tabulate g _, ?_⟩
  intro i j hi hj
  simp only [continental_shelf_seed, get_tabulate _ hi hj]
  refine ⟨?_, ?_, ?_⟩
  · intro h
    rw [if_pos h]
  · intro h hb
    rw [if_neg h, if_pos hb]
  · intro h hb
    rw [if_neg h, if_neg hb]

/-- Witness for C30: the sample strip (continental ice, shallow ocean,
floating ice over a deep bed, an ice rise, shallow ocean), and a CONTINENTAL
cell over a deep bed. -/
theorem continental_shelf_seed_values_witness :
    continental_shelf_seed ⟨5, 1⟩ sample_bed [[2, 0, 3, 1, 0]] (-800) = [[2, 1, 0, 1, 1]] ∧
    continental_shelf_seed ⟨5, 1⟩ sample_bed [[0, 0, 2, 1, 0]] (-800) = [[1, 1, 2, 1, 1]] ∧
    (IceModelVec2Int.get [[0, 0, 2, 1, 0]] 2 0 = CONTINENTAL →
      (continental_shelf_seed ⟨5, 1⟩ sample_bed [[0, 0, 2, 1, 0]] (-800)).get 2 0 = 2) :=
  ⟨by decide!, by decide!,
    ((continental_shelf_seed_values sample_labeler ⟨5, 1⟩ sample_bed [[0, 0, 2, 1, 0]]
      (-800)).2.2 2 0 (by decide) (by decide)).1⟩


/-! ## The fix-up of the continental shelf mask -/

/-- C31. The fix-up of `compute_continental_shelf_mask`.  Writing `L` for the
buffer returned by the labeling pass: where `L > 0` the result is `L`, so the
fix-up never changes a cell the labeling pass left positive; where `L = 0` the
result is 2 if the bed is strictly above the threshold and the ice-rises mask
is OCEAN, and 0 otherwise. -/
theorem continental_shelf_fixup (lcc : Labeler) (g : IceGrid) (bed_elevation : IceModelVec2S)
    (ice_rises_mask : IceModelVec2Int) (bed_elevation_threshold : ℚ)
    (i j : Nat) (hi : i < g.Mx) (hj : j < g.My) :
    (0 < (continental_shelf_labeled lcc g bed_elevation ice_rises_mask
          bed_elevation_threshold).get i j →
      (compute_continental_shelf_mask lcc g bed_elevation ice_rises_mask
          bed_elevation_threshold).get i j
        = (continental_shelf_labeled lcc g bed_elevation ice_rises_mask
            bed_elevation_threshold).get i j) ∧
    ((continental_shelf_labeled lcc g bed_elevation ice_rises_mask
          bed_elevation_threshold).get i j = 0 →
      ((bed_elevation i j > bed_elevation_threshold ∧ ice_rises_mask.get i j = OCEAN) →
        (compute_continental_shelf_mask lcc g bed_elevation ice_rises_mask
          bed_elevation_threshold).get i j = 2) ∧
      (¬ (bed_elevation i j > bed_elevation_threshold ∧ ice_rises_mask.get i j = OCEAN) →
        (compute_continental_shelf_mask lcc g bed_elevation ice_rises_mask
          bed_elevation_threshold).get i j = 0)) := by
  simp only [compute_continental_shelf_mask, get_tabulate _ hi hj]
  refine ⟨?_, ?_⟩
  · intro hpos
    rw [if_pos hpos]
  · intro hz
    rw [hz]
    refine ⟨?_, ?_⟩
    · intro h
      rw [if_neg (by decide), if_pos h]
    · intro h
      rw [if_neg (by decide), if_neg h]

/-- Witness for C31: on the sample strip the labeling pass returns
`0, 0, 0, 1, 1`; the fix-up turns the shallow ocean cell at `i = 1` into 2 and
keeps the 1 at `i = 3`. -/
theorem continental_shelf_fixup_witness :
    continental_shelf_labeled sample_labeler ⟨5, 1⟩ sample_bed [[2, 0, 3, 1, 0]] (-800)
      = [[0, 0, 0, 1, 1]] ∧
    compute_continental_shelf_mask sample_labeler ⟨5, 1⟩ sample_bed [[2, 0, 3, 1, 0]] (-800)
      = [[0, 2, 0, 1, 1]] ∧
    ((0 < (continental_shelf_labeled sample_labeler ⟨5, 1⟩ sample_bed [[2, 0, 3, 1, 0]]
          (-800)).get 1 0 →
      (compute_continental_shelf_mask sample_labeler ⟨5, 1⟩ sample_bed [[2, 0, 3, 1, 0]]
          (-800)).get 1 0
        = (continental_shelf_labeled sample_labeler ⟨5, 1⟩ sample_bed [[2, 0, 3, 1, 0]]
            (-800)).get 1 0) ∧
    ((continental_shelf_labeled sample_labeler ⟨5, 1⟩ sample_bed [[2, 0, 3, 1, 0]]
          (-800)).get 1 0 = 0 →
      ((sample_bed 1 0 > -800 ∧ IceModelVec2Int.get [[2, 0, 3, 1, 0]] 1 0 = OCEAN) →
        (compute_continental_shelf_mask sample_labeler ⟨5, 1⟩ sample_bed [[2, 0, 3, 1, 0]]
          (-800)).get 1 0 = 2) ∧
      (¬ (sample_bed 1 0 > -800 ∧ IceModelVec2Int.get [[2, 0, 3, 1, 0]] 1 0 = OCEAN) →
        (compute_continental_shelf_mask sample_labeler ⟨5, 1⟩ sample_bed [[2, 0, 3, 1, 0]]
          (-800)).get 1 0 = 0))) :=
  ⟨by decide!, by decide!,
    continental_shelf_fixup sample_labeler ⟨5, 1⟩ sample_bed [[2, 0, 3, 1, 0]] (-800) 1 0
      (by decide) (by decide)⟩

/-! ## Seeding of the two distance fields -/

/-- Some cell around `p` holds `v`, spelled out through the eight reads of
`compute_distances_gl`. -/
theorem surrounding_iff (g : IceGrid) (gm : GhostMap) (m : IceModelVec2Int) (v : Int)
    (i j : Nat) :
    (∃ q ∈ surrounding g gm (i, j), m.get q.1 q.2 = v) ↔
      (read g gm m m i ((j : Int) + 1) = v ∨ read g gm m m i ((j : Int) - 1) = v ∨
        read g gm m m ((i : Int) + 1) j = v ∨ read g gm m m ((i : Int) - 1) j = v ∨
        read g gm m m ((i : Int) + 1) ((j : Int) + 1) = v ∨
        read g gm m m ((i : Int) + 1) ((j : Int) - 1) = v ∨
        read g gm m m ((i : Int) - 1) ((j : Int) + 1) = v ∨
        read g gm m m ((i : Int) - 1) ((j : Int) - 1) = v) := by
  simp only [surrounding, read_self, List.mem_cons, List.mem_singleton, List.not_mem_nil,
    or_false, exists_eq_or_imp, exists_eq_left]

/-- Some edge neighbour of `p` holds `v`, spelled out through the four reads
of `int_star` in the order north, east, south, west. -/
theorem neighbours_iff (g : IceGrid) (gm : GhostMap) (m : IceModelVec2Int) (v : Int)
    (i j : Nat) :
    (∃ q ∈ neighbours g gm (i, j), m.get q.1 q.2 = v) ↔
      (read g gm m m i ((j : Int) + 1) = v ∨ read g gm m m ((i : Int) + 1) j = v ∨
        read g gm m m i ((j : Int) - 1) = v ∨ read g gm m m ((i : Int) - 1) j = v) := by
  simp only [neighbours, read_self, List.mem_cons, List.mem_singleton, List.not_mem_nil,
    or_false, exists_eq_or_imp, exists_eq_left]
  tauto

/-- C32. Seeding of `compute_distances_gl`.  The field handed to the solver
holds, at a cell of the domain, 1 iff at least one of the eight cells around
it (four edge neighbours, four diagonal neighbours) is CONTINENTAL in the
ice-rises mask, and 0 otherwise; so a domain cell whose grounded neighbours
are all ice rises is not a seed.  Outside the domain it holds -1. -/
theorem distances_gl_seeding (g : IceGrid) (gm : GhostMap) (fuel : Nat)
    (ocean_mask ice_rises : IceModelVec2Int) (exclude_ice_rises : Bool)
    (i j : Nat) (hi : i < g.Mx) (hj : j < g.My) :
    compute_distances_gl g gm fuel ocean_mask ice_rises exclude_ice_rises
      = eikonal_equation g gm fuel
          (distances_gl_seed g gm ocean_mask ice_rises exclude_ice_rises) ∧
    (¬ distances_domain ocean_mask ice_rises exclude_ice_rises i j →
      (distances_gl_seed g gm ocean_mask ice_rises exclude_ice_rises).get i j = -1) ∧
    (distances_domain ocean_mask ice_rises exclude_ice_rises i j →
      ((distances_gl_seed g gm ocean_mask ice_rises exclude_ice_rises).get i j = 1 ↔
        ∃ q ∈ surrounding g gm (i, j), ice_rises.get q.1 q.2 = CONTINENTAL) ∧
      ((distances_gl_seed g gm ocean_mask ice_rises exclude_ice_rises).get i j = 0 ↔
        ¬ ∃ q ∈ surrounding g gm (i, j), ice_rises.get q.1 q.2 = CONTINENTAL) ∧
      ((∀ q ∈ surrounding g gm (i, j),
          (ice_rises.get q.1 q.2 = CONTINENTAL ∨ ice_rises.get q.1 q.2 = RISE) →
            ice_rises.get q.1 q.2 = RISE) →
        (distances_gl_seed g gm ocean_mask ice_rises exclude_ice_rises).get i j = 0)) := by
  refine ⟨rfl, ?_, ?_⟩
  · intro hdom
    simp only [distances_gl_seed, get_tabulate _ hi hj]
    rw [if_neg hdom]
  · intro hdom
    have hval : (distances_gl_seed g gm ocean_mask ice_rises exclude_ice_rises).get i j
        = if (∃ q ∈ surrounding g gm (i, j), ice_rises.get q.1 q.2 = CONTINENTAL) then 1 else 0 := by
      simp only [distances_gl_seed, get_tabulate _ hi hj]
      rw [if_pos hdom]
      by_cases h : ∃ q ∈ surrounding g gm (i, j), ice_rises.get q.1 q.2 = CONTINENTAL
      · rw [if_pos h, if_pos ((surrounding_iff g gm ice_rises CONTINENTAL i j).1 h)]
      · rw [if_neg h, if_neg (fun h' => h ((surrounding_iff g gm ice_rises CONTINENTAL i j).2 h'))]
    rw [hval]
    refine ⟨?_, ?_, ?_⟩
    · constructor
      · intro h
        by_contra hne
        rw [if_neg hne] at h
        omega
      · intro h
        rw [if_pos h]
    · constructor
      · intro h hex
        rw [if_pos hex] at h
        omega
      · intro h
        rw [if_neg h]
    · intro hall
      rw [if_neg]
      rintro ⟨q, hq, hqc⟩
      have := hall q hq (Or.inl hqc)
      rw [hqc] at this
      exact absurd this (by decide)

/-- Witness for C32: a floating cell whose only CONTINENTAL cell around it is
a diagonal one is a seed. -/
theorem distances_gl_seeding_witness :
    distances_gl_seed ⟨4, 4⟩ (periodic ⟨4, 4⟩)
        [[0, 0, 0, 0], [0, 0, 0, 0], [0, 0, 0, 0], [0, 0, 0, 0]]
        [[2, 0, 0, 0], [0, 3, 0, 0], [0, 0, 0, 0], [0, 0, 0, 0]] false
      = [[-1, -1, -1, -1], [-1, 1, -1, -1], [-1, -1, -1, -1], [-1, -1, -1, -1]] ∧
    distances_gl_seed ⟨4, 4⟩ (periodic ⟨4, 4⟩)
        [[0, 0, 0, 0], [0, 0, 0, 0], [0, 0, 0, 0], [0, 0, 0, 0]]
        [[1, 1, 0, 0], [1, 3, 0, 0], [0, 0, 0, 0], [0, 0, 0, 0]] false
      = [[-1, -1, -1, -1], [-1, 0, -1, -1], [-1, -1, -1, -1], [-1, -1, -1, -1]] ∧
    ((distances_gl_seed ⟨4, 4⟩ (periodic ⟨4, 4⟩)
        [[0, 0, 0, 0], [0, 0, 0, 0], [0, 0, 0, 0], [0, 0, 0, 0]]
        [[2, 0, 0, 0], [0, 3, 0, 0], [0, 0, 0, 0], [0, 0, 0, 0]] false).get 1 1 = 1 ↔
      ∃ q ∈ surrounding ⟨4, 4⟩ (periodic ⟨4, 4⟩) (1, 1),
        IceModelVec2Int.get [[2, 0, 0, 0], [0, 3, 0, 0], [0, 0, 0, 0], [0, 0, 0, 0]] q.1 q.2
          = CONTINENTAL) :=
  ⟨by decide, by decide,
    ((distances_gl_seeding ⟨4, 4⟩ (periodic ⟨4, 4⟩) 17
      [[0, 0, 0, 0], [0, 0, 0, 0], [0, 0, 0, 0], [0, 0, 0, 0]]
      [[2, 0, 0, 0], [0, 3, 0, 0], [0, 0, 0, 0], [0, 0, 0, 0]] false 1 1 (by decide)
      (by decide)).2.2 (by decide)).1⟩

/-- C33. Seeding of `compute_distances_if`.  The field handed to the solver
holds, at a cell of the domain, 1 iff at least one of its four edge neighbours
(n, e, s, w) holds 2 (open ocean) in the ocean mask, and 0 otherwise; so the
diagonal neighbours play no part, and edge neighbours that are lake holes
(ocean mask 1) do not make the cell a seed.  Outside the domain it holds -1. -/
theorem distances_if_seeding (g : IceGrid) (gm : GhostMap) (fuel : Nat)
    (ocean_mask ice_rises : IceModelVec2Int) (exclude_ice_rises : Bool)
    (i j : Nat) (hi : i < g.Mx) (hj : j < g.My) :
    compute_distances_if g gm fuel ocean_mask ice_rises exclude_ice_rises
      = eikonal_equation g gm fuel
          (distances_if_seed g gm ocean_mask ice_rises exclude_ice_rises) ∧
    (¬ distances_domain ocean_mask ice_rises exclude_ice_rises i j →
      (distances_if_seed g gm ocean_mask ice_rises exclude_ice_rises).get i j = -1) ∧
    (distances_domain ocean_mask ice_rises exclude_ice_rises i j →
      ((distances_if_seed g gm ocean_mask ice_rises exclude_ice_rises).get i j = 1 ↔
        ∃ q ∈ neighbours g gm (i, j), ocean_mask.get q.1 q.2 = 2) ∧
      ((distances_if_seed g gm ocean_mask ice_rises exclude_ice_rises).get i j = 0 ↔
        ¬ ∃ q ∈ neighbours g gm (i, j), ocean_mask.get q.1 q.2 = 2) ∧
      ((∀ q ∈ neighbours g gm (i, j), ocean_mask.get q.1 q.2 = 0 ∨ ocean_mask.get q.1 q.2 = 1) →
        (distances_if_seed g gm ocean_mask ice_rises exclude_ice_rises).get i j = 0)) := by
  refine ⟨rfl, ?_, ?_⟩
  · intro hdom
    simp only [distances_if_seed, get_tabulate _ hi hj]
    rw [if_neg hdom]
  · intro hdom
    have hval : (distances_if_seed g gm ocean_mask ice_rises exclude_ice_rises).get i j
        = if (∃ q ∈ neighbours g gm (i, j), ocean_mask.get q.1 q.2 = 2) then 1 else 0 := by
      simp only [distances_if_seed, get_tabulate _ hi hj]
      rw [if_pos hdom]
      by_cases h : ∃ q ∈ neighbours g gm (i, j), ocean_mask.get q.1 q.2 = 2
      · rw [if_pos h, if_pos ((neighbours_iff g gm ocean_mask 2 i j).1 h)]
      · rw [if_neg h, if_neg (fun h' => h ((neighbours_iff g gm ocean_mask 2 i j).2 h'))]
    rw [hval]
    refine ⟨?_, ?_, ?_⟩
    · constructor
      · intro h
        by_contra hne
        rw [if_neg hne] at h
        omega
      · intro h
        rw [if_pos h]
    · constructor
      · intro h hex
        rw [if_pos hex] at h
        omega
      · intro h
        rw [if_neg h]
    · intro hall
      rw [if_neg]
      rintro ⟨q, hq, hqc⟩
      rcases hall q hq with h | h <;> omega

/-- Witness for C33: the floating cell `(1, 1)` with open ocean on a diagonal
and a lake hole on an edge is not a seed (the lake hole, next to the open
ocean, is one); with open ocean on an edge the floating cell is a seed. -/
theorem distances_if_seeding_witness :
    distances_if_seed ⟨4, 4⟩ (periodic ⟨4, 4⟩)
        [[2, 0, 0, 0], [1, 0, 0, 0], [0, 0, 0, 0], [0, 0, 0, 0]]
        [[0, 0, 0, 0], [0, 3, 0, 0], [0, 0, 0, 0], [0, 0, 0, 0]] false
      = [[-1, -1, -1, -1], [1, 0, -1, -1], [-1, -1, -1, -1], [-1, -1, -1, -1]] ∧
    distances_if_seed ⟨4, 4⟩ (periodic ⟨4, 4⟩)
        [[0, 2, 0, 0], [0, 0, 0, 0], [0, 0, 0, 0], [0, 0, 0, 0]]
        [[0, 0, 0, 0], [0, 3, 0, 0], [0, 0, 0, 0], [0, 0, 0, 0]] false
      = [[-1, -1, -1, -1], [-1, 1, -1, -1], [-1, -1, -1, -1], [-1, -1, -1, -1]] ∧
    (distances_if_seed ⟨4, 4⟩ (periodic ⟨4, 4⟩)
        [[2, 0, 0, 0], [1, 0, 0, 0], [0, 0, 0, 0], [0, 0, 0, 0]]
        [[0, 0, 0, 0], [0, 3, 0, 0], [0, 0, 0, 0], [0, 0, 0, 0]] false).get 1 1 = 0 :=
  ⟨by decide, by decide,
    ((distances_if_seeding ⟨4, 4⟩ (periodic ⟨4, 4⟩) 17
      [[2, 0, 0, 0], [1, 0, 0, 0], [0, 0, 0, 0], [0, 0, 0, 0]]
      [[0, 0, 0, 0], [0, 3, 0, 0], [0, 0, 0, 0], [0, 0, 0, 0]] false 1 1 (by decide)
      (by decide)).2.2 (by decide)).2.2 (by decide)⟩

/-! ## Frame and consistency of the solver result -/

/-- C34. The frame of `eikonal_equation`.  For every input mask of the shape
of the grid the solver returns (given more rounds than cells), and every cell
whose initial value is not 0 holds its initial value in the result; a cell
that differs from its initial value was 0 and holds a value `≥ 2`. -/
theorem eikonal_equation_frame (g : IceGrid) (gm : GhostMap) (m0 : IceModelVec2Int)
    (hwf : m0.WF g) (fuel : Nat) (hfuel : g.Mx * g.My < fuel) :
    ∃ r : IceModelVec2Int, eikonal_equation g gm fuel m0 = some r ∧ r.WF g ∧
      ∀ i j, i < g.Mx → j < g.My →
        (m0.get i j ≠ 0 → r.get i j = m0.get i j) ∧
        (r.get i j ≠ m0.get i j → m0.get i j = 0 ∧ 2 ≤ r.get i j) := by
  obtain ⟨r, hr, hrwf, hfr⟩ := eikonal_equation_frozen g gm m0 hwf fuel hfuel
  refine ⟨r, hr, hrwf, ?_⟩
  intro i j hi hj
  obtain ⟨h1, h2⟩ := hfr (i, j) hi hj
  refine ⟨h1, ?_⟩
  intro hne
  by_cases hz : m0.get i j = 0
  · refine ⟨hz, ?_⟩
    rcases h2 hz with h | h
    · rw [h, hz] at hne
      exact absurd rfl hne
    · exact h
  · exact absurd (h1 hz) hne

/-- Witness for C34: the cells outside the domain and the seed keep -1 and 1,
two cells at 0 get 2 and 3, and the cut-off cell keeps its 0. -/
theorem eikonal_equation_frame_witness :
    eikonal_equation ⟨6, 1⟩ (periodic ⟨6, 1⟩) 7 [[-1, 1, 0, 0, -1, 0]]
      = some [[-1, 1, 2, 3, -1, 0]] ∧
    ∃ r : IceModelVec2Int,
      eikonal_equation ⟨6, 1⟩ (periodic ⟨6, 1⟩) 7 [[-1, 1, 0, 0, -1, 0]] = some r ∧
      r.WF ⟨6, 1⟩ ∧
      ∀ i j, i < 6 → j < 1 →
        (IceModelVec2Int.get [[-1, 1, 0, 0, -1, 0]] i j ≠ 0 →
          r.get i j = IceModelVec2Int.get [[-1, 1, 0, 0, -1, 0]] i j) ∧
        (r.get i j ≠ IceModelVec2Int.get [[-1, 1, 0, 0, -1, 0]] i j →
          IceModelVec2Int.get [[-1, 1, 0, 0, -1, 0]] i j = 0 ∧ 2 ≤ r.get i j) :=
  ⟨by decide,
    eikonal_equation_frame ⟨6, 1⟩ (periodic ⟨6, 1⟩) [[-1, 1, 0, 0, -1, 0]] (by decide) 7
      (by decide)⟩

/-- C35. Consistency of the solver result.  For every input mask with values
in `{-1, 0, 1}` the solver returns (given more rounds than cells), and in the
returned mask every cell with a value `k ≥ 2` has a 4-neighbour with the value
`k - 1`, and no cell with the value 0 has a 4-neighbour with a positive
value. -/
theorem eikonal_equation_consistent (g : IceGrid) (gm : GhostMap) (m0 : IceModelVec2Int)
    (hwf : m0.WF g) (hgm : ∀ i j, (gm i j).1 < g.Mx ∧ (gm i j).2 < g.My)
    (hvals : ∀ i j, i < g.Mx → j < g.My → m0.get i j = -1 ∨ m0.get i j = 0 ∨ m0.get i j = 1)
    (fuel : Nat) (hfuel : g.Mx * g.My < fuel) :
    ∃ r : IceModelVec2Int, eikonal_equation g gm fuel m0 = some r ∧
      (∀ p : Nat × Nat, p.1 < g.Mx → p.2 < g.My → 2 ≤ r.get p.1 p.2 →
        ∃ q ∈ neighbours g gm p, r.get q.1 q.2 = r.get p.1 p.2 - 1) ∧
      (∀ p : Nat × Nat, p.1 < g.Mx → p.2 < g.My → r.get p.1 p.2 = 0 →
        ∀ q ∈ neighbours g gm p, ¬ 0 < r.get q.1 q.2) := by
  obtain ⟨r, L', h1, hL', hinv, hfin⟩ := eikonal_loop_spec g gm m0 hgm hvals fuel 1 m0
    (le_refl _) (WaveInv_init g gm m0 hwf) (lt_of_le_of_lt (count_le_cells g m0 0) hfuel)
  -- every cell of the result that is not 0 and was 0 holds its distance plus one
  have hpos : ∀ p : Nat × Nat, p.1 < g.Mx → p.2 < g.My → 2 ≤ r.get p.1 p.2 →
      m0.get p.1 p.2 = 0 ∧ ∃ k : Nat, 1 ≤ k ∧ k < L' ∧ r.get p.1 p.2 = (k : Int) + 1 ∧
        MinPath g gm m0 k p := by
    intro p hp1 hp2 hk
    obtain ⟨hne, hz⟩ := hinv.2 p hp1 hp2
    have hp0 : m0.get p.1 p.2 = 0 := by
      by_contra h
      have := hne h
      rcases hvals p.1 p.2 hp1 hp2 with hv | hv | hv <;> omega
    refine ⟨hp0, ?_⟩
    obtain ⟨hiff, -, hor⟩ := hz hp0
    rcases hor with h | ⟨k, hk1, hk2, hk3⟩
    · omega
    · exact ⟨k, hk1, hk2, hk3, (hiff k hk1 hk2).1 hk3⟩
  have hseed : ∀ q : Nat × Nat, q.1 < g.Mx → q.2 < g.My → m0.get q.1 q.2 = 1 →
      r.get q.1 q.2 = 1 := by
    intro q hq1 hq2 hq
    rw [(hinv.2 q hq1 hq2).1 (by omega), hq]
  refine ⟨r, ?_, ?_, ?_⟩
  · unfold eikonal_equation
    have : ((1 : Nat) : Int) = 1 := rfl
    rw [this] at h1
    rw [h1]
    rfl
  · intro p hp1 hp2 hk
    obtain ⟨hp0, k, hk1, hk2, hk3, hmin⟩ := hpos p hp1 hp2 hk
    rcases SeedPath_inv g gm m0 k p hmin.1 with ⟨hk', q, hq, hq1⟩ | ⟨k', q, hk', hq, hqpath⟩
    · obtain ⟨hqa, hqb⟩ := neighbours_in_grid g gm hgm p q hq
      refine ⟨q, hq, ?_⟩
      rw [hseed q hqa hqb hq1, hk3, hk']
      rfl
    · obtain ⟨d, hd, hdmin⟩ := MinPath_exists g gm m0 k' q hqpath
      have hdk : d = k' := by
        by_contra hne
        have hlt : d + 1 < k := by omega
        exact hmin.2 (d + 1) hlt
          (SeedPath.step hp1 hp2 hp0 hq hdmin.1)
      subst hdk
      refine ⟨q, hq, ?_⟩
      rw [WaveInv_final g gm m0 r L' hgm hvals hL' hinv hfin d q hdmin, hk3, hk']
      push_cast
      ring
  · intro p hp1 hp2 hz q hq hqpos
    obtain ⟨hqa, hqb⟩ := neighbours_in_grid g gm hgm p q hq
    have hp0 : m0.get p.1 p.2 = 0 := by
      by_contra h
      have := (hinv.2 p hp1 hp2).1 h
      omega
    have hnone := ((hinv.2 p hp1 hp2).2 hp0).2.1.1 hz
    have hnohit : ¬ has_neighbour g gm r (L' : Int) p := fun h => hfin ⟨p, hp1, hp2, hz, h⟩
    by_cases hq1 : r.get q.1 q.2 = 1
    · -- the neighbour is a seed
      have hm0q : m0.get q.1 q.2 = 1 := by
        by_contra h
        rcases hvals q.1 q.2 hqa hqb with hv | hv | hv
        · have := (hinv.2 q hqa hqb).1 (by omega)
          omega
        · rcases ((hinv.2 q hqa hqb).2 hv).2.2 with h0 | ⟨k, hk1, -, hk3⟩ <;> omega
        · exact h hv
      have hpath : SeedPath g gm m0 1 p := SeedPath.last hp1 hp2 hp0 hq hm0q
      by_cases hL1 : 1 < L'
      · exact hnone 1 hL1 hpath
      · have hLe : L' = 1 := by omega
        apply hnohit
        refine ⟨q, hq, ?_⟩
        rw [hq1, hLe]
        rfl
    · obtain ⟨-, k, hk1, hk2, hk3, hmin⟩ := hpos q hqa hqb (by omega)
      have hpath : SeedPath g gm m0 (k + 1) p := SeedPath.step hp1 hp2 hp0 hq hmin.1
      by_cases hlt : k + 1 < L'
      · exact hnone (k + 1) hlt hpath
      · have hLe : L' = k + 1 := by omega
        apply hnohit
        refine ⟨q, hq, ?_⟩
        rw [hk3, hLe]
        push_cast
        rfl

/-- Witness for C35: on the strip `-1, 1, 0, 0, -1, 0` the result is
`-1, 1, 2, 3, -1, 0`. -/
theorem eikonal_equation_consistent_witness :
    eikonal_equation ⟨6, 1⟩ (periodic ⟨6, 1⟩) 7 [[-1, 1, 0, 0, -1, 0]]
      = some [[-1, 1, 2, 3, -1, 0]] ∧
    ∃ r : IceModelVec2Int,
      eikonal_equation ⟨6, 1⟩ (periodic ⟨6, 1⟩) 7 [[-1, 1, 0, 0, -1, 0]] = some r ∧
      (∀ p : Nat × Nat, p.1 < 6 → p.2 < 1 → 2 ≤ r.get p.1 p.2 →
        ∃ q ∈ neighbours ⟨6, 1⟩ (periodic ⟨6, 1⟩) p, r.get q.1 q.2 = r.get p.1 p.2 - 1) ∧
      (∀ p : Nat × Nat, p.1 < 6 → p.2 < 1 → r.get p.1 p.2 = 0 →
        ∀ q ∈ neighbours ⟨6, 1⟩ (periodic ⟨6, 1⟩) p, ¬ 0 < r.get q.1 q.2) :=
  ⟨by decide,
    eikonal_equation_consistent ⟨6, 1⟩ (periodic ⟨6, 1⟩) [[-1, 1, 0, 0, -1, 0]] (by decide)
      (periodic_in_grid ⟨6, 1⟩ (by decide) (by decide))
      ((forall_cells ⟨6, 1⟩ _).2 (by decide)) 7 (by decide)⟩


/-! ## The box index in closed form, and the worked example -/

/-- The relative position written with `D_cf`: `1 - D_gl / (D_gl + D_cf)` is
`D_cf / (D_gl + D_cf)`. -/
theorem one_sub_r_eq (d_gl d_cf : Int) (hgl : 0 < d_gl) (hcf : 0 < d_cf) :
    1 - (d_gl : ℚ) / ((d_gl + d_cf : Int) : ℚ) = (d_cf : ℚ) / ((d_gl : ℚ) + (d_cf : ℚ)) := by
  have hpos : (0 : ℚ) < (d_gl : ℚ) + (d_cf : ℚ) := by
    have h1 : (0 : ℚ) < (d_gl : ℚ) := by exact_mod_cast hgl
    have h2 : (0 : ℚ) < (d_cf : ℚ) := by exact_mod_cast hcf
    linarith
  push_cast
  field_simp

/-- C37 as stated fails: on the strip of six cells with `D_gl = 1, …, 6`,
`D_cf = 6, …, 1` and three boxes, `compute_box_mask` yields the box indices
`1, 2, 3, 3, 3, 3`, not `1, 1, 2, 2, 3, 3`: the second cell has
`C = (5/7)² = 25/49`, which lies in the band `[1/3, 2/3]` of box 2. -/
theorem box_mask_example_differs :
    box_counts ⟨6, 1⟩ 3 [[1, 2, 3, 4, 5, 6]] [[6, 5, 4, 3, 2, 1]] [[1, 1, 1, 1, 1, 1]]
      = .ok ([0, 6], 6, [some 1, some 3]) ∧
    compute_box_mask ⟨6, 1⟩ 3 [[1, 2, 3, 4, 5, 6]] [[6, 5, 4, 3, 2, 1]] [[1, 1, 1, 1, 1, 1]]
        [[0, 0, 0, 0, 0, 0]] = .ok [[1, 2, 3, 3, 3, 3]] ∧
    compute_box_mask ⟨6, 1⟩ 3 [[1, 2, 3, 4, 5, 6]] [[6, 5, 4, 3, 2, 1]] [[1, 1, 1, 1, 1, 1]]
        [[0, 0, 0, 0, 0, 0]] ≠ .ok [[1, 1, 2, 2, 3, 3]] ∧
    box_of_cell 3 2 5 = 2 := by
  refine ⟨by decide!, by decide!, by decide!, by decide!⟩

/-- C37, amended. Worked example of the box mask: for a single shelf that is
a strip of six cells with the grounding line at index 0 and the calving front
at index 5 (`D_gl = 1, …, 6`, `D_cf = 6, …, 1`) and three boxes, the shelf
gets the box count 3 and `compute_box_mask` yields the box indices
`1, 2, 3, 3, 3, 3` from grounding line to front, whatever the lake mask. -/
theorem box_mask_example (lake_mask : IceModelVec2Int) :
    box_counts ⟨6, 1⟩ 3 [[1, 2, 3, 4, 5, 6]] [[6, 5, 4, 3, 2, 1]] [[1, 1, 1, 1, 1, 1]]
      = .ok ([0, 6], 6, [some 1, some 3]) ∧
    compute_box_mask ⟨6, 1⟩ 3 [[1, 2, 3, 4, 5, 6]] [[6, 5, 4, 3, 2, 1]] [[1, 1, 1, 1, 1, 1]]
        lake_mask = .ok [[1, 2, 3, 3, 3, 3]] := by
  refine ⟨by decide!, ?_⟩
  have e1 : ([[1, 2, 3, 4, 5, 6]] : IceModelVec2Int)
      = IceGrid.tabulate ⟨6, 1⟩ fun i _ => (i : Int) + 1 := by decide
  have e2 : ([[6, 5, 4, 3, 2, 1]] : IceModelVec2Int)
      = IceGrid.tabulate ⟨6, 1⟩ fun i _ => ((6 : Nat) : Int) - i := by decide
  have e3 : ([[1, 1, 1, 1, 1, 1]] : IceModelVec2Int)
      = IceGrid.tabulate ⟨6, 1⟩ fun _ _ => 1 := by decide
  obtain ⟨-, -, -, r, -, h2, -, h4⟩ := box_mask_strip 6 3 lake_mask (by decide)
  rw [← e1, ← e2, ← e3] at h2
  obtain ⟨-, -, r', -, h2', hwf, -⟩ :=
    compute_box_mask_ok ⟨6, 1⟩ 3 [[1, 2, 3, 4, 5, 6]] [[6, 5, 4, 3, 2, 1]] [[1, 1, 1, 1, 1, 1]]
      lake_mask ((forall_cells ⟨6, 1⟩ _).2 (by decide))
  rw [h2] at h2'
  injection h2' with hrr
  subst hrr
  rw [h2]
  congr 1
  apply field_ext ⟨6, 1⟩ r [[1, 2, 3, 3, 3, 3]] hwf (by decide)
  intro i j hi hj
  have hj0 : j = 0 := by
    have : j < 1 := hj
    omega
  subst hj0
  have hi6 : i < 6 := hi
  rw [h4 i hi6]
  have hvals : ∀ k ∈ List.range 6,
      box_of_cell 3 ((k : Int) + 1) (((6 : Nat) : Int) - k)
        = IceModelVec2Int.get [[1, 2, 3, 3, 3, 3]] k 0 := by decide!
  exact hvals i (List.mem_range.2 hi6)

/-! ## Index safety of `compute_box_mask` -/

/-- With shelf ids between 0 and `M` and vectors of `M + 1` entries no index
check of the first loop fails. -/
theorem shelf_distance_max_checked_eq (M : Int) (D_gl D_cf shelf_mask : IceModelVec2Int)
    (ps : List (Nat × Nat)) (gl0 cf0 : List Int)
    (hps : ∀ p ∈ ps, 0 ≤ shelf_mask.get p.1 p.2 ∧ shelf_mask.get p.1 p.2 ≤ M)
    (hgl : gl0.length = (M + 1).toNat) (hcf : cf0.length = (M + 1).toNat) :
    shelf_distance_max_checked (M + 1) D_gl D_cf shelf_mask ps (gl0, cf0)
      = shelf_distance_max (M + 1) D_gl D_cf shelf_mask ps (gl0, cf0) := by
  induction ps generalizing gl0 cf0 with
  | nil => rfl
  | cons p ps ih =>
    have hp := hps p (List.mem_cons_self _ _)
    have hrest : ∀ q ∈ ps, 0 ≤ shelf_mask.get q.1 q.2 ∧ shelf_mask.get q.1 q.2 ≤ M :=
      fun q hq => hps q (List.mem_cons_of_mem _ hq)
    simp only [shelf_distance_max_checked, shelf_distance_max]
    by_cases hassert : ¬ (shelf_mask.get p.1 p.2 ≥ 0 ∧ shelf_mask.get p.1 p.2 < M + 1 + 1)
    · rw [if_pos hassert, if_pos hassert]
    · rw [if_neg hassert, if_neg hassert]
      by_cases hz : shelf_mask.get p.1 p.2 = 0
      · rw [if_pos hz, if_pos hz]
        exact ih gl0 cf0 hrest hgl hcf
      · rw [if_neg hz, if_neg hz]
        have hidx : ¬ ¬ ((shelf_mask.get p.1 p.2).toNat < gl0.length ∧
            (shelf_mask.get p.1 p.2).toNat < cf0.length) := by
          intro h
          apply h
          constructor <;> omega
        rw [if_neg hidx]
        exact ih _ _ hrest (by rw [length_update_max]; exact hgl)
          (by rw [length_update_max]; exact hcf)

/-- C38. Index safety of `compute_box_mask`.  If every value of `shelf_mask`
is `≥ 0` then every cell has `0 ≤ shelf_id ≤ max(shelf_mask) < n_shelves`, so
both assertions hold at every cell and the first loop finishes; the vectors
`GL_distance_max`, `CF_distance_max` and `n_boxes` have `n_shelves` entries
throughout (an update keeps the length), and `shelf_id` is a valid index of
each of them at every cell.  The asserted bound `shelf_id < n_shelves + 1` is
weaker than that: it admits `shelf_id = n_shelves`, which is no valid index.
The loop with checked indexing therefore returns the same vectors. -/
theorem compute_box_mask_index_safety (g : IceGrid) (max_number_of_boxes : Int)
    (D_gl D_cf shelf_mask : IceModelVec2Int)
    (hshelf : ∀ i j, i < g.Mx → j < g.My → 0 ≤ shelf_mask.get i j) :
    (∀ i j, i < g.Mx → j < g.My →
      0 ≤ shelf_mask.get i j ∧ shelf_mask.get i j ≤ shelf_mask.range_max g ∧
      shelf_mask.range_max g < shelf_mask.range_max g + 1 ∧
      (shelf_mask.get i j ≥ 0 ∧ shelf_mask.get i j < shelf_mask.range_max g + 1 + 1)) ∧
    (∀ (l : List Int) (s d : Int), (update_max l s d).length = l.length) ∧
    (∃ (GL_distance_max CF_distance_max : List Int) (R : Int) (n_boxes : List (Option Int)),
      shelf_distance_max (shelf_mask.range_max g + 1) D_gl D_cf shelf_mask g.points
          (List.replicate (shelf_mask.range_max g + 1).toNat 0,
           List.replicate (shelf_mask.range_max g + 1).toNat 0)
        = .ok (GL_distance_max, CF_distance_max) ∧
      shelf_distance_max_checked (shelf_mask.range_max g + 1) D_gl D_cf shelf_mask g.points
          (List.replicate (shelf_mask.range_max g + 1).toNat 0,
           List.replicate (shelf_mask.range_max g + 1).toNat 0)
        = .ok (GL_distance_max, CF_distance_max) ∧
      box_counts g max_number_of_boxes D_gl D_cf shelf_mask
        = .ok (GL_distance_max, R, n_boxes) ∧
      GL_distance_max.length = (shelf_mask.range_max g + 1).toNat ∧
      CF_distance_max.length = (shelf_mask.range_max g + 1).toNat ∧
      n_boxes.length = (shelf_mask.range_max g + 1).toNat ∧
      ∀ i j, i < g.Mx → j < g.My →
        (shelf_mask.get i j).toNat < GL_distance_max.length ∧
        (shelf_mask.get i j).toNat < CF_distance_max.length ∧
        (shelf_mask.get i j).toNat < n_boxes.length) ∧
    (shelf_mask.range_max g + 1 ≥ 0 ∧
      shelf_mask.range_max g + 1 < shelf_mask.range_max g + 1 + 1 ∧
      ¬ (shelf_mask.range_max g + 1).toNat < (shelf_mask.range_max g + 1).toNat) := by
  have hmax0 : 0 ≤ shelf_mask.range_max g := range_max_nonneg g shelf_mask hshelf
  have hps : ∀ p ∈ g.points, 0 ≤ shelf_mask.get p.1 p.2 ∧
      shelf_mask.get p.1 p.2 ≤ shelf_mask.range_max g := by
    intro p hp
    have hp' := mem_points.1 hp
    exact ⟨hshelf p.1 p.2 hp'.1 hp'.2, le_range_max hp'.1 hp'.2⟩
  refine ⟨?_, length_update_max, ?_, by omega, by omega, by omega⟩
  · intro i j hi hj
    have h1 := hshelf i j hi hj
    have h2 := le_range_max (g := g) (m := shelf_mask) hi hj
    refine ⟨h1, h2, by omega, h1, by omega⟩
  · obtain ⟨gl, cf, hsdm, hgl, hcf, -⟩ :=
      shelf_distance_max_char (shelf_mask.range_max g) D_gl D_cf shelf_mask g.points hps
    obtain ⟨glmax, R, hbc, hlen, -⟩ :=
      box_counts_ok g max_number_of_boxes D_gl D_cf shelf_mask hshelf
    have hsame : glmax = gl := by
      have h := hbc
      simp only [box_counts] at h
      rw [hsdm] at h
      simp only [] at h
      cases hme : max_element gl with
      | none =>
        rw [hme] at h
        simp at h
      | some R' =>
        rw [hme] at h
        simp only [Except.ok.injEq, Prod.mk.injEq] at h
        exact h.1.symm
    subst hsame
    have hchk := shelf_distance_max_checked_eq (shelf_mask.range_max g) D_gl D_cf shelf_mask
      g.points (List.replicate (shelf_mask.range_max g + 1).toNat 0)
      (List.replicate (shelf_mask.range_max g + 1).toNat 0) hps
      (List.length_replicate _ _) (List.length_replicate _ _)
    rw [hsdm] at hchk
    refine ⟨glmax, cf, R, _, hsdm, hchk, hbc, hgl, hcf, by rw [List.length_map, hgl], ?_⟩
    intro i j hi hj
    have h1 := hshelf i j hi hj
    have h2 := le_range_max (g := g) (m := shelf_mask) hi hj
    rw [List.length_map, hgl, hcf]
    refine ⟨by omega, by omega, by omega⟩

/-- Witness for C38: two shelves on a strip of six cells; `n_shelves = 3`.
For comparison, a shelf id equal to `n_shelves` passes the assertion and then
fails the index check. -/
theorem compute_box_mask_index_safety_witness :
    IceModelVec2Int.range_max ⟨6, 1⟩ [[1, 1, 1, 2, 2, 0]] + 1 = 3 ∧
    shelf_distance_max_checked 1 [[5]] [[5]] [[1]] [(0, 0)] ([0], [0])
      = .error "index out of range" ∧
    shelf_distance_max 3 [[1, 2, 3, 1, 2, 0]] [[3, 2, 1, 2, 1, 0]] [[1, 1, 1, 2, 2, 0]]
        (IceGrid.points ⟨6, 1⟩) ([0, 0, 0], [0, 0, 0]) = .ok ([0, 3, 2], [0, 3, 2]) ∧
    ∃ (GL_distance_max CF_distance_max : List Int) (R : Int) (n_boxes : List (Option Int)),
      shelf_distance_max (IceModelVec2Int.range_max ⟨6, 1⟩ [[1, 1, 1, 2, 2, 0]] + 1)
          [[1, 2, 3, 1, 2, 0]] [[3, 2, 1, 2, 1, 0]] [[1, 1, 1, 2, 2, 0]] (IceGrid.points ⟨6, 1⟩)
          (List.replicate (IceModelVec2Int.range_max ⟨6, 1⟩ [[1, 1, 1, 2, 2, 0]] + 1).toNat 0,
           List.replicate (IceModelVec2Int.range_max ⟨6, 1⟩ [[1, 1, 1, 2, 2, 0]] + 1).toNat 0)
        = .ok (GL_distance_max, CF_distance_max) ∧
      shelf_distance_max_checked (IceModelVec2Int.range_max ⟨6, 1⟩ [[1, 1, 1, 2, 2, 0]] + 1)
          [[1, 2, 3, 1, 2, 0]] [[3, 2, 1, 2, 1, 0]] [[1, 1, 1, 2, 2, 0]] (IceGrid.points ⟨6, 1⟩)
          (List.replicate (IceModelVec2Int.range_max ⟨6, 1⟩ [[1, 1, 1, 2, 2, 0]] + 1).toNat 0,
           List.replicate (IceModelVec2Int.range_max ⟨6, 1⟩ [[1, 1, 1, 2, 2, 0]] + 1).toNat 0)
        = .ok (GL_distance_max, CF_distance_max) ∧
      box_counts ⟨6, 1⟩ 5 [[1, 2, 3, 1, 2, 0]] [[3, 2, 1, 2, 1, 0]] [[1, 1, 1, 2, 2, 0]]
        = .ok (GL_distance_max, R, n_boxes) ∧
      GL_distance_max.length
        = (IceModelVec2Int.range_max ⟨6, 1⟩ [[1, 1, 1, 2, 2, 0]] + 1).toNat ∧
      CF_distance_max.length
        = (IceModelVec2Int.range_max ⟨6, 1⟩ [[1, 1, 1, 2, 2, 0]] + 1).toNat ∧
      n_boxes.length = (IceModelVec2Int.range_max ⟨6, 1⟩ [[1, 1, 1, 2, 2, 0]] + 1).toNat ∧
      ∀ i j, i < 6 → j < 1 →
        (IceModelVec2Int.get [[1, 1, 1, 2, 2, 0]] i j).toNat < GL_distance_max.length ∧
        (IceModelVec2Int.get [[1, 1, 1, 2, 2, 0]] i j).toNat < CF_distance_max.length ∧
        (IceModelVec2Int.get [[1, 1, 1, 2, 2, 0]] i j).toNat < n_boxes.length :=
  ⟨by decide, by decide, by decide,
    (compute_box_mask_index_safety ⟨6, 1⟩ 5 [[1, 2, 3, 1, 2, 0]] [[3, 2, 1, 2, 1, 0]]
      [[1, 1, 1, 2, 2, 0]] ((forall_cells ⟨6, 1⟩ _).2 (by decide))).2.2.1⟩


/-! ## `compute_box_mask` when no shelf was reached -/

/-- C39. `compute_box_mask` with no reached shelf (no shelf id negative, so
that the statistics are computed).  The reference distance `R` is `> 0` iff
some cell with shelf id `> 0` has `D_gl > 0`.  When `R = 0` every per-shelf
box count is undefined, but none is ever read: no cell passes the test of the
second loop, whose outcome is therefore the same for any vector of box
counts.  The call returns, and the result holds no positive box index: every
shelf cell is -1, or 0 if it is a lake cell, and every other cell is 0. -/
theorem compute_box_mask_unreached (g : IceGrid) (max_number_of_boxes : Int)
    (D_gl D_cf shelf_mask lake_mask : IceModelVec2Int)
    (hshelf : ∀ i j, i < g.Mx → j < g.My → 0 ≤ shelf_mask.get i j) :
    ∃ (GL_distance_max : List Int) (R : Int) (n_boxes : List (Option Int))
      (r : IceModelVec2Int),
      box_counts g max_number_of_boxes D_gl D_cf shelf_mask
        = .ok (GL_distance_max, R, n_boxes) ∧
      compute_box_mask g max_number_of_boxes D_gl D_cf shelf_mask lake_mask = .ok r ∧
      0 ≤ R ∧
      (0 < R ↔ ∃ i j, i < g.Mx ∧ j < g.My ∧ shelf_mask.get i j > 0 ∧ D_gl.get i j > 0) ∧
      (R = 0 →
        (∀ k, n_boxes.getD k none = none) ∧
        (∀ i j, i < g.Mx → j < g.My →
          ¬ (shelf_mask.get i j > 0 ∧ D_gl.get i j > 0 ∧ D_cf.get i j > 0) ∧
          (∀ nb : List (Option Int),
            assign_box nb (D_gl.get i j) (D_cf.get i j) (shelf_mask.get i j) = some 0) ∧
          ¬ 0 < r.get i j ∧
          (shelf_mask.get i j > 0 → lake_mask.get i j ≠ 1 → r.get i j = -1) ∧
          (shelf_mask.get i j > 0 → lake_mask.get i j = 1 → r.get i j = 0) ∧
          (shelf_mask.get i j = 0 → r.get i j = 0))) := by
  obtain ⟨glmax, R, hbc, hlen, hRmem, hle, h0, hub, hat⟩ :=
    box_counts_ok g max_number_of_boxes D_gl D_cf shelf_mask hshelf
  obtain ⟨glmax', R', r, h1, h2, -, -, -, -, -, hcell⟩ :=
    compute_box_mask_ok g max_number_of_boxes D_gl D_cf shelf_mask lake_mask hshelf
  rw [hbc] at h1
  simp only [Except.ok.injEq, Prod.mk.injEq] at h1
  obtain ⟨hg, hR, -⟩ := h1
  subst hg hR
  obtain ⟨k0, hk0, hk0R⟩ := List.mem_iff_getElem.1 hRmem
  have hRk : glmax.getD k0 0 = R := by
    rw [List.getD_eq_getElem _ _ hk0, hk0R]
  have hR0 : 0 ≤ R := by
    rw [← hRk]
    exact h0 k0
  refine ⟨glmax, R, _, r, hbc, h2, hR0, ⟨?_, ?_⟩, ?_⟩
  · intro hpos
    rcases hat k0 with hz | ⟨i, j, hi, hj, -, hs, hD⟩
    · omega
    · exact ⟨i, j, hi, hj, hs, by omega⟩
  · rintro ⟨i, j, hi, hj, hs, hD⟩
    have h3 := hub i j hi hj hs
    have h4 := hle (shelf_mask.get i j).toNat
    omega
  · intro hRz
    have hcond : ∀ i j, i < g.Mx → j < g.My →
        ¬ (shelf_mask.get i j > 0 ∧ D_gl.get i j > 0 ∧ D_cf.get i j > 0) := by
      rintro i j hi hj ⟨hs, hD, -⟩
      have h3 := hub i j hi hj hs
      have h4 := hle (shelf_mask.get i j).toNat
      omega
    refine ⟨?_, ?_⟩
    · intro k
      rw [List.getD_eq_getElem?_getD, List.getElem?_map]
      cases glmax[k]? with
      | none => rfl
      | some a =>
        simp only [Option.map_some', Option.getD_some, n_boxes_of, hRz, if_true]
    · intro i j hi hj
      have hc := hcond i j hi hj
      have hassign : ∀ nb : List (Option Int),
          assign_box nb (D_gl.get i j) (D_cf.get i j) (shelf_mask.get i j) = some 0 := by
        intro nb
        unfold assign_box
        rw [if_neg hc]
      obtain ⟨b, hb, hrb⟩ := hcell i j hi hj
      rw [hassign] at hb
      injection hb with hb
      subst hb
      rw [hrb]
      unfold mark_unassigned
      refine ⟨hc, hassign, ?_, ?_, ?_, ?_⟩
      · split_ifs <;> decide
      · intro hs hl
        rw [if_pos ⟨hs, rfl, hl⟩]
      · intro hs hl
        rw [if_neg (fun h => h.2.2 hl)]
      · intro hs
        rw [if_neg (fun h => by omega)]

/-- Witness for C39: a shelf of two cells that the distance solver did not
reach (`D_gl = 0`), the second one a lake cell. -/
theorem compute_box_mask_unreached_witness :
    box_counts ⟨3, 1⟩ 5 [[0, 0, 0]] [[1, 2, 0]] [[1, 1, 0]] = .ok ([0, 0], 0, [none, none]) ∧
    compute_box_mask ⟨3, 1⟩ 5 [[0, 0, 0]] [[1, 2, 0]] [[1, 1, 0]] [[0, 1, 0]]
      = .ok [[-1, 0, 0]] ∧
    ∃ (GL_distance_max : List Int) (R : Int) (n_boxes : List (Option Int))
      (r : IceModelVec2Int),
      box_counts ⟨3, 1⟩ 5 [[0, 0, 0]] [[1, 2, 0]] [[1, 1, 0]]
        = .ok (GL_distance_max, R, n_boxes) ∧
      compute_box_mask ⟨3, 1⟩ 5 [[0, 0, 0]] [[1, 2, 0]] [[1, 1, 0]] [[0, 1, 0]] = .ok r ∧
      0 ≤ R ∧
      (0 < R ↔ ∃ i j, i < 3 ∧ j < 1 ∧ IceModelVec2Int.get [[1, 1, 0]] i j > 0 ∧
        IceModelVec2Int.get [[0, 0, 0]] i j > 0) ∧
      (R = 0 →
        (∀ k, n_boxes.getD k none = none) ∧
        (∀ i j, i < 3 → j < 1 →
          ¬ (IceModelVec2Int.get [[1, 1, 0]] i j > 0 ∧ IceModelVec2Int.get [[0, 0, 0]] i j > 0 ∧
            IceModelVec2Int.get [[1, 2, 0]] i j > 0) ∧
          (∀ nb : List (Option Int),
            assign_box nb (IceModelVec2Int.get [[0, 0, 0]] i j)
              (IceModelVec2Int.get [[1, 2, 0]] i j) (IceModelVec2Int.get [[1, 1, 0]] i j)
              = some 0) ∧
          ¬ 0 < r.get i j ∧
          (IceModelVec2Int.get [[1, 1, 0]] i j > 0 → IceModelVec2Int.get [[0, 1, 0]] i j ≠ 1 →
            r.get i j = -1) ∧
          (IceModelVec2Int.get [[1, 1, 0]] i j > 0 → IceModelVec2Int.get [[0, 1, 0]] i j = 1 →
            r.get i j = 0) ∧
          (IceModelVec2Int.get [[1, 1, 0]] i j = 0 → r.get i j = 0))) :=
  ⟨by decide!, by decide!,
    compute_box_mask_unreached ⟨3, 1⟩ 5 [[0, 0, 0]] [[1, 2, 0]] [[1, 1, 0]] [[0, 1, 0]]
      ((forall_cells ⟨3, 1⟩ _).2 (by decide))⟩

/-! ## State dependence of `update` -/

/-- A loop that assigns at every point overwrites the whole field: the
result is the tabulated new value, whatever order the points are visited
in. -/
theorem update_each_eq (g : IceGrid) (f : Nat → Nat → Int → Int) (m : IceModelVec2Int)
    (hwf : m.WF g) :
    g.update_each f m = g.tabulate fun i j => f i j (m.get i j) := by
  have key : ∀ (ps : List (Nat × Nat)) (m1 : IceModelVec2Int), ps.Nodup →
      (∀ p ∈ ps, p.1 < g.Mx ∧ p.2 < g.My) → m1.WF g →
      (ps.foldl (fun m p => m.put p.1 p.2 (f p.1 p.2 (m.get p.1 p.2))) m1).WF g ∧
      ∀ i j, i < g.Mx → j < g.My →
        (ps.foldl (fun m p => m.put p.1 p.2 (f p.1 p.2 (m.get p.1 p.2))) m1).get i j
          = if (i, j) ∈ ps then f i j (m1.get i j) else m1.get i j := by
    intro ps
    induction ps with
    | nil =>
      intro m1 _ _ h1
      exact ⟨h1, fun i j _ _ => by simp⟩
    | cons p ps ih =>
      intro m1 hnd hin h1
      have hp := hin p (List.mem_cons_self _ _)
      have hnd' := List.nodup_cons.1 hnd
      obtain ⟨hw, hget⟩ := ih (m1.put p.1 p.2 (f p.1 p.2 (m1.get p.1 p.2))) hnd'.2
        (fun q hq => hin q (List.mem_cons_of_mem _ hq)) (WF_put g m1 h1 _ _ _ hp.2)
      refine ⟨hw, ?_⟩
      intro i j hi hj
      rw [List.foldl_cons, hget i j hi hj, get_put g m1 h1 _ _ _ hp.1 hp.2]
      by_cases hmem : (i, j) ∈ ps
      · have hne : ¬ (i = p.1 ∧ j = p.2) := by
          rintro ⟨rfl, rfl⟩
          exact hnd'.1 hmem
        rw [if_pos hmem, if_neg hne, if_pos (List.mem_cons_of_mem _ hmem)]
      · rw [if_neg hmem]
        by_cases heq : i = p.1 ∧ j = p.2
        · obtain ⟨rfl, rfl⟩ := heq
          rw [if_pos ⟨rfl, rfl⟩, if_pos (List.mem_cons_self _ _)]
        · have hnm : ¬ (i, j) ∈ p :: ps := by
            intro h
            rcases List.mem_cons.1 h with h | h
            · apply heq
              rw [← h]
              exact ⟨rfl, rfl⟩
            · exact hmem h
          rw [if_neg heq, if_neg hnm]
  obtain ⟨hw, hget⟩ := key g.points m (nodup_points g) (fun p hp => mem_points.1 hp) hwf
  apply field_ext g _ _ hw (WF_tabulate g _)
  intro i j hi hj
  rw [get_tabulate _ hi hj]
  show (g.points.foldl (fun m p => m.put p.1 p.2 (f p.1 p.2 (m.get p.1 p.2))) m).get i j = _
  rw [hget i j hi hj, if_pos (mem_points.2 ⟨hi, hj⟩)]

/-- When `relabel_by_size` returns in place, the mask it leaves has the shape
of the grid. -/
theorem relabel_by_size_inplace_WF (g : IceGrid) (mask : IceModelVec2Int) (hwf : mask.WF g) :
    (relabel_by_size_inplace g mask).1.WF g := by
  unfold relabel_by_size_inplace
  simp only []
  split_ifs with h
  · exact WF_tabulate g _
  · cases accumulate_areas (mask.range_max g) (g.values mask)
        (List.replicate ((mask.range_max g).toNat + 1) 0) with
    | error e => exact hwf
    | ok area => exact WF_tabulate g _

/-- The ice-rises stage in place computes `compute_ice_rises`, whatever the
scratch buffer held. -/
theorem compute_ice_rises_inplace_eq (lcc : Labeler) (g : IceGrid)
    (cell_type : IceModelVec2CellType) (exclude_ice_rises : Bool) (m_tmp : IceModelVec2Int)
    (hshape : LabelerKeepsShape lcc g) (hwf : m_tmp.WF g) :
    compute_ice_rises_inplace lcc g cell_type exclude_ice_rises m_tmp
      = compute_ice_rises lcc g cell_type exclude_ice_rises := by
  have hseed : g.update_each (fun i j _ => if cell_type.grounded i j then 1 else 0) m_tmp
      = ice_rises_seed g cell_type := by
    rw [update_each_eq g _ m_tmp hwf]
    rfl
  have hlwf : (if exclude_ice_rises = true then label_tmp lcc g (ice_rises_seed g cell_type)
      else ice_rises_seed g cell_type).WF g := by
    split_ifs
    · exact hshape _ _ _ (WF_tabulate g _)
    · exact WF_tabulate g _
  simp only [compute_ice_rises_inplace, compute_ice_rises, ice_rises_relabeled, hseed]
  rw [relabel_by_size_inplace_eq]
  have hrwf := relabel_by_size_inplace_WF g _ hlwf
  generalize relabel_by_size_inplace g
      (if exclude_ice_rises = true then label_tmp lcc g (ice_rises_seed g cell_type)
        else ice_rises_seed g cell_type) = x at hrwf ⊢
  obtain ⟨r, u⟩ := x
  cases u with
  | error e => rfl
  | ok v =>
    simp only []
    rw [update_each_eq g _ r hrwf]

/-- The continental-shelf stage in place computes
`compute_continental_shelf_mask`, whatever the scratch buffer held. -/
theorem compute_continental_shelf_mask_inplace_eq (lcc : Labeler) (g : IceGrid)
    (bed_elevation : IceModelVec2S) (ice_rises_mask : IceModelVec2Int)
    (bed_elevation_threshold : ℚ) (m_tmp : IceModelVec2Int)
    (hshape : LabelerKeepsShape lcc g) (hwf : m_tmp.WF g) :
    compute_continental_shelf_mask_inplace lcc g bed_elevation ice_rises_mask
        bed_elevation_threshold m_tmp
      = compute_continental_shelf_mask lcc g bed_elevation ice_rises_mask
          bed_elevation_threshold := by
  unfold compute_continental_shelf_mask_inplace
  simp only []
  rw [update_each_eq g _ m_tmp hwf]
  have hseed : (g.tabulate fun i j =>
      if ice_rises_mask.get i j = CONTINENTAL then (2 : Int)
      else if bed_elevation i j > bed_elevation_threshold then 1 else 0)
      = continental_shelf_seed g bed_elevation ice_rises_mask bed_elevation_threshold := rfl
  rw [hseed, update_each_eq g _ _
    (hshape (continental_shelf_seed g bed_elevation ice_rises_mask bed_elevation_threshold)
      true 2 (WF_tabulate g _))]
  rfl

/-- The ice-shelf stage in place computes `compute_ice_shelf_mask`, whatever
the scratch buffer held. -/
theorem compute_ice_shelf_mask_inplace_eq (lcc : Labeler) (g : IceGrid)
    (ice_rises_mask : IceModelVec2Int) (m_tmp : IceModelVec2Int)
    (hshape : LabelerKeepsShape lcc g) (hwf : m_tmp.WF g) :
    compute_ice_shelf_mask_inplace lcc g ice_rises_mask m_tmp
      = compute_ice_shelf_mask lcc g ice_rises_mask := by
  unfold compute_ice_shelf_mask_inplace
  simp only []
  rw [update_each_eq g _ m_tmp hwf]
  have hseed : (g.tabulate fun i j =>
      if ice_rises_mask.get i j = RISE ∨ ice_rises_mask.get i j = FLOATING then (1 : Int) else 0)
      = ice_shelf_seed g ice_rises_mask := rfl
  have hlwf : (label_tmp lcc g (ice_shelf_seed g ice_rises_mask)).WF g :=
    hshape (ice_shelf_seed g ice_rises_mask) false 0 (WF_tabulate g _)
  rw [hseed, update_each_eq g _ _ hlwf]
  rfl

/-- The result of `compute_ice_rises` has the shape of the grid. -/
theorem compute_ice_rises_WF (lcc : Labeler) (g : IceGrid) (cell_type : IceModelVec2CellType)
    (exclude_ice_rises : Bool) (r : IceModelVec2Int)
    (h : compute_ice_rises lcc g cell_type exclude_ice_rises = .ok r) : r.WF g := by
  unfold compute_ice_rises at h
  cases hrel : ice_rises_relabeled lcc g cell_type exclude_ice_rises with
  | error e =>
    rw [hrel] at h
    simp at h
  | ok m =>
    rw [hrel] at h
    simp only [Except.ok.injEq] at h
    rw [← h]
    exact WF_tabulate g _

/-- `update` acting in place computes `update`: what the scratch buffer held
before the call plays no part. -/
theorem update_inplace_eq (lcc : Labeler) (g : IceGrid) (m_config : Config)
    (self : PicoGeometry) (bed_elevation : IceModelVec2S) (cell_type : IceModelVec2CellType)
    (hshape : LabelerKeepsShape lcc g) (hwf : self.m_tmp.WF g) :
    self.update_inplace lcc g m_config bed_elevation cell_type
      = self.update lcc g m_config bed_elevation cell_type := by
  unfold PicoGeometry.update_inplace PicoGeometry.update
  rw [compute_ice_rises_inplace_eq lcc g cell_type _ _ hshape hwf]
  cases hr : compute_ice_rises lcc g cell_type m_config.exclude_icerises with
  | error e => rfl
  | ok R =>
    have hRwf := compute_ice_rises_WF lcc g cell_type _ R hr
    simp only []
    rw [compute_continental_shelf_mask_inplace_eq lcc g bed_elevation R _ R hshape hRwf]
    have hcwf : (compute_continental_shelf_mask lcc g bed_elevation R
        m_config.continental_shelf_depth).WF g := WF_tabulate g _
    rw [compute_ice_shelf_mask_inplace_eq lcc g R _ hshape hcwf]

/-- C40. State dependence of `PicoGeometry::update`, with the stages acting
in place on the scratch buffer.  For any two objects (with scratch buffers of
the shape of the grid) and the same call `update(bed, cell_type)`: the call
fails on both or returns on both, and it returns when the labeler keeps to its
contract in the ice-rises stage; afterwards `continental_shelf_mask()` equals
`compute_continental_shelf_mask(bed, R, depth)` and `ice_shelf_mask()` equals
`compute_ice_shelf_mask(R)`, where `R = compute_ice_rises(cell_type,
exclude_icerises)` is the ice-rises mask of the same call, so both are the
same for the two objects, whatever their masks and scratch buffers held
before; and the box mask of each object is the one it held before the call. -/
theorem update_state_dependence (lcc : Labeler) (g : IceGrid) (m_config : Config)
    (s1 s2 : PicoGeometry) (bed_elevation : IceModelVec2S) (cell_type : IceModelVec2CellType)
    (hshape : LabelerKeepsShape lcc g) (hwf1 : s1.m_tmp.WF g) (hwf2 : s2.m_tmp.WF g) :
    (∀ e, s1.update_inplace lcc g m_config bed_elevation cell_type = .error e ↔
      s2.update_inplace lcc g m_config bed_elevation cell_type = .error e) ∧
    (∀ t1, s1.update_inplace lcc g m_config bed_elevation cell_type = .ok t1 →
      ∃ (R : IceModelVec2Int) (t2 : PicoGeometry),
        compute_ice_rises lcc g cell_type m_config.exclude_icerises = .ok R ∧
        s2.update_inplace lcc g m_config bed_elevation cell_type = .ok t2 ∧
        t1.m_ice_rises = R ∧ t2.m_ice_rises = R ∧
        t1.continental_shelf_mask = compute_continental_shelf_mask lcc g bed_elevation R
          m_config.continental_shelf_depth ∧
        t1.ice_shelf_mask = compute_ice_shelf_mask lcc g R ∧
        t2.continental_shelf_mask = t1.continental_shelf_mask ∧
        t2.ice_shelf_mask = t1.ice_shelf_mask ∧
        t1.box_mask = s1.box_mask ∧ t2.box_mask = s2.box_mask) ∧
    ((m_config.exclude_icerises = true →
        LabelsSupport g (ice_rises_seed g cell_type)
          (label_tmp lcc g (ice_rises_seed g cell_type))) →
      ∃ t1, s1.update_inplace lcc g m_config bed_elevation cell_type = .ok t1) := by
  rw [update_inplace_eq lcc g m_config s1 bed_elevation cell_type hshape hwf1,
    update_inplace_eq lcc g m_config s2 bed_elevation cell_type hshape hwf2]
  cases hr : compute_ice_rises lcc g cell_type m_config.exclude_icerises with
  | error e0 =>
    have h1 : s1.update lcc g m_config bed_elevation cell_type = .error e0 := by
      simp only [PicoGeometry.update, hr]
    have h2 : s2.update lcc g m_config bed_elevation cell_type = .error e0 := by
      simp only [PicoGeometry.update, hr]
    rw [h1, h2]
    refine ⟨fun e => Iff.rfl, ?_, ?_⟩
    · intro t1 ht
      exact absurd ht (by simp)
    · intro hlab
      have hnn : m_config.exclude_icerises = true → ∀ i j, i < g.Mx → j < g.My →
          0 ≤ (label_tmp lcc g (ice_rises_seed g cell_type)).get i j := by
        intro hex i j hi hj
        obtain ⟨h0, h1⟩ := hlab hex i j hi hj
        by_cases hz : (ice_rises_seed g cell_type).get i j = 0
        · rw [h0 hz]
        · exact le_of_lt (h1 hz)
      obtain ⟨R, hR⟩ := compute_ice_rises_ok lcc g cell_type m_config.exclude_icerises hnn
      rw [hr] at hR
      exact absurd hR (by simp)
  | ok R =>
    rw [update_result lcc g m_config s1 bed_elevation cell_type R hr,
      update_result lcc g m_config s2 bed_elevation cell_type R hr]
    refine ⟨?_, ?_, fun _ => ⟨_, rfl⟩⟩
    · intro e
      constructor <;> intro h <;> exact absurd h (by simp)
    · intro t1 ht
      simp only [Except.ok.injEq] at ht
      subst ht
      exact ⟨R, _, rfl, rfl, rfl, rfl, rfl, rfl, rfl, rfl, rfl, rfl⟩

/-- The shelf labeler leaves a buffer of the shape of the grid. -/
theorem shelf_labeler_shape : LabelerKeepsShape shelf_labeler ⟨5, 1⟩ := by
  intro m b v hm
  unfold shelf_labeler
  split_ifs
  · decide
  · exact hm

/-- Witness for C40: `update` on the shelf strip from two objects with
different masks and scratch buffers. -/
theorem update_state_dependence_witness :
    PicoGeometry.update_inplace shelf_labeler ⟨5, 1⟩ ⟨true, -800⟩
        ⟨[[0, 0, 0, 0, 0]], [[0, 0, 0, 0, 0]], [[0, 0, 0, 0, 0]], [[0, 0, 0, 0, 0]],
          [[0, 0, 0, 0, 0]]⟩ shelf_bed shelf_cell_type
      = .ok ⟨[[0, 0, 0, 2, 0]], [[0, 0, 0, 0, 0]], [[0, 1, 1, 0, 0]], [[2, 3, 3, 0, 0]],
          [[0, 1, 1, 0, 0]]⟩ ∧
    ∃ (R : IceModelVec2Int) (t2 : PicoGeometry),
      compute_ice_rises shelf_labeler ⟨5, 1⟩ shelf_cell_type true = .ok R ∧
      PicoGeometry.update_inplace shelf_labeler ⟨5, 1⟩ ⟨true, -800⟩
        ⟨[[0, 0, 0, 0, 0]], [[0, 0, 0, 0, 0]], [[0, 0, 0, 0, 0]], [[0, 0, 0, 0, 0]],
          [[0, 0, 0, 0, 0]]⟩ shelf_bed shelf_cell_type = .ok t2 ∧
      PicoGeometry.m_ice_rises ⟨[[0, 0, 0, 2, 0]], [[3, 3, 3, 3, 3]], [[0, 1, 1, 0, 0]],
        [[2, 3, 3, 0, 0]], [[0, 1, 1, 0, 0]]⟩ = R ∧
      t2.m_ice_rises = R ∧
      PicoGeometry.continental_shelf_mask ⟨[[0, 0, 0, 2, 0]], [[3, 3, 3, 3, 3]],
          [[0, 1, 1, 0, 0]], [[2, 3, 3, 0, 0]], [[0, 1, 1, 0, 0]]⟩
        = compute_continental_shelf_mask shelf_labeler ⟨5, 1⟩ shelf_bed R (-800) ∧
      PicoGeometry.ice_shelf_mask ⟨[[0, 0, 0, 2, 0]], [[3, 3, 3, 3, 3]], [[0, 1, 1, 0, 0]],
          [[2, 3, 3, 0, 0]], [[0, 1, 1, 0, 0]]⟩
        = compute_ice_shelf_mask shelf_labeler ⟨5, 1⟩ R ∧
      t2.continental_shelf_mask
        = PicoGeometry.continental_shelf_mask ⟨[[0, 0, 0, 2, 0]], [[3, 3, 3, 3, 3]],
            [[0, 1, 1, 0, 0]], [[2, 3, 3, 0, 0]], [[0, 1, 1, 0, 0]]⟩ ∧
      t2.ice_shelf_mask
        = PicoGeometry.ice_shelf_mask ⟨[[0, 0, 0, 2, 0]], [[3, 3, 3, 3, 3]], [[0, 1, 1, 0, 0]],
            [[2, 3, 3, 0, 0]], [[0, 1, 1, 0, 0]]⟩ ∧
      PicoGeometry.box_mask ⟨[[0, 0, 0, 2, 0]], [[3, 3, 3, 3, 3]], [[0, 1, 1, 0, 0]],
          [[2, 3, 3, 0, 0]], [[0, 1, 1, 0, 0]]⟩
        = PicoGeometry.box_mask ⟨[[1, 1, 1, 1, 1]], [[3, 3, 3, 3, 3]], [[7, 7, 7, 7, 7]],
            [[0, 0, 0, 0, 0]], [[5, 4, 3, 2, 1]]⟩ ∧
      t2.box_mask = PicoGeometry.box_mask ⟨[[0, 0, 0, 0, 0]], [[0, 0, 0, 0, 0]],
        [[0, 0, 0, 0, 0]], [[0, 0, 0, 0, 0]], [[0, 0, 0, 0, 0]]⟩ :=
  ⟨by decide!,
    (update_state_dependence shelf_labeler ⟨5, 1⟩ ⟨true, -800⟩
      ⟨[[1, 1, 1, 1, 1]], [[3, 3, 3, 3, 3]], [[7, 7, 7, 7, 7]], [[0, 0, 0, 0, 0]],
        [[5, 4, 3, 2, 1]]⟩
      ⟨[[0, 0, 0, 0, 0]], [[0, 0, 0, 0, 0]], [[0, 0, 0, 0, 0]], [[0, 0, 0, 0, 0]],
        [[0, 0, 0, 0, 0]]⟩ shelf_bed shelf_cell_type shelf_labeler_shape
      (by decide) (by decide)).2.1
      ⟨[[0, 0, 0, 2, 0]], [[3, 3, 3, 3, 3]], [[0, 1, 1, 0, 0]], [[2, 3, 3, 0, 0]],
        [[0, 1, 1, 0, 0]]⟩ (by decide!)⟩


/-! ## Facts about the rounding to `double` -/

theorem wrap32_of_range (x : Int) (h0 : -2 ^ 31 ≤ x) (h1 : x < 2 ^ 31) : wrap32 x = x := by
  unfold wrap32
  omega

theorem pow2_eq (e : Int) : pow2 e = (2 : ℚ) ^ e := by
  unfold pow2
  split_ifs with h
  · obtain ⟨n, rfl⟩ := Int.eq_ofNat_of_zero_le h
    simp
  · obtain ⟨n, hn⟩ : ∃ n : Nat, -e = (n : Int) := ⟨(-e).toNat, by omega⟩
    have he : e = -(n : Int) := by omega
    rw [hn, he]
    simp

theorem pow2_pos (e : Int) : 0 < pow2 e := by
  rw [pow2_eq]
  positivity

theorem pow2_lt_pow2_iff {a b : Int} : pow2 a < pow2 b ↔ a < b := by
  rw [pow2_eq, pow2_eq]
  exact zpow_lt_zpow_iff_right₀ (by norm_num)

theorem nat_log2_steps_spec (steps : Nat) : ∀ n : Nat, 0 < n → n ≤ steps →
    2 ^ nat_log2_steps steps n ≤ n ∧ n < 2 ^ (nat_log2_steps steps n + 1) := by
  induction steps with
  | zero => intro n h0 h1; omega
  | succ steps ih =>
    intro n h0 h1
    unfold nat_log2_steps
    split_ifs with h2
    · obtain ⟨h3, h4⟩ := ih (n / 2) (by omega) (by omega)
      generalize nat_log2_steps steps (n / 2) = k at h3 h4
      rw [pow_succ] at h4 ⊢
      rw [pow_succ]
      constructor <;> omega
    · constructor
      · simp; omega
      · simp; omega

theorem nat_log2_spec (n : Nat) (h : 0 < n) :
    2 ^ nat_log2 n ≤ n ∧ n < 2 ^ (nat_log2 n + 1) :=
  nat_log2_steps_spec n n h (le_refl n)

/-- The binary exponent of a positive rational. -/
theorem ilog2_spec (x : ℚ) (hx : 0 < x) : pow2 (ilog2 x) ≤ x ∧ x < pow2 (ilog2 x + 1) := by
  have hnum : 0 < x.num := Rat.num_pos.2 hx
  obtain ⟨p, hp⟩ : ∃ p : Nat, x.num = (p : Int) := ⟨x.num.toNat, by omega⟩
  have hp0 : 0 < p := by omega
  have hq0 : 0 < x.den := x.den_pos
  have hxeq : x = (p : ℚ) / (x.den : ℚ) := by
    have h := (Rat.num_div_den x).symm
    rw [hp] at h
    simpa using h
  obtain ⟨ha1, ha2⟩ := nat_log2_spec p hp0
  obtain ⟨hb1, hb2⟩ := nat_log2_spec x.den hq0
  have hnat : x.num.natAbs = p := by omega
  unfold ilog2
  simp only [hnat]
  generalize nat_log2 p = a at ha1 ha2
  generalize nat_log2 x.den = b at hb1 hb2
  generalize x.den = q at hq0 hxeq hb1 hb2
  have hA1 : ((2 : ℚ) ^ a) ≤ (p : ℚ) := by exact_mod_cast ha1
  have hA2 : (p : ℚ) < 2 * (2 : ℚ) ^ a := by
    have : p < 2 * 2 ^ a := by rw [pow_succ] at ha2; omega
    exact_mod_cast this
  have hB1 : ((2 : ℚ) ^ b) ≤ (q : ℚ) := by exact_mod_cast hb1
  have hB2 : (q : ℚ) < 2 * (2 : ℚ) ^ b := by
    have : q < 2 * 2 ^ b := by rw [pow_succ] at hb2; omega
    exact_mod_cast this
  have hApos : (0 : ℚ) < (2 : ℚ) ^ a := by positivity
  have hBpos : (0 : ℚ) < (2 : ℚ) ^ b := by positivity
  have hqpos : (0 : ℚ) < (q : ℚ) := by exact_mod_cast hq0
  have e1 : pow2 ((a : Int) - (b : Int)) = (2 : ℚ) ^ a / (2 : ℚ) ^ b := by
    rw [pow2_eq, zpow_sub₀ (by norm_num)]
    simp
  have e2 : pow2 ((a : Int) - (b : Int) + 1) = 2 * (2 : ℚ) ^ a / (2 : ℚ) ^ b := by
    rw [pow2_eq, zpow_add₀ (by norm_num), zpow_sub₀ (by norm_num)]
    simp
    ring
  have e3 : pow2 ((a : Int) - (b : Int) - 1) = (2 : ℚ) ^ a / (2 * (2 : ℚ) ^ b) := by
    rw [pow2_eq, zpow_sub₀ (by norm_num), zpow_sub₀ (by norm_num)]
    simp
    field_simp
    ring
  split_ifs with h
  · refine ⟨h, ?_⟩
    rw [e2, hxeq, div_lt_div_iff₀ hqpos hBpos]
    nlinarith
  · constructor
    · rw [e3, hxeq, div_le_div_iff₀ (by positivity) hqpos]
      nlinarith
    · have : (a : Int) - (b : Int) - 1 + 1 = (a : Int) - (b : Int) := by ring
      rw [this]
      exact lt_of_not_le h

theorem round_even_cases (t : ℚ) : round_even t = ⌊t⌋ ∨ (round_even t = ⌊t⌋ + 1 ∧ (⌊t⌋ : ℚ) < t) := by
  unfold round_even
  simp only []
  split_ifs with h1 h2 h3
  · left; rfl
  · right
    refine ⟨rfl, ?_⟩
    linarith
  · left; rfl
  · right
    refine ⟨rfl, ?_⟩
    have : t - (⌊t⌋ : ℚ) = 1 / 2 := le_antisymm (not_lt.1 h2) (not_lt.1 h1)
    linarith

theorem round_even_nonneg (t : ℚ) (ht : 0 ≤ t) : 0 ≤ round_even t := by
  have hf : 0 ≤ ⌊t⌋ := Int.floor_nonneg.2 ht
  rcases round_even_cases t with h | ⟨h, -⟩ <;> omega

theorem round_even_le (t : ℚ) (N : Int) (h : t ≤ (N : ℚ)) : round_even t ≤ N := by
  have hf : (⌊t⌋ : ℚ) ≤ t := Int.floor_le t
  rcases round_even_cases t with h1 | ⟨h1, h2⟩
  · rw [h1]
    exact_mod_cast le_trans hf h
  · rw [h1]
    have : (⌊t⌋ : ℚ) < (N : ℚ) := lt_of_lt_of_le h2 h
    have : ⌊t⌋ < N := by exact_mod_cast this
    omega

theorem round_even_intCast (N : Int) : round_even (N : ℚ) = N := by
  rcases round_even_cases (N : ℚ) with h | ⟨-, h⟩
  · rw [h, Int.floor_intCast]
  · rw [Int.floor_intCast] at h
    exact absurd h (lt_irrefl _)

/-- Below `2^53` the spacing of the doubles near `x` is `1 / K` for a whole
number `K`: every integer in that range is a double. -/
theorem ulp_inv (x : ℚ) (hx : 0 < x) (hlt : x < 2 ^ 53) :
    ∃ K : Nat, 0 < K ∧ pow2 (ilog2 x - 52) * (K : ℚ) = 1 := by
  obtain ⟨h1, -⟩ := ilog2_spec x hx
  have h53 : pow2 (ilog2 x) < pow2 53 := by
    have : pow2 53 = (2 : ℚ) ^ 53 := by rw [pow2_eq]; norm_cast
    rw [this]
    exact lt_of_le_of_lt h1 hlt
  have he : ilog2 x < 53 := pow2_lt_pow2_iff.1 h53
  obtain ⟨n, hn⟩ : ∃ n : Nat, 52 - ilog2 x = (n : Int) := ⟨(52 - ilog2 x).toNat, by omega⟩
  refine ⟨2 ^ n, by positivity, ?_⟩
  have he2 : ilog2 x - 52 = -(n : Int) := by omega
  rw [he2, pow2_eq]
  simp

theorem round_to_double_nonneg (x : ℚ) (hx : 0 ≤ x) : 0 ≤ round_to_double x := by
  unfold round_to_double
  split_ifs with h0 hneg
  · exact le_refl _
  · exact absurd hneg (not_lt.2 hx)
  · simp only [one_mul]
    apply mul_nonneg
    · have : 0 ≤ round_even (|x| / pow2 (ilog2 |x| - 52)) :=
        round_even_nonneg _ (div_nonneg (abs_nonneg _) (le_of_lt (pow2_pos _)))
      exact_mod_cast this
    · exact le_of_lt (pow2_pos _)

/-- Rounding to `double` does not cross an integer below `2^53`. -/
theorem round_to_double_le_int (x : ℚ) (m : Int) (hx : 0 ≤ x) (hxm : x ≤ (m : ℚ))
    (hm : m < 2 ^ 53) : round_to_double x ≤ (m : ℚ) := by
  unfold round_to_double
  split_ifs with h0 hneg
  · rw [h0] at hxm
    exact hxm
  · exact absurd hneg (not_lt.2 hx)
  · have hpos : 0 < x := lt_of_le_of_ne hx (Ne.symm h0)
    have hmq : (m : ℚ) < 2 ^ 53 := by exact_mod_cast hm
    rw [abs_of_pos hpos]
    obtain ⟨K, hK0, hK⟩ := ulp_inv x hpos (lt_of_le_of_lt hxm hmq)
    have hu := pow2_pos (ilog2 x - 52)
    generalize pow2 (ilog2 x - 52) = u at hK hu
    have hKq : (0 : ℚ) < (K : ℚ) := by exact_mod_cast hK0
    have hxu : x / u = x * (K : ℚ) := by
      rw [div_eq_iff (ne_of_gt hu), mul_assoc, mul_comm (K : ℚ), hK, mul_one]
    have hle : x / u ≤ ((m * (K : Int) : Int) : ℚ) := by
      rw [hxu]
      push_cast
      exact mul_le_mul_of_nonneg_right hxm (le_of_lt hKq)
    have hr := round_even_le _ _ hle
    have hr' : (round_even (x / u) : ℚ) ≤ ((m * (K : Int) : Int) : ℚ) := by exact_mod_cast hr
    calc 1 * (round_even (x / u) : ℚ) * u = (round_even (x / u) : ℚ) * u := by ring
      _ ≤ ((m * (K : Int) : Int) : ℚ) * u := mul_le_mul_of_nonneg_right hr' (le_of_lt hu)
      _ = (m : ℚ) * (u * (K : ℚ)) := by push_cast; ring
      _ = (m : ℚ) := by rw [hK, mul_one]

/-- Every integer `0 ≤ m < 2^53` is a `double`. -/
theorem round_to_double_intCast (m : Int) (h0 : 0 ≤ m) (hm : m < 2 ^ 53) :
    round_to_double (m : ℚ) = (m : ℚ) := by
  unfold round_to_double
  split_ifs with hz hneg
  · exact hz.symm
  · have : (0 : ℚ) ≤ (m : ℚ) := by exact_mod_cast h0
    exact absurd hneg (not_lt.2 this)
  · have hpos : (0 : ℚ) < (m : ℚ) := by
      have : (0 : ℚ) ≤ (m : ℚ) := by exact_mod_cast h0
      exact lt_of_le_of_ne this (Ne.symm hz)
    have hmq : (m : ℚ) < 2 ^ 53 := by exact_mod_cast hm
    rw [abs_of_pos hpos]
    obtain ⟨K, hK0, hK⟩ := ulp_inv (m : ℚ) hpos hmq
    have hu := pow2_pos (ilog2 (m : ℚ) - 52)
    generalize pow2 (ilog2 (m : ℚ) - 52) = u at hK hu
    have hxu : (m : ℚ) / u = ((m * (K : Int) : Int) : ℚ) := by
      rw [div_eq_iff (ne_of_gt hu)]
      push_cast
      rw [mul_assoc, mul_comm (K : ℚ), hK, mul_one]
    show 1 * (round_even ((m : ℚ) / u) : ℚ) * u = (m : ℚ)
    rw [hxu, round_even_intCast]
    push_cast
    rw [one_mul, mul_assoc, mul_comm (K : ℚ), hK, mul_one]

theorem round_to_double_unit (x : ℚ) (h0 : 0 ≤ x) (h1 : x ≤ 1) :
    0 ≤ round_to_double x ∧ round_to_double x ≤ 1 := by
  refine ⟨round_to_double_nonneg x h0, ?_⟩
  have := round_to_double_le_int x 1 h0 (by simpa using h1) (by norm_num)
  simpa using this

theorem sqrt_to_double_nonneg (x : ℚ) : 0 ≤ sqrt_to_double x := by
  unfold sqrt_to_double
  simp only []
  split_ifs
  · exact le_refl _
  · exact mul_nonneg (Nat.cast_nonneg _) (le_of_lt (pow2_pos _))
  · exact mul_nonneg (Nat.cast_nonneg _) (le_of_lt (pow2_pos _))

/-- Round-to-nearest `double` arithmetic has the properties that the box
partitioner relies on. -/
theorem ieee_sane : ieee.Sane where
  div_range := by
    intro a b ha hab hb
    exact round_to_double_unit _ (div_nonneg ha (le_of_lt hb)) ((div_le_one hb).2 hab)
  div_zero_left := by
    intro b _
    show round_to_double (0 / b) = 0
    rw [zero_div]
    rfl
  div_self := by
    intro b hb
    show round_to_double (b / b) = 1
    rw [div_self (ne_of_gt hb)]
    have := round_to_double_intCast 1 (by norm_num) (by norm_num)
    simpa using this
  sub_range := by
    intro r h0 h1
    exact round_to_double_unit _ (by linarith) (by linarith)
  pow_two_range := by
    intro x h0 h1
    exact round_to_double_unit _ (mul_nonneg h0 h0) (by nlinarith)
  pow_half_nonneg := fun x _ => sqrt_to_double_nonneg x
  pow_half_one := by decide!
  mul_nonneg := by
    intro x y hx hy
    exact round_to_double_nonneg _ (mul_nonneg hx hy)
  mul_one_int := by
    intro m h0 h1
    show round_to_double (1 * (m : ℚ)) = (m : ℚ)
    rw [one_mul]
    exact round_to_double_intCast m h0 (by omega)

/-! ## Facts about `compute_box_mask` in machine arithmetic -/

theorem c_round_nonneg (t : ℚ) (ht : 0 ≤ t) : 0 ≤ c_round t := by
  unfold c_round
  rw [if_pos ht]
  exact Int.floor_nonneg.2 (by linarith)

theorem c_round_intCast (m : Int) : c_round (m : ℚ) = m := by
  have hfl : ∀ k : Int, ⌊(k : ℚ) + 1 / 2⌋ = k := by
    intro k
    rw [Int.floor_eq_iff]
    constructor <;> linarith
  unfold c_round
  split_ifs with h
  · exact hfl m
  · have : -(m : ℚ) = ((-m : Int) : ℚ) := by push_cast; rfl
    rw [this, hfl]
    omega

/-- The statistics part of `compute_box_mask` in machine arithmetic succeeds
when no shelf id is negative; the maxima are those of the exact reading, the
box counts are computed by `n_boxes_fp`. -/
theorem box_counts_fp_ok (fp : DoubleArith) (g : IceGrid) (nmax : Int)
    (D_gl D_cf shelf_mask : IceModelVec2Int)
    (hshelf : ∀ i j, i < g.Mx → j < g.My → 0 ≤ shelf_mask.get i j) :
    ∃ (glmax : List Int) (R : Int),
      box_counts_fp fp g nmax D_gl D_cf shelf_mask
        = .ok (glmax, R, glmax.map (n_boxes_fp fp nmax R)) ∧
      glmax.length = (shelf_mask.range_max g + 1).toNat ∧
      R ∈ glmax ∧ (∀ k, glmax.getD k 0 ≤ R) ∧ (∀ k, 0 ≤ glmax.getD k 0) ∧
      (∀ i j, i < g.Mx → j < g.My → 0 < shelf_mask.get i j →
        D_gl.get i j ≤ glmax.getD (shelf_mask.get i j).toNat 0) ∧
      (∀ k, glmax.getD k 0 = 0 ∨
        ∃ i j, i < g.Mx ∧ j < g.My ∧ (shelf_mask.get i j).toNat = k ∧ 0 < shelf_mask.get i j ∧
          D_gl.get i j = glmax.getD k 0) := by
  obtain ⟨glmax, R, h1, h2, h3, h4, h5, h6, h7⟩ := box_counts_ok g nmax D_gl D_cf shelf_mask hshelf
  refine ⟨glmax, R, ?_, h2, h3, h4, h5, h6, h7⟩
  unfold box_counts at h1
  unfold box_counts_fp
  simp only [] at h1 ⊢
  generalize shelf_distance_max (shelf_mask.range_max g + 1) D_gl D_cf shelf_mask g.points
    (List.replicate (shelf_mask.range_max g + 1).toNat 0,
      List.replicate (shelf_mask.range_max g + 1).toNat 0) = sd at h1 ⊢
  rcases sd with e | ⟨gl, cf⟩
  · simp at h1
  · simp only [] at h1 ⊢
    rcases hme : max_element gl with _ | R'
    · rw [hme] at h1
      simp at h1
    · rw [hme] at h1
      simp only [] at h1 ⊢
      injection h1 with h1
      injection h1 with hg h1
      injection h1 with hR _
      subst hg hR
      rfl

/-- With a positive reference distance and at least one box allowed, the box
count of a shelf in machine arithmetic is defined and lies in `[1, nmax]`. -/
theorem n_boxes_fp_bounds (fp : DoubleArith) (hfp : fp.Sane) (nmax R a : Int) (hR : 0 < R)
    (hn : 1 ≤ nmax) (ha0 : 0 ≤ a) (haR : a ≤ R) :
    ∃ n, n_boxes_fp fp nmax R a = some n ∧
      n = min (1 + c_round (fp.mul (fp.pow_half (fp.div (a : ℚ) (R : ℚ)))
                ((nmax - 1 : Int) : ℚ))) nmax ∧
      1 ≤ n ∧ n ≤ nmax := by
  have hR0 : ¬ R = 0 := by omega
  refine ⟨_, by simp only [n_boxes_fp]; rw [if_neg hR0], rfl, ?_, min_le_right _ _⟩
  have haq : (0 : ℚ) ≤ (a : ℚ) := by exact_mod_cast ha0
  have hRq : (0 : ℚ) < (R : ℚ) := by exact_mod_cast hR
  have haRq : (a : ℚ) ≤ (R : ℚ) := by exact_mod_cast haR
  have hmq : (0 : ℚ) ≤ ((nmax - 1 : Int) : ℚ) := by exact_mod_cast (by omega : 0 ≤ nmax - 1)
  have h1 := (hfp.div_range _ _ haq haRq hRq).1
  have h2 := hfp.pow_half_nonneg _ h1
  have h3 := hfp.mul_nonneg _ _ h2 hmq
  have h4 := c_round_nonneg _ h3
  exact le_min (by omega) hn

/-- A shelf that attains the reference distance gets all `nmax` boxes. -/
theorem n_boxes_fp_ref (fp : DoubleArith) (hfp : fp.Sane) (nmax R : Int) (hR : 0 < R)
    (hn : 1 ≤ nmax) (hint : nmax < 2 ^ 31) : n_boxes_fp fp nmax R R = some nmax := by
  have hR0 : ¬ R = 0 := by omega
  have hRq : (0 : ℚ) < (R : ℚ) := by exact_mod_cast hR
  simp only [n_boxes_fp]
  rw [if_neg hR0, hfp.div_self _ hRq, hfp.pow_half_one,
    hfp.mul_one_int (nmax - 1) (by omega) (by omega), c_round_intCast]
  congr 1
  rw [min_eq_right]
  omega

/-- Without overflow of the `int` sum, the computed `C` of a cell with
positive distances lies in `[0, 1]`. -/
theorem box_C_fp_range (fp : DoubleArith) (hfp : fp.Sane) (d_gl d_cf : Int)
    (hgl : 0 < d_gl) (hcf : 0 < d_cf) (hsum : d_gl + d_cf < 2 ^ 31) :
    0 ≤ box_C_fp fp d_gl d_cf ∧ box_C_fp fp d_gl d_cf ≤ 1 := by
  unfold box_C_fp
  simp only []
  rw [wrap32_of_range _ (by omega) hsum]
  have h1 : (0 : ℚ) ≤ (d_gl : ℚ) := by exact_mod_cast (le_of_lt hgl)
  have h2 : (d_gl : ℚ) ≤ ((d_gl + d_cf : Int) : ℚ) := by exact_mod_cast (by omega : d_gl ≤ d_gl + d_cf)
  have h3 : (0 : ℚ) < ((d_gl + d_cf : Int) : ℚ) := by exact_mod_cast (by omega : 0 < d_gl + d_cf)
  obtain ⟨hr0, hr1⟩ := hfp.div_range _ _ h1 h2 h3
  obtain ⟨hs0, hs1⟩ := hfp.sub_range _ hr0 hr1
  exact hfp.pow_two_range _ hs0 hs1

/-- The band loop in machine arithmetic leaves a box index between 1 and
`min(n, d_gl)` when the computed `C` lies in `[0, 1]`: the computed band
bounds `0/n, 1/n, …, n/n` start at 0 and end at 1, and neighbouring bands
share a bound, so some band test succeeds. -/
theorem box_of_cell_fp_bounds (fp : DoubleArith) (hfp : fp.Sane) (n d_gl d_cf : Int)
    (hn : 1 ≤ n) (hgl : 0 < d_gl) (hC0 : 0 ≤ box_C_fp fp d_gl d_cf)
    (hC1 : box_C_fp fp d_gl d_cf ≤ 1) :
    1 ≤ box_of_cell_fp fp n d_gl d_cf ∧ box_of_cell_fp fp n d_gl d_cf ≤ min n d_gl := by
  unfold box_of_cell_fp
  simp only []
  generalize box_C_fp fp d_gl d_cf = C at hC0 hC1
  have hnq : (0 : ℚ) < (n : ℚ) := by exact_mod_cast (by omega : 0 < n)
  have key : ∀ j : Nat, j ≤ n.toNat →
      let res := (List.range j).foldl
        (fun (result : Int) (k : Nat) =>
          if band_test_fp fp n C k then min d_gl ((k : Int) + 1) else result) 0
      (res = 0 ∧ C ≤ fp.div ((n - j : Int) : ℚ) (n : ℚ) ∧
        (0 < j → C < fp.div ((n - j : Int) : ℚ) (n : ℚ))) ∨
      (1 ≤ res ∧ res ≤ min (j : Int) d_gl) := by
    intro j
    induction j with
    | zero =>
      intro _
      left
      refine ⟨rfl, ?_, fun h => absurd h (lt_irrefl _)⟩
      simp only [Nat.cast_zero, sub_zero]
      rw [hfp.div_self _ hnq]
      exact hC1
    | succ j ih =>
      intro hj
      have ih' := ih (by omega)
      simp only [] at ih' ⊢
      rw [List.range_succ, List.foldl_append]
      simp only [List.foldl_cons, List.foldl_nil]
      by_cases htest : band_test_fp fp n C j = true
      · rw [if_pos htest]
        right
        constructor
        · omega
        · simp only [Nat.cast_add, Nat.cast_one]
          omega
      · rw [if_neg htest]
        rcases ih' with ⟨h0, hle, -⟩ | ⟨h1, h2⟩
        · left
          have hnot : ¬ (fp.div ((n - j - 1 : Int) : ℚ) (n : ℚ) ≤ C) := by
            intro h
            apply htest
            unfold band_test_fp
            exact decide_eq_true ⟨h, hle⟩
          have hlt := lt_of_not_le hnot
          have heq : (n - ((j + 1 : Nat) : Int)) = n - j - 1 := by
            push_cast; ring
          rw [heq]
          exact ⟨h0, le_of_lt hlt, fun _ => hlt⟩
        · right
          refine ⟨h1, ?_⟩
          simp only [Nat.cast_add, Nat.cast_one]
          omega
  have hfin := key n.toNat (le_refl _)
  simp only [] at hfin
  rcases hfin with ⟨_, -, hlt⟩ | ⟨h1, h2⟩
  · exfalso
    have hz : n - (n.toNat : Int) = 0 := by omega
    have := hlt (by omega)
    rw [hz, Int.cast_zero, hfp.div_zero_left _ hnq] at this
    linarith
  · refine ⟨h1, ?_⟩
    have : ((n.toNat : Nat) : Int) = n := by omega
    rw [this] at h2
    exact h2

/-- Where every band test comes out in machine arithmetic as in exact
arithmetic, the band loop leaves the value of the exact reading. -/
theorem box_of_cell_fp_eq_exact (fp : DoubleArith) (n d_gl d_cf : Int)
    (hexact : ∀ k ∈ List.range n.toNat,
      band_test_fp fp n (box_C_fp fp d_gl d_cf) k = band_test_exact n d_gl d_cf k) :
    box_of_cell_fp fp n d_gl d_cf = box_of_cell n d_gl d_cf := by
  unfold box_of_cell_fp box_of_cell
  simp only []
  generalize List.range n.toNat = l at hexact
  generalize (0 : Int) = init
  induction l generalizing init with
  | nil => rfl
  | cons k l ih =>
    simp only [List.foldl_cons]
    have hk := hexact k (List.mem_cons_self _ _)
    have hrest := fun k' hk' => hexact k' (List.mem_cons_of_mem _ hk')
    have hstep : (if band_test_fp fp n (box_C_fp fp d_gl d_cf) k = true then
          min d_gl ((k : Int) + 1) else init)
        = (if ((n - k - 1 : Int) : ℚ) / (n : ℚ) ≤ (1 - (d_gl : ℚ) / ((d_gl + d_cf : Int) : ℚ)) ^ 2 ∧
            (1 - (d_gl : ℚ) / ((d_gl + d_cf : Int) : ℚ)) ^ 2 ≤ ((n - k : Int) : ℚ) / (n : ℚ) then
          min d_gl ((k : Int) + 1) else init) := by
      rw [hk]
      unfold band_test_exact
      by_cases hc : ((n - k - 1 : Int) : ℚ) / (n : ℚ) ≤ (1 - (d_gl : ℚ) / ((d_gl + d_cf : Int) : ℚ)) ^ 2 ∧
            (1 - (d_gl : ℚ) / ((d_gl + d_cf : Int) : ℚ)) ^ 2 ≤ ((n - k : Int) : ℚ) / (n : ℚ)
      · rw [if_pos hc, if_pos (decide_eq_true hc)]
      · rw [if_neg hc, if_neg (by simpa using hc)]
    rw [hstep]
    exact ih hrest _

/-- `compute_box_mask` in machine arithmetic succeeds when no shelf id is
negative; its result at a cell is the third loop applied to what the second
loop assigned there. -/
theorem compute_box_mask_fp_ok (fp : DoubleArith) (g : IceGrid) (nmax : Int)
    (D_gl D_cf shelf_mask lake_mask : IceModelVec2Int)
    (hshelf : ∀ i j, i < g.Mx → j < g.My → 0 ≤ shelf_mask.get i j) :
    ∃ (glmax : List Int) (R : Int) (r : IceModelVec2Int),
      box_counts_fp fp g nmax D_gl D_cf shelf_mask
        = .ok (glmax, R, glmax.map (n_boxes_fp fp nmax R)) ∧
      compute_box_mask_fp fp g nmax D_gl D_cf shelf_mask lake_mask = .ok r ∧
      r.WF g ∧ (∀ k, glmax.getD k 0 ≤ R) ∧ (∀ k, 0 ≤ glmax.getD k 0) ∧
      (∀ i j, i < g.Mx → j < g.My →
        shelf_mask.get i j > 0 → D_gl.get i j > 0 → 0 < R) ∧
      (∀ i j, i < g.Mx → j < g.My → (shelf_mask.get i j).toNat < glmax.length) ∧
      ∀ i j, i < g.Mx → j < g.My →
        (¬ (shelf_mask.get i j > 0 ∧ D_gl.get i j > 0 ∧ D_cf.get i j > 0) ∧
          r.get i j = mark_unassigned (shelf_mask.get i j) (lake_mask.get i j) 0) ∨
        ((shelf_mask.get i j > 0 ∧ D_gl.get i j > 0 ∧ D_cf.get i j > 0) ∧
          ∃ n, (glmax.map (n_boxes_fp fp nmax R)).getD (shelf_mask.get i j).toNat none = some n ∧
            n_boxes_fp fp nmax R (glmax.getD (shelf_mask.get i j).toNat 0) = some n ∧
            r.get i j = mark_unassigned (shelf_mask.get i j) (lake_mask.get i j)
              (box_of_cell_fp fp n (D_gl.get i j) (D_cf.get i j))) := by
  obtain ⟨glmax, R, h1, hlen, -, hle, hnn, hcell, -⟩ :=
    box_counts_fp_ok fp g nmax D_gl D_cf shelf_mask hshelf
  have hRpos : ∀ i j, i < g.Mx → j < g.My →
      shelf_mask.get i j > 0 → D_gl.get i j > 0 → 0 < R := by
    intro i j hi hj hs hd
    have h2 := hcell i j hi hj hs
    have h3 := hle (shelf_mask.get i j).toNat
    omega
  have hidx : ∀ i j, i < g.Mx → j < g.My → (shelf_mask.get i j).toNat < glmax.length := by
    intro i j hi hj
    have h2 := le_range_max (g := g) (m := shelf_mask) hi hj
    have h3 := hshelf i j hi hj
    omega
  have hcases : ∀ i j, i < g.Mx → j < g.My →
      (¬ (shelf_mask.get i j > 0 ∧ D_gl.get i j > 0 ∧ D_cf.get i j > 0) ∧
        assign_box_fp fp (glmax.map (n_boxes_fp fp nmax R)) (D_gl.get i j) (D_cf.get i j)
          (shelf_mask.get i j) = some 0) ∨
      ((shelf_mask.get i j > 0 ∧ D_gl.get i j > 0 ∧ D_cf.get i j > 0) ∧
        ∃ n, (glmax.map (n_boxes_fp fp nmax R)).getD (shelf_mask.get i j).toNat none = some n ∧
          n_boxes_fp fp nmax R (glmax.getD (shelf_mask.get i j).toNat 0) = some n ∧
          assign_box_fp fp (glmax.map (n_boxes_fp fp nmax R)) (D_gl.get i j) (D_cf.get i j)
            (shelf_mask.get i j) = some (box_of_cell_fp fp n (D_gl.get i j) (D_cf.get i j))) := by
    intro i j hi hj
    by_cases hc : shelf_mask.get i j > 0 ∧ D_gl.get i j > 0 ∧ D_cf.get i j > 0
    · right
      refine ⟨hc, ?_⟩
      have hR0 : R ≠ 0 := ne_of_gt (hRpos i j hi hj hc.1 hc.2.1)
      have hget := getD_map_n_boxes glmax (n_boxes_fp fp nmax R) _ (hidx i j hi hj)
      have hsome : ∃ n, n_boxes_fp fp nmax R (glmax.getD (shelf_mask.get i j).toNat 0) = some n := by
        simp only [n_boxes_fp, hR0, if_false]
        exact ⟨_, rfl⟩
      obtain ⟨n, hn⟩ := hsome
      refine ⟨n, by rw [hget, hn], hn, ?_⟩
      unfold assign_box_fp
      rw [if_pos hc, hget, hn]
    · left
      refine ⟨hc, ?_⟩
      unfold assign_box_fp
      rw [if_neg hc]
  have hall : (g.points.all fun p =>
      (assign_box_fp fp (glmax.map (n_boxes_fp fp nmax R)) (D_gl.get p.1 p.2) (D_cf.get p.1 p.2)
        (shelf_mask.get p.1 p.2)).isSome) = true := by
    rw [List.all_eq_true]
    intro p hp
    rcases hcases p.1 p.2 (mem_points.1 hp).1 (mem_points.1 hp).2 with ⟨-, h⟩ | ⟨-, n, -, -, h⟩
    · rw [h]; rfl
    · rw [h]; rfl
  obtain ⟨r, hr⟩ : ∃ r : IceModelVec2Int, r = g.tabulate fun i j =>
      mark_unassigned (shelf_mask.get i j) (lake_mask.get i j)
        ((assign_box_fp fp (glmax.map (n_boxes_fp fp nmax R)) (D_gl.get i j) (D_cf.get i j)
          (shelf_mask.get i j)).getD 0) := ⟨_, rfl⟩
  refine ⟨glmax, R, r, h1, ?_, by rw [hr]; exact WF_tabulate g _, hle, hnn, hRpos, hidx, ?_⟩
  · simp only [compute_box_mask_fp, h1]
    rw [if_pos hall, hr]
  · intro i j hi hj
    rcases hcases i j hi hj with ⟨hc, h⟩ | ⟨hc, n, hn1, hn2, h⟩
    · left
      refine ⟨hc, ?_⟩
      rw [hr, get_tabulate _ hi hj, h]
      rfl
    · right
      refine ⟨hc, n, hn1, hn2, ?_⟩
      rw [hr, get_tabulate _ hi hj, h]
      rfl

/-! ## The box assignment of the machine: range and sentinel -/

/-- A band loop in which no test succeeds leaves the initial value. -/
theorem foldl_no_match (P : Nat → Bool) (f : Nat → Int) (l : List Nat) (init : Int)
    (h : ∀ k ∈ l, P k = false) :
    l.foldl (fun result k => if P k then f k else result) init = init := by
  induction l generalizing init with
  | nil => rfl
  | cons k l ih =>
    simp only [List.foldl_cons]
    rw [h k (List.mem_cons_self _ _)]
    exact ih _ (fun k' hk' => h k' (List.mem_cons_of_mem _ hk'))

/-- A cell that the band loop of the machine leaves with a non-zero value
passed the test of some band. -/
theorem box_of_cell_fp_matched (fp : DoubleArith) (n d_gl d_cf : Int)
    (h : box_of_cell_fp fp n d_gl d_cf ≠ 0) :
    ∃ k, k < n.toNat ∧ band_test_fp fp n (box_C_fp fp d_gl d_cf) k = true := by
  by_contra hcon
  push_neg at hcon
  apply h
  unfold box_of_cell_fp
  apply foldl_no_match
  intro k hk
  have := hcon k (List.mem_range.1 hk)
  simpa using this

/-- C5 (counterexample). One shelf cell with `D_gl = D_cf = 2^30` and four
boxes.  The cell has shelf id 1, positive distances and `n_boxes[1] = 4 ≥ 1`,
but the `int` sum `d_gl + d_cf` overflows to `-2^31`: `r = -0.5`, `C = 2.25`,
no band test succeeds, and the cell is set to -1. -/
theorem compute_box_mask_range_counterexample :
    box_counts_fp ieee ⟨1, 1⟩ 4 [[1073741824]] [[1073741824]] [[1]]
      = .ok ([0, 1073741824], 1073741824, [some 1, some 4]) ∧
    wrap32 (1073741824 + 1073741824) = -2147483648 ∧
    box_C_fp ieee 1073741824 1073741824 = 9 / 4 ∧
    compute_box_mask_fp ieee ⟨1, 1⟩ 4 [[1073741824]] [[1073741824]] [[1]] [[0]] = .ok [[-1]] := by
  refine ⟨by decide!, by decide, by decide!, by decide!⟩

/-- C5 (amended). In machine arithmetic, for a cell with shelf id `> 0`,
`D_gl > 0`, `D_cf > 0` whose `int` sum `D_gl + D_cf` does not overflow
(`D_gl + D_cf < 2^31`) and whose shelf has a box count `n ≥ 1`,
`compute_box_mask` succeeds and the cell holds a box index `b` with
`1 ≤ b ≤ min(n, D_gl)`; so it is neither left at 0 nor set to -1: the computed
`C` lies in `[0, 1]` and passes the test of at least one band. -/
theorem compute_box_mask_range (fp : DoubleArith) (hfp : fp.Sane) (g : IceGrid) (nmax : Int)
    (D_gl D_cf shelf_mask lake_mask : IceModelVec2Int)
    (glmax : List Int) (R : Int) (n_boxes : List (Option Int))
    (hshelf : ∀ i j, i < g.Mx → j < g.My → 0 ≤ shelf_mask.get i j)
    (hbc : box_counts_fp fp g nmax D_gl D_cf shelf_mask = .ok (glmax, R, n_boxes))
    (i j : Nat) (hi : i < g.Mx) (hj : j < g.My) (n : Int)
    (hs : shelf_mask.get i j > 0) (hgl : D_gl.get i j > 0) (hcf : D_cf.get i j > 0)
    (hsum : D_gl.get i j + D_cf.get i j < 2 ^ 31)
    (hn : n_boxes.getD (shelf_mask.get i j).toNat none = some n) (hn1 : 1 ≤ n) :
    ∃ r : IceModelVec2Int,
      compute_box_mask_fp fp g nmax D_gl D_cf shelf_mask lake_mask = .ok r ∧
      1 ≤ r.get i j ∧ r.get i j ≤ min n (D_gl.get i j) ∧
      r.get i j ≠ 0 ∧ r.get i j ≠ -1 ∧
      0 ≤ box_C_fp fp (D_gl.get i j) (D_cf.get i j) ∧
      box_C_fp fp (D_gl.get i j) (D_cf.get i j) ≤ 1 ∧
      ∃ k, k < n.toNat ∧
        band_test_fp fp n (box_C_fp fp (D_gl.get i j) (D_cf.get i j)) k = true := by
  obtain ⟨glmax', R', r, h1, h2, -, -, -, -, -, hcell⟩ :=
    compute_box_mask_fp_ok fp g nmax D_gl D_cf shelf_mask lake_mask hshelf
  rw [hbc] at h1
  injection h1 with h1
  injection h1 with hg h1
  injection h1 with hR hnb
  subst hg hR hnb
  obtain ⟨hC0, hC1⟩ := box_C_fp_range fp hfp _ _ hgl hcf hsum
  rcases hcell i j hi hj with ⟨hc, -⟩ | ⟨-, n', hn', -, hr⟩
  · exact absurd ⟨hs, hgl, hcf⟩ hc
  · rw [hn] at hn'
    injection hn' with hn'
    subst hn'
    obtain ⟨hb1, hb2⟩ := box_of_cell_fp_bounds fp hfp n (D_gl.get i j) (D_cf.get i j) hn1 hgl hC0 hC1
    have hne : box_of_cell_fp fp n (D_gl.get i j) (D_cf.get i j) ≠ 0 := by omega
    rw [mark_unassigned_pos _ _ _ hb1] at hr
    rw [← hr] at hb1 hb2
    exact ⟨r, h2, hb1, hb2, by omega, by omega, hC0, hC1, box_of_cell_fp_matched fp n _ _ hne⟩

/-- Witness for the amended C5: a shelf of three cells with two boxes, in
round-to-nearest `double` arithmetic. -/
theorem compute_box_mask_range_witness :
    ∃ r : IceModelVec2Int,
      compute_box_mask_fp ieee ⟨3, 1⟩ 2 [[1, 2, 3]] [[3, 2, 1]] [[1, 1, 1]] [[0, 0, 0]] = .ok r ∧
      1 ≤ r.get 1 0 ∧ r.get 1 0 ≤ min 2 (IceModelVec2Int.get [[1, 2, 3]] 1 0) ∧
      r.get 1 0 ≠ 0 ∧ r.get 1 0 ≠ -1 ∧
      0 ≤ box_C_fp ieee (IceModelVec2Int.get [[1, 2, 3]] 1 0) (IceModelVec2Int.get [[3, 2, 1]] 1 0) ∧
      box_C_fp ieee (IceModelVec2Int.get [[1, 2, 3]] 1 0) (IceModelVec2Int.get [[3, 2, 1]] 1 0) ≤ 1 ∧
      ∃ k, k < (2 : Int).toNat ∧
        band_test_fp ieee 2 (box_C_fp ieee (IceModelVec2Int.get [[1, 2, 3]] 1 0)
          (IceModelVec2Int.get [[3, 2, 1]] 1 0)) k = true :=
  compute_box_mask_range ieee ieee_sane ⟨3, 1⟩ 2 [[1, 2, 3]] [[3, 2, 1]] [[1, 1, 1]] [[0, 0, 0]]
    [0, 3] 3 [some 1, some 2]
    ((forall_cells ⟨3, 1⟩ _).2 (by decide)) (by decide!) 1 0 (by decide) (by decide) 2
    (by decide) (by decide) (by decide) (by decide) (by decide) (by decide)

/-- C6 (counterexample). First grid: the cell `(0, 0)` has shelf id 1 and
`D_gl = D_cf = 2^30 > 0`, yet it holds -1, because the `int` sum `d_gl + d_cf`
overflows and no band test succeeds.  Second grid: with
`number_of_boxes = 0` the shelf gets `n_boxes = 0`, the band loop is empty, and
the cell with `D_gl = D_cf = 1 > 0` holds -1. -/
theorem compute_box_mask_sentinel_counterexample :
    compute_box_mask_fp ieee ⟨2, 1⟩ 4 [[1073741824, 0]] [[1073741824, 3]] [[1, 1]] [[0, 1]]
      = .ok [[-1, 0]] ∧
    ¬ (IceModelVec2Int.get [[-1, 0]] 0 0 = -1 ↔
        IceModelVec2Int.get [[1, 1]] 0 0 > 0 ∧
          (IceModelVec2Int.get [[1073741824, 0]] 0 0 ≤ 0 ∨
            IceModelVec2Int.get [[1073741824, 3]] 0 0 ≤ 0) ∧
          IceModelVec2Int.get [[0, 1]] 0 0 ≠ 1) ∧
    box_counts_fp ieee ⟨1, 1⟩ 0 [[1]] [[1]] [[1]] = .ok ([0, 1], 1, [some 0, some 0]) ∧
    compute_box_mask_fp ieee ⟨1, 1⟩ 0 [[1]] [[1]] [[1]] [[0]] = .ok [[-1]] := by
  refine ⟨by decide!, by decide, by decide!, by decide!⟩

/-- C6 (amended). With no negative shelf id, at least one box configured and
no overflow of the `int` sum `D_gl + D_cf` at a shelf cell with positive
distances, `compute_box_mask` succeeds in machine arithmetic, and in its
result a cell holds -1 iff its shelf id is positive, it received no box
(`D_gl ≤ 0` or `D_cf ≤ 0`) and its `lake_mask` value is not 1; a shelf cell
that received no box and has `lake_mask = 1` holds 0; every cell with shelf id
0 holds 0. -/
theorem compute_box_mask_sentinel (fp : DoubleArith) (hfp : fp.Sane) (g : IceGrid) (nmax : Int)
    (D_gl D_cf shelf_mask lake_mask : IceModelVec2Int)
    (hshelf : ∀ i j, i < g.Mx → j < g.My → 0 ≤ shelf_mask.get i j) (hnmax : 1 ≤ nmax)
    (hsum : ∀ i j, i < g.Mx → j < g.My → shelf_mask.get i j > 0 → D_gl.get i j > 0 →
      D_cf.get i j > 0 → D_gl.get i j + D_cf.get i j < 2 ^ 31) :
    ∃ r : IceModelVec2Int,
      compute_box_mask_fp fp g nmax D_gl D_cf shelf_mask lake_mask = .ok r ∧
      ∀ i j, i < g.Mx → j < g.My →
        (r.get i j = -1 ↔
          shelf_mask.get i j > 0 ∧ (D_gl.get i j ≤ 0 ∨ D_cf.get i j ≤ 0) ∧
            lake_mask.get i j ≠ 1) ∧
        (shelf_mask.get i j > 0 → (D_gl.get i j ≤ 0 ∨ D_cf.get i j ≤ 0) →
          lake_mask.get i j = 1 → r.get i j = 0) ∧
        (shelf_mask.get i j = 0 → r.get i j = 0) := by
  obtain ⟨glmax, R, r, h1, h2, -, hle, hnn, hRpos, hidx, hcell⟩ :=
    compute_box_mask_fp_ok fp g nmax D_gl D_cf shelf_mask lake_mask hshelf
  refine ⟨r, h2, ?_⟩
  intro i j hi hj
  rcases hcell i j hi hj with ⟨hc, hr⟩ | ⟨hc, n, -, hn, hr⟩
  · rw [hr]
    unfold mark_unassigned
    have hor : shelf_mask.get i j > 0 → D_gl.get i j ≤ 0 ∨ D_cf.get i j ≤ 0 := by
      intro hs
      by_contra hcon
      push_neg at hcon
      exact hc ⟨hs, hcon.1, hcon.2⟩
    split_ifs with h3
    · refine ⟨⟨fun _ => ⟨h3.1, hor h3.1, h3.2.2⟩, fun _ => rfl⟩, ?_, ?_⟩
      · intro _ _ hl
        exact absurd hl h3.2.2
      · intro hz
        omega
    · refine ⟨⟨fun h0 => absurd h0 (by decide), fun h4 => ?_⟩, fun _ _ _ => rfl, fun _ => rfl⟩
      exact absurd ⟨h4.1, rfl, h4.2.2⟩ h3
  · obtain ⟨n', hn', -, hn1, -⟩ := n_boxes_fp_bounds fp hfp nmax R
      (glmax.getD (shelf_mask.get i j).toNat 0)
      (hRpos i j hi hj hc.1 hc.2.1) hnmax (hnn _) (hle _)
    rw [hn] at hn'
    injection hn' with hn'
    subst hn'
    obtain ⟨hC0, hC1⟩ := box_C_fp_range fp hfp _ _ hc.2.1 hc.2.2 (hsum i j hi hj hc.1 hc.2.1 hc.2.2)
    obtain ⟨hb1, -⟩ := box_of_cell_fp_bounds fp hfp n (D_gl.get i j) (D_cf.get i j) hn1
      hc.2.1 hC0 hC1
    rw [mark_unassigned_pos _ _ _ hb1] at hr
    rw [hr]
    refine ⟨⟨fun h0 => by omega, fun h4 => by omega⟩, fun _ h5 _ => by omega, fun h6 => by omega⟩

/-- Witness for the amended C6: a lake cell, a shelf cell that was never
reached, and a shelf cell that gets a box, in round-to-nearest `double`
arithmetic. -/
theorem compute_box_mask_sentinel_witness :
    compute_box_mask_fp ieee ⟨3, 1⟩ 5 [[0, 0, 4]] [[0, 5, 4]] [[1, 1, 1]] [[1, 0, 0]]
      = .ok [[0, -1, 4]] ∧
    ∃ r : IceModelVec2Int,
      compute_box_mask_fp ieee ⟨3, 1⟩ 5 [[0, 0, 4]] [[0, 5, 4]] [[1, 1, 1]] [[1, 0, 0]] = .ok r ∧
      ∀ i j, i < 3 → j < 1 →
        (r.get i j = -1 ↔
          IceModelVec2Int.get [[1, 1, 1]] i j > 0 ∧
            (IceModelVec2Int.get [[0, 0, 4]] i j ≤ 0 ∨ IceModelVec2Int.get [[0, 5, 4]] i j ≤ 0) ∧
            IceModelVec2Int.get [[1, 0, 0]] i j ≠ 1) ∧
        (IceModelVec2Int.get [[1, 1, 1]] i j > 0 →
          (IceModelVec2Int.get [[0, 0, 4]] i j ≤ 0 ∨ IceModelVec2Int.get [[0, 5, 4]] i j ≤ 0) →
          IceModelVec2Int.get [[1, 0, 0]] i j = 1 → r.get i j = 0) ∧
        (IceModelVec2Int.get [[1, 1, 1]] i j = 0 → r.get i j = 0) :=
  ⟨by decide!, compute_box_mask_sentinel ieee ieee_sane ⟨3, 1⟩ 5 [[0, 0, 4]] [[0, 5, 4]]
    [[1, 1, 1]] [[1, 0, 0]]
    ((forall_cells ⟨3, 1⟩ _).2 (by decide)) (by decide)
    ((forall_cells ⟨3, 1⟩ _).2 (by decide))⟩

/-! ## The box count of the machine against the exactly rounded formula -/

/-- The formula `round(1 + (a / R)^(1/2) * (n_max - 1))` over the reals,
through the integer square root. -/
theorem round_formula_eq (a R nmax : Int) (ha : 0 ≤ a) (hR : 0 < R) (hn : 1 ≤ nmax) :
    round ((1 : ℝ) + ((a : ℝ) / (R : ℝ)) ^ ((1 : ℝ) / 2) * ((nmax : ℝ) - 1))
      = 1 + round_pow_half_mul a R (nmax - 1) := by
  rw [round_pow_half_mul_eq _ _ _ ha hR (by omega), add_comm (1 : ℝ), round_add_one, add_comm]
  push_cast
  rfl

/-- C7 (counterexample). Two shelves with extents 484 and 225 and
`n_max = 12`, so `R = 484`.  For the second shelf `(225/484)^(1/2) * 11 = 7.5`
exactly, and the formula of the claim gives `round(1 + 7.5) = 9`; the code
computes the quotient, the power and the product in `double`, gets a product
below 7.5, and allocates `1 + 7 = 8` boxes. -/
theorem box_counts_allocation_counterexample :
    box_counts_fp ieee ⟨2, 1⟩ 12 [[484, 225]] [[1, 1]] [[1, 2]]
      = .ok ([0, 484, 225], 484, [some 1, some 12, some 8]) ∧
    ieee.mul (ieee.pow_half (ieee.div ((225 : Int) : ℚ) ((484 : Int) : ℚ))) (((12 : Int) - 1 : Int) : ℚ)
      < 15 / 2 ∧
    max 1 (min 12 (round ((1 : ℝ) +
      (((225 : Int) : ℝ) / ((484 : Int) : ℝ)) ^ ((1 : ℝ) / 2) * (((12 : Int) : ℝ) - 1)))) = 9 := by
  refine ⟨by decide!, by decide!, ?_⟩
  rw [round_formula_eq 225 484 12 (by decide) (by decide) (by decide)]
  decide!

/-- C7 (amended). With no negative shelf id and an `int` `n_max ≥ 1`, the
statistics pass succeeds in machine arithmetic: `GL_distance_max[k]` is the
largest `D_gl` over the cells of shelf `k` (0 if none is positive) and
`R = GL_distance_ref` is the largest entry.  When `R > 0`, every shelf id `k`
has the box count
`clamp(1 + round(pow(GL_distance_max[k] / R, 0.5) * (n_max - 1)), 1, n_max)`
with the quotient, the power and the product computed in `double`; it lies in
`[1, n_max]` and equals `n_max` for a shelf attaining `R`. -/
theorem box_counts_allocation (fp : DoubleArith) (hfp : fp.Sane) (g : IceGrid) (nmax : Int)
    (D_gl D_cf shelf_mask : IceModelVec2Int)
    (hshelf : ∀ i j, i < g.Mx → j < g.My → 0 ≤ shelf_mask.get i j) (hnmax : 1 ≤ nmax)
    (hint : nmax < 2 ^ 31) :
    ∃ (glmax : List Int) (R : Int),
      box_counts_fp fp g nmax D_gl D_cf shelf_mask
        = .ok (glmax, R, glmax.map (n_boxes_fp fp nmax R)) ∧
      glmax.length = (shelf_mask.range_max g + 1).toNat ∧
      (∀ i j, i < g.Mx → j < g.My → 0 < shelf_mask.get i j →
        D_gl.get i j ≤ glmax.getD (shelf_mask.get i j).toNat 0) ∧
      (∀ k, glmax.getD k 0 = 0 ∨
        ∃ i j, i < g.Mx ∧ j < g.My ∧ (shelf_mask.get i j).toNat = k ∧ 0 < shelf_mask.get i j ∧
          D_gl.get i j = glmax.getD k 0) ∧
      R ∈ glmax ∧ (∀ k, glmax.getD k 0 ≤ R) ∧
      (0 < R → ∀ k, k < glmax.length →
        ∃ n : Int, (glmax.map (n_boxes_fp fp nmax R)).getD k none = some n ∧
          n = max 1 (min nmax (1 + c_round (fp.mul
                (fp.pow_half (fp.div (glmax.getD k 0 : ℚ) (R : ℚ)))
                ((nmax - 1 : Int) : ℚ)))) ∧
          1 ≤ n ∧ n ≤ nmax ∧ (glmax.getD k 0 = R → n = nmax)) := by
  obtain ⟨glmax, R, h1, hlen, hmem, hle, hnn, hcell, hatt⟩ :=
    box_counts_fp_ok fp g nmax D_gl D_cf shelf_mask hshelf
  refine ⟨glmax, R, h1, hlen, hcell, hatt, hmem, hle, ?_⟩
  intro hR k hk
  obtain ⟨n, hn, hdef, hn1, hn2⟩ :=
    n_boxes_fp_bounds fp hfp nmax R (glmax.getD k 0) hR hnmax (hnn k) (hle k)
  refine ⟨n, by rw [getD_map_n_boxes glmax _ k hk, hn], ?_, hn1, hn2, ?_⟩
  · rw [min_comm nmax, ← hdef]
    exact (max_eq_right hn1).symm
  · intro heq
    rw [heq, n_boxes_fp_ref fp hfp nmax R hR hnmax hint] at hn
    injection hn with hn
    exact hn.symm

/-- Witness for the amended C7: three shelves with extents 1, 9 and 4 and five
boxes, in round-to-nearest `double` arithmetic. -/
theorem box_counts_allocation_witness :
    box_counts_fp ieee ⟨3, 1⟩ 5 [[1, 9, 4]] [[6, 5, 4]] [[1, 2, 3]]
      = .ok ([0, 1, 9, 4], 9, [some 1, some 2, some 5, some 4]) ∧
    ∃ (glmax : List Int) (R : Int),
      box_counts_fp ieee ⟨3, 1⟩ 5 [[1, 9, 4]] [[6, 5, 4]] [[1, 2, 3]]
        = .ok (glmax, R, glmax.map (n_boxes_fp ieee 5 R)) ∧
      glmax.length = (IceModelVec2Int.range_max ⟨3, 1⟩ [[1, 2, 3]] + 1).toNat ∧
      (∀ i j, i < 3 → j < 1 → 0 < IceModelVec2Int.get [[1, 2, 3]] i j →
        IceModelVec2Int.get [[1, 9, 4]] i j
          ≤ glmax.getD (IceModelVec2Int.get [[1, 2, 3]] i j).toNat 0) ∧
      (∀ k, glmax.getD k 0 = 0 ∨
        ∃ i j, i < 3 ∧ j < 1 ∧ (IceModelVec2Int.get [[1, 2, 3]] i j).toNat = k ∧
          0 < IceModelVec2Int.get [[1, 2, 3]] i j ∧
          IceModelVec2Int.get [[1, 9, 4]] i j = glmax.getD k 0) ∧
      R ∈ glmax ∧ (∀ k, glmax.getD k 0 ≤ R) ∧
      (0 < R → ∀ k, k < glmax.length →
        ∃ n : Int, (glmax.map (n_boxes_fp ieee 5 R)).getD k none = some n ∧
          n = max 1 (min 5 (1 + c_round (ieee.mul
                (ieee.pow_half (ieee.div (glmax.getD k 0 : ℚ) (R : ℚ)))
                (((5 : Int) - 1 : Int) : ℚ)))) ∧
          1 ≤ n ∧ n ≤ 5 ∧ (glmax.getD k 0 = R → n = 5)) :=
  ⟨by decide!, box_counts_allocation ieee ieee_sane ⟨3, 1⟩ 5 [[1, 9, 4]] [[6, 5, 4]] [[1, 2, 3]]
    ((forall_cells ⟨3, 1⟩ _).2 (by decide)) (by decide) (by decide)⟩

/-! ## The band loop of the machine against exact arithmetic -/

/-- Rounding can change the outcome of a band test.  With `n = 9`,
`D_gl = 6`, `D_cf = 12` the exact `C = 4/9` lies on the boundary shared by the
bands 4 and 5 and the exact reading leaves `min(6, 5 + 1) = 6`; in `double`
the computed `C` is above the computed `4/9`, only band 4 matches, and the
result is 5. -/
theorem box_of_cell_fp_rounding :
    (1 - ((6 : Int) : ℚ) / (((6 : Int) + 12 : Int) : ℚ)) ^ 2
      = (((9 : Int) - 4 - 1 : Int) : ℚ) / ((9 : Int) : ℚ) ∧
    box_of_cell 9 6 12 = 6 ∧
    ieee.div (((9 : Int) - 4 - 1 : Int) : ℚ) ((9 : Int) : ℚ) < box_C_fp ieee 6 12 ∧
    box_of_cell_fp ieee 9 6 12 = 5 := by
  refine ⟨by norm_num, by decide!, by decide!, by decide!⟩

/-- C36 (counterexample). One shelf cell with `D_gl = 10`, `D_cf = 5` and nine
boxes: `C = (5/15)² = 1/9` exactly, and the closed form gives
`min(10, ⌊9 (1 - 1/9)⌋ + 1) = 9`.  In `double` the computed `C` is above the
computed `1/9`, the test of band 8 fails, and the code leaves 8. -/
theorem compute_box_mask_closed_form_counterexample :
    box_counts_fp ieee ⟨1, 1⟩ 9 [[10]] [[5]] [[1]] = .ok ([0, 10], 10, [some 1, some 9]) ∧
    compute_box_mask_fp ieee ⟨1, 1⟩ 9 [[10]] [[5]] [[1]] [[0]] = .ok [[8]] ∧
    ieee.div (((9 : Int) - 8 : Int) : ℚ) ((9 : Int) : ℚ) < box_C_fp ieee 10 5 ∧
    min (10 : Int) (⌊((9 : Int) : ℚ) * (1 - (((5 : Int) : ℚ) /
      (((10 : Int) : ℚ) + ((5 : Int) : ℚ))) ^ 2)⌋ + 1) = 9 := by
  refine ⟨by decide!, by decide!, by decide!, ?_⟩
  have h : ((9 : Int) : ℚ) * (1 - (((5 : Int) : ℚ) / (((10 : Int) : ℚ) + ((5 : Int) : ℚ))) ^ 2)
      = 8 := by norm_num
  rw [h]
  have hf : ⌊(8 : ℚ)⌋ = 8 := by
    rw [Int.floor_eq_iff]
    constructor <;> norm_num
  rw [hf]
  decide

/-- C36 (amended). The box index in closed form.  For a cell with shelf id
`k > 0`, `D_gl > 0`, `D_cf > 0` whose shelf has the box count
`n = n_boxes[k] ≥ 1`, and for which every band test comes out in the machine's
arithmetic (`int` sum, `double` quotients and power) as it does in exact
rational arithmetic, the loop over the bands, which runs through all of them,
leaves `min(D_gl, ⌊n (1 - C)⌋ + 1)` with `C = (D_cf / (D_gl + D_cf))²` in
exact rational arithmetic, and that is the value of the cell in the result of
`compute_box_mask`. -/
theorem compute_box_mask_closed_form (fp : DoubleArith) (g : IceGrid) (nmax : Int)
    (D_gl D_cf shelf_mask lake_mask : IceModelVec2Int)
    (glmax : List Int) (R : Int) (n_boxes : List (Option Int))
    (hshelf : ∀ i j, i < g.Mx → j < g.My → 0 ≤ shelf_mask.get i j)
    (hbc : box_counts_fp fp g nmax D_gl D_cf shelf_mask = .ok (glmax, R, n_boxes))
    (i j : Nat) (hi : i < g.Mx) (hj : j < g.My) (n : Int)
    (hs : shelf_mask.get i j > 0) (hgl : D_gl.get i j > 0) (hcf : D_cf.get i j > 0)
    (hn : n_boxes.getD (shelf_mask.get i j).toNat none = some n) (hn1 : 1 ≤ n)
    (hexact : ∀ k ∈ List.range n.toNat,
      band_test_fp fp n (box_C_fp fp (D_gl.get i j) (D_cf.get i j)) k
        = band_test_exact n (D_gl.get i j) (D_cf.get i j) k) :
    box_of_cell_fp fp n (D_gl.get i j) (D_cf.get i j)
      = min (D_gl.get i j)
          (⌊(n : ℚ) * (1 - ((D_cf.get i j : ℚ) /
            ((D_gl.get i j : ℚ) + (D_cf.get i j : ℚ))) ^ 2)⌋ + 1) ∧
    ∃ r : IceModelVec2Int,
      compute_box_mask_fp fp g nmax D_gl D_cf shelf_mask lake_mask = .ok r ∧
      r.get i j = min (D_gl.get i j)
          (⌊(n : ℚ) * (1 - ((D_cf.get i j : ℚ) /
            ((D_gl.get i j : ℚ) + (D_cf.get i j : ℚ))) ^ 2)⌋ + 1) := by
  have hclosed : box_of_cell_fp fp n (D_gl.get i j) (D_cf.get i j)
      = min (D_gl.get i j)
          (⌊(n : ℚ) * (1 - ((D_cf.get i j : ℚ) /
            ((D_gl.get i j : ℚ) + (D_cf.get i j : ℚ))) ^ 2)⌋ + 1) := by
    rw [box_of_cell_fp_eq_exact fp n _ _ hexact, box_of_cell_closed n _ _ hn1 hgl hcf,
      one_sub_r_eq _ _ hgl hcf]
  refine ⟨hclosed, ?_⟩
  obtain ⟨glmax', R', r, h1, h2, -, -, -, -, -, hcell⟩ :=
    compute_box_mask_fp_ok fp g nmax D_gl D_cf shelf_mask lake_mask hshelf
  rw [hbc] at h1
  injection h1 with h1
  injection h1 with hg h1
  injection h1 with hR hnb
  subst hg hR hnb
  rcases hcell i j hi hj with ⟨hc, -⟩ | ⟨-, n', hn', -, hr⟩
  · exact absurd ⟨hs, hgl, hcf⟩ hc
  · rw [hn] at hn'
    injection hn' with hn'
    subst hn'
    have hb1 : 1 ≤ box_of_cell_fp fp n (D_gl.get i j) (D_cf.get i j) := by
      rw [box_of_cell_fp_eq_exact fp n _ _ hexact]
      exact (box_of_cell_bounds n (D_gl.get i j) (D_cf.get i j) hn1 hgl hcf).1
    rw [mark_unassigned_pos _ _ _ hb1, hclosed] at hr
    exact ⟨r, h2, hr⟩

/-- Witness for the amended C36: the second cell of the strip of six cells
with three boxes, in round-to-nearest `double` arithmetic:
`min(2, ⌊3 (1 - (5/7)²)⌋ + 1) = 2`. -/
theorem compute_box_mask_closed_form_witness :
    min (2 : Int) (⌊((3 : Int) : ℚ) * (1 - (((5 : Int) : ℚ) /
      (((2 : Int) : ℚ) + ((5 : Int) : ℚ))) ^ 2)⌋ + 1) = 2 ∧
    (box_of_cell_fp ieee 3 (IceModelVec2Int.get [[1, 2, 3, 4, 5, 6]] 1 0)
        (IceModelVec2Int.get [[6, 5, 4, 3, 2, 1]] 1 0)
      = min (IceModelVec2Int.get [[1, 2, 3, 4, 5, 6]] 1 0)
          (⌊((3 : Int) : ℚ) * (1 - ((IceModelVec2Int.get [[6, 5, 4, 3, 2, 1]] 1 0 : ℚ) /
            ((IceModelVec2Int.get [[1, 2, 3, 4, 5, 6]] 1 0 : ℚ) +
              (IceModelVec2Int.get [[6, 5, 4, 3, 2, 1]] 1 0 : ℚ))) ^ 2)⌋ + 1) ∧
    ∃ r : IceModelVec2Int,
      compute_box_mask_fp ieee ⟨6, 1⟩ 3 [[1, 2, 3, 4, 5, 6]] [[6, 5, 4, 3, 2, 1]] [[1, 1, 1, 1, 1, 1]]
        [[0, 0, 0, 0, 0, 0]] = .ok r ∧
      r.get 1 0 = min (IceModelVec2Int.get [[1, 2, 3, 4, 5, 6]] 1 0)
          (⌊((3 : Int) : ℚ) * (1 - ((IceModelVec2Int.get [[6, 5, 4, 3, 2, 1]] 1 0 : ℚ) /
            ((IceModelVec2Int.get [[1, 2, 3, 4, 5, 6]] 1 0 : ℚ) +
              (IceModelVec2Int.get [[6, 5, 4, 3, 2, 1]] 1 0 : ℚ))) ^ 2)⌋ + 1)) :=
  ⟨by
    have h : ((3 : Int) : ℚ) * (1 - (((5 : Int) : ℚ) / (((2 : Int) : ℚ) + ((5 : Int) : ℚ))) ^ 2)
        = 72 / 49 := by norm_num
    rw [h]
    have hf : ⌊(72 / 49 : ℚ)⌋ = 1 := by
      rw [Int.floor_eq_iff]
      constructor <;> norm_num
    rw [hf]
    decide,
   compute_box_mask_closed_form ieee ⟨6, 1⟩ 3 [[1, 2, 3, 4, 5, 6]] [[6, 5, 4, 3, 2, 1]]
    [[1, 1, 1, 1, 1, 1]] [[0, 0, 0, 0, 0, 0]] [0, 6] 6 [some 1, some 3]
    ((forall_cells ⟨6, 1⟩ _).2 (by decide)) (by decide!) 1 0 (by decide) (by decide) 3
    (by decide) (by decide) (by decide) (by decide) (by decide) (by decide!)⟩

/-- C4 (counterexample). One shelf cell with `D_gl = D_cf = 5` and four boxes:
`C = 1/4` lies on the boundary shared by the bands 2 and 3; the claim gives
`min(5, 2 + 1) = 3`, the code assigns 4, in exact arithmetic and in `double`
(where all the values of this cell are exact). -/
theorem compute_box_mask_boundary_counterexample :
    box_counts ⟨1, 1⟩ 4 [[5]] [[5]] [[1]] = .ok ([0, 5], 5, [some 1, some 4]) ∧
    (1 - ((5 : Int) : ℚ) / (((5 : Int) + 5 : Int) : ℚ)) ^ 2
      = (((4 : Int) - 2 - 1 : Int) : ℚ) / ((4 : Int) : ℚ) ∧
    compute_box_mask ⟨1, 1⟩ 4 [[5]] [[5]] [[1]] [[0]] = .ok [[4]] ∧
    IceModelVec2Int.get [[4]] 0 0 ≠ min 5 (2 + 1) ∧
    box_counts_fp ieee ⟨1, 1⟩ 4 [[5]] [[5]] [[1]] = .ok ([0, 5], 5, [some 1, some 4]) ∧
    box_C_fp ieee 5 5 = 1 / 4 ∧
    compute_box_mask_fp ieee ⟨1, 1⟩ 4 [[5]] [[5]] [[1]] [[0]] = .ok [[4]] := by
  refine ⟨by decide!, by norm_num, by decide!, by decide, by decide!, by decide!, by decide!⟩

/-- C4 (amended). For a shelf cell with `D_gl > 0` and `D_cf > 0` whose
`C = (1 - D_gl/(D_gl+D_cf))²` lies exactly on the boundary shared by the bands
`k` and `k + 1` (`C = (n-k-1)/n`, `n` the box count of its shelf), and for
which every band test comes out in the machine's arithmetic as it does in
exact rational arithmetic, `compute_box_mask` succeeds and the cell holds
`min(D_gl, k + 2)`: the tests of the bands `k` and `k + 1` both succeed, no
later test does, and the loop runs through all bands, so the higher band
`k + 1` wins. -/
theorem compute_box_mask_boundary (fp : DoubleArith) (g : IceGrid) (nmax : Int)
    (D_gl D_cf shelf_mask lake_mask : IceModelVec2Int)
    (glmax : List Int) (R : Int) (n_boxes : List (Option Int))
    (hshelf : ∀ i j, i < g.Mx → j < g.My → 0 ≤ shelf_mask.get i j)
    (hbc : box_counts_fp fp g nmax D_gl D_cf shelf_mask = .ok (glmax, R, n_boxes))
    (i j : Nat) (hi : i < g.Mx) (hj : j < g.My) (n k : Int)
    (hs : shelf_mask.get i j > 0) (hgl : D_gl.get i j > 0) (hcf : D_cf.get i j > 0)
    (hn : n_boxes.getD (shelf_mask.get i j).toNat none = some n)
    (hk0 : 0 ≤ k) (hk1 : k + 1 < n)
    (hC : (1 - ((D_gl.get i j : Int) : ℚ) / ((D_gl.get i j + D_cf.get i j : Int) : ℚ)) ^ 2
      = ((n - k - 1 : Int) : ℚ) / (n : ℚ))
    (hexact : ∀ k' ∈ List.range n.toNat,
      band_test_fp fp n (box_C_fp fp (D_gl.get i j) (D_cf.get i j)) k'
        = band_test_exact n (D_gl.get i j) (D_cf.get i j) k') :
    ∃ r : IceModelVec2Int,
      compute_box_mask_fp fp g nmax D_gl D_cf shelf_mask lake_mask = .ok r ∧
      r.get i j = min (D_gl.get i j) (k + 2) ∧
      band_test_fp fp n (box_C_fp fp (D_gl.get i j) (D_cf.get i j)) k.toNat = true ∧
      band_test_fp fp n (box_C_fp fp (D_gl.get i j) (D_cf.get i j)) (k.toNat + 1) = true ∧
      ∀ k', k.toNat + 1 < k' → k' < n.toNat →
        band_test_fp fp n (box_C_fp fp (D_gl.get i j) (D_cf.get i j)) k' = false := by
  obtain ⟨glmax', R', r, h1, h2, -, -, -, -, -, hcell⟩ :=
    compute_box_mask_fp_ok fp g nmax D_gl D_cf shelf_mask lake_mask hshelf
  rw [hbc] at h1
  injection h1 with h1
  injection h1 with hg h1
  injection h1 with hR hnb
  subst hg hR hnb
  have hnq : (0 : ℚ) < (n : ℚ) := by exact_mod_cast (by omega : 0 < n)
  have hkn : ((k.toNat : Nat) : Int) = k := by omega
  refine ⟨r, h2, ?_, ?_, ?_, ?_⟩
  · rcases hcell i j hi hj with ⟨hc, -⟩ | ⟨-, n', hn', -, hr⟩
    · exact absurd ⟨hs, hgl, hcf⟩ hc
    · rw [hn] at hn'
      injection hn' with hn'
      subst hn'
      rw [hr, box_of_cell_fp_eq_exact fp n _ _ hexact, box_of_cell_boundary n _ _ k hk0 hk1 hC]
      apply mark_unassigned_pos
      have : 1 ≤ D_gl.get i j := hgl
      omega
  · rw [hexact _ (List.mem_range.2 (by omega))]
    unfold band_test_exact
    rw [hC, hkn]
    apply decide_eq_true
    constructor
    · exact le_refl _
    · rw [div_le_div_iff_of_pos_right hnq]
      exact_mod_cast (by omega : n - k - 1 ≤ n - k)
  · rw [hexact _ (List.mem_range.2 (by omega))]
    unfold band_test_exact
    rw [hC]
    apply decide_eq_true
    constructor
    · rw [div_le_div_iff_of_pos_right hnq]
      exact_mod_cast (by omega : n - ((k.toNat + 1 : Nat) : Int) - 1 ≤ n - k - 1)
    · rw [div_le_div_iff_of_pos_right hnq]
      exact_mod_cast (by omega : n - k - 1 ≤ n - ((k.toNat + 1 : Nat) : Int))
  · intro k' hk'1 hk'2
    rw [hexact _ (List.mem_range.2 hk'2)]
    unfold band_test_exact
    rw [hC]
    apply decide_eq_false
    intro hcon
    have := hcon.2
    rw [div_le_div_iff_of_pos_right hnq] at this
    have h' : n - k - 1 ≤ n - (k' : Int) := by exact_mod_cast this
    omega

/-- Witness for the amended C4: the cell of the counterexample in
round-to-nearest `double` arithmetic holds `min(5, 2 + 2) = 4`. -/
theorem compute_box_mask_boundary_witness :
    ∃ r : IceModelVec2Int,
      compute_box_mask_fp ieee ⟨1, 1⟩ 4 [[5]] [[5]] [[1]] [[0]] = .ok r ∧
      r.get 0 0 = min (IceModelVec2Int.get [[5]] 0 0) (2 + 2) ∧
      band_test_fp ieee 4 (box_C_fp ieee (IceModelVec2Int.get [[5]] 0 0)
        (IceModelVec2Int.get [[5]] 0 0)) (2 : Int).toNat = true ∧
      band_test_fp ieee 4 (box_C_fp ieee (IceModelVec2Int.get [[5]] 0 0)
        (IceModelVec2Int.get [[5]] 0 0)) ((2 : Int).toNat + 1) = true ∧
      ∀ k', (2 : Int).toNat + 1 < k' → k' < (4 : Int).toNat →
        band_test_fp ieee 4 (box_C_fp ieee (IceModelVec2Int.get [[5]] 0 0)
          (IceModelVec2Int.get [[5]] 0 0)) k' = false :=
  compute_box_mask_boundary ieee ⟨1, 1⟩ 4 [[5]] [[5]] [[1]] [[0]] [0, 5] 5 [some 1, some 4]
    ((forall_cells ⟨1, 1⟩ _).2 (by decide)) (by decide!) 0 0 (by decide) (by decide) 4 2
    (by decide) (by decide) (by decide) (by decide) (by decide) (by decide)
    (by norm_num [IceModelVec2Int.get]) (by decide!)

/-! ## The rounding model is round-to-nearest with 53-bit significands -/

theorem round_even_ge (t : ℚ) (N : Int) (h : (N : ℚ) ≤ t) : N ≤ round_even t := by
  have hf : N ≤ ⌊t⌋ := Int.le_floor.2 h
  rcases round_even_cases t with h1 | ⟨h1, -⟩ <;> omega

/-- The result of `round_even` is within `1/2` of its argument. -/
theorem round_even_near (t : ℚ) : |(round_even t : ℚ) - t| ≤ 1 / 2 := by
  have h1 : (⌊t⌋ : ℚ) ≤ t := Int.floor_le t
  have h2 : t < (⌊t⌋ : ℚ) + 1 := Int.lt_floor_add_one t
  unfold round_even
  simp only []
  rw [abs_le]
  split_ifs with ha hb hc
  · constructor <;> linarith
  · push_cast
    constructor <;> linarith
  · have : t - (⌊t⌋ : ℚ) = 1 / 2 := le_antisymm (not_lt.1 hb) (not_lt.1 ha)
    constructor <;> linarith
  · have : t - (⌊t⌋ : ℚ) = 1 / 2 := le_antisymm (not_lt.1 hb) (not_lt.1 ha)
    push_cast
    constructor <;> linarith

/-- At a tie `round_even` returns the even neighbour. -/
theorem round_even_tie (f : Int) : round_even ((f : ℚ) + 1 / 2) % 2 = 0 := by
  have hfl : ⌊(f : ℚ) + 1 / 2⌋ = f := by
    rw [Int.floor_eq_iff]
    constructor <;> linarith
  unfold round_even
  simp only [hfl]
  have hd : (f : ℚ) + 1 / 2 - (f : ℚ) = 1 / 2 := by ring
  rw [hd]
  rw [if_neg (lt_irrefl _), if_neg (lt_irrefl _)]
  split_ifs with h
  · exact h
  · omega

theorem round_to_double_neg (x : ℚ) : round_to_double (-x) = -round_to_double x := by
  unfold round_to_double
  by_cases h0 : x = 0
  · simp [h0]
  · have h0' : ¬ (-x = 0) := by simpa using h0
    rw [if_neg h0, if_neg h0', abs_neg]
    rcases lt_or_gt_of_ne h0 with h | h
    · have h' : ¬ (-x < 0) := by simp; linarith
      simp only [if_pos h, if_neg h']
      ring
    · have h' : -x < 0 := by linarith
      have h'' : ¬ (x < 0) := by linarith
      simp only [if_pos h', if_neg h'']
      ring

/-- For `x > 0` with `2^e ≤ x < 2^(e+1)`, `round_to_double x` is `k · 2^(e-52)`
for an integer `2^52 ≤ k ≤ 2^53`, a number with a 53-bit significand, and it
differs from `x` by at most half a unit `2^(e-52)` in the last place. -/
theorem round_to_double_nearest (x : ℚ) (hx : 0 < x) :
    ∃ k : Int, round_to_double x = (k : ℚ) * pow2 (ilog2 x - 52) ∧
      2 ^ 52 ≤ k ∧ k ≤ 2 ^ 53 ∧
      |round_to_double x - x| ≤ pow2 (ilog2 x - 52) / 2 := by
  obtain ⟨h1, h2⟩ := ilog2_spec x hx
  have hu := pow2_pos (ilog2 x - 52)
  have e1 : pow2 (ilog2 x) = 2 ^ 52 * pow2 (ilog2 x - 52) := by
    rw [pow2_eq, pow2_eq, zpow_sub₀ (by norm_num)]
    norm_num
    ring
  have e2 : pow2 (ilog2 x + 1) = 2 ^ 53 * pow2 (ilog2 x - 52) := by
    rw [pow2_eq, pow2_eq, zpow_sub₀ (by norm_num), zpow_add₀ (by norm_num)]
    norm_num
    ring
  rw [e1] at h1
  rw [e2] at h2
  have hval : round_to_double x
      = (round_even (x / pow2 (ilog2 x - 52)) : ℚ) * pow2 (ilog2 x - 52) := by
    unfold round_to_double
    rw [if_neg (ne_of_gt hx), if_neg (not_lt.2 (le_of_lt hx)), abs_of_pos hx]
    simp only [one_mul]
  generalize pow2 (ilog2 x - 52) = u at hu h1 h2 hval
  have ht1 : ((2 ^ 52 : Int) : ℚ) ≤ x / u := by
    rw [le_div_iff₀ hu]
    push_cast
    exact h1
  have ht2 : x / u ≤ ((2 ^ 53 : Int) : ℚ) := by
    rw [div_le_iff₀ hu]
    push_cast
    exact le_of_lt h2
  refine ⟨round_even (x / u), hval, round_even_ge _ _ ht1, round_even_le _ _ ht2, ?_⟩
  rw [hval]
  have hnear := round_even_near (x / u)
  have hx' : x = x / u * u := by field_simp
  have : (round_even (x / u) : ℚ) * u - x = ((round_even (x / u) : ℚ) - x / u) * u := by
    rw [sub_mul, ← hx']
  rw [this, abs_mul, abs_of_pos hu]
  calc |(round_even (x / u) : ℚ) - x / u| * u ≤ 1 / 2 * u :=
        mul_le_mul_of_nonneg_right hnear (le_of_lt hu)
    _ = u / 2 := by ring

theorem isqrt_bits_spec (n : Nat) : ∀ (b r : Nat), r * r ≤ n → n < (r + 2 ^ b) * (r + 2 ^ b) →
    isqrt_bits n b r * isqrt_bits n b r ≤ n ∧
      n < (isqrt_bits n b r + 1) * (isqrt_bits n b r + 1) := by
  intro b
  induction b with
  | zero =>
    intro r h1 h2
    simpa [isqrt_bits] using And.intro h1 h2
  | succ b ih =>
    intro r h1 h2
    unfold isqrt_bits
    split_ifs with hc
    · apply ih _ hc
      have : r + 2 ^ b + 2 ^ b = r + 2 ^ (b + 1) := by rw [pow_succ]; ring
      rw [this]
      exact h2
    · exact ih _ h1 (not_le.1 hc)

/-- The bitwise search computes the integer square root. -/
theorem isqrt_eq_sqrt (n : Nat) : isqrt n = Nat.sqrt n := by
  apply Nat.eq_sqrt.2
  unfold isqrt
  apply isqrt_bits_spec
  · exact Nat.zero_le _
  · rcases Nat.eq_zero_or_pos n with h0 | hpos
    · subst h0
      simp
    · obtain ⟨-, h2⟩ := nat_log2_spec n hpos
      generalize nat_log2 n = L at h2
      have hle : L + 1 ≤ 2 * (L / 2 + 1) := by omega
      have h3 : 2 ^ (L + 1) ≤ 2 ^ (2 * (L / 2 + 1)) := Nat.pow_le_pow_right (by norm_num) hle
      have h4 : (0 + 2 ^ (L / 2 + 1)) * (0 + 2 ^ (L / 2 + 1)) = 2 ^ (2 * (L / 2 + 1)) := by
        rw [Nat.zero_add, ← pow_add]
        congr 1
        ring
      rw [h4]
      omega

/-- The value `d` of `sqrt_to_double x` for `x > 0` is a multiple `k · u` of
the unit `u` of its binade, and `√x` lies within `u / 2` of it:
`d ≤ √x < d + u/2` or `d - u/2 ≤ √x < d`, written with squares. -/
theorem sqrt_to_double_nearest (x : ℚ) (hx : 0 < x) :
    ∃ k : Nat, sqrt_to_double x = (k : ℚ) * pow2 (ilog2 x / 2 - 52) ∧
      ((sqrt_to_double x ^ 2 ≤ x ∧
          x < (sqrt_to_double x + pow2 (ilog2 x / 2 - 52) / 2) ^ 2) ∨
        ((sqrt_to_double x - pow2 (ilog2 x / 2 - 52) / 2) ^ 2 ≤ x ∧
          pow2 (ilog2 x / 2 - 52) / 2 ≤ sqrt_to_double x ∧ x < sqrt_to_double x ^ 2)) := by
  have hu := pow2_pos (ilog2 x / 2 - 52)
  unfold sqrt_to_double
  rw [if_neg (not_le.2 hx)]
  simp only []
  generalize pow2 (ilog2 x / 2 - 52) = u at hu
  have hy0 : 0 ≤ x / (u * u) := le_of_lt (div_pos hx (mul_pos hu hu))
  have hfl0 : 0 ≤ ⌊x / (u * u)⌋ := Int.floor_nonneg.2 hy0
  obtain ⟨N, hN⟩ : ∃ N : Nat, ⌊x / (u * u)⌋ = (N : Int) := ⟨_, (Int.toNat_of_nonneg hfl0).symm⟩
  rw [hN, Int.toNat_ofNat, isqrt_eq_sqrt]
  have hN1 : (N : ℚ) ≤ x / (u * u) := by
    have := Int.floor_le (x / (u * u))
    rw [hN] at this
    exact_mod_cast this
  have hN2 : x / (u * u) < (N : ℚ) + 1 := by
    have := Int.lt_floor_add_one (x / (u * u))
    rw [hN] at this
    exact_mod_cast this
  have hs1 : ((Nat.sqrt N : Nat) : ℚ) * (Nat.sqrt N : ℚ) ≤ (N : ℚ) := by
    exact_mod_cast Nat.sqrt_le N
  have hs2 : (N : ℚ) + 1 ≤ ((Nat.sqrt N : ℚ) + 1) * ((Nat.sqrt N : ℚ) + 1) := by
    have h' : N + 1 ≤ (Nat.sqrt N + 1) * (Nat.sqrt N + 1) := Nat.lt_succ_sqrt N
    exact_mod_cast h'
  generalize Nat.sqrt N = m at hs1 hs2
  have hxy : x = x / (u * u) * (u * u) := by field_simp
  generalize x / (u * u) = y at hy0 hN1 hN2 hxy
  have hm0 : (0 : ℚ) ≤ (m : ℚ) := Nat.cast_nonneg m
  have huu : 0 < u * u := mul_pos hu hu
  split_ifs with hc
  · refine ⟨m + 1, rfl, Or.inr ⟨?_, ?_, ?_⟩⟩
    · have hc' : (2 * (m : ℚ) + 1) ^ 2 ≤ 4 * y := by
        have : 4 * x / (u * u) = 4 * y := by rw [hxy]; field_simp; ring
        rw [this] at hc
        push_cast at hc
        exact hc
      rw [hxy]
      push_cast
      have : (((m : ℚ) + 1) * u - u / 2) ^ 2 = (2 * (m : ℚ) + 1) ^ 2 / 4 * (u * u) := by ring
      rw [this]
      apply mul_le_mul_of_nonneg_right _ (le_of_lt huu)
      linarith
    · push_cast
      nlinarith
    · rw [hxy]
      push_cast
      have : (((m : ℚ) + 1) * u) ^ 2 = (((m : ℚ) + 1) * ((m : ℚ) + 1)) * (u * u) := by ring
      rw [this]
      apply mul_lt_mul_of_pos_right _ huu
      linarith
  · refine ⟨m, rfl, Or.inl ⟨?_, ?_⟩⟩
    · rw [hxy]
      have : ((m : ℚ) * u) ^ 2 = ((m : ℚ) * (m : ℚ)) * (u * u) := by ring
      rw [this]
      apply mul_le_mul_of_nonneg_right _ (le_of_lt huu)
      linarith
    · have hc' : 4 * y < (2 * (m : ℚ) + 1) ^ 2 := by
        have : 4 * x / (u * u) = 4 * y := by rw [hxy]; field_simp; ring
        rw [this] at hc
        push_cast at hc
        exact not_le.1 hc
      have : ((m : ℚ) * u + u / 2) ^ 2 = (2 * (m : ℚ) + 1) ^ 2 / 4 * (u * u) := by ring
      rw [this]
      nth_rewrite 1 [hxy]
      apply mul_lt_mul_of_pos_right _ huu
      linarith

/-- The worked strip example gives the same box indices in round-to-nearest
`double` arithmetic as in exact arithmetic. -/
theorem box_mask_strip_example_fp :
    compute_box_mask_fp ieee ⟨6, 1⟩ 3 [[1, 2, 3, 4, 5, 6]] [[6, 5, 4, 3, 2, 1]]
        [[1, 1, 1, 1, 1, 1]] [[0, 0, 0, 0, 0, 0]] = .ok [[1, 2, 3, 3, 3, 3]] := by
  decide!

end ocean
end pism
